import Mathlib

set_option maxHeartbeats 1000000

/-!
Shallow embedding of `frozen.c`, a zero-allocation JSON tokenizer.

Bytes are modelled as `Nat` (the C code reads them as `unsigned char`),
pointers into the input buffer as offsets, and the caller-supplied token
array as a list of `JsonToken` whose fields are `Option`-valued so that
"this field was never written by the parser" is observable (`none` models
memory the parser left as it found it).

The C parser's `while` loops over the input are translated to structurally
recursive functions, and the mutually recursive grammar rules to a single
fuel-indexed interpreter `parseRun` over a `Rule` tag; `none` means the
fuel ran out (which, at the canonical fuel used by `parse_json`, is shown
impossible by the adequacy lemma below).
-/

/-- The three error sentinels of frozen.c: JSON_STRING_INVALID,
JSON_STRING_INCOMPLETE, JSON_TOKEN_ARRAY_TOO_SMALL. The C functions return
them as negative ints and `TRY` propagates any negative value unchanged, so
an error enum plus `Except` is an exact model. -/
inductive Jerr where
  | invalid
  | incomplete
  | tooSmall
deriving DecidableEq, Repr

/-- JSON_TYPE_* tags from frozen.h. -/
inductive JType where
  | OBJECT
  | ARRAY
  | STRING
  | NUMBER
  | TRUE
  | FALSE
  | NULL
  | EOF
deriving DecidableEq, Repr

/-- struct json_token. `ptr` is an offset into the input instead of a raw
pointer; every field is `Option`-valued, `none` meaning the parser never
wrote it (uninitialized caller memory). -/
structure JsonToken where
  ptr : Option Nat
  type : Option JType
  len : Option Int
  num_children : Option Int
deriving DecidableEq, Repr

/-- struct frozen. `end` is `input.length`; `cur` is an offset. The C
fields `tokens` (pointer, possibly NULL) and `max_tokens` are modelled by
`tokensNull`, a list holding the array's cells, and `max_tokens`. -/
structure Frozen where
  input : List Nat
  cur : Nat
  tokensNull : Bool
  tokens : List JsonToken
  max_tokens : Nat
  num_tokens : Nat
deriving DecidableEq, Repr

deriving instance DecidableEq for Except

def is_space (c : Nat) : Bool := c == 32 || c == 9 || c == 13 || c == 10

def is_alpha (c : Nat) : Bool := (97 ≤ c && c ≤ 122) || (65 ≤ c && c ≤ 90)

def is_digit (c : Nat) : Bool := 48 ≤ c && c ≤ 57

def is_hex_digit (c : Nat) : Bool :=
  is_digit c || (97 ≤ c && c ≤ 102) || (65 ≤ c && c ≤ 70)

/-- Number of leading whitespace bytes of a suffix: the distance
`skip_whitespaces` advances the cursor (it stops at the first non-space
byte or at the end of the buffer). -/
def skipLen : List Nat → Nat
  | [] => 0
  | c :: r => if is_space c then skipLen r + 1 else 0

def skip_whitespaces (f : Frozen) : Frozen :=
  { f with cur := f.cur + skipLen (f.input.drop f.cur) }

/-- left(f) = f->end - f->cur, as a C int (it is an `Int` because the
string rule can in principle move `cur` past `end`). -/
def left (f : Frozen) : Int := (f.input.length : Int) - (f.cur : Int)

/-- The byte cur(f) returns: skip whitespace, then peek (`none` is
END_OF_STRING). The cursor mutation cur() performs alongside is
`skip_whitespaces` itself, which the callers below apply explicitly. -/
def peeked (f0 : Frozen) : Option Nat :=
  (skip_whitespaces f0).input.get? (skip_whitespaces f0).cur

def test_and_skip (f : Frozen) (expected : Nat) : Except Jerr Frozen :=
  match (skip_whitespaces f).input.get? (skip_whitespaces f).cur with
  | some ch =>
    if ch = expected then
      .ok { skip_whitespaces f with cur := (skip_whitespaces f).cur + 1 }
    else .error .invalid
  | none => .error .incomplete

/-- get_escape_len. `s` is the byte suffix following the backslash and
`len` is `left(f)` at the backslash. The C code dereferences `s` (and, in
the `u` branch, `s[0..3]`) without checking that those bytes are inside
the buffer; the model determines each such out-of-bounds read as byte `0`
(which falls into the `default:` branch of the switch resp. fails
`is_hex_digit`). A successful return is the escape length (the source can
only produce 1 or 4). -/
def get_escape_len (s : List Nat) (len : Int) : Except Jerr Nat :=
  let c := s.headD 0
  if c = 117 then
    if len < 4 then .error .incomplete
    else if is_hex_digit (s.getD 0 0) && is_hex_digit (s.getD 1 0) &&
            is_hex_digit (s.getD 2 0) && is_hex_digit (s.getD 3 0) then .ok 4
    else .error .invalid
  else if c = 34 ∨ c = 92 ∨ c = 47 ∨ c = 98 ∨ c = 102 ∨ c = 110 ∨ c = 114 ∨ c = 116 then
    if len < 2 then .error .incomplete else .ok 1
  else .error .invalid

/-- A token cell the parser has not written yet. -/
def uninitTok : JsonToken := ⟨none, none, none, none⟩

/-- Write through index i of the token array (out-of-range writes cannot
happen at call sites, which all check the index against max_tokens). -/
def listModify : List JsonToken → Nat → (JsonToken → JsonToken) → List JsonToken
  | [], _, _ => []
  | t :: r, 0, g => g t :: r
  | t :: r, i + 1, g => t :: listModify r i g

/-- f->tokens == 0 || f->max_tokens == 0: every capture is a successful
no-op. -/
def captureOff (f : Frozen) : Bool := f.tokensNull || f.max_tokens == 0

/-- The two field writes of capture_ptr. -/
def openTok (p : Nat) (ty : JType) (t : JsonToken) : JsonToken :=
  { t with ptr := some p, type := some ty }

def capture_ptr (f : Frozen) (p : Nat) (ty : JType) : Except Jerr Frozen :=
  if captureOff f then .ok f
  else if f.max_tokens ≤ f.num_tokens then .error .tooSmall
  else .ok { f with
    tokens := listModify f.tokens f.num_tokens (openTok p ty),
    num_tokens := f.num_tokens + 1 }

/-- capture_len. Its C return value (JSON_STRING_INVALID when the index is
out of [0, max_tokens)) is ignored at every call site in frozen.c, and on
that failure nothing is written, so the exact model is a total function
that leaves the state unchanged in that case. The `len` field is computed
from the stored `ptr`; if that cell's `ptr` was never written the read is
of uninitialized memory and the model keeps `len` unwritten. The two
field writes are `closeTok`. -/
def closeTok (num : Nat) (token_index : Int) (p : Nat) (t : JsonToken) : JsonToken :=
  { t with
    num_children := some ((num : Int) - 1 - token_index),
    len := t.ptr.map (fun q => (p : Int) - (q : Int)) }

def capture_len (f : Frozen) (token_index : Int) (p : Nat) : Frozen :=
  if captureOff f then f
  else if 0 ≤ token_index ∧ token_index < (f.max_tokens : Int) then
    { f with tokens := listModify f.tokens token_index.toNat (closeTok f.num_tokens token_index p) }
  else f

/-- Length of the run of identifier bytes (letter, digit or underscore)
that the parse_identifier loop consumes from a suffix. -/
def identRun : List Nat → Nat
  | [] => 0
  | c :: r => if c == 95 || is_alpha c || is_digit c then identRun r + 1 else 0

/-- The body of parse_identifier once `is_alpha(cur(f))` has passed:
open a STRING token, consume the identifier run, close it. -/
def identAfter (f : Frozen) : Except Jerr Frozen :=
  match capture_ptr f f.cur JType.STRING with
  | .error e => .error e
  | .ok g =>
    .ok (capture_len { g with cur := g.cur + identRun (g.input.drop g.cur) }
      ((g.num_tokens : Int) - 1) (g.cur + identRun (g.input.drop g.cur)))

/-- The EXPECT(is_alpha(cur(f)), JSON_STRING_INVALID) guard (END_OF_STRING
also fails is_alpha, hence also Invalid). -/
def identDispatch (f : Frozen) (c : Nat) : Except Jerr Frozen :=
  if is_alpha c then identAfter f else .error .invalid

def parse_identifier (f0 : Frozen) : Except Jerr Frozen :=
  match peeked f0 with
  | some c => identDispatch (skip_whitespaces f0) c
  | none => .error .invalid

/-- The for-loop of parse_string: scan bytes from `cur`, validate escapes,
and stop after consuming the closing quote (34). Fuel-indexed; each
iteration advances the cursor, and the loop is only entered with
`cur < end`, so fuel `input.length + 1` never runs out (lemma below). -/
def parse_string_loop : Nat → Frozen → Option (Except Jerr Frozen)
  | 0, _ => none
  | fuel + 1, f =>
    if f.cur < f.input.length then
      if 32 ≤ f.input.getD f.cur 0 ∧ f.input.getD f.cur 0 ≤ 127 then
        if f.input.getD f.cur 0 = 92 then
          match get_escape_len (f.input.drop (f.cur + 1)) (left f) with
          | .error e => some (.error e)
          | .ok n => parse_string_loop fuel { f with cur := f.cur + n + 1 }
        else if f.input.getD f.cur 0 = 34 then
          some (.ok { capture_len f ((f.num_tokens : Int) - 1) f.cur with cur := f.cur + 1 })
        else parse_string_loop fuel { f with cur := f.cur + 1 }
      else some (.error .invalid)
    else some (.error .incomplete)

def parse_string (f0 : Frozen) : Except Jerr Frozen :=
  match test_and_skip f0 34 with
  | .error e => .error e
  | .ok f =>
    match capture_ptr f f.cur JType.STRING with
    | .error e => .error e
    | .ok g => (parse_string_loop (g.input.length + 1) g).getD (.error .incomplete)

/-- Length of the run of decimal digits the parse_number loop consumes. -/
def digitRun : List Nat → Nat
  | [] => 0
  | c :: r => if is_digit c then digitRun r + 1 else 0

def parse_number (f0 : Frozen) : Except Jerr Frozen :=
  match capture_ptr (skip_whitespaces f0) (skip_whitespaces f0).cur JType.NUMBER with
  | .error e => .error e
  | .ok g =>
    if peeked f0 = some 45 then
      .ok (capture_len { g with cur := g.cur + 1 + digitRun (g.input.drop (g.cur + 1)) }
        ((g.num_tokens : Int) - 1) (g.cur + 1 + digitRun (g.input.drop (g.cur + 1))))
    else
      .ok (capture_len { g with cur := g.cur + digitRun (g.input.drop g.cur) }
        ((g.num_tokens : Int) - 1) (g.cur + digitRun (g.input.drop g.cur)))

/-- The byte-for-byte loop of compare(): true iff the literal is a prefix
of the given suffix. compare() first checks `left(f) < len`. -/
def bytesMatch : List Nat → List Nat → Bool
  | _, [] => true
  | [], _ :: _ => false
  | c :: cs, b :: bs => c == b && bytesMatch cs bs

def compareStr (f : Frozen) (str : List Nat) : Bool :=
  if left f < (str.length : Int) then false
  else bytesMatch (f.input.drop f.cur) str

def nullBytes : List Nat := [110, 117, 108, 108]

def trueBytes : List Nat := [116, 114, 117, 101]

def falseBytes : List Nat := [102, 97, 108, 115, 101]

/-- The capture_ptr / cur += n / capture_len sequence shared by the three
literal branches of parse_value. -/
def capture_literal (f : Frozen) (ty : JType) (n : Nat) : Except Jerr Frozen :=
  match capture_ptr f f.cur ty with
  | .error e => .error e
  | .ok g =>
    .ok (capture_len { g with cur := g.cur + n } ((g.num_tokens : Int) - 1) (g.cur + n))

/-- Tags for the mutually recursive grammar rules of frozen.c. The C while
loops of parse_object / parse_array are split into a head (`objLoop`,
`arrLoop`: test the loop condition, parse one pair/value) and a tail
(`objTail`, `arrTail`: optionally consume one comma, re-enter the head),
which is exactly the loop's control flow. -/
inductive Rule where
  | value
  | object
  | objLoop
  | objTail
  | pair
  | key
  | array
  | arrLoop
  | arrTail
deriving DecidableEq, Repr

abbrev PRes := Option (Except Jerr Frozen)

abbrev Next := Rule → Frozen → PRes

/-- Propagation of a leaf/scanner result (the C `TRY` macro): an error
aborts, a success state is passed on. -/
def exOk (r : Except Jerr Frozen) (k : Frozen → PRes) : PRes :=
  match r with
  | .error e => some (.error e)
  | .ok f => k f

/-- Propagation of a recursive-rule result: fuel exhaustion and errors
abort, a success state is passed on. -/
def onOk (r : PRes) (k : Frozen → PRes) : PRes :=
  match r with
  | none => none
  | some (.error e) => some (.error e)
  | some (.ok g) => k g

/-- Dispatch on cur(f): END_OF_STRING is Incomplete, otherwise the peeked
byte is handed to the continuation. -/
def onPeek (f0 : Frozen) (k : Nat → PRes) : PRes :=
  match peeked f0 with
  | none => some (.error .incomplete)
  | some c => k c

/-- The if-chain of parse_value on the peeked byte `c`; `f` is the state
cur() left behind (whitespace skipped). -/
def valueDispatch (next : Next) (f : Frozen) (c : Nat) : PRes :=
  if c == 34 then some (parse_string f)
  else if c == 123 then next .object f
  else if c == 91 then next .array f
  else if c == 110 && compareStr f nullBytes then some (capture_literal f .NULL 4)
  else if c == 116 && compareStr f trueBytes then some (capture_literal f .TRUE 4)
  else if c == 102 && compareStr f falseBytes then some (capture_literal f .FALSE 5)
  else if is_digit c ||
      (c == 45 && decide (f.cur + 1 < f.input.length) && is_digit (f.input.getD (f.cur + 1) 0)) then
    some (parse_number f)
  else some (.error .invalid)

def stepValue (next : Next) (f0 : Frozen) : PRes :=
  onPeek f0 (valueDispatch next (skip_whitespaces f0))

/-- The common ending of parse_object / parse_array: consume the closing
delimiter, then backfill length and subtree size of the container token. -/
def compositeClose (closer : Nat) (ind : Int) (h1 : Frozen) : PRes :=
  exOk (test_and_skip h1 closer) (fun h2 => some (.ok (capture_len h2 ind h2.cur)))

/-- parse_object: consume '{', open the OBJECT token, run the loop, then
close at '}'. -/
def stepObject (next : Next) (f0 : Frozen) : PRes :=
  exOk (test_and_skip f0 123) (fun f =>
    exOk (capture_ptr f (f.cur - 1) .OBJECT) (fun g =>
      onOk (next .objLoop g) (compositeClose 125 ((g.num_tokens : Int) - 1))))

/-- One test of parse_object's loop condition `cur(f) != '}'` plus, when
the loop is entered, one parse_pair. -/
def stepObjLoop (next : Next) (f0 : Frozen) : PRes :=
  if peeked f0 = some 125 then some (.ok (skip_whitespaces f0))
  else onOk (next .pair (skip_whitespaces f0)) (next .objTail)

/-- The tail of parse_object's loop body: `if (cur(f) == ',') f->cur++;`
then back to the loop test. -/
def stepObjTail (next : Next) (f0 : Frozen) : PRes :=
  if peeked f0 = some 44 then
    next .objLoop { skip_whitespaces f0 with cur := (skip_whitespaces f0).cur + 1 }
  else next .objLoop (skip_whitespaces f0)

/-- parse_pair: key, ':', value. -/
def stepPair (next : Next) (f0 : Frozen) : PRes :=
  onOk (next .key f0) (fun f => exOk (test_and_skip f 58) (next .value))

/-- The if-chain of parse_key on the peeked byte. -/
def keyDispatch (f : Frozen) (c : Nat) : PRes :=
  if is_alpha c then some (parse_identifier f)
  else if c == 34 then some (parse_string f)
  else some (.error .invalid)

def stepKey (f0 : Frozen) : PRes :=
  onPeek f0 (keyDispatch (skip_whitespaces f0))

/-- parse_array, mirroring stepObject. -/
def stepArray (next : Next) (f0 : Frozen) : PRes :=
  exOk (test_and_skip f0 91) (fun f =>
    exOk (capture_ptr f (f.cur - 1) .ARRAY) (fun g =>
      onOk (next .arrLoop g) (compositeClose 93 ((g.num_tokens : Int) - 1))))

def stepArrLoop (next : Next) (f0 : Frozen) : PRes :=
  if peeked f0 = some 93 then some (.ok (skip_whitespaces f0))
  else onOk (next .value (skip_whitespaces f0)) (next .arrTail)

def stepArrTail (next : Next) (f0 : Frozen) : PRes :=
  if peeked f0 = some 44 then
    next .arrLoop { skip_whitespaces f0 with cur := (skip_whitespaces f0).cur + 1 }
  else next .arrLoop (skip_whitespaces f0)

def stepOf : Rule → Next → Frozen → PRes
  | .value => stepValue
  | .object => stepObject
  | .objLoop => stepObjLoop
  | .objTail => stepObjTail
  | .pair => stepPair
  | .key => fun _ => stepKey
  | .array => stepArray
  | .arrLoop => stepArrLoop
  | .arrTail => stepArrTail

/-- The fuel-indexed interpreter for the mutually recursive rules of
frozen.c; `none` = out of fuel. -/
def parseRun : Nat → Rule → Frozen → PRes
  | 0, _, _ => none
  | fuel + 1, rule, f0 => stepOf rule (parseRun fuel) f0

theorem parseRun_zero (rule : Rule) (f0 : Frozen) : parseRun 0 rule f0 = none := rfl

theorem parseRun_succ (fuel : Nat) (rule : Rule) (f0 : Frozen) :
    parseRun (fuel + 1) rule f0 = stepOf rule (parseRun fuel) f0 := rfl

/-- The fresh parser state parse_json builds:
  struct frozen frozen = { s + s_len, s, arr, arr_len, 0 }. -/
def initFrozen (bytes : List Nat) (tokensNull : Bool) (arr_len : Nat) : Frozen :=
  ⟨bytes, 0, tokensNull, List.replicate arr_len uninitTok, arr_len, 0⟩

/-- The trailing EOF capture of parse_json. Note the final capture_len is
called with index `frozen.num_tokens` — one PAST the just-recorded EOF
token — and its result is not checked. -/
def eofCapture (g : Frozen) : PRes :=
  exOk (capture_ptr g g.cur .EOF)
    (fun h1 => some (.ok (capture_len h1 (h1.num_tokens : Int) h1.cur)))

/-- parse_json with explicit fuel. `s = none` models a NULL input pointer;
`s_len` is the (caller-claimed, possibly negative) length, so the buffer
the parser sees is the first `s_len` bytes. -/
def parse_jsonF (fuel : Nat) (s : Option (List Nat)) (s_len : Int)
    (tokensNull : Bool) (arr_len : Nat) : PRes :=
  if s = none ∨ s_len < 0 then some (.error .invalid)
  else if s_len = 0 then some (.error .incomplete)
  else onOk (parseRun fuel .object (initFrozen ((s.getD []).take s_len.toNat) tokensNull arr_len))
    eofCapture

/-- Canonical fuel: enough for any input of this length (adequacy lemma
below). -/
def FUEL (bytes : List Nat) : Nat := 4 * bytes.length + 16

/-- int parse_json(const char *s, int s_len, struct json_token *arr, int arr_len).
On success the returned state's `cur` is the number of bytes consumed. -/
def parse_json (s : Option (List Nat)) (s_len : Int) (tokensNull : Bool)
    (arr_len : Nat) : Option (Except Jerr Frozen) :=
  parse_jsonF (FUEL ((s.getD []).take s_len.toNat)) s s_len tokensNull arr_len

/-- Convenience entry: parse a byte list with its own length and a non-NULL
token array of capacity `arr_len`. -/
def parse_bytes (I : List Nat) (arr_len : Nat) : Option (Except Jerr Frozen) :=
  parse_json (some I) (I.length : Int) false arr_len

/-! ### Small facts about the scanner helpers -/

theorem skipLen_le (l : List Nat) : skipLen l ≤ l.length := by
  induction l with
  | nil => simp [skipLen]
  | cons c r ih =>
    simp only [skipLen]
    split
    · simpa using Nat.succ_le_succ ih
    · exact Nat.zero_le _

/-! ### Equation lemmas for the scanner and recorder primitives -/

theorem test_and_skip_yes {f : Frozen} {e : Nat}
    (hc : (skip_whitespaces f).input.get? (skip_whitespaces f).cur = some e) :
    test_and_skip f e =
      .ok { skip_whitespaces f with cur := (skip_whitespaces f).cur + 1 } := by
  rw [test_and_skip, hc]
  exact if_pos rfl

theorem test_and_skip_not {f : Frozen} {e c : Nat}
    (hc : (skip_whitespaces f).input.get? (skip_whitespaces f).cur = some c)
    (hne : c ≠ e) : test_and_skip f e = .error .invalid := by
  rw [test_and_skip, hc]
  exact if_neg hne

theorem test_and_skip_none {f : Frozen} {e : Nat}
    (hc : (skip_whitespaces f).input.get? (skip_whitespaces f).cur = none) :
    test_and_skip f e = .error .incomplete := by
  rw [test_and_skip, hc]

theorem capture_ptr_off {f : Frozen} (p : Nat) (ty : JType)
    (h : captureOff f = true) : capture_ptr f p ty = .ok f := by
  rw [capture_ptr, if_pos h]

theorem capture_ptr_yes {f : Frozen} (p : Nat) (ty : JType)
    (h : captureOff f = false) (h2 : f.num_tokens < f.max_tokens) :
    capture_ptr f p ty = .ok { f with
      tokens := listModify f.tokens f.num_tokens (openTok p ty),
      num_tokens := f.num_tokens + 1 } := by
  rw [capture_ptr, if_neg (by simp [h]), if_neg (by omega)]

theorem capture_ptr_full {f : Frozen} (p : Nat) (ty : JType)
    (h : captureOff f = false) (h2 : f.max_tokens ≤ f.num_tokens) :
    capture_ptr f p ty = .error .tooSmall := by
  rw [capture_ptr, if_neg (by simp [h]), if_pos h2]

theorem capture_ptr_ok_inv {f g : Frozen} {p : Nat} {ty : JType}
    (h : capture_ptr f p ty = .ok g) :
    (captureOff f = true ∧ g = f) ∨
    (captureOff f = false ∧ f.num_tokens < f.max_tokens ∧
      g = { f with
        tokens := listModify f.tokens f.num_tokens (openTok p ty),
        num_tokens := f.num_tokens + 1 }) := by
  by_cases hoff : captureOff f = true
  · rw [capture_ptr_off p ty hoff] at h
    cases h
    exact Or.inl ⟨hoff, rfl⟩
  · have hoff2 : captureOff f = false := by
      cases hcap : captureOff f
      · rfl
      · exact absurd hcap hoff
    by_cases hfull : f.max_tokens ≤ f.num_tokens
    · rw [capture_ptr_full p ty hoff2 hfull] at h
      cases h
    · rw [capture_ptr_yes p ty hoff2 (by omega)] at h
      cases h
      exact Or.inr ⟨hoff2, by omega, rfl⟩

theorem capture_len_off {f : Frozen} (idx : Int) (p : Nat)
    (h : captureOff f = true) : capture_len f idx p = f := by
  rw [capture_len, if_pos h]

theorem capture_len_in {f : Frozen} (idx : Int) (p : Nat)
    (h : captureOff f = false) (h2 : 0 ≤ idx ∧ idx < (f.max_tokens : Int)) :
    capture_len f idx p =
      { f with tokens := listModify f.tokens idx.toNat (closeTok f.num_tokens idx p) } := by
  rw [capture_len, if_neg (by simp [h]), if_pos h2]

theorem capture_len_out {f : Frozen} (idx : Int) (p : Nat)
    (h2 : ¬(0 ≤ idx ∧ idx < (f.max_tokens : Int))) : capture_len f idx p = f := by
  by_cases hoff : captureOff f = true
  · exact capture_len_off idx p hoff
  · rw [capture_len, if_neg hoff, if_neg h2]

/-- parse_json on a non-empty, non-NULL input, reduced to the root
parse_object run plus the EOF capture. -/
theorem parse_json_some (I : List Nat) (hne : I ≠ []) (tn : Bool) (cap : Nat) :
    parse_json (some I) (I.length : Int) tn cap =
      onOk (parseRun (FUEL I) .object (initFrozen I tn cap)) eofCapture := by
  have hlen0 : I.length ≠ 0 := fun h => hne (List.length_eq_zero.mp h)
  have hlen : (I.length : Int) ≠ 0 := by exact_mod_cast hlen0
  have hc1 : ¬(some I = none ∨ (I.length : Int) < 0) := by simp
  have htake : ((some I).getD []).take (I.length : Int).toNat = I := by simp
  rw [parse_json, parse_jsonF, if_neg hc1, if_neg hlen, htake]

theorem FUEL_succ (I : List Nat) : FUEL I = 4 * I.length + 15 + 1 := by
  norm_num [FUEL]

/-- Concrete inputs used by several claims. -/
def escInput : List Nat := [123, 34, 97, 34, 58, 34, 92, 117, 48, 48, 52, 49, 34, 125]

def arrRootInput : List Nat := [91, 49, 44, 50, 44, 51, 93]

/-! ### Claim C1 -/

/-- Shared helper: in this source, get_escape_len can never accept a `u`
escape, because it hex-tests `s[0]`, which IS the byte `u` (117), instead
of the four bytes after it. -/
theorem get_escape_len_u (rest : List Nat) (len : Int) :
    get_escape_len (117 :: rest) len =
      .error (if len < 4 then Jerr.incomplete else Jerr.invalid) := by
  simp only [get_escape_len, List.headD, List.getD, Option.getD]
  norm_num [is_hex_digit, is_digit]
  split <;> rfl

/-- Claim C1 (code bug): the spec says a backslash followed by `u` and 4
hex digits is a valid escape consuming 6 bytes, but get_escape_len tests
`is_hex_digit(s[0])` where `s[0]` is the `u` itself (and compares `len`
against 4 rather than 6), so every `\uXXXX` escape is rejected: when at
least 3 bytes follow the `u` the result is Invalid, and a whole parse of
an input containing `"A"` is Invalid. (The other-escapes and
truncation behaviour for non-`u` escapes matches the claim; the `u` arm is
the slip.) -/
theorem c1_unicode_escape_never_accepted :
    (∀ (rest : List Nat) (len : Int),
      get_escape_len (117 :: rest) len =
        .error (if len < 4 then Jerr.incomplete else Jerr.invalid)) ∧
    (∀ (rest : List Nat) (len : Int), ∀ n, get_escape_len (117 :: rest) len ≠ .ok n) ∧
    parse_bytes escInput 8 = some (.error .invalid) := by
  refine ⟨get_escape_len_u, ?_, by decide⟩
  intro rest len n h
  rw [get_escape_len_u] at h
  exact Except.noConfusion h

/-! ### Claim C2 -/

/-- The full final state of parsing `{}` into a 3-slot buffer. -/
def c2FinalState : Frozen :=
  ⟨[123, 125], 2, false,
    [⟨some 0, some JType.OBJECT, some 2, some 0⟩,
     ⟨some 2, some JType.EOF, none, none⟩,
     ⟨none, none, none, some (-1)⟩], 3, 2⟩

/-- Claim C2 (code bug): the spec says the driver records an END_OF_INPUT
token with length zero and subtree size zero, but parse_json calls the
final capture_len with index `frozen.num_tokens` — one past the EOF token
it just recorded (every other call site uses `num_tokens - 1`) — and
ignores its result. So the EOF token's len and num_children are never
written, and when the buffer is larger than the token count the
out-of-range UNRECORDED slot after it gets num_children = -1. Shown here
on input `{}` with capacity 3: the last recorded token (index 1) is EOF at
the final cursor with both fields unwritten. -/
theorem c2_eof_token_never_closed :
    parse_bytes [123, 125] 3 = some (.ok c2FinalState) ∧
    c2FinalState.num_tokens = 2 ∧
    c2FinalState.tokens.get? 1 = some ⟨some 2, some JType.EOF, none, none⟩ ∧
    c2FinalState.tokens.get? 2 = some ⟨none, none, none, some (-1)⟩ := by
  refine ⟨by decide, rfl, rfl, rfl⟩

/-! ### Claim C4 -/

/-- Claim C4: the driver parses the document with parse_object, so any
input whose first significant (post-whitespace) byte is not `{` fails
with Invalid. -/
theorem c4_root_must_be_object (I : List Nat) (c : Nat)
    (h1 : I.get? (skipLen I) = some c) (h2 : c ≠ 123)
    (tn : Bool) (cap : Nat) :
    parse_json (some I) (I.length : Int) tn cap = some (.error .invalid) := by
  have hne : I ≠ [] := by
    intro h
    subst h
    simp [skipLen] at h1
  have hts : test_and_skip (initFrozen I tn cap) 123 = .error .invalid := by
    refine test_and_skip_not ?_ h2
    simpa [skip_whitespaces, initFrozen] using h1
  have hrun : parseRun (FUEL I) .object (initFrozen I tn cap) = some (.error .invalid) := by
    rw [FUEL_succ, parseRun_succ]
    simp only [stepOf, stepObject, hts, exOk]
  rw [parse_json_some I hne, hrun]
  rfl

/-- Witness for C4 at the spec's own example `[1,2,3]`. -/
theorem c4_root_must_be_object_witness :
    parse_json (some arrRootInput) (arrRootInput.length : Int) false 8 =
      some (.error .invalid) :=
  c4_root_must_be_object arrRootInput 91 (by decide) (by decide) false 8

/-! ### Claim C10 -/

/-- Claim C10 counterexample: with a NULL input pointer and zero length the
code returns Invalid (the `s == 0 || s_len < 0` check fires first), not
Incomplete as claimed. -/
theorem c10_null_zero_is_invalid :
    parse_json none 0 false 4 = some (.error .invalid) ∧
    parse_json none 0 false 4 ≠ some (.error .incomplete) := by
  decide

/-- Claim C10 amended: a NULL input pointer (any length) or a negative
length yields Invalid; zero length with a non-NULL pointer yields
Incomplete; in both cases the code returns before reading input or
touching the token array. -/
theorem c10_null_negative_handling (s : Option (List Nat)) (len : Int)
    (tn : Bool) (cap : Nat) :
    ((s = none ∨ len < 0) → parse_json s len tn cap = some (.error .invalid)) ∧
    (s ≠ none → len = 0 → parse_json s len tn cap = some (.error .incomplete)) := by
  constructor
  · intro h
    rw [parse_json, parse_jsonF, if_pos h]
  · intro hs hz
    subst hz
    have hno : ¬(s = none ∨ (0 : Int) < 0) := by
      rintro (h | h)
      · exact hs h
      · omega
    rw [parse_json, parse_jsonF, if_neg hno, if_pos rfl]

/-- Witness for the amended C10. -/
theorem c10_null_negative_handling_witness :
    parse_json none 5 true 0 = some (.error .invalid) ∧
    parse_json (some []) 0 false 0 = some (.error .incomplete) :=
  ⟨(c10_null_negative_handling none 5 true 0).1 (Or.inl rfl),
   (c10_null_negative_handling (some []) 0 false 0).2 (by decide) rfl⟩

/-! ### Basic state-evolution facts -/

theorem listModify_length (l : List JsonToken) (i : Nat) (g : JsonToken → JsonToken) :
    (listModify l i g).length = l.length := by
  induction l generalizing i with
  | nil => rfl
  | cons t r ih =>
    cases i with
    | zero => rfl
    | succ j => simpa [listModify] using ih j

theorem drop_get_cons (I : List Nat) (n : Nat) (c : Nat) (h : I.get? n = some c) :
    I.drop n = c :: I.drop (n + 1) := by
  induction I generalizing n with
  | nil => simp at h
  | cons b r ih =>
    cases n with
    | zero =>
      simp at h
      simp [h]
    | succ m =>
      simp only [List.get?] at h
      simpa [List.drop] using ih m h

theorem identRun_pos (c : Nat) (r : List Nat) (h : is_alpha c = true) :
    0 < identRun (c :: r) := by
  simp [identRun, h]

theorem digitRun_pos (c : Nat) (r : List Nat) (h : is_digit c = true) :
    0 < digitRun (c :: r) := by
  simp [digitRun, h]

/-- What every parsing step preserves or grows: the input and the token
array's configuration are unchanged, the cursor and token count only
advance. -/
def Extends (f g : Frozen) : Prop :=
  g.input = f.input ∧ g.tokensNull = f.tokensNull ∧ g.max_tokens = f.max_tokens ∧
  g.tokens.length = f.tokens.length ∧ f.cur ≤ g.cur ∧ f.num_tokens ≤ g.num_tokens

theorem extends_rfl (f : Frozen) : Extends f f :=
  ⟨rfl, rfl, rfl, rfl, le_refl _, le_refl _⟩

theorem extends_trans {f g h : Frozen} (h1 : Extends f g) (h2 : Extends g h) :
    Extends f h :=
  ⟨h2.1.trans h1.1, h2.2.1.trans h1.2.1, h2.2.2.1.trans h1.2.2.1,
   h2.2.2.2.1.trans h1.2.2.2.1, h1.2.2.2.2.1.trans h2.2.2.2.2.1,
   h1.2.2.2.2.2.trans h2.2.2.2.2.2⟩

theorem skip_cur_le (f : Frozen) : f.cur ≤ (skip_whitespaces f).cur := Nat.le_add_right _ _

theorem extends_skip (f : Frozen) : Extends f (skip_whitespaces f) :=
  ⟨rfl, rfl, rfl, rfl, Nat.le_add_right _ _, le_refl _⟩

theorem extends_addCur (f : Frozen) (k : Nat) : Extends f { f with cur := f.cur + k } :=
  ⟨rfl, rfl, rfl, rfl, Nat.le_add_right _ _, le_refl _⟩

theorem capture_len_fields (f : Frozen) (idx : Int) (p : Nat) :
    (capture_len f idx p).input = f.input ∧
    (capture_len f idx p).cur = f.cur ∧
    (capture_len f idx p).tokensNull = f.tokensNull ∧
    (capture_len f idx p).max_tokens = f.max_tokens ∧
    (capture_len f idx p).num_tokens = f.num_tokens ∧
    (capture_len f idx p).tokens.length = f.tokens.length := by
  rw [capture_len]
  split
  · exact ⟨rfl, rfl, rfl, rfl, rfl, rfl⟩
  split
  · exact ⟨rfl, rfl, rfl, rfl, rfl, listModify_length _ _ _⟩
  · exact ⟨rfl, rfl, rfl, rfl, rfl, rfl⟩

theorem extends_capture_len {f g : Frozen} (idx : Int) (p : Nat)
    (h : Extends f g) : Extends f (capture_len g idx p) := by
  obtain ⟨h1, h2, h3, h4, h5, h6⟩ := capture_len_fields g idx p
  exact extends_trans h ⟨h1, h3, h4, h6, le_of_eq h2.symm, le_of_eq h5.symm⟩

theorem capture_ptr_extends {f g : Frozen} (p : Nat) (ty : JType)
    (h : capture_ptr f p ty = .ok g) :
    Extends f g ∧ g.cur = f.cur ∧ g.input = f.input ∧
      f.num_tokens ≤ g.num_tokens ∧ g.num_tokens ≤ f.num_tokens + 1 := by
  rw [capture_ptr] at h
  split at h
  · cases h
    exact ⟨extends_rfl f, rfl, rfl, le_refl _, Nat.le_add_right _ _⟩
  split at h
  · cases h
  · cases h
    refine ⟨⟨rfl, rfl, rfl, listModify_length _ _ _, le_refl _, Nat.le_add_right _ _⟩,
      rfl, rfl, Nat.le_add_right _ _, le_refl _⟩

theorem test_and_skip_extends {f g : Frozen} (e : Nat)
    (h : test_and_skip f e = .ok g) :
    Extends f g ∧ f.cur < g.cur ∧ g.num_tokens = f.num_tokens ∧ g.tokens = f.tokens := by
  rw [test_and_skip] at h
  rcases hc : (skip_whitespaces f).input.get? (skip_whitespaces f).cur with _ | ch
  · rw [hc] at h
    cases h
  · rw [hc] at h
    have h2 : (if ch = e then
          Except.ok { skip_whitespaces f with cur := (skip_whitespaces f).cur + 1 }
        else (Except.error Jerr.invalid : Except Jerr Frozen)) = Except.ok g := h
    by_cases hche : ch = e
    · rw [if_pos hche] at h2
      cases h2
      refine ⟨⟨rfl, rfl, rfl, rfl, ?_, le_refl _⟩, ?_, rfl, rfl⟩
      · exact Nat.le_succ_of_le (Nat.le_add_right _ _)
      · exact Nat.lt_succ_of_le (Nat.le_add_right _ _)
    · rw [if_neg hche] at h2
      cases h2

theorem pres_err {e : Jerr} {g : Frozen} :
    (some (Except.error e) : PRes) = some (Except.ok g) → False :=
  fun h => Except.noConfusion (Option.some.inj h)

theorem parse_string_loop_extends :
    ∀ (fuel : Nat) (f g : Frozen), parse_string_loop fuel f = some (.ok g) →
      Extends f g ∧ f.cur < g.cur ∧ g.num_tokens = f.num_tokens := by
  intro fuel
  induction fuel with
  | zero =>
    intro f g h
    cases h
  | succ n ih =>
    intro f g h
    rw [parse_string_loop] at h
    by_cases h1 : f.cur < f.input.length
    · rw [if_pos h1] at h
      by_cases h2 : 32 ≤ f.input.getD f.cur 0 ∧ f.input.getD f.cur 0 ≤ 127
      · rw [if_pos h2] at h
        by_cases h3 : f.input.getD f.cur 0 = 92
        · rw [if_pos h3] at h
          cases hesc : get_escape_len (f.input.drop (f.cur + 1)) (left f) with
          | error e =>
            rw [hesc] at h
            exact absurd h (fun hh => pres_err hh)
          | ok k =>
            rw [hesc] at h
            obtain ⟨hx, hcur, hnum⟩ := ih _ _ h
            have hc2 : f.cur + k + 1 < g.cur := hcur
            have hn2 : g.num_tokens = f.num_tokens := hnum
            exact ⟨extends_trans (extends_addCur f (k + 1)) hx, by omega, hn2⟩
        · rw [if_neg h3] at h
          by_cases h4 : f.input.getD f.cur 0 = 34
          · rw [if_pos h4] at h
            cases h
            obtain ⟨e1, e2, e3, e4, e5, e6⟩ :=
              capture_len_fields f ((f.num_tokens : Int) - 1) f.cur
            exact ⟨⟨e1, e3, e4, e6, Nat.le_succ f.cur, le_of_eq e5.symm⟩,
              Nat.lt_succ_self f.cur, e5⟩
          · rw [if_neg h4] at h
            obtain ⟨hx, hcur, hnum⟩ := ih _ _ h
            have hc2 : f.cur + 1 < g.cur := hcur
            have hn2 : g.num_tokens = f.num_tokens := hnum
            exact ⟨extends_trans (extends_addCur f 1) hx, by omega, hn2⟩
      · rw [if_neg h2] at h
        exact absurd h (fun hh => pres_err hh)
    · rw [if_neg h1] at h
      exact absurd h (fun hh => pres_err hh)

theorem parse_string_extends {f0 g : Frozen} (h : parse_string f0 = .ok g) :
    Extends f0 g ∧ f0.cur < g.cur ∧
      f0.num_tokens ≤ g.num_tokens ∧ g.num_tokens ≤ f0.num_tokens + 1 := by
  rw [parse_string] at h
  cases hts : test_and_skip f0 34 with
  | error e =>
    rw [hts] at h
    cases h
  | ok f =>
    rw [hts] at h
    obtain ⟨hx1, hcur1, hnum1, -⟩ := test_and_skip_extends 34 hts
    have h2 : (match capture_ptr f f.cur JType.STRING with
        | Except.error e => (Except.error e : Except Jerr Frozen)
        | Except.ok g =>
          (parse_string_loop (g.input.length + 1) g).getD (Except.error Jerr.incomplete)) =
        Except.ok g := h
    cases hcp : capture_ptr f f.cur JType.STRING with
    | error e =>
      rw [hcp] at h2
      cases h2
    | ok g1 =>
      rw [hcp] at h2
      obtain ⟨hx2, hcur2, -, hnum2a, hnum2b⟩ := capture_ptr_extends _ _ hcp
      have h3 : (parse_string_loop (g1.input.length + 1) g1).getD (Except.error Jerr.incomplete) =
          Except.ok g := h2
      cases hloop : parse_string_loop (g1.input.length + 1) g1 with
      | none =>
        rw [hloop] at h3
        cases h3
      | some r =>
        rw [hloop] at h3
        cases r with
        | error e => cases h3
        | ok g2 =>
          cases h3
          obtain ⟨hx3, hcur3, hnum3⟩ := parse_string_loop_extends _ _ _ hloop
          refine ⟨extends_trans hx1 (extends_trans hx2 hx3), ?_, ?_, ?_⟩
          · omega
          · omega
          · omega

/-- The state shape shared by the leaf rules' final `capture_len` (close
the just-opened token at the advanced cursor): its fields in terms of the
base state. -/
theorem close_state_fields (g1 : Frozen) (k : Nat) (idx : Int) :
    (capture_len { g1 with cur := g1.cur + k } idx (g1.cur + k)).input = g1.input ∧
    (capture_len { g1 with cur := g1.cur + k } idx (g1.cur + k)).cur = g1.cur + k ∧
    (capture_len { g1 with cur := g1.cur + k } idx (g1.cur + k)).tokensNull = g1.tokensNull ∧
    (capture_len { g1 with cur := g1.cur + k } idx (g1.cur + k)).max_tokens = g1.max_tokens ∧
    (capture_len { g1 with cur := g1.cur + k } idx (g1.cur + k)).num_tokens = g1.num_tokens ∧
    (capture_len { g1 with cur := g1.cur + k } idx (g1.cur + k)).tokens.length = g1.tokens.length := by
  obtain ⟨e1, e2, e3, e4, e5, e6⟩ :=
    capture_len_fields { g1 with cur := g1.cur + k } idx (g1.cur + k)
  exact ⟨e1, e2, e3, e4, e5, e6⟩

theorem extends_close (g1 : Frozen) (k : Nat) (idx : Int) :
    Extends g1 (capture_len { g1 with cur := g1.cur + k } idx (g1.cur + k)) := by
  obtain ⟨e1, e2, e3, e4, e5, e6⟩ := close_state_fields g1 k idx
  exact ⟨e1, e3, e4, e6, by omega, le_of_eq e5.symm⟩

theorem identAfter_extends {f g : Frozen} {c : Nat}
    (hc : f.input.get? f.cur = some c) (ha : is_alpha c = true)
    (h : identAfter f = .ok g) :
    Extends f g ∧ f.cur < g.cur ∧
      f.num_tokens ≤ g.num_tokens ∧ g.num_tokens ≤ f.num_tokens + 1 := by
  rw [identAfter] at h
  cases hcp : capture_ptr f f.cur JType.STRING with
  | error e =>
    rw [hcp] at h
    cases h
  | ok g1 =>
    rw [hcp] at h
    cases h
    obtain ⟨hx2, hcur2, hin2, hnum2a, hnum2b⟩ := capture_ptr_extends _ _ hcp
    have halpha : 0 < identRun (g1.input.drop g1.cur) := by
      have hsk : g1.input.get? g1.cur = some c := by
        rw [hin2, hcur2]
        exact hc
      rw [drop_get_cons g1.input g1.cur c hsk]
      exact identRun_pos c _ ha
    obtain ⟨e1, e2, e3, e4, e5, e6⟩ :=
      close_state_fields g1 (identRun (g1.input.drop g1.cur)) ((g1.num_tokens : Int) - 1)
    refine ⟨extends_trans hx2 (extends_close g1 _ _), ?_, ?_, ?_⟩
    · omega
    · omega
    · omega

theorem parse_identifier_extends {f0 g : Frozen} (h : parse_identifier f0 = .ok g) :
    Extends f0 g ∧ f0.cur < g.cur ∧
      f0.num_tokens ≤ g.num_tokens ∧ g.num_tokens ≤ f0.num_tokens + 1 := by
  rw [parse_identifier] at h
  cases hp : peeked f0 with
  | none =>
    rw [hp] at h
    cases h
  | some c =>
    rw [hp] at h
    have h2 : identDispatch (skip_whitespaces f0) c = .ok g := h
    rw [identDispatch] at h2
    by_cases ha : is_alpha c = true
    · rw [if_pos ha] at h2
      have hc : (skip_whitespaces f0).input.get? (skip_whitespaces f0).cur = some c := hp
      obtain ⟨hx, hcur, hna, hnb⟩ := identAfter_extends hc ha h2
      have hsknum : (skip_whitespaces f0).num_tokens = f0.num_tokens := rfl
      have hsk2 : f0.cur ≤ (skip_whitespaces f0).cur := skip_cur_le f0
      refine ⟨extends_trans (extends_skip f0) hx, ?_, ?_, ?_⟩
      · omega
      · omega
      · omega
    · rw [if_neg ha] at h2
      cases h2

theorem parse_number_extends {f0 g : Frozen} (h : parse_number f0 = .ok g) :
    Extends f0 g ∧
      f0.num_tokens ≤ g.num_tokens ∧ g.num_tokens ≤ f0.num_tokens + 1 := by
  rw [parse_number] at h
  cases hcp : capture_ptr (skip_whitespaces f0) (skip_whitespaces f0).cur JType.NUMBER with
  | error e =>
    rw [hcp] at h
    cases h
  | ok g1 =>
    rw [hcp] at h
    obtain ⟨hx2, hcur2, hin2, hnum2a, hnum2b⟩ := capture_ptr_extends _ _ hcp
    have h2 : (if peeked f0 = some 45 then
        Except.ok (capture_len { g1 with cur := g1.cur + 1 + digitRun (g1.input.drop (g1.cur + 1)) }
          ((g1.num_tokens : Int) - 1) (g1.cur + 1 + digitRun (g1.input.drop (g1.cur + 1))))
        else
        Except.ok (capture_len { g1 with cur := g1.cur + digitRun (g1.input.drop g1.cur) }
          ((g1.num_tokens : Int) - 1) (g1.cur + digitRun (g1.input.drop g1.cur)))) =
        Except.ok g := h
    have hsknum : (skip_whitespaces f0).num_tokens = f0.num_tokens := rfl
    by_cases hm : peeked f0 = some 45
    · rw [if_pos hm] at h2
      cases h2
      obtain ⟨e1, e2, e3, e4, e5, e6⟩ :=
        close_state_fields { g1 with cur := g1.cur + 1 }
          (digitRun (g1.input.drop (g1.cur + 1))) ((g1.num_tokens : Int) - 1)
      have e5x : (capture_len
          { g1 with cur := g1.cur + 1 + digitRun (g1.input.drop (g1.cur + 1)) }
          ((g1.num_tokens : Int) - 1)
          (g1.cur + 1 + digitRun (g1.input.drop (g1.cur + 1)))).num_tokens =
          g1.num_tokens := e5
      refine ⟨extends_trans (extends_skip f0) (extends_trans hx2
        (extends_trans (extends_addCur g1 1)
          (extends_close { g1 with cur := g1.cur + 1 } _ _))), ?_, ?_⟩
      · omega
      · omega
    · rw [if_neg hm] at h2
      cases h2
      obtain ⟨e1, e2, e3, e4, e5, e6⟩ :=
        close_state_fields g1 (digitRun (g1.input.drop g1.cur)) ((g1.num_tokens : Int) - 1)
      refine ⟨extends_trans (extends_skip f0) (extends_trans hx2
        (extends_close g1 _ _)), ?_, ?_⟩
      · omega
      · omega

theorem capture_literal_extends {f0 g : Frozen} {ty : JType} {n : Nat}
    (h : capture_literal f0 ty n = .ok g) :
    Extends f0 g ∧ g.cur = f0.cur + n ∧
      f0.num_tokens ≤ g.num_tokens ∧ g.num_tokens ≤ f0.num_tokens + 1 := by
  rw [capture_literal] at h
  cases hcp : capture_ptr f0 f0.cur ty with
  | error e =>
    rw [hcp] at h
    cases h
  | ok g1 =>
    rw [hcp] at h
    cases h
    obtain ⟨hx2, hcur2, hin2, hnum2a, hnum2b⟩ := capture_ptr_extends _ _ hcp
    obtain ⟨e1, e2, e3, e4, e5, e6⟩ := close_state_fields g1 n ((g1.num_tokens : Int) - 1)
    refine ⟨extends_trans hx2 (extends_close g1 _ _), ?_, ?_, ?_⟩
    · omega
    · omega
    · omega

/-! ### Combinator equations and inversions -/

theorem exOk_error {e : Jerr} {k : Frozen → PRes} : exOk (.error e) k = some (.error e) := rfl

theorem exOk_okk {f : Frozen} {k : Frozen → PRes} : exOk (.ok f) k = k f := rfl

theorem onOk_none {k : Frozen → PRes} : onOk none k = none := rfl

theorem onOk_error {e : Jerr} {k : Frozen → PRes} : onOk (some (.error e)) k = some (.error e) := rfl

theorem onOk_okk {g : Frozen} {k : Frozen → PRes} : onOk (some (.ok g)) k = k g := rfl

theorem onPeek_none {f0 : Frozen} {k : Nat → PRes} (hp : peeked f0 = none) :
    onPeek f0 k = some (.error .incomplete) := by
  rw [onPeek, hp]

theorem onPeek_some {f0 : Frozen} {k : Nat → PRes} {c : Nat} (hp : peeked f0 = some c) :
    onPeek f0 k = k c := by
  rw [onPeek, hp]

theorem exOk_ok_inv {r : Except Jerr Frozen} {k : Frozen → PRes} {g : Frozen}
    (h : exOk r k = some (.ok g)) : ∃ m, r = .ok m ∧ k m = some (.ok g) := by
  cases r with
  | error e => exact absurd h (fun hh => pres_err hh)
  | ok m => exact ⟨m, rfl, h⟩

theorem onOk_ok_inv {r : PRes} {k : Frozen → PRes} {g : Frozen}
    (h : onOk r k = some (.ok g)) : ∃ m, r = some (.ok m) ∧ k m = some (.ok g) := by
  cases r with
  | none => cases h
  | some x =>
    cases x with
    | error e => exact absurd h (fun hh => pres_err hh)
    | ok m => exact ⟨m, rfl, h⟩

theorem onPeek_ok_inv {f0 : Frozen} {k : Nat → PRes} {g : Frozen}
    (h : onPeek f0 k = some (.ok g)) : ∃ c, peeked f0 = some c ∧ k c = some (.ok g) := by
  cases hp : peeked f0 with
  | none =>
    rw [onPeek_none hp] at h
    exact absurd h (fun hh => pres_err hh)
  | some c =>
    rw [onPeek_some hp] at h
    exact ⟨c, rfl, h⟩

/-! ### Cursor/token-count monotonicity of parseRun -/

/-- Rules that consume at least one byte whenever they succeed. -/
def ruleStrict : Rule → Bool
  | .value => true
  | .object => true
  | .array => true
  | .pair => true
  | .key => true
  | _ => false

theorem valueDispatch_extends {next : Next} {f g : Frozen} {c : Nat}
    (hnext : ∀ r f' g', next r f' = some (.ok g') →
      Extends f' g' ∧ (ruleStrict r = true → f'.cur < g'.cur))
    (hc : f.input.get? f.cur = some c)
    (h : valueDispatch next f c = some (.ok g)) :
    Extends f g ∧ f.cur < g.cur := by
  rw [valueDispatch] at h
  by_cases h34 : (c == 34) = true
  · rw [if_pos h34] at h
    obtain ⟨hx, hcur, -, -⟩ := parse_string_extends (Option.some.inj h)
    exact ⟨hx, hcur⟩
  · rw [if_neg h34] at h
    by_cases h123 : (c == 123) = true
    · rw [if_pos h123] at h
      obtain ⟨hx, hs⟩ := hnext _ _ _ h
      exact ⟨hx, hs rfl⟩
    · rw [if_neg h123] at h
      by_cases h91 : (c == 91) = true
      · rw [if_pos h91] at h
        obtain ⟨hx, hs⟩ := hnext _ _ _ h
        exact ⟨hx, hs rfl⟩
      · rw [if_neg h91] at h
        by_cases hn : (c == 110 && compareStr f nullBytes) = true
        · rw [if_pos hn] at h
          obtain ⟨hx, hcur, -, -⟩ := capture_literal_extends (Option.some.inj h)
          refine ⟨hx, ?_⟩
          omega
        · rw [if_neg hn] at h
          by_cases ht : (c == 116 && compareStr f trueBytes) = true
          · rw [if_pos ht] at h
            obtain ⟨hx, hcur, -, -⟩ := capture_literal_extends (Option.some.inj h)
            refine ⟨hx, ?_⟩
            omega
          · rw [if_neg ht] at h
            by_cases hf : (c == 102 && compareStr f falseBytes) = true
            · rw [if_pos hf] at h
              obtain ⟨hx, hcur, -, -⟩ := capture_literal_extends (Option.some.inj h)
              refine ⟨hx, ?_⟩
              omega
            · rw [if_neg hf] at h
              by_cases hd : (is_digit c ||
                  (c == 45 && decide (f.cur + 1 < f.input.length) &&
                    is_digit (f.input.getD (f.cur + 1) 0))) = true
              · rw [if_pos hd] at h
                obtain ⟨hx, -, -⟩ := parse_number_extends (Option.some.inj h)
                -- cursor strictness: the guard guarantees a '-' or a digit at f.cur
                refine ⟨hx, ?_⟩
                have hskipf : skip_whitespaces f = f := by
                  have : f.input.drop f.cur = c :: f.input.drop (f.cur + 1) :=
                    drop_get_cons _ _ _ hc
                  have hgz : skipLen (f.input.drop f.cur) = 0 := by
                    rw [this]
                    have hrange : (48 ≤ c ∧ c ≤ 57) ∨ c = 45 := by
                      rcases Bool.or_eq_true _ _ |>.mp hd with hdig | hmin
                      · exact Or.inl (by
                          simpa [is_digit, Bool.and_eq_true, decide_eq_true_eq] using hdig)
                      · refine Or.inr ?_
                        have := (Bool.and_eq_true _ _ |>.mp
                          (Bool.and_eq_true _ _ |>.mp hmin).1).1
                        simpa using this
                    have hcs : is_space c = false := by
                      rw [Bool.eq_false_iff]
                      intro hsp
                      simp only [is_space, Bool.or_eq_true, beq_iff_eq] at hsp
                      rcases hrange with ⟨ha, hb⟩ | h1 <;>
                        rcases hsp with ((hsp2 | hsp2) | hsp2) | hsp2 <;> omega
                    simp [skipLen, hcs]
                  cases f
                  simp [skip_whitespaces, hgz]
                -- re-derive the final cursor from parse_number's shape
                have h2 := Option.some.inj h
                rw [parse_number, hskipf] at h2
                cases hcp : capture_ptr f f.cur JType.NUMBER with
                | error e =>
                  rw [hcp] at h2
                  cases h2
                | ok g1 =>
                  rw [hcp] at h2
                  have h3 : (if peeked f = some 45 then
                      Except.ok (capture_len
                        { g1 with cur := g1.cur + 1 + digitRun (g1.input.drop (g1.cur + 1)) }
                        ((g1.num_tokens : Int) - 1)
                        (g1.cur + 1 + digitRun (g1.input.drop (g1.cur + 1))))
                    else
                      Except.ok (capture_len
                        { g1 with cur := g1.cur + digitRun (g1.input.drop g1.cur) }
                        ((g1.num_tokens : Int) - 1)
                        (g1.cur + digitRun (g1.input.drop g1.cur)))) = Except.ok g := h2
                  obtain ⟨hx2, hcur2, hin2, -, -⟩ := capture_ptr_extends _ _ hcp
                  have hpk : peeked f = f.input.get? f.cur := by
                    rw [peeked, hskipf]
                  by_cases hm : peeked f = some 45
                  · rw [if_pos hm] at h3
                    cases h3
                    have e2 := (close_state_fields { g1 with cur := g1.cur + 1 }
                      (digitRun (g1.input.drop (g1.cur + 1))) ((g1.num_tokens : Int) - 1)).2.1
                    have e2x : (capture_len
                        { g1 with cur := g1.cur + 1 + digitRun (g1.input.drop (g1.cur + 1)) }
                        ((g1.num_tokens : Int) - 1)
                        (g1.cur + 1 + digitRun (g1.input.drop (g1.cur + 1)))).cur =
                        g1.cur + 1 + digitRun (g1.input.drop (g1.cur + 1)) := e2
                    omega
                  · rw [if_neg hm] at h3
                    cases h3
                    have e2 := (close_state_fields g1
                      (digitRun (g1.input.drop g1.cur)) ((g1.num_tokens : Int) - 1)).2.1
                    -- the guard forces a digit at f.cur in this branch
                    have hdig : is_digit c = true := by
                      rcases Bool.or_eq_true _ _ |>.mp hd with hdig | hmin
                      · exact hdig
                      · exfalso
                        have hc45 : c = 45 := by
                          have := Bool.and_eq_true _ _ |>.mp (Bool.and_eq_true _ _ |>.mp hmin).1
                          simpa using this.1
                        subst hc45
                        rw [hpk] at hm
                        exact hm hc
                    have hg1c : g1.input.get? g1.cur = some c := by
                      rw [hin2, hcur2]
                      exact hc
                    have hpos : 0 < digitRun (g1.input.drop g1.cur) := by
                      rw [drop_get_cons g1.input g1.cur c hg1c]
                      exact digitRun_pos c _ hdig
                    omega
              · rw [if_neg hd] at h
                exact absurd h (fun hh => pres_err hh)

theorem keyDispatch_extends {f g : Frozen} {c : Nat}
    (h : keyDispatch f c = some (.ok g)) :
    Extends f g ∧ f.cur < g.cur := by
  rw [keyDispatch] at h
  by_cases ha : is_alpha c = true
  · rw [if_pos ha] at h
    obtain ⟨hx, hcur, -, -⟩ := parse_identifier_extends (Option.some.inj h)
    exact ⟨hx, hcur⟩
  · rw [if_neg ha] at h
    by_cases h34 : (c == 34) = true
    · rw [if_pos h34] at h
      obtain ⟨hx, hcur, -, -⟩ := parse_string_extends (Option.some.inj h)
      exact ⟨hx, hcur⟩
    · rw [if_neg h34] at h
      exact absurd h (fun hh => pres_err hh)

/-- Every rule preserves the input and token-array configuration and only
advances the cursor and token count; the strict rules consume at least one
byte. -/
theorem parseRun_extends :
    ∀ (fuel : Nat) (rule : Rule) (f g : Frozen), parseRun fuel rule f = some (.ok g) →
      Extends f g ∧ (ruleStrict rule = true → f.cur < g.cur) := by
  intro fuel
  induction fuel with
  | zero =>
    intro rule f g h
    cases h
  | succ n ih =>
    intro rule f0 g h
    rw [parseRun_succ] at h
    cases rule with
    | value =>
      rw [stepOf, stepValue] at h
      obtain ⟨c, hp, h2⟩ := onPeek_ok_inv h
      have hc : (skip_whitespaces f0).input.get? (skip_whitespaces f0).cur = some c := hp
      obtain ⟨hx, hcur⟩ := valueDispatch_extends (fun r f' g' hh => ih r f' g' hh) hc h2
      refine ⟨extends_trans (extends_skip f0) hx, fun _ => ?_⟩
      have hs := skip_cur_le f0
      omega
    | object =>
      rw [stepOf, stepObject] at h
      obtain ⟨f1, hts, h2⟩ := exOk_ok_inv h
      obtain ⟨g1, hcp, h3⟩ := exOk_ok_inv h2
      obtain ⟨m, hloop, h5⟩ := onOk_ok_inv h3
      rw [compositeClose] at h5
      obtain ⟨h6, hts2, h7⟩ := exOk_ok_inv h5
      have h9 : capture_len h6 ((g1.num_tokens : Int) - 1) h6.cur = g :=
        Except.ok.inj (Option.some.inj h7)
      obtain ⟨hx1, hc1, -, -⟩ := test_and_skip_extends _ hts
      obtain ⟨hx2, hc2, -, -, -⟩ := capture_ptr_extends _ _ hcp
      obtain ⟨hx3, -⟩ := ih .objLoop _ _ hloop
      obtain ⟨hx4, hc4, -, -⟩ := test_and_skip_extends _ hts2
      obtain ⟨e1, e2, e3, e4, e5, e6⟩ :=
        capture_len_fields h6 ((g1.num_tokens : Int) - 1) h6.cur
      subst h9
      have hcle : h6.cur ≤ (capture_len h6 ((g1.num_tokens : Int) - 1) h6.cur).cur :=
        le_of_eq e2.symm
      refine ⟨extends_trans hx1 (extends_trans hx2 (extends_trans hx3
        (extends_trans hx4 ⟨e1, e3, e4, e6, hcle, le_of_eq e5.symm⟩))), fun _ => ?_⟩
      have hm3 := hx3.2.2.2.2.1
      omega
    | objLoop =>
      rw [stepOf, stepObjLoop] at h
      by_cases hp : peeked f0 = some 125
      · rw [if_pos hp] at h
        have h9 : skip_whitespaces f0 = g := Except.ok.inj (Option.some.inj h)
        subst h9
        exact ⟨extends_skip f0, fun hh => absurd hh (by decide)⟩
      · rw [if_neg hp] at h
        obtain ⟨m, hpair, htail⟩ := onOk_ok_inv h
        obtain ⟨hx1, -⟩ := ih .pair _ _ hpair
        obtain ⟨hx2, -⟩ := ih .objTail _ _ htail
        exact ⟨extends_trans (extends_skip f0) (extends_trans hx1 hx2),
          fun hh => absurd hh (by decide)⟩
    | objTail =>
      rw [stepOf, stepObjTail] at h
      by_cases hp : peeked f0 = some 44
      · rw [if_pos hp] at h
        obtain ⟨hx1, -⟩ := ih .objLoop _ _ h
        refine ⟨extends_trans (extends_skip f0)
          (extends_trans (extends_addCur (skip_whitespaces f0) 1) hx1),
          fun hh => absurd hh (by decide)⟩
      · rw [if_neg hp] at h
        obtain ⟨hx1, -⟩ := ih .objLoop _ _ h
        exact ⟨extends_trans (extends_skip f0) hx1, fun hh => absurd hh (by decide)⟩
    | pair =>
      rw [stepOf, stepPair] at h
      obtain ⟨m, hkey, h2⟩ := onOk_ok_inv h
      obtain ⟨m2, hts, h3⟩ := exOk_ok_inv h2
      obtain ⟨hx1, hs1⟩ := ih .key _ _ hkey
      obtain ⟨hx2, hc2, -, -⟩ := test_and_skip_extends _ hts
      obtain ⟨hx3, -⟩ := ih .value _ _ h3
      refine ⟨extends_trans hx1 (extends_trans hx2 hx3), fun _ => ?_⟩
      have hs1x := hs1 rfl
      have hm3 := hx3.2.2.2.2.1
      omega
    | key =>
      have h0 : stepKey f0 = some (.ok g) := h
      rw [stepKey] at h0
      obtain ⟨c, hp, h2⟩ := onPeek_ok_inv h0
      obtain ⟨hx, hcur⟩ := keyDispatch_extends h2
      refine ⟨extends_trans (extends_skip f0) hx, fun _ => ?_⟩
      have hs := skip_cur_le f0
      omega
    | array =>
      rw [stepOf, stepArray] at h
      obtain ⟨f1, hts, h2⟩ := exOk_ok_inv h
      obtain ⟨g1, hcp, h3⟩ := exOk_ok_inv h2
      obtain ⟨m, hloop, h5⟩ := onOk_ok_inv h3
      rw [compositeClose] at h5
      obtain ⟨h6, hts2, h7⟩ := exOk_ok_inv h5
      have h9 : capture_len h6 ((g1.num_tokens : Int) - 1) h6.cur = g :=
        Except.ok.inj (Option.some.inj h7)
      obtain ⟨hx1, hc1, -, -⟩ := test_and_skip_extends _ hts
      obtain ⟨hx2, hc2, -, -, -⟩ := capture_ptr_extends _ _ hcp
      obtain ⟨hx3, -⟩ := ih .arrLoop _ _ hloop
      obtain ⟨hx4, hc4, -, -⟩ := test_and_skip_extends _ hts2
      obtain ⟨e1, e2, e3, e4, e5, e6⟩ :=
        capture_len_fields h6 ((g1.num_tokens : Int) - 1) h6.cur
      subst h9
      have hcle : h6.cur ≤ (capture_len h6 ((g1.num_tokens : Int) - 1) h6.cur).cur :=
        le_of_eq e2.symm
      refine ⟨extends_trans hx1 (extends_trans hx2 (extends_trans hx3
        (extends_trans hx4 ⟨e1, e3, e4, e6, hcle, le_of_eq e5.symm⟩))), fun _ => ?_⟩
      have hm3 := hx3.2.2.2.2.1
      omega
    | arrLoop =>
      rw [stepOf, stepArrLoop] at h
      by_cases hp : peeked f0 = some 93
      · rw [if_pos hp] at h
        have h9 : skip_whitespaces f0 = g := Except.ok.inj (Option.some.inj h)
        subst h9
        exact ⟨extends_skip f0, fun hh => absurd hh (by decide)⟩
      · rw [if_neg hp] at h
        obtain ⟨m, hval, htail⟩ := onOk_ok_inv h
        obtain ⟨hx1, -⟩ := ih .value _ _ hval
        obtain ⟨hx2, -⟩ := ih .arrTail _ _ htail
        exact ⟨extends_trans (extends_skip f0) (extends_trans hx1 hx2),
          fun hh => absurd hh (by decide)⟩
    | arrTail =>
      rw [stepOf, stepArrTail] at h
      by_cases hp : peeked f0 = some 44
      · rw [if_pos hp] at h
        obtain ⟨hx1, -⟩ := ih .arrLoop _ _ h
        refine ⟨extends_trans (extends_skip f0)
          (extends_trans (extends_addCur (skip_whitespaces f0) 1) hx1),
          fun hh => absurd hh (by decide)⟩
      · rw [if_neg hp] at h
        obtain ⟨hx1, -⟩ := ih .arrLoop _ _ h
        exact ⟨extends_trans (extends_skip f0) hx1, fun hh => absurd hh (by decide)⟩

/-! ### Input locality: the parser only reads the input from `cur` on,
and only compares the remaining length. -/

def setInput (f : Frozen) (I : List Nat) : Frozen := { f with input := I }

/-- Two inputs the parser cannot tell apart from state `f` on: same
length, same bytes from the cursor position. -/
def InputAgree (f : Frozen) (I' : List Nat) : Prop :=
  f.input.length = I'.length ∧ f.input.drop f.cur = I'.drop f.cur

theorem drop_mono_eq {I I' : List Nat} {c c' : Nat} (h : I.drop c = I'.drop c)
    (hc : c ≤ c') : I.drop c' = I'.drop c' := by
  have hsplit : c' = c + (c' - c) := by omega
  rw [hsplit, ← List.drop_drop, ← List.drop_drop, h]

theorem inputAgree_mono {f : Frozen} {I' : List Nat} (h : InputAgree f I')
    {c' : Nat} (hc : f.cur ≤ c') : f.input.drop c' = I'.drop c' :=
  drop_mono_eq h.2 hc

theorem get?_agree {f : Frozen} {I' : List Nat} (h : InputAgree f I')
    {c' : Nat} (hc : f.cur ≤ c') : I'.get? c' = f.input.get? c' := by
  have hd := inputAgree_mono h hc
  have h1 : f.input.get? c' = (f.input.drop c').get? 0 := by
    rw [List.get?_drop]
    simp
  have h2 : I'.get? c' = (I'.drop c').get? 0 := by
    rw [List.get?_drop]
    simp
  rw [h1, h2, hd]

theorem getD_agree {f : Frozen} {I' : List Nat} (h : InputAgree f I')
    {c' : Nat} (hc : f.cur ≤ c') (d : Nat) : I'.getD c' d = f.input.getD c' d := by
  rw [List.getD_eq_getD_get?, List.getD_eq_getD_get?, get?_agree h hc]

theorem skip_setInput {f : Frozen} {I' : List Nat} (h : InputAgree f I') :
    skip_whitespaces (setInput f I') = setInput (skip_whitespaces f) I' := by
  rw [skip_whitespaces, skip_whitespaces, setInput, setInput]
  simp only []
  rw [← h.2]

theorem inputAgree_skip {f : Frozen} {I' : List Nat} (h : InputAgree f I') :
    InputAgree (skip_whitespaces f) I' :=
  ⟨h.1, inputAgree_mono h (skip_cur_le f)⟩

theorem inputAgree_addCur {f : Frozen} {I' : List Nat} (h : InputAgree f I') (k : Nat) :
    InputAgree { f with cur := f.cur + k } I' :=
  ⟨h.1, inputAgree_mono h (Nat.le_add_right _ _)⟩

theorem peeked_setInput {f : Frozen} {I' : List Nat} (h : InputAgree f I') :
    peeked (setInput f I') = peeked f := by
  rw [peeked, peeked, skip_setInput h]
  exact get?_agree (inputAgree_skip h) (le_refl _)

theorem left_setInput {f : Frozen} {I' : List Nat} (h : InputAgree f I') :
    left (setInput f I') = left f := by
  rw [left, left, setInput]
  simp only []
  rw [h.1]

theorem compareStr_setInput {f : Frozen} {I' : List Nat} (h : InputAgree f I')
    (str : List Nat) : compareStr (setInput f I') str = compareStr f str := by
  rw [compareStr, compareStr, left_setInput h]
  have hd : (setInput f I').input.drop (setInput f I').cur = f.input.drop f.cur :=
    h.2.symm
  rw [hd]

theorem test_and_skip_setInput {f : Frozen} {I' : List Nat} (h : InputAgree f I')
    (e : Nat) :
    test_and_skip (setInput f I') e = (test_and_skip f e).map (fun g => setInput g I') := by
  have hpe : (skip_whitespaces (setInput f I')).input.get?
        (skip_whitespaces (setInput f I')).cur =
      (skip_whitespaces f).input.get? (skip_whitespaces f).cur := by
    rw [skip_setInput h]
    exact get?_agree (inputAgree_skip h) (le_refl _)
  cases hc : (skip_whitespaces f).input.get? (skip_whitespaces f).cur with
  | none =>
    rw [test_and_skip_none (hpe.trans hc), test_and_skip_none hc]
    rfl
  | some ch =>
    by_cases hce : ch = e
    · subst hce
      rw [test_and_skip_yes (hpe.trans hc), test_and_skip_yes hc, skip_setInput h]
      rfl
    · rw [test_and_skip_not (hpe.trans hc) hce, test_and_skip_not hc hce]
      rfl

theorem captureOff_setInput (f : Frozen) (I' : List Nat) :
    captureOff (setInput f I') = captureOff f := rfl

theorem capture_ptr_setInput (f : Frozen) (I' : List Nat) (p : Nat) (ty : JType) :
    capture_ptr (setInput f I') p ty = (capture_ptr f p ty).map (fun g => setInput g I') := by
  by_cases hoff : captureOff f = true
  · have hoffI : captureOff (setInput f I') = true := hoff
    rw [capture_ptr_off p ty hoffI, capture_ptr_off p ty hoff]
    rfl
  · have hoff2 : captureOff f = false := Bool.eq_false_iff.mpr hoff
    have hoffI : captureOff (setInput f I') = false := hoff2
    by_cases hfull : f.max_tokens ≤ f.num_tokens
    · have hfullI : (setInput f I').max_tokens ≤ (setInput f I').num_tokens := hfull
      rw [capture_ptr_full p ty hoffI hfullI, capture_ptr_full p ty hoff2 hfull]
      rfl
    · have hfullI : (setInput f I').num_tokens < (setInput f I').max_tokens := by
        have h1 : (setInput f I').num_tokens = f.num_tokens := rfl
        have h2 : (setInput f I').max_tokens = f.max_tokens := rfl
        omega
      rw [capture_ptr_yes p ty hoffI hfullI, capture_ptr_yes p ty hoff2 (by omega)]
      rfl

theorem capture_len_setInput (f : Frozen) (I' : List Nat) (idx : Int) (p : Nat) :
    capture_len (setInput f I') idx p = setInput (capture_len f idx p) I' := by
  by_cases hoff : captureOff f = true
  · have hoffI : captureOff (setInput f I') = true := hoff
    rw [capture_len_off idx p hoffI, capture_len_off idx p hoff]
  · have hoff2 : captureOff f = false := Bool.eq_false_iff.mpr hoff
    have hoffI : captureOff (setInput f I') = false := hoff2
    by_cases hin : 0 ≤ idx ∧ idx < (f.max_tokens : Int)
    · have hinI : 0 ≤ idx ∧ idx < ((setInput f I').max_tokens : Int) := hin
      rw [capture_len_in idx p hoffI hinI, capture_len_in idx p hoff2 hin]
      rfl
    · have hinI : ¬(0 ≤ idx ∧ idx < ((setInput f I').max_tokens : Int)) := hin
      rw [capture_len_out idx p hinI, capture_len_out idx p hin]

theorem inputAgree_extends {f g : Frozen} {I' : List Nat} (hx : Extends f g)
    (h : InputAgree f I') : InputAgree g I' := by
  refine ⟨?_, ?_⟩
  · rw [hx.1]
    exact h.1
  · rw [hx.1]
    exact inputAgree_mono h hx.2.2.2.2.1

theorem getD_map (X : PRes) (F : Frozen → Frozen) :
    (X.map (Except.map F)).getD (.error .incomplete) =
      ((X.getD (.error .incomplete)).map F : Except Jerr Frozen) := by
  cases X with
  | none => rfl
  | some r => cases r <;> rfl

theorem parse_string_loop_setInput :
    ∀ (fuel : Nat) (f : Frozen) (I' : List Nat), InputAgree f I' →
      parse_string_loop fuel (setInput f I') =
        (parse_string_loop fuel f).map (Except.map (fun g => setInput g I')) := by
  intro fuel
  induction fuel with
  | zero =>
    intro f I' h
    rfl
  | succ n ih =>
    intro f I' h
    rw [parse_string_loop, parse_string_loop]
    by_cases h1 : f.cur < f.input.length
    · have h1I : (setInput f I').cur < (setInput f I').input.length := by
        show f.cur < I'.length
        have e := h.1
        omega
      rw [if_pos h1I, if_pos h1]
      have hgd : (setInput f I').input.getD (setInput f I').cur 0 = f.input.getD f.cur 0 :=
        getD_agree h (le_refl _) 0
      rw [hgd]
      by_cases h2 : 32 ≤ f.input.getD f.cur 0 ∧ f.input.getD f.cur 0 ≤ 127
      · rw [if_pos h2, if_pos h2]
        by_cases h3 : f.input.getD f.cur 0 = 92
        · rw [if_pos h3, if_pos h3]
          have harg1 : (setInput f I').input.drop ((setInput f I').cur + 1) =
              f.input.drop (f.cur + 1) := (inputAgree_mono h (Nat.le_succ _)).symm
          have harg2 : left (setInput f I') = left f := left_setInput h
          rw [harg1, harg2]
          cases hesc : get_escape_len (f.input.drop (f.cur + 1)) (left f) with
          | error e => rfl
          | ok k => exact ih { f with cur := f.cur + k + 1 } I' (inputAgree_addCur h (k + 1))
        · rw [if_neg h3, if_neg h3]
          by_cases h4 : f.input.getD f.cur 0 = 34
          · rw [if_pos h4, if_pos h4]
            rw [capture_len_setInput]
            rfl
          · rw [if_neg h4, if_neg h4]
            exact ih { f with cur := f.cur + 1 } I' (inputAgree_addCur h 1)
      · rw [if_neg h2, if_neg h2]
        rfl
    · have h1I : ¬((setInput f I').cur < (setInput f I').input.length) := by
        show ¬(f.cur < I'.length)
        have e := h.1
        omega
      rw [if_neg h1I, if_neg h1]
      rfl

theorem parse_string_setInput {f : Frozen} {I' : List Nat} (h : InputAgree f I') :
    parse_string (setInput f I') = (parse_string f).map (fun g => setInput g I') := by
  rw [parse_string, parse_string, test_and_skip_setInput h 34]
  cases hts : test_and_skip f 34 with
  | error e => rfl
  | ok f1 =>
    have hx1 := (test_and_skip_extends 34 hts).1
    have hagree1 : InputAgree f1 I' := inputAgree_extends hx1 h
    simp only [Except.map]
    have hcpI : capture_ptr (setInput f1 I') (setInput f1 I').cur JType.STRING =
        (capture_ptr f1 f1.cur JType.STRING).map (fun g => setInput g I') :=
      capture_ptr_setInput f1 I' f1.cur JType.STRING
    rw [hcpI]
    cases hcp : capture_ptr f1 f1.cur JType.STRING with
    | error e => rfl
    | ok g1 =>
      have hx2 := (capture_ptr_extends _ _ hcp).1
      have hagree2 : InputAgree g1 I' := inputAgree_extends hx2 hagree1
      simp only [Except.map]
      have hlen : (setInput g1 I').input.length = g1.input.length := hagree2.1.symm
      rw [hlen]
      rw [show parse_string_loop (g1.input.length + 1) (setInput g1 I') =
          (parse_string_loop (g1.input.length + 1) g1).map
            (Except.map (fun g => setInput g I')) from
        parse_string_loop_setInput _ g1 I' hagree2]
      exact getD_map _ _

theorem identAfter_setInput {f : Frozen} {I' : List Nat} (h : InputAgree f I') :
    identAfter (setInput f I') = (identAfter f).map (fun g => setInput g I') := by
  rw [identAfter, identAfter]
  have hcpI : capture_ptr (setInput f I') (setInput f I').cur JType.STRING =
      (capture_ptr f f.cur JType.STRING).map (fun g => setInput g I') :=
    capture_ptr_setInput f I' f.cur JType.STRING
  rw [hcpI]
  cases hcp : capture_ptr f f.cur JType.STRING with
  | error e => rfl
  | ok g1 =>
    have hagree2 : InputAgree g1 I' :=
      inputAgree_extends (capture_ptr_extends _ _ hcp).1 h
    simp only [Except.map]
    have hrun : (setInput g1 I').input.drop (setInput g1 I').cur =
        g1.input.drop g1.cur := hagree2.2.symm
    rw [hrun]
    exact congrArg Except.ok (capture_len_setInput
      { g1 with cur := g1.cur + identRun (g1.input.drop g1.cur) } I'
      ((g1.num_tokens : Int) - 1) (g1.cur + identRun (g1.input.drop g1.cur)))

theorem parse_identifier_setInput {f : Frozen} {I' : List Nat} (h : InputAgree f I') :
    parse_identifier (setInput f I') = (parse_identifier f).map (fun g => setInput g I') := by
  rw [parse_identifier, parse_identifier, peeked_setInput h]
  cases hp : peeked f with
  | none => rfl
  | some c =>
    have hgoal : identDispatch (skip_whitespaces (setInput f I')) c =
        (identDispatch (skip_whitespaces f) c).map (fun g => setInput g I') := by
      rw [identDispatch, identDispatch]
      by_cases ha : is_alpha c = true
      · rw [if_pos ha, if_pos ha, skip_setInput h]
        exact identAfter_setInput (inputAgree_skip h)
      · rw [if_neg ha, if_neg ha]
        rfl
    exact hgoal

theorem parse_number_setInput {f : Frozen} {I' : List Nat} (h : InputAgree f I') :
    parse_number (setInput f I') = (parse_number f).map (fun g => setInput g I') := by
  rw [parse_number, parse_number]
  have hcpI : capture_ptr (skip_whitespaces (setInput f I'))
        (skip_whitespaces (setInput f I')).cur JType.NUMBER =
      (capture_ptr (skip_whitespaces f) (skip_whitespaces f).cur JType.NUMBER).map
        (fun g => setInput g I') := by
    rw [skip_setInput h]
    exact capture_ptr_setInput (skip_whitespaces f) I' _ _
  rw [hcpI]
  cases hcp : capture_ptr (skip_whitespaces f) (skip_whitespaces f).cur JType.NUMBER with
  | error e => rfl
  | ok g1 =>
    have hagree2 : InputAgree g1 I' :=
      inputAgree_extends (capture_ptr_extends _ _ hcp).1 (inputAgree_skip h)
    simp only [Except.map]
    rw [peeked_setInput h]
    by_cases hm : peeked f = some 45
    · rw [if_pos hm, if_pos hm]
      have hrun : (setInput g1 I').input.drop ((setInput g1 I').cur + 1) =
          g1.input.drop (g1.cur + 1) :=
        (inputAgree_mono hagree2 (Nat.le_succ _)).symm
      rw [hrun]
      exact congrArg Except.ok (capture_len_setInput
        { g1 with cur := g1.cur + 1 + digitRun (g1.input.drop (g1.cur + 1)) } I'
        ((g1.num_tokens : Int) - 1) (g1.cur + 1 + digitRun (g1.input.drop (g1.cur + 1))))
    · rw [if_neg hm, if_neg hm]
      have hrun : (setInput g1 I').input.drop (setInput g1 I').cur =
          g1.input.drop g1.cur := hagree2.2.symm
      rw [hrun]
      exact congrArg Except.ok (capture_len_setInput
        { g1 with cur := g1.cur + digitRun (g1.input.drop g1.cur) } I'
        ((g1.num_tokens : Int) - 1) (g1.cur + digitRun (g1.input.drop g1.cur)))

theorem capture_literal_setInput {f : Frozen} {I' : List Nat} (h : InputAgree f I')
    (ty : JType) (n : Nat) :
    capture_literal (setInput f I') ty n = (capture_literal f ty n).map (fun g => setInput g I') := by
  rw [capture_literal, capture_literal]
  have hcpI : capture_ptr (setInput f I') (setInput f I').cur ty =
      (capture_ptr f f.cur ty).map (fun g => setInput g I') :=
    capture_ptr_setInput f I' f.cur ty
  rw [hcpI]
  cases hcp : capture_ptr f f.cur ty with
  | error e => rfl
  | ok g1 =>
    simp only [Except.map]
    exact congrArg Except.ok (capture_len_setInput
      { g1 with cur := g1.cur + n } I' ((g1.num_tokens : Int) - 1) (g1.cur + n))

theorem exOk_map_comm {r : Except Jerr Frozen} {F : Frozen → Frozen} {k k' : Frozen → PRes}
    (hk : ∀ m, r = .ok m → k' (F m) = (k m).map (Except.map F)) :
    exOk (r.map F) k' = (exOk r k).map (Except.map F) := by
  cases r with
  | error e => rfl
  | ok m => exact hk m rfl

theorem onOk_map_comm {r : PRes} {F : Frozen → Frozen} {k k' : Frozen → PRes}
    (hk : ∀ m, r = some (.ok m) → k' (F m) = (k m).map (Except.map F)) :
    onOk (r.map (Except.map F)) k' = (onOk r k).map (Except.map F) := by
  cases r with
  | none => rfl
  | some x =>
    cases x with
    | error e => rfl
    | ok m => exact hk m rfl

theorem compositeClose_setInput {m2 : Frozen} {I' : List Nat} (h : InputAgree m2 I')
    (closer : Nat) (ind : Int) :
    compositeClose closer ind (setInput m2 I') =
      (compositeClose closer ind m2).map (Except.map (fun g => setInput g I')) := by
  rw [compositeClose, compositeClose, test_and_skip_setInput h closer]
  refine exOk_map_comm ?_
  intro m hts
  rw [capture_len_setInput]
  rfl

theorem valueDispatch_setInput {next : Next} {f : Frozen} {I' : List Nat}
    (h : InputAgree f I')
    (hnext : ∀ r f', InputAgree f' I' →
      next r (setInput f' I') = (next r f').map (Except.map (fun g => setInput g I')))
    (c : Nat) :
    valueDispatch next (setInput f I') c =
      (valueDispatch next f c).map (Except.map (fun g => setInput g I')) := by
  rw [valueDispatch, valueDispatch]
  have hcmp1 : compareStr (setInput f I') nullBytes = compareStr f nullBytes :=
    compareStr_setInput h _
  have hcmp2 : compareStr (setInput f I') trueBytes = compareStr f trueBytes :=
    compareStr_setInput h _
  have hcmp3 : compareStr (setInput f I') falseBytes = compareStr f falseBytes :=
    compareStr_setInput h _
  have hiff : ((setInput f I').cur + 1 < (setInput f I').input.length) ↔
      (f.cur + 1 < f.input.length) := by
    show f.cur + 1 < I'.length ↔ _
    rw [h.1]
  have hdec : decide ((setInput f I').cur + 1 < (setInput f I').input.length) =
      decide (f.cur + 1 < f.input.length) := decide_eq_decide.mpr hiff
  have hgd : (setInput f I').input.getD ((setInput f I').cur + 1) 0 =
      f.input.getD (f.cur + 1) 0 := getD_agree h (Nat.le_succ _) 0
  rw [hcmp1, hcmp2, hcmp3, hdec, hgd]
  by_cases h34 : (c == 34) = true
  · rw [if_pos h34, if_pos h34, parse_string_setInput h]
    rfl
  · rw [if_neg h34, if_neg h34]
    by_cases h123 : (c == 123) = true
    · rw [if_pos h123, if_pos h123]
      exact hnext .object f h
    · rw [if_neg h123, if_neg h123]
      by_cases h91 : (c == 91) = true
      · rw [if_pos h91, if_pos h91]
        exact hnext .array f h
      · rw [if_neg h91, if_neg h91]
        by_cases hn : (c == 110 && compareStr f nullBytes) = true
        · rw [if_pos hn, if_pos hn, capture_literal_setInput h]
          rfl
        · rw [if_neg hn, if_neg hn]
          by_cases ht : (c == 116 && compareStr f trueBytes) = true
          · rw [if_pos ht, if_pos ht, capture_literal_setInput h]
            rfl
          · rw [if_neg ht, if_neg ht]
            by_cases hf : (c == 102 && compareStr f falseBytes) = true
            · rw [if_pos hf, if_pos hf, capture_literal_setInput h]
              rfl
            · rw [if_neg hf, if_neg hf]
              by_cases hd : (is_digit c || (c == 45 && decide (f.cur + 1 < f.input.length) &&
                  is_digit (f.input.getD (f.cur + 1) 0))) = true
              · rw [if_pos hd, if_pos hd, parse_number_setInput h]
                rfl
              · rw [if_neg hd, if_neg hd]
                rfl

theorem keyDispatch_setInput {f : Frozen} {I' : List Nat} (h : InputAgree f I') (c : Nat) :
    keyDispatch (setInput f I') c =
      (keyDispatch f c).map (Except.map (fun g => setInput g I')) := by
  rw [keyDispatch, keyDispatch]
  by_cases ha : is_alpha c = true
  · rw [if_pos ha, if_pos ha, parse_identifier_setInput h]
    rfl
  · rw [if_neg ha, if_neg ha]
    by_cases h34 : (c == 34) = true
    · rw [if_pos h34, if_pos h34, parse_string_setInput h]
      rfl
    · rw [if_neg h34, if_neg h34]
      rfl

/-- Input locality: the run only depends on the bytes from the cursor on
and the remaining length, so replacing the input by one that agrees there
just re-labels the states in the result. -/
theorem parseRun_setInput :
    ∀ (fuel : Nat) (rule : Rule) (f : Frozen) (I' : List Nat), InputAgree f I' →
      parseRun fuel rule (setInput f I') =
        (parseRun fuel rule f).map (Except.map (fun g => setInput g I')) := by
  intro fuel
  induction fuel with
  | zero =>
    intro rule f I' h
    rfl
  | succ n ih =>
    intro rule f I' h
    rw [parseRun_succ, parseRun_succ]
    cases rule with
    | value =>
      rw [stepOf, stepValue, stepValue, onPeek, onPeek, peeked_setInput h]
      cases hp : peeked f with
      | none => rfl
      | some c =>
        rw [skip_setInput h]
        exact valueDispatch_setInput (inputAgree_skip h)
          (fun r f' hf' => ih r f' I' hf') c
    | object =>
      rw [stepOf, stepObject, stepObject, test_and_skip_setInput h 123]
      refine exOk_map_comm ?_
      intro m hts
      have hagree1 : InputAgree m I' :=
        inputAgree_extends (test_and_skip_extends _ hts).1 h
      have hcpI : capture_ptr (setInput m I') ((setInput m I').cur - 1) JType.OBJECT =
          (capture_ptr m (m.cur - 1) JType.OBJECT).map (fun g => setInput g I') :=
        capture_ptr_setInput m I' (m.cur - 1) JType.OBJECT
      rw [hcpI]
      refine exOk_map_comm ?_
      intro g1 hcp
      have hagree2 : InputAgree g1 I' :=
        inputAgree_extends (capture_ptr_extends _ _ hcp).1 hagree1
      rw [ih .objLoop g1 I' hagree2]
      refine onOk_map_comm ?_
      intro m2 hloop
      have hagree3 : InputAgree m2 I' :=
        inputAgree_extends (parseRun_extends n .objLoop _ _ hloop).1 hagree2
      exact compositeClose_setInput hagree3 125 _
    | objLoop =>
      rw [stepOf, stepObjLoop, stepObjLoop, peeked_setInput h]
      by_cases hp : peeked f = some 125
      · rw [if_pos hp, if_pos hp, skip_setInput h]
        rfl
      · rw [if_neg hp, if_neg hp, skip_setInput h, ih .pair _ I' (inputAgree_skip h)]
        refine onOk_map_comm ?_
        intro m hpair
        have hagree1 : InputAgree m I' :=
          inputAgree_extends (parseRun_extends n .pair _ _ hpair).1 (inputAgree_skip h)
        exact ih .objTail m I' hagree1
    | objTail =>
      rw [stepOf, stepObjTail, stepObjTail, peeked_setInput h]
      by_cases hp : peeked f = some 44
      · rw [if_pos hp, if_pos hp, skip_setInput h]
        exact ih .objLoop { skip_whitespaces f with cur := (skip_whitespaces f).cur + 1 } I'
          (inputAgree_addCur (inputAgree_skip h) 1)
      · rw [if_neg hp, if_neg hp, skip_setInput h]
        exact ih .objLoop (skip_whitespaces f) I' (inputAgree_skip h)
    | pair =>
      rw [stepOf, stepPair, stepPair, ih .key f I' h]
      refine onOk_map_comm ?_
      intro m hkey
      have hagree1 : InputAgree m I' :=
        inputAgree_extends (parseRun_extends n .key _ _ hkey).1 h
      rw [test_and_skip_setInput hagree1 58]
      refine exOk_map_comm ?_
      intro m2 hts
      have hagree2 : InputAgree m2 I' :=
        inputAgree_extends (test_and_skip_extends _ hts).1 hagree1
      exact ih .value m2 I' hagree2
    | key =>
      have hl : stepOf Rule.key (parseRun n) (setInput f I') = stepKey (setInput f I') := rfl
      have hr : stepOf Rule.key (parseRun n) f = stepKey f := rfl
      rw [hl, hr, stepKey, stepKey, onPeek, onPeek, peeked_setInput h]
      cases hp : peeked f with
      | none => rfl
      | some c =>
        rw [skip_setInput h]
        exact keyDispatch_setInput (inputAgree_skip h) c
    | array =>
      rw [stepOf, stepArray, stepArray, test_and_skip_setInput h 91]
      refine exOk_map_comm ?_
      intro m hts
      have hagree1 : InputAgree m I' :=
        inputAgree_extends (test_and_skip_extends _ hts).1 h
      have hcpI : capture_ptr (setInput m I') ((setInput m I').cur - 1) JType.ARRAY =
          (capture_ptr m (m.cur - 1) JType.ARRAY).map (fun g => setInput g I') :=
        capture_ptr_setInput m I' (m.cur - 1) JType.ARRAY
      rw [hcpI]
      refine exOk_map_comm ?_
      intro g1 hcp
      have hagree2 : InputAgree g1 I' :=
        inputAgree_extends (capture_ptr_extends _ _ hcp).1 hagree1
      rw [ih .arrLoop g1 I' hagree2]
      refine onOk_map_comm ?_
      intro m2 hloop
      have hagree3 : InputAgree m2 I' :=
        inputAgree_extends (parseRun_extends n .arrLoop _ _ hloop).1 hagree2
      exact compositeClose_setInput hagree3 93 _
    | arrLoop =>
      rw [stepOf, stepArrLoop, stepArrLoop, peeked_setInput h]
      by_cases hp : peeked f = some 93
      · rw [if_pos hp, if_pos hp, skip_setInput h]
        rfl
      · rw [if_neg hp, if_neg hp, skip_setInput h, ih .value _ I' (inputAgree_skip h)]
        refine onOk_map_comm ?_
        intro m hval
        have hagree1 : InputAgree m I' :=
          inputAgree_extends (parseRun_extends n .value _ _ hval).1 (inputAgree_skip h)
        exact ih .arrTail m I' hagree1
    | arrTail =>
      rw [stepOf, stepArrTail, stepArrTail, peeked_setInput h]
      by_cases hp : peeked f = some 44
      · rw [if_pos hp, if_pos hp, skip_setInput h]
        exact ih .arrLoop { skip_whitespaces f with cur := (skip_whitespaces f).cur + 1 } I'
          (inputAgree_addCur (inputAgree_skip h) 1)
      · rw [if_neg hp, if_neg hp, skip_setInput h]
        exact ih .arrLoop (skip_whitespaces f) I' (inputAgree_skip h)

/-! ### Comma optionality (claim C6): auxiliary list facts -/

theorem skipLen_after (l : List Nat) : skipLen (l.drop (skipLen l)) = 0 := by
  induction l with
  | nil => rfl
  | cons c r ih =>
    by_cases hs : is_space c = true
    · rw [skipLen, if_pos hs]
      simpa using ih
    · rw [skipLen, if_neg hs]
      rw [List.drop_zero, skipLen, if_neg hs]

theorem skip_idem (f : Frozen) : skip_whitespaces (skip_whitespaces f) = skip_whitespaces f := by
  cases f with
  | mk input cur tn tk mx nm =>
    simp only [skip_whitespaces]
    have h1 : input.drop (cur + skipLen (input.drop cur)) =
        (input.drop cur).drop (skipLen (input.drop cur)) := (List.drop_drop _ _ _).symm
    rw [h1, skipLen_after]
    rfl

theorem peeked_skip (f : Frozen) : peeked (skip_whitespaces f) = peeked f := by
  rw [peeked, peeked, skip_idem]

theorem arrLoop_skip (fuel : Nat) (f : Frozen) :
    parseRun fuel .arrLoop (skip_whitespaces f) = parseRun fuel .arrLoop f := by
  cases fuel with
  | zero => rfl
  | succ n =>
    rw [parseRun_succ, parseRun_succ, stepOf, stepArrLoop, stepArrLoop, peeked_skip, skip_idem]

theorem objLoop_skip (fuel : Nat) (f : Frozen) :
    parseRun fuel .objLoop (skip_whitespaces f) = parseRun fuel .objLoop f := by
  cases fuel with
  | zero => rfl
  | succ n =>
    rw [parseRun_succ, parseRun_succ, stepOf, stepObjLoop, stepObjLoop, peeked_skip, skip_idem]

/-- Replacing the byte at the stopping point of a whitespace scan by a
space (32) lets the scan run on across it. -/
theorem skipLen_set32 (l : List Nat) (c : Nat) (hc : l.get? (skipLen l) = some c) :
    skipLen (l.set (skipLen l) 32) = skipLen l + 1 + skipLen (l.drop (skipLen l + 1)) := by
  induction l with
  | nil => cases hc
  | cons a r ih =>
    by_cases hs : is_space a = true
    · have hsk : skipLen (a :: r) = skipLen r + 1 := by rw [skipLen, if_pos hs]
      rw [hsk] at hc ⊢
      have hc2 : r.get? (skipLen r) = some c := hc
      have hset : (a :: r).set (skipLen r + 1) 32 = a :: r.set (skipLen r) 32 := rfl
      rw [hset, skipLen, if_pos hs, ih hc2]
      have hdrop : (a :: r).drop (skipLen r + 1 + 1) = r.drop (skipLen r + 1) := rfl
      rw [hdrop]
      omega
    · have hsk : skipLen (a :: r) = 0 := by rw [skipLen, if_neg hs]
      rw [hsk] at hc ⊢
      have hset : (a :: r).set 0 32 = 32 :: r := rfl
      rw [hset, skipLen]
      have h32 : is_space 32 = true := rfl
      rw [if_pos h32, List.drop_one]
      simp
      omega

theorem drop_set_le (x : Nat) :
    ∀ (l : List Nat) (n p : Nat), n ≤ p → (l.set p x).drop n = (l.drop n).set (p - n) x := by
  intro l
  induction l with
  | nil =>
    intro n p _
    simp
  | cons a r ih =>
    intro n p hnp
    cases n with
    | zero => simp
    | succ m =>
      cases p with
      | zero => omega
      | succ q =>
        have h1 : ((a :: r).set (q + 1) x).drop (m + 1) = (r.set q x).drop m := rfl
        have h2 : (a :: r).drop (m + 1) = r.drop m := rfl
        rw [h1, h2, ih m q (by omega)]
        have h3 : q + 1 - (m + 1) = q - m := by omega
        rw [h3]

theorem drop_set_gt (x : Nat) :
    ∀ (l : List Nat) (n p : Nat), p < n → (l.set p x).drop n = l.drop n := by
  intro l
  induction l with
  | nil =>
    intro n p _
    simp
  | cons a r ih =>
    intro n p hpn
    cases n with
    | zero => omega
    | succ m =>
      cases p with
      | zero => rfl
      | succ q =>
        have h1 : ((a :: r).set (q + 1) x).drop (m + 1) = (r.set q x).drop m := rfl
        have h2 : (a :: r).drop (m + 1) = r.drop m := rfl
        rw [h1, h2, ih m q (by omega)]

theorem get?_eq_of_drop_eq {l l' : List Nat} {q : Nat} (h : l.drop q = l'.drop q) :
    l.get? q = l'.get? q := by
  have h1 : l.get? q = (l.drop q).get? 0 := by
    rw [List.get?_drop]
    simp
  have h2 : l'.get? q = (l'.drop q).get? 0 := by
    rw [List.get?_drop]
    simp
  rw [h1, h2, h]

theorem frozen_ext {f g : Frozen} (h1 : f.input = g.input) (h2 : f.cur = g.cur)
    (h3 : f.tokensNull = g.tokensNull) (h4 : f.tokens = g.tokens)
    (h5 : f.max_tokens = g.max_tokens) (h6 : f.num_tokens = g.num_tokens) : f = g := by
  cases f with
  | mk a b c d e j =>
    cases g with
    | mk a2 b2 c2 d2 e2 j2 =>
      have e1 : a = a2 := h1
      have e2x : b = b2 := h2
      have e3 : c = c2 := h3
      have e4 : d = d2 := h4
      have e5 : e = e2 := h5
      have e6 : j = j2 := h6
      subst e1
      subst e2x
      subst e3
      subst e4
      subst e5
      subst e6
      rfl

/-- The whitespace skip over the comma-replaced input runs past the old
comma position and stops where a skip from just after the comma stops. -/
theorem skip_set32_cur (f0 : Frozen) (hp : peeked f0 = some 44) :
    skip_whitespaces (setInput f0 (f0.input.set (skip_whitespaces f0).cur 32)) =
      setInput
        (skip_whitespaces { skip_whitespaces f0 with cur := (skip_whitespaces f0).cur + 1 })
        (f0.input.set (skip_whitespaces f0).cur 32) := by
  have hpk : (f0.input.drop f0.cur).get? (skipLen (f0.input.drop f0.cur)) = some 44 := by
    have hp2 : f0.input.get? (f0.cur + skipLen (f0.input.drop f0.cur)) = some 44 := hp
    rw [List.get?_drop]
    exact hp2
  have hdropset : (f0.input.set (skip_whitespaces f0).cur 32).drop f0.cur =
      (f0.input.drop f0.cur).set (skipLen (f0.input.drop f0.cur)) 32 := by
    have h1 := drop_set_le 32 f0.input f0.cur (f0.cur + skipLen (f0.input.drop f0.cur))
      (Nat.le_add_right _ _)
    have h2 : f0.cur + skipLen (f0.input.drop f0.cur) - f0.cur =
        skipLen (f0.input.drop f0.cur) := by omega
    rw [h2] at h1
    exact h1
  have hsk32 : skipLen ((f0.input.set (skip_whitespaces f0).cur 32).drop f0.cur) =
      skipLen (f0.input.drop f0.cur) + 1 +
        skipLen (f0.input.drop (f0.cur + (skipLen (f0.input.drop f0.cur) + 1))) := by
    rw [hdropset, skipLen_set32 _ 44 hpk]
    have h3 : (f0.input.drop f0.cur).drop (skipLen (f0.input.drop f0.cur) + 1) =
        f0.input.drop (f0.cur + (skipLen (f0.input.drop f0.cur) + 1)) :=
      List.drop_drop _ _ _
    rw [h3]
  have hc2 : (skip_whitespaces f0).cur = f0.cur + skipLen (f0.input.drop f0.cur) := rfl
  have hcur : f0.cur + skipLen ((f0.input.set (skip_whitespaces f0).cur 32).drop f0.cur) =
      ((skip_whitespaces f0).cur + 1) +
        skipLen (f0.input.drop ((skip_whitespaces f0).cur + 1)) := by
    rw [hc2] at hsk32
    rw [hc2]
    have hidx : f0.cur + skipLen (f0.input.drop f0.cur) + 1 =
        f0.cur + (skipLen (f0.input.drop f0.cur) + 1) := by omega
    rw [hidx]
    omega
  refine frozen_ext rfl ?_ rfl rfl rfl rfl
  exact hcur

theorem comma_space_arrTail (fuel : Nat) (f0 : Frozen)
    (hp : peeked f0 = some 44)
    (hq : peeked { skip_whitespaces f0 with cur := (skip_whitespaces f0).cur + 1 } ≠ some 44) :
    parseRun (fuel + 1) .arrTail (setInput f0 (f0.input.set (skip_whitespaces f0).cur 32)) =
      (parseRun (fuel + 1) .arrTail f0).map
        (Except.map (fun g => setInput g (f0.input.set (skip_whitespaces f0).cur 32))) := by
  have hgt : (skip_whitespaces f0).cur <
      (skip_whitespaces { skip_whitespaces f0 with cur := (skip_whitespaces f0).cur + 1 }).cur := by
    have h2 : (skip_whitespaces f0).cur + 1 ≤
        (skip_whitespaces { skip_whitespaces f0 with cur := (skip_whitespaces f0).cur + 1 }).cur :=
      skip_cur_le { skip_whitespaces f0 with cur := (skip_whitespaces f0).cur + 1 }
    omega
  have hdq : (f0.input.set (skip_whitespaces f0).cur 32).drop
        (skip_whitespaces { skip_whitespaces f0 with cur := (skip_whitespaces f0).cur + 1 }).cur =
      f0.input.drop
        (skip_whitespaces { skip_whitespaces f0 with cur := (skip_whitespaces f0).cur + 1 }).cur :=
    drop_set_gt 32 f0.input _ _ hgt
  have hpeekI : peeked (setInput f0 (f0.input.set (skip_whitespaces f0).cur 32)) =
      peeked { skip_whitespaces f0 with cur := (skip_whitespaces f0).cur + 1 } := by
    rw [peeked, skip_set32_cur f0 hp]
    exact get?_eq_of_drop_eq hdq
  have hagree : InputAgree
      (skip_whitespaces { skip_whitespaces f0 with cur := (skip_whitespaces f0).cur + 1 })
      (f0.input.set (skip_whitespaces f0).cur 32) := by
    refine ⟨?_, hdq.symm⟩
    rw [List.length_set]
    rfl
  rw [parseRun_succ, parseRun_succ, stepOf, stepArrTail, stepArrTail, hpeekI, if_neg hq,
    if_pos hp, skip_set32_cur f0 hp,
    parseRun_setInput fuel .arrLoop _ _ hagree, arrLoop_skip]

theorem comma_space_objTail (fuel : Nat) (f0 : Frozen)
    (hp : peeked f0 = some 44)
    (hq : peeked { skip_whitespaces f0 with cur := (skip_whitespaces f0).cur + 1 } ≠ some 44) :
    parseRun (fuel + 1) .objTail (setInput f0 (f0.input.set (skip_whitespaces f0).cur 32)) =
      (parseRun (fuel + 1) .objTail f0).map
        (Except.map (fun g => setInput g (f0.input.set (skip_whitespaces f0).cur 32))) := by
  have hgt : (skip_whitespaces f0).cur <
      (skip_whitespaces { skip_whitespaces f0 with cur := (skip_whitespaces f0).cur + 1 }).cur := by
    have h2 : (skip_whitespaces f0).cur + 1 ≤
        (skip_whitespaces { skip_whitespaces f0 with cur := (skip_whitespaces f0).cur + 1 }).cur :=
      skip_cur_le { skip_whitespaces f0 with cur := (skip_whitespaces f0).cur + 1 }
    omega
  have hdq : (f0.input.set (skip_whitespaces f0).cur 32).drop
        (skip_whitespaces { skip_whitespaces f0 with cur := (skip_whitespaces f0).cur + 1 }).cur =
      f0.input.drop
        (skip_whitespaces { skip_whitespaces f0 with cur := (skip_whitespaces f0).cur + 1 }).cur :=
    drop_set_gt 32 f0.input _ _ hgt
  have hpeekI : peeked (setInput f0 (f0.input.set (skip_whitespaces f0).cur 32)) =
      peeked { skip_whitespaces f0 with cur := (skip_whitespaces f0).cur + 1 } := by
    rw [peeked, skip_set32_cur f0 hp]
    exact get?_eq_of_drop_eq hdq
  have hagree : InputAgree
      (skip_whitespaces { skip_whitespaces f0 with cur := (skip_whitespaces f0).cur + 1 })
      (f0.input.set (skip_whitespaces f0).cur 32) := by
    refine ⟨?_, hdq.symm⟩
    rw [List.length_set]
    rfl
  rw [parseRun_succ, parseRun_succ, stepOf, stepObjTail, stepObjTail, hpeekI, if_neg hq,
    if_pos hp, skip_set32_cur f0 hp,
    parseRun_setInput fuel .objLoop _ _ hagree, objLoop_skip]

/-- `{a:[1,2]}` and `{a:[1 2]}`. -/
def exArrComma : List Nat := [123, 97, 58, 91, 49, 44, 50, 93, 125]

def exArrSpace : List Nat := [123, 97, 58, 91, 49, 32, 50, 93, 125]

/-- A state of the array loop of `{a:[1,2]}` just after the element `1`
(cursor on the comma). -/
def c6TailState : Frozen :=
  ⟨exArrComma, 5, false, List.replicate 8 uninitTok, 8, 4⟩

/-- Claim C6: the comma between two elements is optional. At the point of
the array (resp. object) loop that consumes a separating comma, if the
next significant byte is a comma and the significant byte after it is not
another comma, then replacing the comma by a space (which is how the
claim's example `[1 2]` vs `[1,2]` omits it) gives a run with the same
result, the same cursor positions and the same recorded tokens (only the
input field of the states differs). In particular parsing `{a:[1,2]}` and
`{a:[1 2]}` returns the same consumed length and identical token arrays. -/
theorem c6_comma_optional :
    (∀ (fuel : Nat) (f0 : Frozen), peeked f0 = some 44 →
      peeked { skip_whitespaces f0 with cur := (skip_whitespaces f0).cur + 1 } ≠ some 44 →
      parseRun (fuel + 1) .arrTail (setInput f0 (f0.input.set (skip_whitespaces f0).cur 32)) =
        (parseRun (fuel + 1) .arrTail f0).map
          (Except.map (fun g => setInput g (f0.input.set (skip_whitespaces f0).cur 32)))) ∧
    (∀ (fuel : Nat) (f0 : Frozen), peeked f0 = some 44 →
      peeked { skip_whitespaces f0 with cur := (skip_whitespaces f0).cur + 1 } ≠ some 44 →
      parseRun (fuel + 1) .objTail (setInput f0 (f0.input.set (skip_whitespaces f0).cur 32)) =
        (parseRun (fuel + 1) .objTail f0).map
          (Except.map (fun g => setInput g (f0.input.set (skip_whitespaces f0).cur 32)))) ∧
    (parse_bytes exArrComma 8).map
        (Except.map (fun h1 => (h1.cur, h1.num_tokens, h1.tokens))) =
      (parse_bytes exArrSpace 8).map
        (Except.map (fun h1 => (h1.cur, h1.num_tokens, h1.tokens))) :=
  ⟨fun fuel f0 hp hq => comma_space_arrTail fuel f0 hp hq,
   fun fuel f0 hp hq => comma_space_objTail fuel f0 hp hq,
   by decide⟩

/-- Witness for C6 at a concrete loop state of `{a:[1,2]}`. -/
theorem c6_comma_optional_witness :
    parseRun (19 + 1) .arrTail
        (setInput c6TailState (c6TailState.input.set (skip_whitespaces c6TailState).cur 32)) =
      (parseRun (19 + 1) .arrTail c6TailState).map
        (Except.map (fun g =>
          setInput g (c6TailState.input.set (skip_whitespaces c6TailState).cur 32))) :=
  c6_comma_optional.1 19 c6TailState (by decide) (by decide)

/-! ### Validation-only mode (claim C5): a capture-disabled run mirrors an
enabled run, only tracking the cursor. -/

/-- The capture-disabled shadow of a state: same buffer configuration as
`d`, cursor taken from the mirrored enabled state. -/
def sync (d g : Frozen) : Frozen := { d with cur := g.cur }

theorem sync_self (d : Frozen) : sync d d = d := rfl

theorem sync_cur_eq (d : Frozen) {x y : Frozen} (h : x.cur = y.cur) : sync d x = sync d y := by
  rw [sync, sync, h]

theorem captureOff_sync (d m : Frozen) : captureOff (sync d m) = captureOff d := rfl

theorem skip_sync {d m : Frozen} (hin : d.input = m.input) :
    skip_whitespaces (sync d m) = sync d (skip_whitespaces m) := by
  refine frozen_ext rfl ?_ rfl rfl rfl rfl
  show m.cur + skipLen (d.input.drop m.cur) = (skip_whitespaces m).cur
  rw [hin]
  rfl

theorem peeked_sync {d m : Frozen} (hin : d.input = m.input) :
    peeked (sync d m) = peeked m := by
  rw [peeked, peeked, skip_sync hin]
  show d.input.get? (skip_whitespaces m).cur = _
  rw [hin]
  rfl

theorem left_sync {d m : Frozen} (hin : d.input = m.input) :
    left (sync d m) = left m := by
  rw [left, left]
  show (d.input.length : Int) - (m.cur : Int) = _
  rw [hin]

theorem compareStr_sync {d m : Frozen} (hin : d.input = m.input) (str : List Nat) :
    compareStr (sync d m) str = compareStr m str := by
  rw [compareStr, compareStr, left_sync hin]
  have hd : (sync d m).input.drop (sync d m).cur = m.input.drop m.cur := by
    show d.input.drop m.cur = _
    rw [hin]
  rw [hd]

theorem test_and_skip_sync {d m : Frozen} (hin : d.input = m.input) (e : Nat) :
    test_and_skip (sync d m) e = (test_and_skip m e).map (sync d) := by
  have hpe : (skip_whitespaces (sync d m)).input.get? (skip_whitespaces (sync d m)).cur =
      (skip_whitespaces m).input.get? (skip_whitespaces m).cur := by
    rw [skip_sync hin]
    show d.input.get? (skip_whitespaces m).cur = _
    rw [hin]
    rfl
  cases hc : (skip_whitespaces m).input.get? (skip_whitespaces m).cur with
  | none =>
    rw [test_and_skip_none (hpe.trans hc), test_and_skip_none hc]
    rfl
  | some ch =>
    by_cases hce : ch = e
    · subst hce
      rw [test_and_skip_yes (hpe.trans hc), test_and_skip_yes hc, skip_sync hin]
      rfl
    · rw [test_and_skip_not (hpe.trans hc) hce, test_and_skip_not hc hce]
      rfl

theorem capture_ptr_error_inv {f : Frozen} {p : Nat} {ty : JType} {e : Jerr}
    (h : capture_ptr f p ty = .error e) : e = .tooSmall := by
  rw [capture_ptr] at h
  split at h
  · cases h
  split at h
  · cases h
    rfl
  · cases h

theorem parse_string_loop_sync (d : Frozen) (hoff : captureOff d = true) :
    ∀ (fuel : Nat) (m : Frozen), d.input = m.input →
      parse_string_loop fuel (sync d m) =
        (parse_string_loop fuel m).map (Except.map (sync d)) := by
  intro fuel
  induction fuel with
  | zero =>
    intro m hin
    rfl
  | succ n ih =>
    intro m hin
    rw [parse_string_loop, parse_string_loop]
    by_cases h1 : m.cur < m.input.length
    · have h1I : (sync d m).cur < (sync d m).input.length := by
        show m.cur < d.input.length
        rw [hin]
        exact h1
      rw [if_pos h1I, if_pos h1]
      have hgd : (sync d m).input.getD (sync d m).cur 0 = m.input.getD m.cur 0 := by
        show d.input.getD m.cur 0 = _
        rw [hin]
      rw [hgd]
      by_cases h2 : 32 ≤ m.input.getD m.cur 0 ∧ m.input.getD m.cur 0 ≤ 127
      · rw [if_pos h2, if_pos h2]
        by_cases h3 : m.input.getD m.cur 0 = 92
        · rw [if_pos h3, if_pos h3]
          have harg1 : (sync d m).input.drop ((sync d m).cur + 1) =
              m.input.drop (m.cur + 1) := by
            show d.input.drop (m.cur + 1) = _
            rw [hin]
          have harg2 : left (sync d m) = left m := left_sync hin
          rw [harg1, harg2]
          cases hesc : get_escape_len (m.input.drop (m.cur + 1)) (left m) with
          | error e => rfl
          | ok k => exact ih { m with cur := m.cur + k + 1 } hin
        · rw [if_neg h3, if_neg h3]
          by_cases h4 : m.input.getD m.cur 0 = 34
          · rw [if_pos h4, if_pos h4]
            have hoffI : captureOff (sync d m) = true := hoff
            rw [capture_len_off _ _ hoffI]
            cases hoffm : captureOff m with
            | true =>
              rw [capture_len_off _ _ hoffm]
              rfl
            | false =>
              obtain ⟨e1, e2, e3, e4, e5, e6⟩ :=
                capture_len_fields m ((m.num_tokens : Int) - 1) m.cur
              refine congrArg some (congrArg Except.ok (frozen_ext rfl rfl rfl rfl rfl rfl))
          · rw [if_neg h4, if_neg h4]
            exact ih { m with cur := m.cur + 1 } hin
      · rw [if_neg h2, if_neg h2]
        rfl
    · have h1I : ¬((sync d m).cur < (sync d m).input.length) := by
        show ¬(m.cur < d.input.length)
        rw [hin]
        exact h1
      rw [if_neg h1I, if_neg h1]
      rfl

theorem capture_ptr_cur_input {f g : Frozen} {p : Nat} {ty : JType}
    (h : capture_ptr f p ty = .ok g) : g.cur = f.cur ∧ g.input = f.input := by
  rcases capture_ptr_ok_inv h with ⟨h1, h2⟩ | ⟨h1, h2, h3⟩
  · subst h2
    exact ⟨rfl, rfl⟩
  · subst h3
    exact ⟨rfl, rfl⟩

theorem parse_string_sync {d f : Frozen} (hoff : captureOff d = true)
    (hin : d.input = f.input) (hts : parse_string f ≠ .error .tooSmall) :
    parse_string (sync d f) = (parse_string f).map (sync d) := by
  rw [parse_string, parse_string, test_and_skip_sync hin 34]
  cases h1 : test_and_skip f 34 with
  | error e => rfl
  | ok f1 =>
    have hin1 : d.input = f1.input := hin.trans ((test_and_skip_extends 34 h1).1.1).symm
    simp only [Except.map]
    rw [capture_ptr_off (sync d f1).cur JType.STRING
      (show captureOff (sync d f1) = true from hoff)]
    cases hcp : capture_ptr f1 f1.cur JType.STRING with
    | error e =>
      have he : e = .tooSmall := capture_ptr_error_inv hcp
      subst he
      have hps : parse_string f = (match capture_ptr f1 f1.cur JType.STRING with
          | .error e => .error e
          | .ok g => (parse_string_loop (g.input.length + 1) g).getD (.error .incomplete)) := by
        rw [parse_string, h1]
      rw [hcp] at hps
      exact absurd hps hts
    | ok g1 =>
      obtain ⟨hc1, hi1⟩ := capture_ptr_cur_input hcp
      have hing1 : d.input = g1.input := hin1.trans hi1.symm
      show (parse_string_loop ((sync d f1).input.length + 1) (sync d f1)).getD (.error .incomplete) =
        Except.map (sync d) ((parse_string_loop (g1.input.length + 1) g1).getD (.error .incomplete))
      have hsg : sync d f1 = sync d g1 := sync_cur_eq d hc1.symm
      rw [hsg]
      have hlen : (sync d g1).input.length = g1.input.length := congrArg List.length hing1
      rw [hlen, parse_string_loop_sync d hoff (g1.input.length + 1) g1 hing1]
      exact getD_map _ _

theorem identAfter_sync {d f : Frozen} (hoff : captureOff d = true)
    (hin : d.input = f.input) (hts : identAfter f ≠ .error .tooSmall) :
    identAfter (sync d f) = (identAfter f).map (sync d) := by
  rw [identAfter, identAfter]
  rw [capture_ptr_off (sync d f).cur JType.STRING
    (show captureOff (sync d f) = true from hoff)]
  cases hcp : capture_ptr f f.cur JType.STRING with
  | error e =>
    have he : e = .tooSmall := capture_ptr_error_inv hcp
    subst he
    have hia : identAfter f = (match capture_ptr f f.cur JType.STRING with
        | .error e => .error e
        | .ok g => .ok (capture_len { g with cur := g.cur + identRun (g.input.drop g.cur) }
            ((g.num_tokens : Int) - 1) (g.cur + identRun (g.input.drop g.cur)))) := by
      rw [identAfter]
    rw [hcp] at hia
    exact absurd hia hts
  | ok g1 =>
    obtain ⟨hc1, hi1⟩ := capture_ptr_cur_input hcp
    simp only [Except.map]
    have hoffx : captureOff { sync d f with
        cur := (sync d f).cur + identRun ((sync d f).input.drop (sync d f).cur) } = true := hoff
    rw [capture_len_off _ _ hoffx]
    refine congrArg Except.ok (frozen_ext rfl ?_ rfl rfl rfl rfl)
    show f.cur + identRun (d.input.drop f.cur) =
      (capture_len { g1 with cur := g1.cur + identRun (g1.input.drop g1.cur) }
        ((g1.num_tokens : Int) - 1) (g1.cur + identRun (g1.input.drop g1.cur))).cur
    rw [(capture_len_fields _ _ _).2.1]
    show f.cur + identRun (d.input.drop f.cur) = g1.cur + identRun (g1.input.drop g1.cur)
    rw [hc1, hi1, hin]

theorem parse_identifier_sync {d f : Frozen} (hoff : captureOff d = true)
    (hin : d.input = f.input) (hts : parse_identifier f ≠ .error .tooSmall) :
    parse_identifier (sync d f) = (parse_identifier f).map (sync d) := by
  rw [parse_identifier, parse_identifier, peeked_sync hin]
  cases hp : peeked f with
  | none => rfl
  | some c =>
    show identDispatch (skip_whitespaces (sync d f)) c =
      (identDispatch (skip_whitespaces f) c).map (sync d)
    rw [identDispatch, identDispatch, skip_sync hin]
    by_cases ha : is_alpha c = true
    · rw [if_pos ha, if_pos ha]
      have hts2 : identAfter (skip_whitespaces f) ≠ .error .tooSmall := by
        intro hq
        apply hts
        have h2 : parse_identifier f = identDispatch (skip_whitespaces f) c := by
          rw [parse_identifier, hp]
        rw [h2, identDispatch, if_pos ha, hq]
      exact identAfter_sync hoff hin hts2
    · rw [if_neg ha, if_neg ha]
      rfl

theorem parse_number_sync {d f : Frozen} (hoff : captureOff d = true)
    (hin : d.input = f.input) (hts : parse_number f ≠ .error .tooSmall) :
    parse_number (sync d f) = (parse_number f).map (sync d) := by
  rw [parse_number, parse_number, skip_sync hin]
  rw [capture_ptr_off (sync d (skip_whitespaces f)).cur JType.NUMBER
    (show captureOff (sync d (skip_whitespaces f)) = true from hoff)]
  cases hcp : capture_ptr (skip_whitespaces f) (skip_whitespaces f).cur JType.NUMBER with
  | error e =>
    have he : e = .tooSmall := capture_ptr_error_inv hcp
    subst he
    have hpn : parse_number f =
        (match capture_ptr (skip_whitespaces f) (skip_whitespaces f).cur JType.NUMBER with
        | .error e => .error e
        | .ok g =>
          if peeked f = some 45 then
            .ok (capture_len { g with cur := g.cur + 1 + digitRun (g.input.drop (g.cur + 1)) }
              ((g.num_tokens : Int) - 1) (g.cur + 1 + digitRun (g.input.drop (g.cur + 1))))
          else
            .ok (capture_len { g with cur := g.cur + digitRun (g.input.drop g.cur) }
              ((g.num_tokens : Int) - 1) (g.cur + digitRun (g.input.drop g.cur)))) := by
      rw [parse_number]
    rw [hcp] at hpn
    exact absurd hpn hts
  | ok g1 =>
    obtain ⟨hc1, hi1⟩ := capture_ptr_cur_input hcp
    have hsf : (skip_whitespaces f).input = f.input := rfl
    simp only [Except.map]
    rw [peeked_sync hin]
    by_cases hm : peeked f = some 45
    · rw [if_pos hm, if_pos hm]
      have hoffx : captureOff { sync d (skip_whitespaces f) with
          cur := (sync d (skip_whitespaces f)).cur + 1 +
            digitRun ((sync d (skip_whitespaces f)).input.drop
              ((sync d (skip_whitespaces f)).cur + 1)) } = true := hoff
      rw [capture_len_off _ _ hoffx]
      refine congrArg Except.ok (frozen_ext rfl ?_ rfl rfl rfl rfl)
      show (skip_whitespaces f).cur + 1 +
          digitRun (d.input.drop ((skip_whitespaces f).cur + 1)) =
        (capture_len { g1 with cur := g1.cur + 1 + digitRun (g1.input.drop (g1.cur + 1)) }
          ((g1.num_tokens : Int) - 1) (g1.cur + 1 + digitRun (g1.input.drop (g1.cur + 1)))).cur
      rw [(capture_len_fields _ _ _).2.1]
      show (skip_whitespaces f).cur + 1 +
          digitRun (d.input.drop ((skip_whitespaces f).cur + 1)) =
        g1.cur + 1 + digitRun (g1.input.drop (g1.cur + 1))
      rw [hc1, hi1, hsf, hin]
    · rw [if_neg hm, if_neg hm]
      have hoffx : captureOff { sync d (skip_whitespaces f) with
          cur := (sync d (skip_whitespaces f)).cur +
            digitRun ((sync d (skip_whitespaces f)).input.drop
              (sync d (skip_whitespaces f)).cur) } = true := hoff
      rw [capture_len_off _ _ hoffx]
      refine congrArg Except.ok (frozen_ext rfl ?_ rfl rfl rfl rfl)
      show (skip_whitespaces f).cur + digitRun (d.input.drop (skip_whitespaces f).cur) =
        (capture_len { g1 with cur := g1.cur + digitRun (g1.input.drop g1.cur) }
          ((g1.num_tokens : Int) - 1) (g1.cur + digitRun (g1.input.drop g1.cur))).cur
      rw [(capture_len_fields _ _ _).2.1]
      show (skip_whitespaces f).cur + digitRun (d.input.drop (skip_whitespaces f).cur) =
        g1.cur + digitRun (g1.input.drop g1.cur)
      rw [hc1, hi1, hsf, hin]

theorem capture_literal_sync {d f : Frozen} (hoff : captureOff d = true)
    (hin : d.input = f.input) (ty : JType) (n : Nat)
    (hts : capture_literal f ty n ≠ .error .tooSmall) :
    capture_literal (sync d f) ty n = (capture_literal f ty n).map (sync d) := by
  rw [capture_literal, capture_literal]
  rw [capture_ptr_off (sync d f).cur ty (show captureOff (sync d f) = true from hoff)]
  cases hcp : capture_ptr f f.cur ty with
  | error e =>
    have he : e = .tooSmall := capture_ptr_error_inv hcp
    subst he
    have hcl : capture_literal f ty n = (match capture_ptr f f.cur ty with
        | .error e => .error e
        | .ok g => .ok (capture_len { g with cur := g.cur + n }
            ((g.num_tokens : Int) - 1) (g.cur + n))) := by
      rw [capture_literal]
    rw [hcp] at hcl
    exact absurd hcl hts
  | ok g1 =>
    obtain ⟨hc1, hi1⟩ := capture_ptr_cur_input hcp
    simp only [Except.map]
    have hoffx : captureOff { sync d f with cur := (sync d f).cur + n } = true := hoff
    rw [capture_len_off _ _ hoffx]
    refine congrArg Except.ok (frozen_ext rfl ?_ rfl rfl rfl rfl)
    show f.cur + n = (capture_len { g1 with cur := g1.cur + n }
      ((g1.num_tokens : Int) - 1) (g1.cur + n)).cur
    rw [(capture_len_fields _ _ _).2.1]
    show f.cur + n = g1.cur + n
    rw [hc1]

theorem compositeClose_sync {d m2 : Frozen} (hoff : captureOff d = true)
    (hin : d.input = m2.input) (closer : Nat) (ind2 ind : Int) :
    compositeClose closer ind2 (sync d m2) =
      (compositeClose closer ind m2).map (Except.map (sync d)) := by
  rw [compositeClose, compositeClose, test_and_skip_sync hin closer]
  refine exOk_map_comm ?_
  intro m hts2
  rw [capture_len_off _ _ (show captureOff (sync d m) = true from hoff)]
  exact congrArg some (congrArg Except.ok
    (sync_cur_eq d ((capture_len_fields m ind m.cur).2.1).symm))

theorem keyDispatch_sync {d f : Frozen} (hoff : captureOff d = true)
    (hin : d.input = f.input) {c : Nat}
    (hts : keyDispatch f c ≠ some (.error .tooSmall)) :
    keyDispatch (sync d f) c = (keyDispatch f c).map (Except.map (sync d)) := by
  rw [keyDispatch, keyDispatch]
  by_cases ha : is_alpha c = true
  · rw [if_pos ha, if_pos ha]
    have hts2 : parse_identifier f ≠ .error .tooSmall := by
      intro hq
      apply hts
      rw [keyDispatch, if_pos ha, hq]
    rw [parse_identifier_sync hoff hin hts2]
    rfl
  · rw [if_neg ha, if_neg ha]
    by_cases h34 : (c == 34) = true
    · rw [if_pos h34, if_pos h34]
      have hts2 : parse_string f ≠ .error .tooSmall := by
        intro hq
        apply hts
        rw [keyDispatch, if_neg ha, if_pos h34, hq]
      rw [parse_string_sync hoff hin hts2]
      rfl
    · rw [if_neg h34, if_neg h34]
      rfl

theorem valueDispatch_sync {next : Next} {d f : Frozen} (hoff : captureOff d = true)
    (hin : d.input = f.input)
    (hnext : ∀ r f1, d.input = f1.input → next r f1 ≠ some (.error .tooSmall) →
      next r (sync d f1) = (next r f1).map (Except.map (sync d)))
    {c : Nat} (hts : valueDispatch next f c ≠ some (.error .tooSmall)) :
    valueDispatch next (sync d f) c =
      (valueDispatch next f c).map (Except.map (sync d)) := by
  rw [valueDispatch, valueDispatch]
  have hcmp1 : compareStr (sync d f) nullBytes = compareStr f nullBytes :=
    compareStr_sync hin _
  have hcmp2 : compareStr (sync d f) trueBytes = compareStr f trueBytes :=
    compareStr_sync hin _
  have hcmp3 : compareStr (sync d f) falseBytes = compareStr f falseBytes :=
    compareStr_sync hin _
  have hdec : decide ((sync d f).cur + 1 < (sync d f).input.length) =
      decide (f.cur + 1 < f.input.length) := by
    show decide (f.cur + 1 < d.input.length) = _
    rw [hin]
  have hgd : (sync d f).input.getD ((sync d f).cur + 1) 0 =
      f.input.getD (f.cur + 1) 0 := by
    show d.input.getD (f.cur + 1) 0 = _
    rw [hin]
  rw [hcmp1, hcmp2, hcmp3, hdec, hgd]
  by_cases h34 : (c == 34) = true
  · rw [if_pos h34, if_pos h34]
    have hts2 : parse_string f ≠ .error .tooSmall := by
      intro hq
      apply hts
      rw [valueDispatch, if_pos h34, hq]
    rw [parse_string_sync hoff hin hts2]
    rfl
  · rw [if_neg h34, if_neg h34]
    by_cases h123 : (c == 123) = true
    · rw [if_pos h123, if_pos h123]
      refine hnext .object f hin ?_
      intro hq
      apply hts
      rw [valueDispatch, if_neg h34, if_pos h123, hq]
    · rw [if_neg h123, if_neg h123]
      by_cases h91 : (c == 91) = true
      · rw [if_pos h91, if_pos h91]
        refine hnext .array f hin ?_
        intro hq
        apply hts
        rw [valueDispatch, if_neg h34, if_neg h123, if_pos h91, hq]
      · rw [if_neg h91, if_neg h91]
        by_cases hn : (c == 110 && compareStr f nullBytes) = true
        · rw [if_pos hn, if_pos hn]
          have hts2 : capture_literal f .NULL 4 ≠ .error .tooSmall := by
            intro hq
            apply hts
            rw [valueDispatch, if_neg h34, if_neg h123, if_neg h91, if_pos hn, hq]
          rw [capture_literal_sync hoff hin .NULL 4 hts2]
          rfl
        · rw [if_neg hn, if_neg hn]
          by_cases ht : (c == 116 && compareStr f trueBytes) = true
          · rw [if_pos ht, if_pos ht]
            have hts2 : capture_literal f .TRUE 4 ≠ .error .tooSmall := by
              intro hq
              apply hts
              rw [valueDispatch, if_neg h34, if_neg h123, if_neg h91, if_neg hn,
                if_pos ht, hq]
            rw [capture_literal_sync hoff hin .TRUE 4 hts2]
            rfl
          · rw [if_neg ht, if_neg ht]
            by_cases hf : (c == 102 && compareStr f falseBytes) = true
            · rw [if_pos hf, if_pos hf]
              have hts2 : capture_literal f .FALSE 5 ≠ .error .tooSmall := by
                intro hq
                apply hts
                rw [valueDispatch, if_neg h34, if_neg h123, if_neg h91, if_neg hn,
                  if_neg ht, if_pos hf, hq]
              rw [capture_literal_sync hoff hin .FALSE 5 hts2]
              rfl
            · rw [if_neg hf, if_neg hf]
              by_cases hd : (is_digit c || (c == 45 && decide (f.cur + 1 < f.input.length) &&
                  is_digit (f.input.getD (f.cur + 1) 0))) = true
              · rw [if_pos hd, if_pos hd]
                have hts2 : parse_number f ≠ .error .tooSmall := by
                  intro hq
                  apply hts
                  rw [valueDispatch, if_neg h34, if_neg h123, if_neg h91, if_neg hn,
                    if_neg ht, if_neg hf, if_pos hd, hq]
                rw [parse_number_sync hoff hin hts2]
                rfl
              · rw [if_neg hd, if_neg hd]
                rfl

theorem exOk_ne_ts {r : Except Jerr Frozen} {k : Frozen → PRes}
    (h : exOk r k ≠ some (.error .tooSmall)) :
    r ≠ .error .tooSmall ∧ ∀ m, r = .ok m → k m ≠ some (.error .tooSmall) := by
  cases r with
  | error e =>
    refine ⟨?_, ?_⟩
    · intro hq
      apply h
      have he : e = .tooSmall := by
        injection hq
      rw [he]
      rfl
    · intro m hm
      exact absurd hm (fun hh => Except.noConfusion hh)
  | ok m0 =>
    refine ⟨fun hq => Except.noConfusion hq, ?_⟩
    intro m hm
    have hm2 : m0 = m := by
      injection hm
    subst hm2
    exact h

theorem onOk_ne_ts {r : PRes} {k : Frozen → PRes}
    (h : onOk r k ≠ some (.error .tooSmall)) :
    r ≠ some (.error .tooSmall) ∧
      ∀ m, r = some (.ok m) → k m ≠ some (.error .tooSmall) := by
  cases r with
  | none =>
    exact ⟨fun hq => Option.noConfusion hq, fun m hm => absurd hm (fun hh => Option.noConfusion hh)⟩
  | some x =>
    cases x with
    | error e =>
      refine ⟨?_, ?_⟩
      · intro hq
        apply h
        have h1 : Except.error (α := Frozen) e = Except.error Jerr.tooSmall := by
          injection hq
        have he : e = Jerr.tooSmall := by
          injection h1
        rw [he]
        rfl
      · intro m hm
        have h1 : Except.error (α := Frozen) e = Except.ok m := by
          injection hm
        exact absurd h1 (fun hh => Except.noConfusion hh)
    | ok m0 =>
      refine ⟨?_, ?_⟩
      · intro hq
        have h1 : Except.ok (ε := Jerr) m0 = Except.error Jerr.tooSmall := by
          injection hq
        exact absurd h1 (fun hh => Except.noConfusion hh)
      · intro m hm
        have h1 : Except.ok (ε := Jerr) m0 = Except.ok m := by
          injection hm
        have hm2 : m0 = m := by
          injection h1
        subst hm2
        exact h

/-- Capture-disabled simulation: a state `d` with captures off (NULL token
array or zero capacity) mirrors any run from an enabled state `f` with the
same input and cursor, provided that run does not abort with tooSmall: the
disabled run returns the same outcome, with final states that differ from
`d` only in the cursor (in particular no token is written and num_tokens
stays put). -/
theorem parseRun_sync :
    ∀ (fuel : Nat) (rule : Rule) (f d : Frozen), captureOff d = true →
      d.input = f.input → parseRun fuel rule f ≠ some (.error .tooSmall) →
      parseRun fuel rule (sync d f) = (parseRun fuel rule f).map (Except.map (sync d)) := by
  intro fuel
  induction fuel with
  | zero =>
    intro rule f d hoff hin hts
    rfl
  | succ n ih =>
    intro rule f d hoff hin hts
    rw [parseRun_succ, parseRun_succ]
    cases rule with
    | value =>
      have hts2 : onPeek f (valueDispatch (parseRun n) (skip_whitespaces f)) ≠
          some (.error .tooSmall) := hts
      rw [stepOf, stepValue, stepValue, onPeek, onPeek, peeked_sync hin]
      cases hp : peeked f with
      | none => rfl
      | some c =>
        rw [skip_sync hin]
        have hts3 : valueDispatch (parseRun n) (skip_whitespaces f) c ≠
            some (.error .tooSmall) := by
          intro hq
          apply hts2
          rw [onPeek, hp]
          exact hq
        have hin2 : d.input = (skip_whitespaces f).input := hin
        exact valueDispatch_sync hoff hin2
          (fun r f1 h1 h2 => ih r f1 d hoff h1 h2) hts3
    | object =>
      have hts2 : exOk (test_and_skip f 123) (fun f1 =>
          exOk (capture_ptr f1 (f1.cur - 1) .OBJECT) (fun g =>
            onOk (parseRun n .objLoop g)
              (compositeClose 125 ((g.num_tokens : Int) - 1)))) ≠
          some (.error .tooSmall) := hts
      rw [stepOf, stepObject, stepObject, test_and_skip_sync hin 123]
      refine exOk_map_comm ?_
      intro m hts1
      have hts3 := (exOk_ne_ts hts2).2 m hts1
      have hinm : d.input = m.input := hin.trans ((test_and_skip_extends 123 hts1).1.1).symm
      show exOk (capture_ptr (sync d m) ((sync d m).cur - 1) .OBJECT) _ = _
      rw [capture_ptr_off ((sync d m).cur - 1) JType.OBJECT
        (show captureOff (sync d m) = true from hoff)]
      cases hcp : capture_ptr m (m.cur - 1) JType.OBJECT with
      | error e =>
        have he : e = .tooSmall := capture_ptr_error_inv hcp
        subst he
        exact absurd (by rw [hcp]; rfl) hts3
      | ok g1 =>
        obtain ⟨hc1, hi1⟩ := capture_ptr_cur_input hcp
        have hing1 : d.input = g1.input := hinm.trans hi1.symm
        have hts4 := (exOk_ne_ts hts3).2 g1 hcp
        have hts5 := (onOk_ne_ts hts4).1
        simp only [exOk]
        have hsg : sync d m = sync d g1 := sync_cur_eq d hc1.symm
        rw [hsg, ih .objLoop g1 d hoff hing1 hts5]
        refine onOk_map_comm ?_
        intro m2 hloop
        have hinm2 : d.input = m2.input :=
          hing1.trans ((parseRun_extends n .objLoop _ _ hloop).1.1).symm
        exact compositeClose_sync hoff hinm2 125 _ _
    | objLoop =>
      have hts2 : (if peeked f = some 125 then some (.ok (skip_whitespaces f))
          else onOk (parseRun n .pair (skip_whitespaces f)) (parseRun n .objTail)) ≠
          some (.error .tooSmall) := hts
      rw [stepOf, stepObjLoop, stepObjLoop, peeked_sync hin]
      by_cases hp : peeked f = some 125
      · rw [if_pos hp, if_pos hp, skip_sync hin]
        rfl
      · rw [if_neg hp, if_neg hp, skip_sync hin]
        have hts3 : onOk (parseRun n .pair (skip_whitespaces f)) (parseRun n .objTail) ≠
            some (.error .tooSmall) := by
          intro hq
          apply hts2
          rw [if_neg hp]
          exact hq
        have h5 := onOk_ne_ts hts3
        rw [ih .pair (skip_whitespaces f) d hoff hin h5.1]
        refine onOk_map_comm ?_
        intro m hpair
        have hinm : d.input = m.input :=
          hin.trans ((parseRun_extends n .pair _ _ hpair).1.1).symm
        exact ih .objTail m d hoff hinm (h5.2 m hpair)
    | objTail =>
      have hts2 : (if peeked f = some 44 then
          parseRun n .objLoop { skip_whitespaces f with cur := (skip_whitespaces f).cur + 1 }
          else parseRun n .objLoop (skip_whitespaces f)) ≠
          some (.error .tooSmall) := hts
      rw [stepOf, stepObjTail, stepObjTail, peeked_sync hin]
      by_cases hp : peeked f = some 44
      · rw [if_pos hp, if_pos hp, skip_sync hin]
        have hrec : { sync d (skip_whitespaces f) with
            cur := (sync d (skip_whitespaces f)).cur + 1 } =
            sync d { skip_whitespaces f with cur := (skip_whitespaces f).cur + 1 } := rfl
        rw [hrec]
        have hts3 : parseRun n .objLoop
            { skip_whitespaces f with cur := (skip_whitespaces f).cur + 1 } ≠
            some (.error .tooSmall) := by
          intro hq
          apply hts2
          rw [if_pos hp]
          exact hq
        exact ih .objLoop _ d hoff hin hts3
      · rw [if_neg hp, if_neg hp, skip_sync hin]
        have hts3 : parseRun n .objLoop (skip_whitespaces f) ≠
            some (.error .tooSmall) := by
          intro hq
          apply hts2
          rw [if_neg hp]
          exact hq
        exact ih .objLoop (skip_whitespaces f) d hoff hin hts3
    | pair =>
      have hts2 : onOk (parseRun n .key f)
          (fun f1 => exOk (test_and_skip f1 58) (parseRun n .value)) ≠
          some (.error .tooSmall) := hts
      rw [stepOf, stepPair, stepPair]
      have h5 := onOk_ne_ts hts2
      rw [ih .key f d hoff hin h5.1]
      refine onOk_map_comm ?_
      intro m hkey
      have hinm : d.input = m.input :=
        hin.trans ((parseRun_extends n .key _ _ hkey).1.1).symm
      have hts4 := h5.2 m hkey
      rw [test_and_skip_sync hinm 58]
      refine exOk_map_comm ?_
      intro m2 hts5
      have hinm2 : d.input = m2.input :=
        hinm.trans ((test_and_skip_extends 58 hts5).1.1).symm
      exact ih .value m2 d hoff hinm2 ((exOk_ne_ts hts4).2 m2 hts5)
    | key =>
      have hl : stepOf Rule.key (parseRun n) (sync d f) = stepKey (sync d f) := rfl
      have hr : stepOf Rule.key (parseRun n) f = stepKey f := rfl
      have hts2 : onPeek f (keyDispatch (skip_whitespaces f)) ≠
          some (.error .tooSmall) := hts
      rw [hl, hr, stepKey, stepKey, onPeek, onPeek, peeked_sync hin]
      cases hp : peeked f with
      | none => rfl
      | some c =>
        rw [skip_sync hin]
        have hts3 : keyDispatch (skip_whitespaces f) c ≠ some (.error .tooSmall) := by
          intro hq
          apply hts2
          rw [onPeek, hp]
          exact hq
        have hin2 : d.input = (skip_whitespaces f).input := hin
        exact keyDispatch_sync hoff hin2 hts3
    | array =>
      have hts2 : exOk (test_and_skip f 91) (fun f1 =>
          exOk (capture_ptr f1 (f1.cur - 1) .ARRAY) (fun g =>
            onOk (parseRun n .arrLoop g)
              (compositeClose 93 ((g.num_tokens : Int) - 1)))) ≠
          some (.error .tooSmall) := hts
      rw [stepOf, stepArray, stepArray, test_and_skip_sync hin 91]
      refine exOk_map_comm ?_
      intro m hts1
      have hts3 := (exOk_ne_ts hts2).2 m hts1
      have hinm : d.input = m.input := hin.trans ((test_and_skip_extends 91 hts1).1.1).symm
      show exOk (capture_ptr (sync d m) ((sync d m).cur - 1) .ARRAY) _ = _
      rw [capture_ptr_off ((sync d m).cur - 1) JType.ARRAY
        (show captureOff (sync d m) = true from hoff)]
      cases hcp : capture_ptr m (m.cur - 1) JType.ARRAY with
      | error e =>
        have he : e = .tooSmall := capture_ptr_error_inv hcp
        subst he
        exact absurd (by rw [hcp]; rfl) hts3
      | ok g1 =>
        obtain ⟨hc1, hi1⟩ := capture_ptr_cur_input hcp
        have hing1 : d.input = g1.input := hinm.trans hi1.symm
        have hts4 := (exOk_ne_ts hts3).2 g1 hcp
        have hts5 := (onOk_ne_ts hts4).1
        simp only [exOk]
        have hsg : sync d m = sync d g1 := sync_cur_eq d hc1.symm
        rw [hsg, ih .arrLoop g1 d hoff hing1 hts5]
        refine onOk_map_comm ?_
        intro m2 hloop
        have hinm2 : d.input = m2.input :=
          hing1.trans ((parseRun_extends n .arrLoop _ _ hloop).1.1).symm
        exact compositeClose_sync hoff hinm2 93 _ _
    | arrLoop =>
      have hts2 : (if peeked f = some 93 then some (.ok (skip_whitespaces f))
          else onOk (parseRun n .value (skip_whitespaces f)) (parseRun n .arrTail)) ≠
          some (.error .tooSmall) := hts
      rw [stepOf, stepArrLoop, stepArrLoop, peeked_sync hin]
      by_cases hp : peeked f = some 93
      · rw [if_pos hp, if_pos hp, skip_sync hin]
        rfl
      · rw [if_neg hp, if_neg hp, skip_sync hin]
        have hts3 : onOk (parseRun n .value (skip_whitespaces f)) (parseRun n .arrTail) ≠
            some (.error .tooSmall) := by
          intro hq
          apply hts2
          rw [if_neg hp]
          exact hq
        have h5 := onOk_ne_ts hts3
        rw [ih .value (skip_whitespaces f) d hoff hin h5.1]
        refine onOk_map_comm ?_
        intro m hval
        have hinm : d.input = m.input :=
          hin.trans ((parseRun_extends n .value _ _ hval).1.1).symm
        exact ih .arrTail m d hoff hinm (h5.2 m hval)
    | arrTail =>
      have hts2 : (if peeked f = some 44 then
          parseRun n .arrLoop { skip_whitespaces f with cur := (skip_whitespaces f).cur + 1 }
          else parseRun n .arrLoop (skip_whitespaces f)) ≠
          some (.error .tooSmall) := hts
      rw [stepOf, stepArrTail, stepArrTail, peeked_sync hin]
      by_cases hp : peeked f = some 44
      · rw [if_pos hp, if_pos hp, skip_sync hin]
        have hrec : { sync d (skip_whitespaces f) with
            cur := (sync d (skip_whitespaces f)).cur + 1 } =
            sync d { skip_whitespaces f with cur := (skip_whitespaces f).cur + 1 } := rfl
        rw [hrec]
        have hts3 : parseRun n .arrLoop
            { skip_whitespaces f with cur := (skip_whitespaces f).cur + 1 } ≠
            some (.error .tooSmall) := by
          intro hq
          apply hts2
          rw [if_pos hp]
          exact hq
        exact ih .arrLoop _ d hoff hin hts3
      · rw [if_neg hp, if_neg hp, skip_sync hin]
        have hts3 : parseRun n .arrLoop (skip_whitespaces f) ≠
            some (.error .tooSmall) := by
          intro hq
          apply hts2
          rw [if_neg hp]
          exact hq
        exact ih .arrLoop (skip_whitespaces f) d hoff hin hts3

theorem exOk_err_inv {r : Except Jerr Frozen} {k : Frozen → PRes} {e : Jerr}
    (h : exOk r k = some (.error e)) :
    r = .error e ∨ ∃ m, r = .ok m ∧ k m = some (.error e) := by
  cases r with
  | error e2 =>
    left
    have h1 : Except.error (α := Frozen) e2 = Except.error e := by
      injection h
    have h2 : e2 = e := by
      injection h1
    rw [h2]
  | ok m =>
    right
    exact ⟨m, rfl, h⟩

theorem onOk_err_inv {r : PRes} {k : Frozen → PRes} {e : Jerr}
    (h : onOk r k = some (.error e)) :
    r = some (.error e) ∨ ∃ m, r = some (.ok m) ∧ k m = some (.error e) := by
  cases r with
  | none => exact absurd h (fun hh => Option.noConfusion hh)
  | some x =>
    cases x with
    | error e2 =>
      left
      have h1 : Except.error (α := Frozen) e2 = Except.error e := by
        injection h
      have h2 : e2 = e := by
        injection h1
      rw [h2]
    | ok m =>
      right
      exact ⟨m, rfl, h⟩

theorem onPeek_err_inv {f : Frozen} {k : Nat → PRes} {e : Jerr}
    (h : onPeek f k = some (.error e)) :
    (peeked f = none ∧ e = .incomplete) ∨ ∃ c, peeked f = some c ∧ k c = some (.error e) := by
  rw [onPeek] at h
  cases hp : peeked f with
  | none =>
    rw [hp] at h
    left
    refine ⟨rfl, ?_⟩
    have h1 : Except.error (α := Frozen) Jerr.incomplete = Except.error e := by
      injection h
    have h2 : Jerr.incomplete = e := by
      injection h1
    rw [h2]
  | some c =>
    rw [hp] at h
    right
    exact ⟨c, rfl, h⟩

theorem captureOff_extends {f g : Frozen} (hx : Extends f g)
    (h : captureOff f = true) : captureOff g = true := by
  rw [captureOff, hx.2.1, hx.2.2.1]
  exact h

theorem test_and_skip_noTS (f : Frozen) (e0 : Nat) :
    test_and_skip f e0 ≠ .error .tooSmall := by
  rw [test_and_skip]
  cases hc : (skip_whitespaces f).input.get? (skip_whitespaces f).cur with
  | none =>
    intro hq
    have h2 : Jerr.incomplete = Jerr.tooSmall := by
      injection hq
    exact Jerr.noConfusion h2
  | some ch =>
    show (if ch = e0 then
        Except.ok (ε := Jerr) { skip_whitespaces f with cur := (skip_whitespaces f).cur + 1 }
      else Except.error Jerr.invalid) ≠ Except.error Jerr.tooSmall
    by_cases he : ch = e0
    · rw [if_pos he]
      intro hq
      exact Except.noConfusion hq
    · rw [if_neg he]
      intro hq
      have h2 : Jerr.invalid = Jerr.tooSmall := by
        injection hq
      exact Jerr.noConfusion h2

theorem get_escape_len_noTS (s : List Nat) (len : Int) :
    get_escape_len s len ≠ .error .tooSmall := by
  intro hq
  simp only [get_escape_len] at hq
  split at hq
  · split at hq
    · simp at hq
    · split at hq
      · simp at hq
      · simp at hq
  · split at hq
    · split at hq
      · simp at hq
      · simp at hq
    · simp at hq

theorem parse_string_loop_noTS :
    ∀ (fuel : Nat) (f : Frozen), parse_string_loop fuel f ≠ some (.error .tooSmall) := by
  intro fuel
  induction fuel with
  | zero =>
    intro f hq
    exact Option.noConfusion hq
  | succ n ih =>
    intro f hq
    rw [parse_string_loop] at hq
    split at hq
    · split at hq
      · split at hq
        · cases hesc : get_escape_len (f.input.drop (f.cur + 1)) (left f) with
          | error e =>
            rw [hesc] at hq
            have hq2 : some (Except.error (α := Frozen) e) =
                some (Except.error Jerr.tooSmall) := hq
            have h1 : Except.error (α := Frozen) e = Except.error Jerr.tooSmall := by
              injection hq2
            have h2 : e = Jerr.tooSmall := by
              injection h1
            exact get_escape_len_noTS _ _ (by rw [hesc, h2])
          | ok k =>
            rw [hesc] at hq
            exact ih { f with cur := f.cur + k + 1 } hq
        · split at hq
          · simp at hq
          · exact ih { f with cur := f.cur + 1 } hq
      · simp at hq
    · simp at hq

theorem parse_string_noTS {d : Frozen} (hoff : captureOff d = true) :
    parse_string d ≠ .error .tooSmall := by
  intro hq
  rw [parse_string] at hq
  cases h1 : test_and_skip d 34 with
  | error e =>
    rw [h1] at hq
    have hq2 : Except.error (α := Frozen) e = .error .tooSmall := hq
    have h2 : e = Jerr.tooSmall := by
      injection hq2
    exact test_and_skip_noTS d 34 (by rw [h1, h2])
  | ok f1 =>
    rw [h1] at hq
    have hoff1 : captureOff f1 = true :=
      captureOff_extends (test_and_skip_extends 34 h1).1 hoff
    have hq2 : (match capture_ptr f1 f1.cur JType.STRING with
        | .error e => .error e
        | .ok g => (parse_string_loop (g.input.length + 1) g).getD (.error .incomplete)) =
        Except.error (α := Frozen) Jerr.tooSmall := hq
    rw [capture_ptr_off f1.cur JType.STRING hoff1] at hq2
    have hq3 : (parse_string_loop (f1.input.length + 1) f1).getD (.error .incomplete) =
        Except.error (α := Frozen) Jerr.tooSmall := hq2
    cases hl : parse_string_loop (f1.input.length + 1) f1 with
    | none =>
      rw [hl] at hq3
      have h2 : Jerr.incomplete = Jerr.tooSmall := by
        injection hq3
      exact Jerr.noConfusion h2
    | some r =>
      rw [hl] at hq3
      have hq4 : r = .error .tooSmall := hq3
      exact parse_string_loop_noTS (f1.input.length + 1) f1 (by rw [hl, hq4])

theorem identAfter_noTS {d : Frozen} (hoff : captureOff d = true) :
    identAfter d ≠ .error .tooSmall := by
  intro hq
  rw [identAfter] at hq
  rw [capture_ptr_off d.cur JType.STRING hoff] at hq
  have hq2 : Except.ok (ε := Jerr)
      (capture_len { d with cur := d.cur + identRun (d.input.drop d.cur) }
        ((d.num_tokens : Int) - 1) (d.cur + identRun (d.input.drop d.cur))) =
      .error .tooSmall := hq
  exact Except.noConfusion hq2

theorem parse_identifier_noTS {d : Frozen} (hoff : captureOff d = true) :
    parse_identifier d ≠ .error .tooSmall := by
  intro hq
  rw [parse_identifier] at hq
  cases hp : peeked d with
  | none =>
    rw [hp] at hq
    have h2 : Jerr.invalid = Jerr.tooSmall := by
      injection hq
    exact Jerr.noConfusion h2
  | some c =>
    rw [hp] at hq
    have hq2 : identDispatch (skip_whitespaces d) c = .error .tooSmall := hq
    rw [identDispatch] at hq2
    split at hq2
    · exact identAfter_noTS (show captureOff (skip_whitespaces d) = true from hoff) hq2
    · have h2 : Jerr.invalid = Jerr.tooSmall := by
        injection hq2
      exact Jerr.noConfusion h2

theorem parse_number_noTS {d : Frozen} (hoff : captureOff d = true) :
    parse_number d ≠ .error .tooSmall := by
  intro hq
  rw [parse_number] at hq
  rw [capture_ptr_off (skip_whitespaces d).cur JType.NUMBER
    (show captureOff (skip_whitespaces d) = true from hoff)] at hq
  have hq2 : (if peeked d = some 45 then
      Except.ok (ε := Jerr) (capture_len { skip_whitespaces d with
          cur := (skip_whitespaces d).cur + 1 +
            digitRun ((skip_whitespaces d).input.drop ((skip_whitespaces d).cur + 1)) }
        (((skip_whitespaces d).num_tokens : Int) - 1)
        ((skip_whitespaces d).cur + 1 +
          digitRun ((skip_whitespaces d).input.drop ((skip_whitespaces d).cur + 1))))
    else
      .ok (capture_len { skip_whitespaces d with
          cur := (skip_whitespaces d).cur +
            digitRun ((skip_whitespaces d).input.drop (skip_whitespaces d).cur) }
        (((skip_whitespaces d).num_tokens : Int) - 1)
        ((skip_whitespaces d).cur +
          digitRun ((skip_whitespaces d).input.drop (skip_whitespaces d).cur)))) =
      Except.error Jerr.tooSmall := hq
  split at hq2
  · exact Except.noConfusion hq2
  · exact Except.noConfusion hq2

theorem capture_literal_noTS {d : Frozen} (hoff : captureOff d = true)
    (ty : JType) (n : Nat) : capture_literal d ty n ≠ .error .tooSmall := by
  intro hq
  rw [capture_literal] at hq
  rw [capture_ptr_off d.cur ty hoff] at hq
  have hq2 : Except.ok (ε := Jerr) (capture_len { d with cur := d.cur + n }
      ((d.num_tokens : Int) - 1) (d.cur + n)) = .error .tooSmall := hq
  exact Except.noConfusion hq2

theorem compositeClose_noTS {d : Frozen} (hoff : captureOff d = true)
    (closer : Nat) (ind : Int) :
    compositeClose closer ind d ≠ some (.error .tooSmall) := by
  intro hq
  rw [compositeClose] at hq
  rcases exOk_err_inv hq with h1 | ⟨m, h1, h2⟩
  · exact test_and_skip_noTS d closer h1
  · simp at h2

theorem keyDispatch_noTS {d : Frozen} (hoff : captureOff d = true) (c : Nat) :
    keyDispatch d c ≠ some (.error .tooSmall) := by
  intro hq
  rw [keyDispatch] at hq
  split at hq
  · have h2 : parse_string d ≠ .error .tooSmall ∨ True := Or.inr trivial
    have h3 : parse_identifier d = .error .tooSmall := by
      injection hq
    exact parse_identifier_noTS hoff h3
  · split at hq
    · have h3 : parse_string d = .error .tooSmall := by
        injection hq
      exact parse_string_noTS hoff h3
    · have h1 : Except.error (α := Frozen) Jerr.invalid = Except.error Jerr.tooSmall := by
        injection hq
      have h2 : Jerr.invalid = Jerr.tooSmall := by
        injection h1
      exact Jerr.noConfusion h2

theorem valueDispatch_noTS {next : Next} {d : Frozen}
    (hnext : ∀ r f1, captureOff f1 = true → next r f1 ≠ some (.error .tooSmall))
    (hoff : captureOff d = true) (c : Nat) :
    valueDispatch next d c ≠ some (.error .tooSmall) := by
  intro hq
  rw [valueDispatch] at hq
  split at hq
  · have h3 : parse_string d = .error .tooSmall := by
      injection hq
    exact parse_string_noTS hoff h3
  · split at hq
    · exact hnext .object d hoff hq
    · split at hq
      · exact hnext .array d hoff hq
      · split at hq
        · have h3 : capture_literal d .NULL 4 = .error .tooSmall := by
            injection hq
          exact capture_literal_noTS hoff .NULL 4 h3
        · split at hq
          · have h3 : capture_literal d .TRUE 4 = .error .tooSmall := by
              injection hq
            exact capture_literal_noTS hoff .TRUE 4 h3
          · split at hq
            · have h3 : capture_literal d .FALSE 5 = .error .tooSmall := by
                injection hq
              exact capture_literal_noTS hoff .FALSE 5 h3
            · split at hq
              · have h3 : parse_number d = .error .tooSmall := by
                  injection hq
                exact parse_number_noTS hoff h3
              · have h1 : Except.error (α := Frozen) Jerr.invalid =
                    Except.error Jerr.tooSmall := by
                  injection hq
                have h2 : Jerr.invalid = Jerr.tooSmall := by
                  injection h1
                exact Jerr.noConfusion h2

/-- Capture-disabled runs can never fail with tooSmall: with a NULL token
array or zero capacity, every capture_ptr is a successful no-op, and no
other primitive produces JSON_TOKEN_ARRAY_TOO_SMALL. -/
theorem parseRun_noTS :
    ∀ (fuel : Nat) (rule : Rule) (d : Frozen), captureOff d = true →
      parseRun fuel rule d ≠ some (.error .tooSmall) := by
  intro fuel
  induction fuel with
  | zero =>
    intro rule d hoff hq
    exact Option.noConfusion hq
  | succ n ih =>
    intro rule d hoff hq
    rw [parseRun_succ] at hq
    cases rule with
    | value =>
      have hq2 : onPeek d (valueDispatch (parseRun n) (skip_whitespaces d)) =
          some (.error .tooSmall) := hq
      rcases onPeek_err_inv hq2 with ⟨hp, he⟩ | ⟨c, hp, hk⟩
      · exact Jerr.noConfusion he
      · exact valueDispatch_noTS (fun r f1 h1 => ih r f1 h1)
          (show captureOff (skip_whitespaces d) = true from hoff) c hk
    | object =>
      have hq2 : exOk (test_and_skip d 123) (fun f1 =>
          exOk (capture_ptr f1 (f1.cur - 1) .OBJECT) (fun g =>
            onOk (parseRun n .objLoop g)
              (compositeClose 125 ((g.num_tokens : Int) - 1)))) =
          some (.error .tooSmall) := hq
      rcases exOk_err_inv hq2 with h1 | ⟨m, h1, h2⟩
      · exact test_and_skip_noTS d 123 h1
      · have hoffm : captureOff m = true :=
          captureOff_extends (test_and_skip_extends 123 h1).1 hoff
        rw [capture_ptr_off (m.cur - 1) JType.OBJECT hoffm] at h2
        have h3 : onOk (parseRun n .objLoop m)
            (compositeClose 125 ((m.num_tokens : Int) - 1)) =
            some (.error .tooSmall) := h2
        rcases onOk_err_inv h3 with h4 | ⟨m2, h4, h5⟩
        · exact ih .objLoop m hoffm h4
        · exact compositeClose_noTS
            (captureOff_extends (parseRun_extends n .objLoop _ _ h4).1 hoffm) 125 _ h5
    | objLoop =>
      have hq2 : (if peeked d = some 125 then some (.ok (skip_whitespaces d))
          else onOk (parseRun n .pair (skip_whitespaces d)) (parseRun n .objTail)) =
          some (.error .tooSmall) := hq
      split at hq2
      · simp at hq2
      · rcases onOk_err_inv hq2 with h4 | ⟨m, h4, h5⟩
        · exact ih .pair (skip_whitespaces d)
            (show captureOff (skip_whitespaces d) = true from hoff) h4
        · exact ih .objTail m
            (captureOff_extends (parseRun_extends n .pair _ _ h4).1
              (show captureOff (skip_whitespaces d) = true from hoff)) h5
    | objTail =>
      have hq2 : (if peeked d = some 44 then
          parseRun n .objLoop { skip_whitespaces d with cur := (skip_whitespaces d).cur + 1 }
          else parseRun n .objLoop (skip_whitespaces d)) = some (.error .tooSmall) := hq
      split at hq2
      · exact ih .objLoop _
          (show captureOff { skip_whitespaces d with
            cur := (skip_whitespaces d).cur + 1 } = true from hoff) hq2
      · exact ih .objLoop (skip_whitespaces d)
          (show captureOff (skip_whitespaces d) = true from hoff) hq2
    | pair =>
      have hq2 : onOk (parseRun n .key d)
          (fun f1 => exOk (test_and_skip f1 58) (parseRun n .value)) =
          some (.error .tooSmall) := hq
      rcases onOk_err_inv hq2 with h4 | ⟨m, h4, h5⟩
      · exact ih .key d hoff h4
      · have hoffm : captureOff m = true :=
          captureOff_extends (parseRun_extends n .key _ _ h4).1 hoff
        rcases exOk_err_inv h5 with h6 | ⟨m2, h6, h7⟩
        · exact test_and_skip_noTS m 58 h6
        · exact ih .value m2
            (captureOff_extends (test_and_skip_extends 58 h6).1 hoffm) h7
    | key =>
      have hq2 : onPeek d (keyDispatch (skip_whitespaces d)) = some (.error .tooSmall) := hq
      rcases onPeek_err_inv hq2 with ⟨hp, he⟩ | ⟨c, hp, hk⟩
      · exact Jerr.noConfusion he
      · exact keyDispatch_noTS
          (show captureOff (skip_whitespaces d) = true from hoff) c hk
    | array =>
      have hq2 : exOk (test_and_skip d 91) (fun f1 =>
          exOk (capture_ptr f1 (f1.cur - 1) .ARRAY) (fun g =>
            onOk (parseRun n .arrLoop g)
              (compositeClose 93 ((g.num_tokens : Int) - 1)))) =
          some (.error .tooSmall) := hq
      rcases exOk_err_inv hq2 with h1 | ⟨m, h1, h2⟩
      · exact test_and_skip_noTS d 91 h1
      · have hoffm : captureOff m = true :=
          captureOff_extends (test_and_skip_extends 91 h1).1 hoff
        rw [capture_ptr_off (m.cur - 1) JType.ARRAY hoffm] at h2
        have h3 : onOk (parseRun n .arrLoop m)
            (compositeClose 93 ((m.num_tokens : Int) - 1)) =
            some (.error .tooSmall) := h2
        rcases onOk_err_inv h3 with h4 | ⟨m2, h4, h5⟩
        · exact ih .arrLoop m hoffm h4
        · exact compositeClose_noTS
            (captureOff_extends (parseRun_extends n .arrLoop _ _ h4).1 hoffm) 93 _ h5
    | arrLoop =>
      have hq2 : (if peeked d = some 93 then some (.ok (skip_whitespaces d))
          else onOk (parseRun n .value (skip_whitespaces d)) (parseRun n .arrTail)) =
          some (.error .tooSmall) := hq
      split at hq2
      · simp at hq2
      · rcases onOk_err_inv hq2 with h4 | ⟨m, h4, h5⟩
        · exact ih .value (skip_whitespaces d)
            (show captureOff (skip_whitespaces d) = true from hoff) h4
        · exact ih .arrTail m
            (captureOff_extends (parseRun_extends n .value _ _ h4).1
              (show captureOff (skip_whitespaces d) = true from hoff)) h5
    | arrTail =>
      have hq2 : (if peeked d = some 44 then
          parseRun n .arrLoop { skip_whitespaces d with cur := (skip_whitespaces d).cur + 1 }
          else parseRun n .arrLoop (skip_whitespaces d)) = some (.error .tooSmall) := hq
      split at hq2
      · exact ih .arrLoop _
          (show captureOff { skip_whitespaces d with
            cur := (skip_whitespaces d).cur + 1 } = true from hoff) hq2
      · exact ih .arrLoop (skip_whitespaces d)
          (show captureOff (skip_whitespaces d) = true from hoff) hq2

theorem eofCapture_noTS {d : Frozen} (hoff : captureOff d = true) :
    eofCapture d ≠ some (.error .tooSmall) := by
  intro hq
  rw [eofCapture] at hq
  rw [capture_ptr_off d.cur JType.EOF hoff] at hq
  have hq2 : some (Except.ok (ε := Jerr)
      (capture_len d (d.num_tokens : Int) d.cur)) =
      some (Except.error Jerr.tooSmall) := hq
  simp at hq2

theorem eofCapture_sync {d m : Frozen} (hoff : captureOff d = true)
    (hts : eofCapture m ≠ some (.error .tooSmall)) :
    eofCapture (sync d m) = (eofCapture m).map (Except.map (sync d)) := by
  rw [eofCapture, eofCapture]
  rw [capture_ptr_off (sync d m).cur JType.EOF
    (show captureOff (sync d m) = true from hoff)]
  cases hcp : capture_ptr m m.cur JType.EOF with
  | error e =>
    have he : e = .tooSmall := capture_ptr_error_inv hcp
    subst he
    exact absurd (by rw [eofCapture, hcp]; rfl) hts
  | ok h1 =>
    simp only [exOk]
    rw [capture_len_off _ _ (show captureOff (sync d m) = true from hoff)]
    refine congrArg some (congrArg Except.ok (sync_cur_eq d ?_))
    show m.cur = (capture_len h1 (h1.num_tokens : Int) h1.cur).cur
    rw [(capture_len_fields _ _ _).2.1]
    exact ((capture_ptr_cur_input hcp).1).symm

theorem parse_json_noTS (s : Option (List Nat)) (s_len : Int) (tn : Bool) (cap : Nat)
    (hd : tn = true ∨ cap = 0) : parse_json s s_len tn cap ≠ some (.error .tooSmall) := by
  intro hq
  rw [parse_json, parse_jsonF] at hq
  split at hq
  · simp at hq
  · split at hq
    · simp at hq
    · have hoff : captureOff (initFrozen ((s.getD []).take s_len.toNat) tn cap) = true := by
        rcases hd with h | h <;> simp [captureOff, initFrozen, h]
      rcases onOk_err_inv hq with h4 | ⟨m, h4, h5⟩
      · exact parseRun_noTS _ .object _ hoff h4
      · exact eofCapture_noTS
          (captureOff_extends (parseRun_extends _ .object _ _ h4).1 hoff) h5

/-- C5: calling parse with a NULL token array or a zero-capacity one makes
every recorder operation a successful no-op: the run is validation-only.
First conjunct: on any input bytes, if a capture-enabled call (capacity
`cap`) does not fail with tooSmall, then the disabled call returns exactly
the same outcome (same success/error kind and same final cursor, hence the
same consumed-byte count), with a final state that still has the initial
untouched token buffer and num_tokens = 0 — no token is written. Second
conjunct: a disabled call can never return tooSmall, whatever the
arguments. -/
theorem c5_zero_capacity_validation_only :
    (∀ (I : List Nat) (tnD : Bool) (capD cap : Nat), tnD = true ∨ capD = 0 →
      parse_json (some I) (I.length : Int) false cap ≠ some (.error .tooSmall) →
      parse_json (some I) (I.length : Int) tnD capD =
        (parse_json (some I) (I.length : Int) false cap).map
          (Except.map (fun g => { initFrozen I tnD capD with cur := g.cur }))) ∧
    (∀ (s : Option (List Nat)) (s_len : Int) (tnD : Bool) (capD : Nat),
      tnD = true ∨ capD = 0 →
      parse_json s s_len tnD capD ≠ some (.error .tooSmall)) := by
  constructor
  · intro I tnD capD cap hd hts
    by_cases hne : I = []
    · subst hne
      rfl
    · rw [parse_json_some I hne tnD capD, parse_json_some I hne false cap]
      rw [parse_json_some I hne false cap] at hts
      have hoff : captureOff (initFrozen I tnD capD) = true := by
        rcases hd with h | h <;> simp [captureOff, initFrozen, h]
      have h5 := onOk_ne_ts hts
      have hsim : parseRun (FUEL I) .object (initFrozen I tnD capD) =
          (parseRun (FUEL I) .object (initFrozen I false cap)).map
            (Except.map (sync (initFrozen I tnD capD))) :=
        parseRun_sync (FUEL I) .object (initFrozen I false cap)
          (initFrozen I tnD capD) hoff rfl h5.1
      rw [hsim]
      have hF : (fun g => { initFrozen I tnD capD with cur := g.cur }) =
          sync (initFrozen I tnD capD) := rfl
      rw [hF]
      refine onOk_map_comm ?_
      intro m hm
      exact eofCapture_sync hoff (h5.2 m hm)
  · intro s s_len tnD capD hd
    exact parse_json_noTS s s_len tnD capD hd

/-- C5 witness: `{}` parsed with a NULL token buffer matches the parse
with capacity 3 (which succeeds) up to the untouched buffer, and a
disabled parse of `[` does not return tooSmall. -/
theorem c5_zero_capacity_validation_only_witness :
    parse_json (some [123, 125]) (([123, 125] : List Nat).length : Int) true 0 =
      (parse_json (some [123, 125]) (([123, 125] : List Nat).length : Int) false 3).map
        (Except.map (fun g => { initFrozen [123, 125] true 0 with cur := g.cur })) ∧
    parse_json (some [91]) 1 true 0 ≠ some (.error .tooSmall) :=
  ⟨c5_zero_capacity_validation_only.1 [123, 125] true 0 3 (Or.inl rfl) (by decide),
   c5_zero_capacity_validation_only.2 (some [91]) 1 true 0 (Or.inl rfl)⟩

/-! ### Capacity simulation (claim C3): two capture-enabled runs over the
same input track each other exactly, except that the smaller buffer fails
with tooSmall at the first capture_ptr that would overflow it. -/

/-- States of a capacity-`k` run (`f2`) mirroring a reference enabled run
(`f`): same input, cursor and token count, both with captures enabled, and
the small count within its capacity. The token buffers themselves (and
their capacities) are unconstrained, since the parser's control flow never
reads them back. -/
def CapMirror (f2 f : Frozen) : Prop :=
  f2.input = f.input ∧ f2.cur = f.cur ∧ f2.num_tokens = f.num_tokens ∧
  captureOff f2 = false ∧ captureOff f = false ∧ f2.num_tokens ≤ f2.max_tokens

theorem capMirror_skip {f2 f : Frozen} (h : CapMirror f2 f) :
    CapMirror (skip_whitespaces f2) (skip_whitespaces f) := by
  refine ⟨h.1, ?_, h.2.2.1, h.2.2.2.1, h.2.2.2.2.1, h.2.2.2.2.2⟩
  show f2.cur + skipLen (f2.input.drop f2.cur) = f.cur + skipLen (f.input.drop f.cur)
  rw [h.1, h.2.1]

theorem capMirror_addCur {f2 f : Frozen} (h : CapMirror f2 f) (n : Nat) :
    CapMirror { f2 with cur := f2.cur + n } { f with cur := f.cur + n } := by
  refine ⟨h.1, ?_, h.2.2.1, h.2.2.2.1, h.2.2.2.2.1, h.2.2.2.2.2⟩
  show f2.cur + n = f.cur + n
  rw [h.2.1]

theorem peeked_capMirror {f2 f : Frozen} (h : CapMirror f2 f) :
    peeked f2 = peeked f := by
  show f2.input.get? (f2.cur + skipLen (f2.input.drop f2.cur)) =
    f.input.get? (f.cur + skipLen (f.input.drop f.cur))
  rw [h.1, h.2.1]

theorem left_capMirror {f2 f : Frozen} (h : CapMirror f2 f) : left f2 = left f := by
  rw [left, left, h.1, h.2.1]

theorem compareStr_capMirror {f2 f : Frozen} (h : CapMirror f2 f) (str : List Nat) :
    compareStr f2 str = compareStr f str := by
  rw [compareStr, compareStr, left_capMirror h, h.1, h.2.1]

theorem test_and_skip_cap {f2 f m : Frozen} (h : CapMirror f2 f) (e0 : Nat)
    (hm : test_and_skip f e0 = .ok m) :
    ∃ m2, test_and_skip f2 e0 = .ok m2 ∧ CapMirror m2 m := by
  rw [test_and_skip] at hm
  cases hc : (skip_whitespaces f).input.get? (skip_whitespaces f).cur with
  | none =>
    rw [hc] at hm
    exact absurd hm (fun hh => Except.noConfusion hh)
  | some ch =>
    rw [hc] at hm
    have hm2 : (if ch = e0 then
        Except.ok { skip_whitespaces f with cur := (skip_whitespaces f).cur + 1 }
      else (Except.error Jerr.invalid : Except Jerr Frozen)) = Except.ok m := hm
    by_cases he : ch = e0
    · subst he
      rw [if_pos rfl] at hm2
      have hmeq : { skip_whitespaces f with cur := (skip_whitespaces f).cur + 1 } = m := by
        injection hm2
    
      have hc2 : (skip_whitespaces f2).input.get? (skip_whitespaces f2).cur = some ch := by
        show peeked f2 = some ch
        rw [peeked_capMirror h]
        exact hc
      refine ⟨{ skip_whitespaces f2 with cur := (skip_whitespaces f2).cur + 1 },
        test_and_skip_yes hc2, ?_⟩
      rw [← hmeq]
      exact capMirror_addCur (capMirror_skip h) 1
    · rw [if_neg he] at hm2
      exact absurd hm2 (fun hh => Except.noConfusion hh)

theorem capture_ptr_cap {f2 f g : Frozen} (h : CapMirror f2 f) (p2 : Nat)
    {p : Nat} {ty : JType} (hg : capture_ptr f p ty = .ok g) :
    (g.num_tokens ≤ f2.max_tokens →
      ∃ g2, capture_ptr f2 p2 ty = .ok g2 ∧ CapMirror g2 g) ∧
    (f2.max_tokens < g.num_tokens → capture_ptr f2 p2 ty = .error .tooSmall) := by
  rcases capture_ptr_ok_inv hg with ⟨hoff, hgf⟩ | ⟨hoff, hlt, hgf⟩
  · have hc := h.2.2.2.2.1
    rw [hoff] at hc
    exact Bool.noConfusion hc
  · have e1 : g.input = f.input := by
      rw [hgf]
    have e2 : g.cur = f.cur := by
      rw [hgf]
    have e3 : g.num_tokens = f.num_tokens + 1 := by
      rw [hgf]
    have e4 : captureOff g = captureOff f := by
      rw [hgf]
      rfl
    constructor
    · intro hle
      rw [e3] at hle
      have hnum := h.2.2.1
      have hlt2 : f2.num_tokens < f2.max_tokens := by omega
      refine ⟨{ f2 with
        tokens := listModify f2.tokens f2.num_tokens (openTok p2 ty),
        num_tokens := f2.num_tokens + 1 }, capture_ptr_yes p2 ty h.2.2.2.1 hlt2, ?_⟩
      refine ⟨?_, ?_, ?_, ?_, ?_, ?_⟩
      · show f2.input = g.input
        rw [e1, h.1]
      · show f2.cur = g.cur
        rw [e2, h.2.1]
      · show f2.num_tokens + 1 = g.num_tokens
        rw [e3, hnum]
      · exact h.2.2.2.1
      · rw [e4]
        exact h.2.2.2.2.1
      · show f2.num_tokens + 1 ≤ f2.max_tokens
        omega
    · intro hgt
      rw [e3] at hgt
      have hnum := h.2.2.1
      apply capture_ptr_full p2 ty h.2.2.2.1
      omega

theorem capture_len_capMirror {f2 f : Frozen} (h : CapMirror f2 f)
    (idx2 idx : Int) (p2 p : Nat) :
    CapMirror (capture_len f2 idx2 p2) (capture_len f idx p) := by
  obtain ⟨b1, b2, b3, b4, b5, b6⟩ := capture_len_fields f2 idx2 p2
  obtain ⟨c1, c2, c3, c4, c5, c6⟩ := capture_len_fields f idx p
  refine ⟨?_, ?_, ?_, ?_, ?_, ?_⟩
  · rw [b1, c1]
    exact h.1
  · rw [b2, c2]
    exact h.2.1
  · rw [b5, c5]
    exact h.2.2.1
  · rw [captureOff, b3, b4]
    exact h.2.2.2.1
  · rw [captureOff, c3, c4]
    exact h.2.2.2.2.1
  · rw [b5, b4]
    exact h.2.2.2.2.2

theorem parse_string_loop_cap :
    ∀ (fuel : Nat) (m m2 : Frozen), CapMirror m2 m →
      ∀ g, parse_string_loop fuel m = some (.ok g) →
        ∃ g2, parse_string_loop fuel m2 = some (.ok g2) ∧ CapMirror g2 g := by
  intro fuel
  induction fuel with
  | zero =>
    intro m m2 h g hg
    exact absurd hg (fun hh => Option.noConfusion hh)
  | succ n ih =>
    intro m m2 h g hg
    rw [parse_string_loop] at hg
    rw [parse_string_loop]
    by_cases hlt : m.cur < m.input.length
    · have hlt2 : m2.cur < m2.input.length := by
        rw [h.1, h.2.1]
        exact hlt
      rw [if_pos hlt] at hg
      rw [if_pos hlt2]
      have hgd : m2.input.getD m2.cur 0 = m.input.getD m.cur 0 := by
        rw [h.1, h.2.1]
      rw [hgd]
      by_cases hrange : 32 ≤ m.input.getD m.cur 0 ∧ m.input.getD m.cur 0 ≤ 127
      · rw [if_pos hrange] at hg
        rw [if_pos hrange]
        by_cases hesc : m.input.getD m.cur 0 = 92
        · rw [if_pos hesc] at hg
          rw [if_pos hesc]
          have harg : m2.input.drop (m2.cur + 1) = m.input.drop (m.cur + 1) := by
            rw [h.1, h.2.1]
          rw [harg, left_capMirror h]
          cases hge : get_escape_len (m.input.drop (m.cur + 1)) (left m) with
          | error e =>
            rw [hge] at hg
            exact absurd hg (fun hh => pres_err hh)
          | ok k =>
            rw [hge] at hg
            exact ih { m with cur := m.cur + k + 1 } { m2 with cur := m2.cur + k + 1 }
              ⟨h.1, by show m2.cur + k + 1 = m.cur + k + 1; rw [h.2.1], h.2.2.1,
                h.2.2.2.1, h.2.2.2.2.1, h.2.2.2.2.2⟩ g hg
        · rw [if_neg hesc] at hg
          rw [if_neg hesc]
          by_cases hq : m.input.getD m.cur 0 = 34
          · rw [if_pos hq] at hg
            rw [if_pos hq]
            have hgeq : { capture_len m ((m.num_tokens : Int) - 1) m.cur with
                cur := m.cur + 1 } = g := by
              have h1 : Except.ok (ε := Jerr)
                  { capture_len m ((m.num_tokens : Int) - 1) m.cur with cur := m.cur + 1 } =
                  .ok g := by
                injection hg
              injection h1
            refine ⟨{ capture_len m2 ((m2.num_tokens : Int) - 1) m2.cur with
              cur := m2.cur + 1 }, rfl, ?_⟩
            rw [← hgeq]
            have hcl := capture_len_capMirror h ((m2.num_tokens : Int) - 1)
              ((m.num_tokens : Int) - 1) m2.cur m.cur
            refine ⟨hcl.1, ?_, hcl.2.2.1, hcl.2.2.2.1, hcl.2.2.2.2.1, hcl.2.2.2.2.2⟩
            show m2.cur + 1 = m.cur + 1
            rw [h.2.1]
          · rw [if_neg hq] at hg
            rw [if_neg hq]
            exact ih { m with cur := m.cur + 1 } { m2 with cur := m2.cur + 1 }
              ⟨h.1, by show m2.cur + 1 = m.cur + 1; rw [h.2.1], h.2.2.1,
                h.2.2.2.1, h.2.2.2.2.1, h.2.2.2.2.2⟩ g hg
      · rw [if_neg hrange] at hg
        exact absurd hg (fun hh => pres_err hh)
    · rw [if_neg hlt] at hg
      exact absurd hg (fun hh => pres_err hh)

theorem captureOff_extends_eq {f g : Frozen} (hx : Extends f g) :
    captureOff g = captureOff f := by
  rw [captureOff, captureOff, hx.2.1, hx.2.2.1]

theorem parse_string_cap {f2 f g : Frozen} (h : CapMirror f2 f)
    (hg : parse_string f = .ok g) :
    (g.num_tokens ≤ f2.max_tokens → ∃ g2, parse_string f2 = .ok g2 ∧ CapMirror g2 g) ∧
    (f2.max_tokens < g.num_tokens → parse_string f2 = .error .tooSmall) := by
  rw [parse_string] at hg
  cases h1 : test_and_skip f 34 with
  | error e =>
    rw [h1] at hg
    exact absurd hg (fun hh => Except.noConfusion hh)
  | ok f1 =>
    rw [h1] at hg
    obtain ⟨m2, hm2, hmm⟩ := test_and_skip_cap h 34 h1
    have hmax2 : m2.max_tokens = f2.max_tokens := (test_and_skip_extends 34 hm2).1.2.2.1
    have hg2 : (match capture_ptr f1 f1.cur JType.STRING with
        | .error e => .error e
        | .ok g1 => (parse_string_loop (g1.input.length + 1) g1).getD (.error .incomplete)) =
        Except.ok (ε := Jerr) g := hg
    cases hcp : capture_ptr f1 f1.cur JType.STRING with
    | error e =>
      rw [hcp] at hg2
      exact absurd hg2 (fun hh => Except.noConfusion hh)
    | ok g1 =>
      rw [hcp] at hg2
      have hg3 : (parse_string_loop (g1.input.length + 1) g1).getD (.error .incomplete) =
          Except.ok (ε := Jerr) g := hg2
      cases hl : parse_string_loop (g1.input.length + 1) g1 with
      | none =>
        rw [hl] at hg3
        exact absurd hg3 (fun hh => Except.noConfusion hh)
      | some r =>
        rw [hl] at hg3
        have hr : r = .ok g := hg3
        subst hr
        have hnum1 : g1.num_tokens = f1.num_tokens + 1 := by
          rcases capture_ptr_ok_inv hcp with ⟨hoff, hgf⟩ | ⟨hoff, hlt, hgf⟩
          · have hofff1 : captureOff f1 = false := by
              rw [captureOff_extends_eq (test_and_skip_extends 34 h1).1]
              exact h.2.2.2.2.1
            rw [hofff1] at hoff
            exact Bool.noConfusion hoff
          · rw [hgf]
        have hnumg : g.num_tokens = g1.num_tokens :=
          (parse_string_loop_extends (g1.input.length + 1) g1 g hl).2.2
        constructor
        · intro hle
          have hcap1 : g1.num_tokens ≤ m2.max_tokens := by
            rw [hmax2]
            omega
          obtain ⟨gc2, hgc2, hgcm⟩ := (capture_ptr_cap hmm m2.cur hcp).1 hcap1
          obtain ⟨g2, hg2l, hg2m⟩ :=
            parse_string_loop_cap (g1.input.length + 1) g1 gc2 hgcm g hl
          refine ⟨g2, ?_, hg2m⟩
          have e1 : parse_string f2 = (match capture_ptr m2 m2.cur JType.STRING with
              | .error e => .error e
              | .ok gg =>
                (parse_string_loop (gg.input.length + 1) gg).getD (.error .incomplete)) := by
            rw [parse_string, hm2]
          rw [e1, hgc2]
          show (parse_string_loop (gc2.input.length + 1) gc2).getD (.error .incomplete) =
            .ok g2
          have hlen : gc2.input.length = g1.input.length := congrArg List.length hgcm.1
          rw [hlen, hg2l]
          rfl
        · intro hgt
          have hcap2 : m2.max_tokens < g1.num_tokens := by
            rw [hmax2]
            omega
          have hfull := (capture_ptr_cap hmm m2.cur hcp).2 hcap2
          have e1 : parse_string f2 = (match capture_ptr m2 m2.cur JType.STRING with
              | .error e => .error e
              | .ok gg =>
                (parse_string_loop (gg.input.length + 1) gg).getD (.error .incomplete)) := by
            rw [parse_string, hm2]
          rw [e1, hfull]

theorem identAfter_cap {f2 f g : Frozen} (h : CapMirror f2 f)
    (hg : identAfter f = .ok g) :
    (g.num_tokens ≤ f2.max_tokens → ∃ g2, identAfter f2 = .ok g2 ∧ CapMirror g2 g) ∧
    (f2.max_tokens < g.num_tokens → identAfter f2 = .error .tooSmall) := by
  rw [identAfter] at hg
  cases hcp : capture_ptr f f.cur JType.STRING with
  | error e =>
    rw [hcp] at hg
    exact absurd hg (fun hh => Except.noConfusion hh)
  | ok g1 =>
    rw [hcp] at hg
    have hgeq : capture_len { g1 with cur := g1.cur + identRun (g1.input.drop g1.cur) }
        ((g1.num_tokens : Int) - 1) (g1.cur + identRun (g1.input.drop g1.cur)) = g := by
      injection hg
    have hnum1 : g1.num_tokens = f.num_tokens + 1 := by
      rcases capture_ptr_ok_inv hcp with ⟨hoff, hgf⟩ | ⟨hoff, hlt, hgf⟩
      · rw [h.2.2.2.2.1] at hoff
        exact Bool.noConfusion hoff
      · rw [hgf]
    have hnumg : g.num_tokens = g1.num_tokens := by
      rw [← hgeq, (capture_len_fields _ _ _).2.2.2.2.1]
    constructor
    · intro hle
      have hcap1 : g1.num_tokens ≤ f2.max_tokens := by omega
      obtain ⟨gc2, hgc2, hgcm⟩ := (capture_ptr_cap h f2.cur hcp).1 hcap1
      refine ⟨capture_len { gc2 with cur := gc2.cur + identRun (gc2.input.drop gc2.cur) }
        ((gc2.num_tokens : Int) - 1) (gc2.cur + identRun (gc2.input.drop gc2.cur)), ?_, ?_⟩
      · rw [identAfter, hgc2]
      · rw [← hgeq]
        have hmir : CapMirror
            { gc2 with cur := gc2.cur + identRun (gc2.input.drop gc2.cur) }
            { g1 with cur := g1.cur + identRun (g1.input.drop g1.cur) } := by
          refine ⟨hgcm.1, ?_, hgcm.2.2.1, hgcm.2.2.2.1, hgcm.2.2.2.2.1, hgcm.2.2.2.2.2⟩
          show gc2.cur + identRun (gc2.input.drop gc2.cur) =
            g1.cur + identRun (g1.input.drop g1.cur)
          rw [hgcm.1, hgcm.2.1]
        exact capture_len_capMirror hmir _ _ _ _
    · intro hgt
      have hcap2 : f2.max_tokens < g1.num_tokens := by omega
      have hfull := (capture_ptr_cap h f2.cur hcp).2 hcap2
      rw [identAfter, hfull]

theorem parse_identifier_cap {f2 f g : Frozen} (h : CapMirror f2 f)
    (hg : parse_identifier f = .ok g) :
    (g.num_tokens ≤ f2.max_tokens →
      ∃ g2, parse_identifier f2 = .ok g2 ∧ CapMirror g2 g) ∧
    (f2.max_tokens < g.num_tokens → parse_identifier f2 = .error .tooSmall) := by
  rw [parse_identifier] at hg
  cases hp : peeked f with
  | none =>
    rw [hp] at hg
    exact absurd hg (fun hh => Except.noConfusion hh)
  | some c =>
    rw [hp] at hg
    have hg2 : identDispatch (skip_whitespaces f) c = .ok g := hg
    rw [identDispatch] at hg2
    by_cases ha : is_alpha c = true
    · rw [if_pos ha] at hg2
      have hia := identAfter_cap (capMirror_skip h) hg2
      constructor
      · intro hle
        obtain ⟨g2, hga, hgm⟩ := hia.1 hle
        refine ⟨g2, ?_, hgm⟩
        rw [parse_identifier, peeked_capMirror h, hp]
        show identDispatch (skip_whitespaces f2) c = .ok g2
        rw [identDispatch, if_pos ha]
        exact hga
      · intro hgt
        have hsm := hia.2 hgt
        rw [parse_identifier, peeked_capMirror h, hp]
        show identDispatch (skip_whitespaces f2) c = .error .tooSmall
        rw [identDispatch, if_pos ha]
        exact hsm
    · rw [if_neg ha] at hg2
      exact absurd hg2 (fun hh => Except.noConfusion hh)

theorem parse_number_cap {f2 f g : Frozen} (h : CapMirror f2 f)
    (hg : parse_number f = .ok g) :
    (g.num_tokens ≤ f2.max_tokens → ∃ g2, parse_number f2 = .ok g2 ∧ CapMirror g2 g) ∧
    (f2.max_tokens < g.num_tokens → parse_number f2 = .error .tooSmall) := by
  rw [parse_number] at hg
  cases hcp : capture_ptr (skip_whitespaces f) (skip_whitespaces f).cur JType.NUMBER with
  | error e =>
    rw [hcp] at hg
    exact absurd hg (fun hh => Except.noConfusion hh)
  | ok g1 =>
    rw [hcp] at hg
    have hnum1 : g1.num_tokens = f.num_tokens + 1 := by
      rcases capture_ptr_ok_inv hcp with ⟨hoff, hgf⟩ | ⟨hoff, hlt, hgf⟩
      · have hoffs : captureOff (skip_whitespaces f) = false := h.2.2.2.2.1
        rw [hoffs] at hoff
        exact Bool.noConfusion hoff
      · rw [hgf]
        rfl
    have hgif : (if peeked f = some 45 then
        Except.ok (ε := Jerr) (capture_len
          { g1 with cur := g1.cur + 1 + digitRun (g1.input.drop (g1.cur + 1)) }
          ((g1.num_tokens : Int) - 1)
          (g1.cur + 1 + digitRun (g1.input.drop (g1.cur + 1))))
      else .ok (capture_len
          { g1 with cur := g1.cur + digitRun (g1.input.drop g1.cur) }
          ((g1.num_tokens : Int) - 1)
          (g1.cur + digitRun (g1.input.drop g1.cur)))) = Except.ok g := hg
    by_cases hm45 : peeked f = some 45
    · rw [if_pos hm45] at hgif
      have hgeq : capture_len
          { g1 with cur := g1.cur + 1 + digitRun (g1.input.drop (g1.cur + 1)) }
          ((g1.num_tokens : Int) - 1)
          (g1.cur + 1 + digitRun (g1.input.drop (g1.cur + 1))) = g := by
        injection hgif
      have hnumg : g.num_tokens = g1.num_tokens := by
        rw [← hgeq, (capture_len_fields _ _ _).2.2.2.2.1]
      constructor
      · intro hle
        have hcap1 : g1.num_tokens ≤ (skip_whitespaces f2).max_tokens := by
          show g1.num_tokens ≤ f2.max_tokens
          omega
        obtain ⟨gc2, hgc2, hgcm⟩ :=
          (capture_ptr_cap (capMirror_skip h) (skip_whitespaces f2).cur hcp).1 hcap1
        refine ⟨capture_len
          { gc2 with cur := gc2.cur + 1 + digitRun (gc2.input.drop (gc2.cur + 1)) }
          ((gc2.num_tokens : Int) - 1)
          (gc2.cur + 1 + digitRun (gc2.input.drop (gc2.cur + 1))), ?_, ?_⟩
        · have e1 : parse_number f2 = (if peeked f2 = some 45 then
              Except.ok (ε := Jerr) (capture_len
                { gc2 with cur := gc2.cur + 1 + digitRun (gc2.input.drop (gc2.cur + 1)) }
                ((gc2.num_tokens : Int) - 1)
                (gc2.cur + 1 + digitRun (gc2.input.drop (gc2.cur + 1))))
            else .ok (capture_len
                { gc2 with cur := gc2.cur + digitRun (gc2.input.drop gc2.cur) }
                ((gc2.num_tokens : Int) - 1)
                (gc2.cur + digitRun (gc2.input.drop gc2.cur)))) := by
            rw [parse_number, hgc2]
          rw [e1, peeked_capMirror h, if_pos hm45]
        · rw [← hgeq]
          have hmir : CapMirror
              { gc2 with cur := gc2.cur + 1 + digitRun (gc2.input.drop (gc2.cur + 1)) }
              { g1 with cur := g1.cur + 1 + digitRun (g1.input.drop (g1.cur + 1)) } := by
            refine ⟨hgcm.1, ?_, hgcm.2.2.1, hgcm.2.2.2.1, hgcm.2.2.2.2.1, hgcm.2.2.2.2.2⟩
            show gc2.cur + 1 + digitRun (gc2.input.drop (gc2.cur + 1)) =
              g1.cur + 1 + digitRun (g1.input.drop (g1.cur + 1))
            rw [hgcm.1, hgcm.2.1]
          exact capture_len_capMirror hmir _ _ _ _
      · intro hgt
        have hcap2 : (skip_whitespaces f2).max_tokens < g1.num_tokens := by
          show f2.max_tokens < g1.num_tokens
          omega
        have hfull :=
          (capture_ptr_cap (capMirror_skip h) (skip_whitespaces f2).cur hcp).2 hcap2
        rw [parse_number, hfull]
    · rw [if_neg hm45] at hgif
      have hgeq : capture_len
          { g1 with cur := g1.cur + digitRun (g1.input.drop g1.cur) }
          ((g1.num_tokens : Int) - 1)
          (g1.cur + digitRun (g1.input.drop g1.cur)) = g := by
        injection hgif
      have hnumg : g.num_tokens = g1.num_tokens := by
        rw [← hgeq, (capture_len_fields _ _ _).2.2.2.2.1]
      constructor
      · intro hle
        have hcap1 : g1.num_tokens ≤ (skip_whitespaces f2).max_tokens := by
          show g1.num_tokens ≤ f2.max_tokens
          omega
        obtain ⟨gc2, hgc2, hgcm⟩ :=
          (capture_ptr_cap (capMirror_skip h) (skip_whitespaces f2).cur hcp).1 hcap1
        refine ⟨capture_len
          { gc2 with cur := gc2.cur + digitRun (gc2.input.drop gc2.cur) }
          ((gc2.num_tokens : Int) - 1)
          (gc2.cur + digitRun (gc2.input.drop gc2.cur)), ?_, ?_⟩
        · have e1 : parse_number f2 = (if peeked f2 = some 45 then
              Except.ok (ε := Jerr) (capture_len
                { gc2 with cur := gc2.cur + 1 + digitRun (gc2.input.drop (gc2.cur + 1)) }
                ((gc2.num_tokens : Int) - 1)
                (gc2.cur + 1 + digitRun (gc2.input.drop (gc2.cur + 1))))
            else .ok (capture_len
                { gc2 with cur := gc2.cur + digitRun (gc2.input.drop gc2.cur) }
                ((gc2.num_tokens : Int) - 1)
                (gc2.cur + digitRun (gc2.input.drop gc2.cur)))) := by
            rw [parse_number, hgc2]
          rw [e1, peeked_capMirror h, if_neg hm45]
        · rw [← hgeq]
          have hmir : CapMirror
              { gc2 with cur := gc2.cur + digitRun (gc2.input.drop gc2.cur) }
              { g1 with cur := g1.cur + digitRun (g1.input.drop g1.cur) } := by
            refine ⟨hgcm.1, ?_, hgcm.2.2.1, hgcm.2.2.2.1, hgcm.2.2.2.2.1, hgcm.2.2.2.2.2⟩
            show gc2.cur + digitRun (gc2.input.drop gc2.cur) =
              g1.cur + digitRun (g1.input.drop g1.cur)
            rw [hgcm.1, hgcm.2.1]
          exact capture_len_capMirror hmir _ _ _ _
      · intro hgt
        have hcap2 : (skip_whitespaces f2).max_tokens < g1.num_tokens := by
          show f2.max_tokens < g1.num_tokens
          omega
        have hfull :=
          (capture_ptr_cap (capMirror_skip h) (skip_whitespaces f2).cur hcp).2 hcap2
        rw [parse_number, hfull]

theorem capture_literal_cap {f2 f g : Frozen} (h : CapMirror f2 f) (ty : JType) (n : Nat)
    (hg : capture_literal f ty n = .ok g) :
    (g.num_tokens ≤ f2.max_tokens →
      ∃ g2, capture_literal f2 ty n = .ok g2 ∧ CapMirror g2 g) ∧
    (f2.max_tokens < g.num_tokens → capture_literal f2 ty n = .error .tooSmall) := by
  rw [capture_literal] at hg
  cases hcp : capture_ptr f f.cur ty with
  | error e =>
    rw [hcp] at hg
    exact absurd hg (fun hh => Except.noConfusion hh)
  | ok g1 =>
    rw [hcp] at hg
    have hgeq : capture_len { g1 with cur := g1.cur + n }
        ((g1.num_tokens : Int) - 1) (g1.cur + n) = g := by
      injection hg
    have hnum1 : g1.num_tokens = f.num_tokens + 1 := by
      rcases capture_ptr_ok_inv hcp with ⟨hoff, hgf⟩ | ⟨hoff, hlt, hgf⟩
      · rw [h.2.2.2.2.1] at hoff
        exact Bool.noConfusion hoff
      · rw [hgf]
    have hnumg : g.num_tokens = g1.num_tokens := by
      rw [← hgeq, (capture_len_fields _ _ _).2.2.2.2.1]
    constructor
    · intro hle
      have hcap1 : g1.num_tokens ≤ f2.max_tokens := by omega
      obtain ⟨gc2, hgc2, hgcm⟩ := (capture_ptr_cap h f2.cur hcp).1 hcap1
      refine ⟨capture_len { gc2 with cur := gc2.cur + n }
        ((gc2.num_tokens : Int) - 1) (gc2.cur + n), ?_, ?_⟩
      · rw [capture_literal, hgc2]
      · rw [← hgeq]
        have hmir : CapMirror { gc2 with cur := gc2.cur + n } { g1 with cur := g1.cur + n } := by
          refine ⟨hgcm.1, ?_, hgcm.2.2.1, hgcm.2.2.2.1, hgcm.2.2.2.2.1, hgcm.2.2.2.2.2⟩
          show gc2.cur + n = g1.cur + n
          rw [hgcm.2.1]
        exact capture_len_capMirror hmir _ _ _ _
    · intro hgt
      have hcap2 : f2.max_tokens < g1.num_tokens := by omega
      have hfull := (capture_ptr_cap h f2.cur hcp).2 hcap2
      rw [capture_literal, hfull]

theorem keyDispatch_cap {f2 f g : Frozen} (h : CapMirror f2 f) {c : Nat}
    (hg : keyDispatch f c = some (.ok g)) :
    (g.num_tokens ≤ f2.max_tokens →
      ∃ g2, keyDispatch f2 c = some (.ok g2) ∧ CapMirror g2 g) ∧
    (f2.max_tokens < g.num_tokens → keyDispatch f2 c = some (.error .tooSmall)) := by
  rw [keyDispatch] at hg
  by_cases ha : is_alpha c = true
  · rw [if_pos ha] at hg
    have hg2 : parse_identifier f = .ok g := by
      injection hg
    have hpi := parse_identifier_cap h hg2
    constructor
    · intro hle
      obtain ⟨g2, hs, hm⟩ := hpi.1 hle
      refine ⟨g2, ?_, hm⟩
      rw [keyDispatch, if_pos ha, hs]
    · intro hgt
      rw [keyDispatch, if_pos ha, hpi.2 hgt]
  · rw [if_neg ha] at hg
    by_cases h34 : (c == 34) = true
    · rw [if_pos h34] at hg
      have hg2 : parse_string f = .ok g := by
        injection hg
      have hps := parse_string_cap h hg2
      constructor
      · intro hle
        obtain ⟨g2, hs, hm⟩ := hps.1 hle
        refine ⟨g2, ?_, hm⟩
        rw [keyDispatch, if_neg ha, if_pos h34, hs]
      · intro hgt
        rw [keyDispatch, if_neg ha, if_pos h34, hps.2 hgt]
    · rw [if_neg h34] at hg
      exact absurd hg (fun hh => pres_err hh)

theorem compositeClose_num {closer : Nat} {ind : Int} {h1 g : Frozen}
    (hg : compositeClose closer ind h1 = some (.ok g)) :
    g.num_tokens = h1.num_tokens := by
  rw [compositeClose] at hg
  obtain ⟨m, hts, hk⟩ := exOk_ok_inv hg
  have h3 : Except.ok (ε := Jerr) (capture_len m ind m.cur) = .ok g := by
    injection hk
  have h2 : capture_len m ind m.cur = g := by
    injection h3
  rw [← h2, (capture_len_fields _ _ _).2.2.2.2.1,
    (test_and_skip_extends closer hts).2.2.1]

theorem compositeClose_cap {f2 h1 g : Frozen} (h : CapMirror f2 h1)
    {closer : Nat} (ind2 ind : Int)
    (hg : compositeClose closer ind h1 = some (.ok g)) :
    ∃ g2, compositeClose closer ind2 f2 = some (.ok g2) ∧ CapMirror g2 g := by
  rw [compositeClose] at hg
  obtain ⟨m, hts, hk⟩ := exOk_ok_inv hg
  have h3 : Except.ok (ε := Jerr) (capture_len m ind m.cur) = .ok g := by
    injection hk
  have h2 : capture_len m ind m.cur = g := by
    injection h3
  obtain ⟨m2, hts2, hmm⟩ := test_and_skip_cap h closer hts
  refine ⟨capture_len m2 ind2 m2.cur, ?_, ?_⟩
  · rw [compositeClose, hts2]
    rfl
  · rw [← h2]
    exact capture_len_capMirror hmm ind2 ind m2.cur m.cur

theorem valueDispatch_cap {next : Next} {f2 f g : Frozen} (h : CapMirror f2 f)
    (hnext : ∀ r fb fb2 gb, CapMirror fb2 fb → next r fb = some (.ok gb) →
      (gb.num_tokens ≤ fb2.max_tokens →
        ∃ gb2, next r fb2 = some (.ok gb2) ∧ CapMirror gb2 gb) ∧
      (fb2.max_tokens < gb.num_tokens → next r fb2 = some (.error .tooSmall)))
    {c : Nat} (hg : valueDispatch next f c = some (.ok g)) :
    (g.num_tokens ≤ f2.max_tokens →
      ∃ g2, valueDispatch next f2 c = some (.ok g2) ∧ CapMirror g2 g) ∧
    (f2.max_tokens < g.num_tokens → valueDispatch next f2 c = some (.error .tooSmall)) := by
  have hcmp1 : compareStr f2 nullBytes = compareStr f nullBytes := compareStr_capMirror h _
  have hcmp2 : compareStr f2 trueBytes = compareStr f trueBytes := compareStr_capMirror h _
  have hcmp3 : compareStr f2 falseBytes = compareStr f falseBytes := compareStr_capMirror h _
  have hdec : decide (f2.cur + 1 < f2.input.length) =
      decide (f.cur + 1 < f.input.length) := by
    rw [h.1, h.2.1]
  have hgd : f2.input.getD (f2.cur + 1) 0 = f.input.getD (f.cur + 1) 0 := by
    rw [h.1, h.2.1]
  rw [valueDispatch] at hg
  by_cases h34 : (c == 34) = true
  · rw [if_pos h34] at hg
    have hg2 : parse_string f = .ok g := by
      injection hg
    have hps := parse_string_cap h hg2
    constructor
    · intro hle
      obtain ⟨g2, hs, hm⟩ := hps.1 hle
      refine ⟨g2, ?_, hm⟩
      rw [valueDispatch, if_pos h34, hs]
    · intro hgt
      rw [valueDispatch, if_pos h34, hps.2 hgt]
  · rw [if_neg h34] at hg
    by_cases h123 : (c == 123) = true
    · rw [if_pos h123] at hg
      have hob := hnext .object f f2 g h hg
      constructor
      · intro hle
        obtain ⟨g2, hs, hm⟩ := hob.1 hle
        refine ⟨g2, ?_, hm⟩
        rw [valueDispatch, if_neg h34, if_pos h123]
        exact hs
      · intro hgt
        rw [valueDispatch, if_neg h34, if_pos h123]
        exact hob.2 hgt
    · rw [if_neg h123] at hg
      by_cases h91 : (c == 91) = true
      · rw [if_pos h91] at hg
        have har := hnext .array f f2 g h hg
        constructor
        · intro hle
          obtain ⟨g2, hs, hm⟩ := har.1 hle
          refine ⟨g2, ?_, hm⟩
          rw [valueDispatch, if_neg h34, if_neg h123, if_pos h91]
          exact hs
        · intro hgt
          rw [valueDispatch, if_neg h34, if_neg h123, if_pos h91]
          exact har.2 hgt
      · rw [if_neg h91] at hg
        by_cases hn : (c == 110 && compareStr f nullBytes) = true
        · rw [if_pos hn] at hg
          have hg2 : capture_literal f .NULL 4 = .ok g := by
            injection hg
          have hcl := capture_literal_cap h .NULL 4 hg2
          have hn2 : (c == 110 && compareStr f2 nullBytes) = true := by
            rw [hcmp1]
            exact hn
          constructor
          · intro hle
            obtain ⟨g2, hs, hm⟩ := hcl.1 hle
            refine ⟨g2, ?_, hm⟩
            rw [valueDispatch, if_neg h34, if_neg h123, if_neg h91, if_pos hn2, hs]
          · intro hgt
            rw [valueDispatch, if_neg h34, if_neg h123, if_neg h91, if_pos hn2,
              hcl.2 hgt]
        · rw [if_neg hn] at hg
          have hn2 : ¬((c == 110 && compareStr f2 nullBytes) = true) := by
            rw [hcmp1]
            exact hn
          by_cases ht : (c == 116 && compareStr f trueBytes) = true
          · rw [if_pos ht] at hg
            have hg2 : capture_literal f .TRUE 4 = .ok g := by
              injection hg
            have hcl := capture_literal_cap h .TRUE 4 hg2
            have ht2 : (c == 116 && compareStr f2 trueBytes) = true := by
              rw [hcmp2]
              exact ht
            constructor
            · intro hle
              obtain ⟨g2, hs, hm⟩ := hcl.1 hle
              refine ⟨g2, ?_, hm⟩
              rw [valueDispatch, if_neg h34, if_neg h123, if_neg h91, if_neg hn2,
                if_pos ht2, hs]
            · intro hgt
              rw [valueDispatch, if_neg h34, if_neg h123, if_neg h91, if_neg hn2,
                if_pos ht2, hcl.2 hgt]
          · rw [if_neg ht] at hg
            have ht2 : ¬((c == 116 && compareStr f2 trueBytes) = true) := by
              rw [hcmp2]
              exact ht
            by_cases hf : (c == 102 && compareStr f falseBytes) = true
            · rw [if_pos hf] at hg
              have hg2 : capture_literal f .FALSE 5 = .ok g := by
                injection hg
              have hcl := capture_literal_cap h .FALSE 5 hg2
              have hf2 : (c == 102 && compareStr f2 falseBytes) = true := by
                rw [hcmp3]
                exact hf
              constructor
              · intro hle
                obtain ⟨g2, hs, hm⟩ := hcl.1 hle
                refine ⟨g2, ?_, hm⟩
                rw [valueDispatch, if_neg h34, if_neg h123, if_neg h91, if_neg hn2,
                  if_neg ht2, if_pos hf2, hs]
              · intro hgt
                rw [valueDispatch, if_neg h34, if_neg h123, if_neg h91, if_neg hn2,
                  if_neg ht2, if_pos hf2, hcl.2 hgt]
            · rw [if_neg hf] at hg
              have hf2 : ¬((c == 102 && compareStr f2 falseBytes) = true) := by
                rw [hcmp3]
                exact hf
              by_cases hd : (is_digit c || (c == 45 &&
                  decide (f.cur + 1 < f.input.length) &&
                  is_digit (f.input.getD (f.cur + 1) 0))) = true
              · rw [if_pos hd] at hg
                have hg2 : parse_number f = .ok g := by
                  injection hg
                have hpn := parse_number_cap h hg2
                have hd2 : (is_digit c || (c == 45 &&
                    decide (f2.cur + 1 < f2.input.length) &&
                    is_digit (f2.input.getD (f2.cur + 1) 0))) = true := by
                  rw [hdec, hgd]
                  exact hd
                constructor
                · intro hle
                  obtain ⟨g2, hs, hm⟩ := hpn.1 hle
                  refine ⟨g2, ?_, hm⟩
                  rw [valueDispatch, if_neg h34, if_neg h123, if_neg h91, if_neg hn2,
                    if_neg ht2, if_neg hf2, if_pos hd2, hs]
                · intro hgt
                  rw [valueDispatch, if_neg h34, if_neg h123, if_neg h91, if_neg hn2,
                    if_neg ht2, if_neg hf2, if_pos hd2, hpn.2 hgt]
              · rw [if_neg hd] at hg
                exact absurd hg (fun hh => pres_err hh)

/-- Capacity simulation: a run from `f`, mirrored at a (possibly smaller)
capacity, either succeeds with the same cursor and token count (when the
final count fits) or fails with tooSmall (when it does not). -/
theorem parseRun_cap :
    ∀ (fuel : Nat) (rule : Rule) (f f2 g : Frozen), CapMirror f2 f →
      parseRun fuel rule f = some (.ok g) →
      (g.num_tokens ≤ f2.max_tokens →
        ∃ g2, parseRun fuel rule f2 = some (.ok g2) ∧ CapMirror g2 g) ∧
      (f2.max_tokens < g.num_tokens →
        parseRun fuel rule f2 = some (.error .tooSmall)) := by
  intro fuel
  induction fuel with
  | zero =>
    intro rule f f2 g h hg
    exact absurd hg (fun hh => Option.noConfusion hh)
  | succ n ih =>
    intro rule f f2 g h hg
    cases rule with
    | value =>
      have hg2 : onPeek f (valueDispatch (parseRun n) (skip_whitespaces f)) =
          some (.ok g) := hg
      obtain ⟨c, hc, hvd⟩ := onPeek_ok_inv hg2
      have hcap := valueDispatch_cap (capMirror_skip h)
        (fun r fb fb2 gb hmm hgb => ih r fb fb2 gb hmm hgb) hvd
      constructor
      · intro hle
        obtain ⟨g2, hs, hm⟩ := hcap.1 hle
        refine ⟨g2, ?_, hm⟩
        rw [parseRun_succ]
        show onPeek f2 (valueDispatch (parseRun n) (skip_whitespaces f2)) = some (.ok g2)
        rw [onPeek, peeked_capMirror h, hc]
        exact hs
      · intro hgt
        rw [parseRun_succ]
        show onPeek f2 (valueDispatch (parseRun n) (skip_whitespaces f2)) =
          some (.error .tooSmall)
        rw [onPeek, peeked_capMirror h, hc]
        exact hcap.2 hgt
    | object =>
      have hg2 : exOk (test_and_skip f 123) (fun f1 =>
          exOk (capture_ptr f1 (f1.cur - 1) .OBJECT) (fun g1 =>
            onOk (parseRun n .objLoop g1)
              (compositeClose 125 ((g1.num_tokens : Int) - 1)))) = some (.ok g) := hg
      obtain ⟨m, h1, h2⟩ := exOk_ok_inv hg2
      have h2b : exOk (capture_ptr m (m.cur - 1) .OBJECT) (fun g1 =>
          onOk (parseRun n .objLoop g1)
            (compositeClose 125 ((g1.num_tokens : Int) - 1))) = some (.ok g) := h2
      obtain ⟨g1, hcp, h3⟩ := exOk_ok_inv h2b
      have h3b : onOk (parseRun n .objLoop g1)
          (compositeClose 125 ((g1.num_tokens : Int) - 1)) = some (.ok g) := h3
      obtain ⟨mL, h4, h5⟩ := onOk_ok_inv h3b
      obtain ⟨m2, hm2, hmm⟩ := test_and_skip_cap h 123 h1
      have hmax2 : m2.max_tokens = f2.max_tokens := (test_and_skip_extends 123 hm2).1.2.2.1
      have hnum1 : g1.num_tokens = m.num_tokens + 1 := by
        rcases capture_ptr_ok_inv hcp with ⟨hoff, hgf⟩ | ⟨hoff, hlt, hgf⟩
        · have hoffm : captureOff m = false := by
            rw [captureOff_extends_eq (test_and_skip_extends 123 h1).1]
            exact h.2.2.2.2.1
          rw [hoffm] at hoff
          exact Bool.noConfusion hoff
        · rw [hgf]
      have hnumL : g1.num_tokens ≤ mL.num_tokens :=
        (parseRun_extends n .objLoop _ _ h4).1.2.2.2.2.2
      have hnumg : g.num_tokens = mL.num_tokens := compositeClose_num h5
      constructor
      · intro hle
        have hcap1 : g1.num_tokens ≤ m2.max_tokens := by
          rw [hmax2]
          omega
        obtain ⟨gc2, hgc2, hgcm⟩ := (capture_ptr_cap hmm (m2.cur - 1) hcp).1 hcap1
        have hmaxgc2 : gc2.max_tokens = m2.max_tokens :=
          (capture_ptr_extends _ _ hgc2).1.2.2.1
        obtain ⟨mL2, hL2, hLm⟩ := (ih .objLoop g1 gc2 mL hgcm h4).1
          (by rw [hmaxgc2, hmax2]; omega)
        obtain ⟨g2, hclose2, hcm⟩ := compositeClose_cap hLm
          ((gc2.num_tokens : Int) - 1) ((g1.num_tokens : Int) - 1) h5
        refine ⟨g2, ?_, hcm⟩
        rw [parseRun_succ]
        show exOk (test_and_skip f2 123) (fun f1 =>
          exOk (capture_ptr f1 (f1.cur - 1) .OBJECT) (fun gg =>
            onOk (parseRun n .objLoop gg)
              (compositeClose 125 ((gg.num_tokens : Int) - 1)))) = some (.ok g2)
        rw [hm2]
        show exOk (capture_ptr m2 (m2.cur - 1) .OBJECT) (fun gg =>
          onOk (parseRun n .objLoop gg)
            (compositeClose 125 ((gg.num_tokens : Int) - 1))) = some (.ok g2)
        rw [hgc2]
        show onOk (parseRun n .objLoop gc2)
          (compositeClose 125 ((gc2.num_tokens : Int) - 1)) = some (.ok g2)
        rw [hL2]
        show compositeClose 125 ((gc2.num_tokens : Int) - 1) mL2 = some (.ok g2)
        exact hclose2
      · intro hgt
        by_cases hcase : g1.num_tokens ≤ m2.max_tokens
        · obtain ⟨gc2, hgc2, hgcm⟩ := (capture_ptr_cap hmm (m2.cur - 1) hcp).1 hcase
          have hmaxgc2 : gc2.max_tokens = m2.max_tokens :=
            (capture_ptr_extends _ _ hgc2).1.2.2.1
          have hsmL := (ih .objLoop g1 gc2 mL hgcm h4).2
            (by rw [hmaxgc2, hmax2]; omega)
          rw [parseRun_succ]
          show exOk (test_and_skip f2 123) (fun f1 =>
            exOk (capture_ptr f1 (f1.cur - 1) .OBJECT) (fun gg =>
              onOk (parseRun n .objLoop gg)
                (compositeClose 125 ((gg.num_tokens : Int) - 1)))) = some (.error .tooSmall)
          rw [hm2]
          show exOk (capture_ptr m2 (m2.cur - 1) .OBJECT) (fun gg =>
            onOk (parseRun n .objLoop gg)
              (compositeClose 125 ((gg.num_tokens : Int) - 1))) = some (.error .tooSmall)
          rw [hgc2]
          show onOk (parseRun n .objLoop gc2)
            (compositeClose 125 ((gc2.num_tokens : Int) - 1)) = some (.error .tooSmall)
          rw [hsmL]
          rfl
        · have hfull := (capture_ptr_cap hmm (m2.cur - 1) hcp).2 (by omega)
          rw [parseRun_succ]
          show exOk (test_and_skip f2 123) (fun f1 =>
            exOk (capture_ptr f1 (f1.cur - 1) .OBJECT) (fun gg =>
              onOk (parseRun n .objLoop gg)
                (compositeClose 125 ((gg.num_tokens : Int) - 1)))) = some (.error .tooSmall)
          rw [hm2]
          show exOk (capture_ptr m2 (m2.cur - 1) .OBJECT) (fun gg =>
            onOk (parseRun n .objLoop gg)
              (compositeClose 125 ((gg.num_tokens : Int) - 1))) = some (.error .tooSmall)
          rw [hfull]
          rfl
    | objLoop =>
      have hg2 : (if peeked f = some 125 then some (.ok (skip_whitespaces f))
          else onOk (parseRun n .pair (skip_whitespaces f)) (parseRun n .objTail)) =
          some (.ok g) := hg
      by_cases hp : peeked f = some 125
      · rw [if_pos hp] at hg2
        have hgeq : skip_whitespaces f = g := by
          have h1 : Except.ok (ε := Jerr) (skip_whitespaces f) = .ok g := by
            injection hg2
          injection h1
        constructor
        · intro hle
          refine ⟨skip_whitespaces f2, ?_, ?_⟩
          · rw [parseRun_succ]
            show (if peeked f2 = some 125 then some (.ok (skip_whitespaces f2))
              else onOk (parseRun n .pair (skip_whitespaces f2)) (parseRun n .objTail)) =
              some (.ok (skip_whitespaces f2))
            rw [peeked_capMirror h, if_pos hp]
          · rw [← hgeq]
            exact capMirror_skip h
        · intro hgt
          rw [← hgeq] at hgt
          have e1 : (skip_whitespaces f).num_tokens = f.num_tokens := rfl
          rw [e1] at hgt
          have h6 := h.2.2.2.2.2
          have h3 := h.2.2.1
          exact absurd hgt (by omega)
      · rw [if_neg hp] at hg2
        obtain ⟨mP, h4, h5⟩ := onOk_ok_inv hg2
        have hnumP : (skip_whitespaces f).num_tokens ≤ mP.num_tokens :=
          (parseRun_extends n .pair _ _ h4).1.2.2.2.2.2
        have hnumg : mP.num_tokens ≤ g.num_tokens :=
          (parseRun_extends n .objTail _ _ h5).1.2.2.2.2.2
        constructor
        · intro hle
          obtain ⟨mP2, hP2, hPm⟩ :=
            (ih .pair (skip_whitespaces f) (skip_whitespaces f2) mP
              (capMirror_skip h) h4).1 (by show mP.num_tokens ≤ f2.max_tokens; omega)
          have hmaxP2 : mP2.max_tokens = f2.max_tokens :=
            (parseRun_extends n .pair _ _ hP2).1.2.2.1
          obtain ⟨g2, hT2, hTm⟩ := (ih .objTail mP mP2 g hPm h5).1
            (by rw [hmaxP2]; exact hle)
          refine ⟨g2, ?_, hTm⟩
          rw [parseRun_succ]
          show (if peeked f2 = some 125 then some (.ok (skip_whitespaces f2))
            else onOk (parseRun n .pair (skip_whitespaces f2)) (parseRun n .objTail)) =
            some (.ok g2)
          rw [peeked_capMirror h, if_neg hp, hP2]
          show parseRun n .objTail mP2 = some (.ok g2)
          exact hT2
        · intro hgt
          by_cases hcase : mP.num_tokens ≤ f2.max_tokens
          · obtain ⟨mP2, hP2, hPm⟩ :=
              (ih .pair (skip_whitespaces f) (skip_whitespaces f2) mP
                (capMirror_skip h) h4).1 hcase
            have hmaxP2 : mP2.max_tokens = f2.max_tokens :=
              (parseRun_extends n .pair _ _ hP2).1.2.2.1
            have hsm := (ih .objTail mP mP2 g hPm h5).2 (by rw [hmaxP2]; exact hgt)
            rw [parseRun_succ]
            show (if peeked f2 = some 125 then some (.ok (skip_whitespaces f2))
              else onOk (parseRun n .pair (skip_whitespaces f2)) (parseRun n .objTail)) =
              some (.error .tooSmall)
            rw [peeked_capMirror h, if_neg hp, hP2]
            show parseRun n .objTail mP2 = some (.error .tooSmall)
            exact hsm
          · have hsm := (ih .pair (skip_whitespaces f) (skip_whitespaces f2) mP
              (capMirror_skip h) h4).2 (by show f2.max_tokens < mP.num_tokens; omega)
            rw [parseRun_succ]
            show (if peeked f2 = some 125 then some (.ok (skip_whitespaces f2))
              else onOk (parseRun n .pair (skip_whitespaces f2)) (parseRun n .objTail)) =
              some (.error .tooSmall)
            rw [peeked_capMirror h, if_neg hp, hsm]
            rfl
    | objTail =>
      have hg2 : (if peeked f = some 44 then
          parseRun n .objLoop { skip_whitespaces f with cur := (skip_whitespaces f).cur + 1 }
          else parseRun n .objLoop (skip_whitespaces f)) = some (.ok g) := hg
      by_cases hp : peeked f = some 44
      · rw [if_pos hp] at hg2
        have hcap := ih .objLoop
          { skip_whitespaces f with cur := (skip_whitespaces f).cur + 1 }
          { skip_whitespaces f2 with cur := (skip_whitespaces f2).cur + 1 } g
          (capMirror_addCur (capMirror_skip h) 1) hg2
        constructor
        · intro hle
          obtain ⟨g2, hs, hm⟩ := hcap.1 hle
          refine ⟨g2, ?_, hm⟩
          rw [parseRun_succ]
          show (if peeked f2 = some 44 then
            parseRun n .objLoop
              { skip_whitespaces f2 with cur := (skip_whitespaces f2).cur + 1 }
            else parseRun n .objLoop (skip_whitespaces f2)) = some (.ok g2)
          rw [peeked_capMirror h, if_pos hp]
          exact hs
        · intro hgt
          rw [parseRun_succ]
          show (if peeked f2 = some 44 then
            parseRun n .objLoop
              { skip_whitespaces f2 with cur := (skip_whitespaces f2).cur + 1 }
            else parseRun n .objLoop (skip_whitespaces f2)) = some (.error .tooSmall)
          rw [peeked_capMirror h, if_pos hp]
          exact hcap.2 hgt
      · rw [if_neg hp] at hg2
        have hcap := ih .objLoop (skip_whitespaces f) (skip_whitespaces f2) g
          (capMirror_skip h) hg2
        constructor
        · intro hle
          obtain ⟨g2, hs, hm⟩ := hcap.1 hle
          refine ⟨g2, ?_, hm⟩
          rw [parseRun_succ]
          show (if peeked f2 = some 44 then
            parseRun n .objLoop
              { skip_whitespaces f2 with cur := (skip_whitespaces f2).cur + 1 }
            else parseRun n .objLoop (skip_whitespaces f2)) = some (.ok g2)
          rw [peeked_capMirror h, if_neg hp]
          exact hs
        · intro hgt
          rw [parseRun_succ]
          show (if peeked f2 = some 44 then
            parseRun n .objLoop
              { skip_whitespaces f2 with cur := (skip_whitespaces f2).cur + 1 }
            else parseRun n .objLoop (skip_whitespaces f2)) = some (.error .tooSmall)
          rw [peeked_capMirror h, if_neg hp]
          exact hcap.2 hgt
    | pair =>
      have hg2 : onOk (parseRun n .key f)
          (fun f1 => exOk (test_and_skip f1 58) (parseRun n .value)) = some (.ok g) := hg
      obtain ⟨mK, h4, h5⟩ := onOk_ok_inv hg2
      have h5b : exOk (test_and_skip mK 58) (parseRun n .value) = some (.ok g) := h5
      obtain ⟨mT, h6, h7⟩ := exOk_ok_inv h5b
      have hnumK : f.num_tokens ≤ mK.num_tokens :=
        (parseRun_extends n .key _ _ h4).1.2.2.2.2.2
      have hnumT : mT.num_tokens = mK.num_tokens := (test_and_skip_extends 58 h6).2.2.1
      have hnumg : mT.num_tokens ≤ g.num_tokens :=
        (parseRun_extends n .value _ _ h7).1.2.2.2.2.2
      constructor
      · intro hle
        obtain ⟨mK2, hK2, hKm⟩ := (ih .key f f2 mK h h4).1 (by omega)
        have hmaxK2 : mK2.max_tokens = f2.max_tokens :=
          (parseRun_extends n .key _ _ hK2).1.2.2.1
        obtain ⟨mT2, hT2, hTm⟩ := test_and_skip_cap hKm 58 h6
        have hmaxT2 : mT2.max_tokens = mK2.max_tokens :=
          (test_and_skip_extends 58 hT2).1.2.2.1
        obtain ⟨g2, hV2, hVm⟩ := (ih .value mT mT2 g hTm h7).1
          (by rw [hmaxT2, hmaxK2]; exact hle)
        refine ⟨g2, ?_, hVm⟩
        rw [parseRun_succ]
        show onOk (parseRun n .key f2)
          (fun f1 => exOk (test_and_skip f1 58) (parseRun n .value)) = some (.ok g2)
        rw [hK2]
        show exOk (test_and_skip mK2 58) (parseRun n .value) = some (.ok g2)
        rw [hT2]
        show parseRun n .value mT2 = some (.ok g2)
        exact hV2
      · intro hgt
        by_cases hcase : mK.num_tokens ≤ f2.max_tokens
        · obtain ⟨mK2, hK2, hKm⟩ := (ih .key f f2 mK h h4).1 hcase
          have hmaxK2 : mK2.max_tokens = f2.max_tokens :=
            (parseRun_extends n .key _ _ hK2).1.2.2.1
          obtain ⟨mT2, hT2, hTm⟩ := test_and_skip_cap hKm 58 h6
          have hmaxT2 : mT2.max_tokens = mK2.max_tokens :=
            (test_and_skip_extends 58 hT2).1.2.2.1
          have hsm := (ih .value mT mT2 g hTm h7).2 (by rw [hmaxT2, hmaxK2]; exact hgt)
          rw [parseRun_succ]
          show onOk (parseRun n .key f2)
            (fun f1 => exOk (test_and_skip f1 58) (parseRun n .value)) =
            some (.error .tooSmall)
          rw [hK2]
          show exOk (test_and_skip mK2 58) (parseRun n .value) = some (.error .tooSmall)
          rw [hT2]
          show parseRun n .value mT2 = some (.error .tooSmall)
          exact hsm
        · have hsm := (ih .key f f2 mK h h4).2 (by omega)
          rw [parseRun_succ]
          show onOk (parseRun n .key f2)
            (fun f1 => exOk (test_and_skip f1 58) (parseRun n .value)) =
            some (.error .tooSmall)
          rw [hsm]
          rfl
    | key =>
      have hg2 : onPeek f (keyDispatch (skip_whitespaces f)) = some (.ok g) := hg
      obtain ⟨c, hc, hkd⟩ := onPeek_ok_inv hg2
      have hcap := keyDispatch_cap (capMirror_skip h) hkd
      constructor
      · intro hle
        obtain ⟨g2, hs, hm⟩ := hcap.1 hle
        refine ⟨g2, ?_, hm⟩
        rw [parseRun_succ]
        have hl : stepOf Rule.key (parseRun n) f2 = stepKey f2 := rfl
        rw [hl, stepKey, onPeek, peeked_capMirror h, hc]
        exact hs
      · intro hgt
        rw [parseRun_succ]
        have hl : stepOf Rule.key (parseRun n) f2 = stepKey f2 := rfl
        rw [hl, stepKey, onPeek, peeked_capMirror h, hc]
        exact hcap.2 hgt
    | array =>
      have hg2 : exOk (test_and_skip f 91) (fun f1 =>
          exOk (capture_ptr f1 (f1.cur - 1) .ARRAY) (fun g1 =>
            onOk (parseRun n .arrLoop g1)
              (compositeClose 93 ((g1.num_tokens : Int) - 1)))) = some (.ok g) := hg
      obtain ⟨m, h1, h2⟩ := exOk_ok_inv hg2
      have h2b : exOk (capture_ptr m (m.cur - 1) .ARRAY) (fun g1 =>
          onOk (parseRun n .arrLoop g1)
            (compositeClose 93 ((g1.num_tokens : Int) - 1))) = some (.ok g) := h2
      obtain ⟨g1, hcp, h3⟩ := exOk_ok_inv h2b
      have h3b : onOk (parseRun n .arrLoop g1)
          (compositeClose 93 ((g1.num_tokens : Int) - 1)) = some (.ok g) := h3
      obtain ⟨mL, h4, h5⟩ := onOk_ok_inv h3b
      obtain ⟨m2, hm2, hmm⟩ := test_and_skip_cap h 91 h1
      have hmax2 : m2.max_tokens = f2.max_tokens := (test_and_skip_extends 91 hm2).1.2.2.1
      have hnum1 : g1.num_tokens = m.num_tokens + 1 := by
        rcases capture_ptr_ok_inv hcp with ⟨hoff, hgf⟩ | ⟨hoff, hlt, hgf⟩
        · have hoffm : captureOff m = false := by
            rw [captureOff_extends_eq (test_and_skip_extends 91 h1).1]
            exact h.2.2.2.2.1
          rw [hoffm] at hoff
          exact Bool.noConfusion hoff
        · rw [hgf]
      have hnumL : g1.num_tokens ≤ mL.num_tokens :=
        (parseRun_extends n .arrLoop _ _ h4).1.2.2.2.2.2
      have hnumg : g.num_tokens = mL.num_tokens := compositeClose_num h5
      constructor
      · intro hle
        have hcap1 : g1.num_tokens ≤ m2.max_tokens := by
          rw [hmax2]
          omega
        obtain ⟨gc2, hgc2, hgcm⟩ := (capture_ptr_cap hmm (m2.cur - 1) hcp).1 hcap1
        have hmaxgc2 : gc2.max_tokens = m2.max_tokens :=
          (capture_ptr_extends _ _ hgc2).1.2.2.1
        obtain ⟨mL2, hL2, hLm⟩ := (ih .arrLoop g1 gc2 mL hgcm h4).1
          (by rw [hmaxgc2, hmax2]; omega)
        obtain ⟨g2, hclose2, hcm⟩ := compositeClose_cap hLm
          ((gc2.num_tokens : Int) - 1) ((g1.num_tokens : Int) - 1) h5
        refine ⟨g2, ?_, hcm⟩
        rw [parseRun_succ]
        show exOk (test_and_skip f2 91) (fun f1 =>
          exOk (capture_ptr f1 (f1.cur - 1) .ARRAY) (fun gg =>
            onOk (parseRun n .arrLoop gg)
              (compositeClose 93 ((gg.num_tokens : Int) - 1)))) = some (.ok g2)
        rw [hm2]
        show exOk (capture_ptr m2 (m2.cur - 1) .ARRAY) (fun gg =>
          onOk (parseRun n .arrLoop gg)
            (compositeClose 93 ((gg.num_tokens : Int) - 1))) = some (.ok g2)
        rw [hgc2]
        show onOk (parseRun n .arrLoop gc2)
          (compositeClose 93 ((gc2.num_tokens : Int) - 1)) = some (.ok g2)
        rw [hL2]
        show compositeClose 93 ((gc2.num_tokens : Int) - 1) mL2 = some (.ok g2)
        exact hclose2
      · intro hgt
        by_cases hcase : g1.num_tokens ≤ m2.max_tokens
        · obtain ⟨gc2, hgc2, hgcm⟩ := (capture_ptr_cap hmm (m2.cur - 1) hcp).1 hcase
          have hmaxgc2 : gc2.max_tokens = m2.max_tokens :=
            (capture_ptr_extends _ _ hgc2).1.2.2.1
          have hsmL := (ih .arrLoop g1 gc2 mL hgcm h4).2
            (by rw [hmaxgc2, hmax2]; omega)
          rw [parseRun_succ]
          show exOk (test_and_skip f2 91) (fun f1 =>
            exOk (capture_ptr f1 (f1.cur - 1) .ARRAY) (fun gg =>
              onOk (parseRun n .arrLoop gg)
                (compositeClose 93 ((gg.num_tokens : Int) - 1)))) = some (.error .tooSmall)
          rw [hm2]
          show exOk (capture_ptr m2 (m2.cur - 1) .ARRAY) (fun gg =>
            onOk (parseRun n .arrLoop gg)
              (compositeClose 93 ((gg.num_tokens : Int) - 1))) = some (.error .tooSmall)
          rw [hgc2]
          show onOk (parseRun n .arrLoop gc2)
            (compositeClose 93 ((gc2.num_tokens : Int) - 1)) = some (.error .tooSmall)
          rw [hsmL]
          rfl
        · have hfull := (capture_ptr_cap hmm (m2.cur - 1) hcp).2 (by omega)
          rw [parseRun_succ]
          show exOk (test_and_skip f2 91) (fun f1 =>
            exOk (capture_ptr f1 (f1.cur - 1) .ARRAY) (fun gg =>
              onOk (parseRun n .arrLoop gg)
                (compositeClose 93 ((gg.num_tokens : Int) - 1)))) = some (.error .tooSmall)
          rw [hm2]
          show exOk (capture_ptr m2 (m2.cur - 1) .ARRAY) (fun gg =>
            onOk (parseRun n .arrLoop gg)
              (compositeClose 93 ((gg.num_tokens : Int) - 1))) = some (.error .tooSmall)
          rw [hfull]
          rfl
    | arrLoop =>
      have hg2 : (if peeked f = some 93 then some (.ok (skip_whitespaces f))
          else onOk (parseRun n .value (skip_whitespaces f)) (parseRun n .arrTail)) =
          some (.ok g) := hg
      by_cases hp : peeked f = some 93
      · rw [if_pos hp] at hg2
        have hgeq : skip_whitespaces f = g := by
          have h1 : Except.ok (ε := Jerr) (skip_whitespaces f) = .ok g := by
            injection hg2
          injection h1
        constructor
        · intro hle
          refine ⟨skip_whitespaces f2, ?_, ?_⟩
          · rw [parseRun_succ]
            show (if peeked f2 = some 93 then some (.ok (skip_whitespaces f2))
              else onOk (parseRun n .value (skip_whitespaces f2)) (parseRun n .arrTail)) =
              some (.ok (skip_whitespaces f2))
            rw [peeked_capMirror h, if_pos hp]
          · rw [← hgeq]
            exact capMirror_skip h
        · intro hgt
          rw [← hgeq] at hgt
          have e1 : (skip_whitespaces f).num_tokens = f.num_tokens := rfl
          rw [e1] at hgt
          have h6 := h.2.2.2.2.2
          have h3 := h.2.2.1
          exact absurd hgt (by omega)
      · rw [if_neg hp] at hg2
        obtain ⟨mP, h4, h5⟩ := onOk_ok_inv hg2
        have hnumP : (skip_whitespaces f).num_tokens ≤ mP.num_tokens :=
          (parseRun_extends n .value _ _ h4).1.2.2.2.2.2
        have hnumg : mP.num_tokens ≤ g.num_tokens :=
          (parseRun_extends n .arrTail _ _ h5).1.2.2.2.2.2
        constructor
        · intro hle
          obtain ⟨mP2, hP2, hPm⟩ :=
            (ih .value (skip_whitespaces f) (skip_whitespaces f2) mP
              (capMirror_skip h) h4).1 (by show mP.num_tokens ≤ f2.max_tokens; omega)
          have hmaxP2 : mP2.max_tokens = f2.max_tokens :=
            (parseRun_extends n .value _ _ hP2).1.2.2.1
          obtain ⟨g2, hT2, hTm⟩ := (ih .arrTail mP mP2 g hPm h5).1
            (by rw [hmaxP2]; exact hle)
          refine ⟨g2, ?_, hTm⟩
          rw [parseRun_succ]
          show (if peeked f2 = some 93 then some (.ok (skip_whitespaces f2))
            else onOk (parseRun n .value (skip_whitespaces f2)) (parseRun n .arrTail)) =
            some (.ok g2)
          rw [peeked_capMirror h, if_neg hp, hP2]
          show parseRun n .arrTail mP2 = some (.ok g2)
          exact hT2
        · intro hgt
          by_cases hcase : mP.num_tokens ≤ f2.max_tokens
          · obtain ⟨mP2, hP2, hPm⟩ :=
              (ih .value (skip_whitespaces f) (skip_whitespaces f2) mP
                (capMirror_skip h) h4).1 hcase
            have hmaxP2 : mP2.max_tokens = f2.max_tokens :=
              (parseRun_extends n .value _ _ hP2).1.2.2.1
            have hsm := (ih .arrTail mP mP2 g hPm h5).2 (by rw [hmaxP2]; exact hgt)
            rw [parseRun_succ]
            show (if peeked f2 = some 93 then some (.ok (skip_whitespaces f2))
              else onOk (parseRun n .value (skip_whitespaces f2)) (parseRun n .arrTail)) =
              some (.error .tooSmall)
            rw [peeked_capMirror h, if_neg hp, hP2]
            show parseRun n .arrTail mP2 = some (.error .tooSmall)
            exact hsm
          · have hsm := (ih .value (skip_whitespaces f) (skip_whitespaces f2) mP
              (capMirror_skip h) h4).2 (by show f2.max_tokens < mP.num_tokens; omega)
            rw [parseRun_succ]
            show (if peeked f2 = some 93 then some (.ok (skip_whitespaces f2))
              else onOk (parseRun n .value (skip_whitespaces f2)) (parseRun n .arrTail)) =
              some (.error .tooSmall)
            rw [peeked_capMirror h, if_neg hp, hsm]
            rfl
    | arrTail =>
      have hg2 : (if peeked f = some 44 then
          parseRun n .arrLoop { skip_whitespaces f with cur := (skip_whitespaces f).cur + 1 }
          else parseRun n .arrLoop (skip_whitespaces f)) = some (.ok g) := hg
      by_cases hp : peeked f = some 44
      · rw [if_pos hp] at hg2
        have hcap := ih .arrLoop
          { skip_whitespaces f with cur := (skip_whitespaces f).cur + 1 }
          { skip_whitespaces f2 with cur := (skip_whitespaces f2).cur + 1 } g
          (capMirror_addCur (capMirror_skip h) 1) hg2
        constructor
        · intro hle
          obtain ⟨g2, hs, hm⟩ := hcap.1 hle
          refine ⟨g2, ?_, hm⟩
          rw [parseRun_succ]
          show (if peeked f2 = some 44 then
            parseRun n .arrLoop
              { skip_whitespaces f2 with cur := (skip_whitespaces f2).cur + 1 }
            else parseRun n .arrLoop (skip_whitespaces f2)) = some (.ok g2)
          rw [peeked_capMirror h, if_pos hp]
          exact hs
        · intro hgt
          rw [parseRun_succ]
          show (if peeked f2 = some 44 then
            parseRun n .arrLoop
              { skip_whitespaces f2 with cur := (skip_whitespaces f2).cur + 1 }
            else parseRun n .arrLoop (skip_whitespaces f2)) = some (.error .tooSmall)
          rw [peeked_capMirror h, if_pos hp]
          exact hcap.2 hgt
      · rw [if_neg hp] at hg2
        have hcap := ih .arrLoop (skip_whitespaces f) (skip_whitespaces f2) g
          (capMirror_skip h) hg2
        constructor
        · intro hle
          obtain ⟨g2, hs, hm⟩ := hcap.1 hle
          refine ⟨g2, ?_, hm⟩
          rw [parseRun_succ]
          show (if peeked f2 = some 44 then
            parseRun n .arrLoop
              { skip_whitespaces f2 with cur := (skip_whitespaces f2).cur + 1 }
            else parseRun n .arrLoop (skip_whitespaces f2)) = some (.ok g2)
          rw [peeked_capMirror h, if_neg hp]
          exact hs
        · intro hgt
          rw [parseRun_succ]
          show (if peeked f2 = some 44 then
            parseRun n .arrLoop
              { skip_whitespaces f2 with cur := (skip_whitespaces f2).cur + 1 }
            else parseRun n .arrLoop (skip_whitespaces f2)) = some (.error .tooSmall)
          rw [peeked_capMirror h, if_neg hp]
          exact hcap.2 hgt

/-- C3: capacity boundary. If a parse with a non-zero capacity `N` buffer
succeeds (so the final token count g.num_tokens — which includes the EOF
marker — is the input's true token count), then parsing the same input
with any positive capacity k below that count fails with tooSmall, and
parsing with capacity exactly equal to the count succeeds, consuming the
same number of bytes and recording the same number of tokens. -/
theorem c3_capacity_boundary :
    ∀ (I : List Nat) (N : Nat) (g : Frozen), 0 < N →
      parse_bytes I N = some (.ok g) →
      (∀ k, 0 < k → k < g.num_tokens → parse_bytes I k = some (.error .tooSmall)) ∧
      (∃ g2, parse_bytes I g.num_tokens = some (.ok g2) ∧
        g2.cur = g.cur ∧ g2.num_tokens = g.num_tokens) := by
  intro I N g hNpos hok
  have hne : I ≠ [] := by
    intro hI
    subst hI
    have hval : parse_bytes ([] : List Nat) N = some (.error .incomplete) := rfl
    rw [hval] at hok
    exact Except.noConfusion (Option.some.inj hok)
  rw [parse_bytes, parse_json_some I hne false N] at hok
  obtain ⟨m, hrun, heof⟩ := onOk_ok_inv hok
  have hoffB : captureOff (initFrozen I false N) = false := by
    simp [captureOff, initFrozen]
    omega
  have hoffm : captureOff m = false := by
    rw [captureOff_extends_eq (parseRun_extends (FUEL I) .object _ _ hrun).1]
    exact hoffB
  rw [eofCapture] at heof
  obtain ⟨h1x, hcpE, hkE⟩ := exOk_ok_inv heof
  have hgeq : capture_len h1x (h1x.num_tokens : Int) h1x.cur = g := by
    have h3 : Except.ok (ε := Jerr)
        (capture_len h1x (h1x.num_tokens : Int) h1x.cur) = .ok g := by
      injection hkE
    injection h3
  have hx1 : h1x.num_tokens = m.num_tokens + 1 ∧ h1x.cur = m.cur := by
    rcases capture_ptr_ok_inv hcpE with ⟨hoff, hgf⟩ | ⟨hoff, hlt, hgf⟩
    · rw [hoffm] at hoff
      exact Bool.noConfusion hoff
    · rw [hgf]
      exact ⟨rfl, rfl⟩
  have hgnum : g.num_tokens = m.num_tokens + 1 := by
    rw [← hgeq, (capture_len_fields _ _ _).2.2.2.2.1, hx1.1]
  have hgcur : g.cur = m.cur := by
    rw [← hgeq, (capture_len_fields _ _ _).2.1, hx1.2]
  constructor
  · intro k hk0 hkT
    have hoffS : captureOff (initFrozen I false k) = false := by
      simp [captureOff, initFrozen]
      omega
    have hmir : CapMirror (initFrozen I false k) (initFrozen I false N) :=
      ⟨rfl, rfl, rfl, hoffS, hoffB, Nat.zero_le k⟩
    rw [parse_bytes, parse_json_some I hne false k]
    by_cases hc : m.num_tokens ≤ k
    · obtain ⟨m2, hm2run, hm2m⟩ := (parseRun_cap (FUEL I) .object _ _ m hmir hrun).1
        (by show m.num_tokens ≤ k; exact hc)
      have hmax2 : m2.max_tokens = k :=
        (parseRun_extends (FUEL I) .object _ _ hm2run).1.2.2.1
      have hfull : capture_ptr m2 m2.cur .EOF = .error .tooSmall := by
        apply capture_ptr_full m2.cur .EOF hm2m.2.2.2.1
        rw [hmax2, hm2m.2.2.1]
        omega
      rw [hm2run]
      show eofCapture m2 = some (.error .tooSmall)
      rw [eofCapture, hfull]
      rfl
    · have hsm := (parseRun_cap (FUEL I) .object _ _ m hmir hrun).2
        (by show k < m.num_tokens; omega)
      rw [hsm]
      rfl
  · have hoffS : captureOff (initFrozen I false g.num_tokens) = false := by
      simp [captureOff, initFrozen]
      omega
    have hmir : CapMirror (initFrozen I false g.num_tokens) (initFrozen I false N) :=
      ⟨rfl, rfl, rfl, hoffS, hoffB, Nat.zero_le _⟩
    obtain ⟨m2, hm2run, hm2m⟩ := (parseRun_cap (FUEL I) .object _ _ m hmir hrun).1
      (by show m.num_tokens ≤ g.num_tokens; omega)
    have hmax2 : m2.max_tokens = g.num_tokens :=
      (parseRun_extends (FUEL I) .object _ _ hm2run).1.2.2.1
    have hyes : capture_ptr m2 m2.cur .EOF = .ok { m2 with
        tokens := listModify m2.tokens m2.num_tokens (openTok m2.cur .EOF),
        num_tokens := m2.num_tokens + 1 } :=
      capture_ptr_yes m2.cur .EOF hm2m.2.2.2.1 (by rw [hmax2, hm2m.2.2.1]; omega)
    refine ⟨capture_len { m2 with
        tokens := listModify m2.tokens m2.num_tokens (openTok m2.cur .EOF),
        num_tokens := m2.num_tokens + 1 } ((m2.num_tokens + 1 : Nat) : Int) m2.cur,
      ?_, ?_, ?_⟩
    · rw [parse_bytes, parse_json_some I hne false g.num_tokens, hm2run]
      show eofCapture m2 = _
      rw [eofCapture, hyes]
      rfl
    · rw [(capture_len_fields _ _ _).2.1]
      show m2.cur = g.cur
      rw [hm2m.2.1, hgcur]
    · rw [(capture_len_fields _ _ _).2.2.2.2.1]
      show m2.num_tokens + 1 = g.num_tokens
      rw [hm2m.2.2.1, hgnum]

def c3Input : List Nat := [123, 34, 97, 34, 58, 49, 125]

/-- The full final state of parsing c3Input = {"a":1} with capacity 8:
true token count 4 (OBJECT, STRING key, NUMBER, EOF). -/
def c3Big : Frozen :=
  ⟨c3Input, 7, false,
   [⟨some 0, some .OBJECT, some 7, some 2⟩,
    ⟨some 2, some .STRING, some 1, some 0⟩,
    ⟨some 5, some .NUMBER, some 1, some 0⟩,
    ⟨some 7, some .EOF, none, none⟩,
    ⟨none, none, none, some (-1)⟩,
    ⟨none, none, none, none⟩,
    ⟨none, none, none, none⟩,
    ⟨none, none, none, none⟩],
   8, 4⟩

/-- C3 witness: for {"a":1} (true count 4), a 1-slot buffer gives
tooSmall (the spec's example) and a 4-slot buffer succeeds at the same
cursor with 4 tokens. -/
theorem c3_capacity_boundary_witness :
    parse_bytes c3Input 1 = some (.error .tooSmall) ∧
    (∃ g2, parse_bytes c3Input 4 = some (.ok g2) ∧ g2.cur = 7 ∧ g2.num_tokens = 4) := by
  have h := c3_capacity_boundary c3Input 8 c3Big (by decide) (by decide)
  refine ⟨h.1 1 (by decide) (by decide), ?_⟩
  obtain ⟨g2, hg2, hcur, hnum⟩ := h.2
  exact ⟨g2, hg2, hcur, hnum⟩

/-! ### Prefix locality (claims C8, C9): a successful run reads only the
bytes it consumes plus at most one lookahead byte, so inputs agreeing on
an initial segment containing them produce the same run. -/

theorem getD_prefix {I I' : List Nat} {N j : Nat}
    (hag : ∀ j2, j2 < N → I'.get? j2 = I.get? j2) (hj : j < N) (d : Nat) :
    I'.getD j d = I.getD j d := by
  rw [List.getD_eq_getD_get?, List.getD_eq_getD_get?, hag j hj]

theorem skipLen_agree :
    ∀ (s : Nat) (I I' : List Nat) (N c : Nat),
      (∀ j, j < N → I'.get? j = I.get? j) → N ≤ I.length → N ≤ I'.length →
      skipLen (I.drop c) = s → c + s < N → skipLen (I'.drop c) = s := by
  intro s
  induction s with
  | zero =>
    intro I I' N c hag hN hN2 hs hlt
    have hc : c < N := by omega
    have hcI : c < I.length := by omega
    have hb : I.get? c = some (I.get ⟨c, hcI⟩) := List.get?_eq_get hcI
    have hb2 : I'.get? c = some (I.get ⟨c, hcI⟩) := (hag c hc).trans hb
    rw [drop_get_cons I c _ hb] at hs
    have hns : is_space (I.get ⟨c, hcI⟩) = false := by
      by_cases hsp : is_space (I.get ⟨c, hcI⟩) = true
      · rw [skipLen, if_pos hsp] at hs
        omega
      · simpa using hsp
    rw [drop_get_cons I' c _ hb2]
    rw [skipLen, if_neg (by rw [hns]; simp)]
  | succ s ih =>
    intro I I' N c hag hN hN2 hs hlt
    have hc : c < N := by omega
    have hcI : c < I.length := by omega
    have hb : I.get? c = some (I.get ⟨c, hcI⟩) := List.get?_eq_get hcI
    have hb2 : I'.get? c = some (I.get ⟨c, hcI⟩) := (hag c hc).trans hb
    rw [drop_get_cons I c _ hb] at hs
    have hsp : is_space (I.get ⟨c, hcI⟩) = true := by
      by_cases hsp : is_space (I.get ⟨c, hcI⟩) = true
      · exact hsp
      · rw [skipLen, if_neg hsp] at hs
        omega
    rw [skipLen, if_pos hsp] at hs
    have hrec := ih I I' N (c + 1) hag hN hN2 (by omega) (by omega)
    rw [drop_get_cons I' c _ hb2]
    rw [skipLen, if_pos hsp, hrec]

theorem digitRun_agree :
    ∀ (s : Nat) (I I' : List Nat) (N c : Nat),
      (∀ j, j < N → I'.get? j = I.get? j) → N ≤ I.length → N ≤ I'.length →
      digitRun (I.drop c) = s → c + s < N → digitRun (I'.drop c) = s := by
  intro s
  induction s with
  | zero =>
    intro I I' N c hag hN hN2 hs hlt
    have hc : c < N := by omega
    have hcI : c < I.length := by omega
    have hb : I.get? c = some (I.get ⟨c, hcI⟩) := List.get?_eq_get hcI
    have hb2 : I'.get? c = some (I.get ⟨c, hcI⟩) := (hag c hc).trans hb
    rw [drop_get_cons I c _ hb] at hs
    have hns : is_digit (I.get ⟨c, hcI⟩) = false := by
      by_cases hsp : is_digit (I.get ⟨c, hcI⟩) = true
      · rw [digitRun, if_pos hsp] at hs
        omega
      · simpa using hsp
    rw [drop_get_cons I' c _ hb2]
    rw [digitRun, if_neg (by rw [hns]; simp)]
  | succ s ih =>
    intro I I' N c hag hN hN2 hs hlt
    have hc : c < N := by omega
    have hcI : c < I.length := by omega
    have hb : I.get? c = some (I.get ⟨c, hcI⟩) := List.get?_eq_get hcI
    have hb2 : I'.get? c = some (I.get ⟨c, hcI⟩) := (hag c hc).trans hb
    rw [drop_get_cons I c _ hb] at hs
    have hsp : is_digit (I.get ⟨c, hcI⟩) = true := by
      by_cases hsp : is_digit (I.get ⟨c, hcI⟩) = true
      · exact hsp
      · rw [digitRun, if_neg hsp] at hs
        omega
    rw [digitRun, if_pos hsp] at hs
    have hrec := ih I I' N (c + 1) hag hN hN2 (by omega) (by omega)
    rw [drop_get_cons I' c _ hb2]
    rw [digitRun, if_pos hsp, hrec]

theorem identRun_agree :
    ∀ (s : Nat) (I I' : List Nat) (N c : Nat),
      (∀ j, j < N → I'.get? j = I.get? j) → N ≤ I.length → N ≤ I'.length →
      identRun (I.drop c) = s → c + s < N → identRun (I'.drop c) = s := by
  intro s
  induction s with
  | zero =>
    intro I I' N c hag hN hN2 hs hlt
    have hc : c < N := by omega
    have hcI : c < I.length := by omega
    have hb : I.get? c = some (I.get ⟨c, hcI⟩) := List.get?_eq_get hcI
    have hb2 : I'.get? c = some (I.get ⟨c, hcI⟩) := (hag c hc).trans hb
    rw [drop_get_cons I c _ hb] at hs
    have hns : (I.get ⟨c, hcI⟩ == 95 || is_alpha (I.get ⟨c, hcI⟩) ||
        is_digit (I.get ⟨c, hcI⟩)) = false := by
      by_cases hsp : (I.get ⟨c, hcI⟩ == 95 || is_alpha (I.get ⟨c, hcI⟩) ||
          is_digit (I.get ⟨c, hcI⟩)) = true
      · rw [identRun, if_pos hsp] at hs
        omega
      · simpa using hsp
    rw [drop_get_cons I' c _ hb2]
    rw [identRun, if_neg (by rw [hns]; simp)]
  | succ s ih =>
    intro I I' N c hag hN hN2 hs hlt
    have hc : c < N := by omega
    have hcI : c < I.length := by omega
    have hb : I.get? c = some (I.get ⟨c, hcI⟩) := List.get?_eq_get hcI
    have hb2 : I'.get? c = some (I.get ⟨c, hcI⟩) := (hag c hc).trans hb
    rw [drop_get_cons I c _ hb] at hs
    have hsp : (I.get ⟨c, hcI⟩ == 95 || is_alpha (I.get ⟨c, hcI⟩) ||
        is_digit (I.get ⟨c, hcI⟩)) = true := by
      by_cases hsp : (I.get ⟨c, hcI⟩ == 95 || is_alpha (I.get ⟨c, hcI⟩) ||
          is_digit (I.get ⟨c, hcI⟩)) = true
      · exact hsp
      · rw [identRun, if_neg hsp] at hs
        omega
    rw [identRun, if_pos hsp] at hs
    have hrec := ih I I' N (c + 1) hag hN hN2 (by omega) (by omega)
    rw [drop_get_cons I' c _ hb2]
    rw [identRun, if_pos hsp, hrec]

theorem bytesMatch_agree :
    ∀ (str : List Nat) (I I' : List Nat) (N c : Nat),
      (∀ j, j < N → I'.get? j = I.get? j) → N ≤ I.length → N ≤ I'.length →
      c + str.length ≤ N →
      bytesMatch (I'.drop c) str = bytesMatch (I.drop c) str := by
  intro str
  induction str with
  | nil =>
    intro I I' N c hag hN hN2 hle
    cases hI : I.drop c <;> cases hI2 : I'.drop c <;> rfl
  | cons b bs ih =>
    intro I I' N c hag hN hN2 hle
    have hc : c < N := by
      simp at hle
      omega
    have hcI : c < I.length := by omega
    have hb : I.get? c = some (I.get ⟨c, hcI⟩) := List.get?_eq_get hcI
    have hb2 : I'.get? c = some (I.get ⟨c, hcI⟩) := (hag c hc).trans hb
    rw [drop_get_cons I c _ hb, drop_get_cons I' c _ hb2]
    simp only [bytesMatch]
    rw [ih I I' N (c + 1) hag hN hN2 (by simp at hle ⊢; omega)]

theorem skip_prefix {f : Frozen} {I' : List Nat} {N : Nat}
    (hag : ∀ j, j < N → I'.get? j = f.input.get? j) (hN : N ≤ f.input.length)
    (hN2 : N ≤ I'.length) (hb : f.cur + skipLen (f.input.drop f.cur) < N) :
    skip_whitespaces (setInput f I') = setInput (skip_whitespaces f) I' := by
  refine frozen_ext rfl ?_ rfl rfl rfl rfl
  show f.cur + skipLen (I'.drop f.cur) = f.cur + skipLen (f.input.drop f.cur)
  rw [skipLen_agree (skipLen (f.input.drop f.cur)) f.input I' N f.cur hag hN hN2 rfl hb]

theorem peeked_prefix {f : Frozen} {I' : List Nat} {N : Nat}
    (hag : ∀ j, j < N → I'.get? j = f.input.get? j) (hN : N ≤ f.input.length)
    (hN2 : N ≤ I'.length) (hb : (skip_whitespaces f).cur < N) :
    peeked (setInput f I') = peeked f := by
  have hb2 : f.cur + skipLen (f.input.drop f.cur) < N := hb
  rw [peeked, skip_prefix hag hN hN2 hb2]
  show I'.get? (skip_whitespaces f).cur = _
  rw [hag _ hb]
  rfl

theorem test_and_skip_prefix {f m : Frozen} {e : Nat} (hm : test_and_skip f e = .ok m)
    {I' : List Nat} {N : Nat}
    (hag : ∀ j, j < N → I'.get? j = f.input.get? j) (hN : N ≤ f.input.length)
    (hN2 : N ≤ I'.length) (hb : m.cur ≤ N) :
    test_and_skip (setInput f I') e = .ok (setInput m I') := by
  rw [test_and_skip] at hm
  cases hc : (skip_whitespaces f).input.get? (skip_whitespaces f).cur with
  | none =>
    rw [hc] at hm
    exact absurd hm (fun hh => Except.noConfusion hh)
  | some ch =>
    rw [hc] at hm
    have hm2 : (if ch = e then
        Except.ok { skip_whitespaces f with cur := (skip_whitespaces f).cur + 1 }
      else (Except.error Jerr.invalid : Except Jerr Frozen)) = .ok m := hm
    by_cases hche : ch = e
    · subst hche
      rw [if_pos rfl] at hm2
      have hmeq : { skip_whitespaces f with cur := (skip_whitespaces f).cur + 1 } = m := by
        injection hm2
      have hmcur : m.cur = (skip_whitespaces f).cur + 1 := by
        rw [← hmeq]
      have hcur : (skip_whitespaces f).cur < N := by omega
      have hskip : skip_whitespaces (setInput f I') = setInput (skip_whitespaces f) I' :=
        skip_prefix hag hN hN2 hcur
      have hc2 : (skip_whitespaces (setInput f I')).input.get?
          (skip_whitespaces (setInput f I')).cur = some ch := by
        rw [hskip]
        show I'.get? (skip_whitespaces f).cur = some ch
        rw [hag _ hcur]
        exact hc
      rw [test_and_skip_yes hc2, hskip]
      refine congrArg Except.ok ?_
      rw [← hmeq]
      rfl
    · rw [if_neg hche] at hm2
      exact absurd hm2 (fun hh => Except.noConfusion hh)

theorem compareStr_true_prefix {f : Frozen} {str : List Nat}
    (hc : compareStr f str = true) {I' : List Nat} {N : Nat}
    (hag : ∀ j, j < N → I'.get? j = f.input.get? j) (hN : N ≤ f.input.length)
    (hN2 : N ≤ I'.length) (hb : f.cur + str.length ≤ N) :
    compareStr (setInput f I') str = true := by
  rw [compareStr] at hc
  split at hc
  · exact Bool.noConfusion hc
  · rw [compareStr]
    have hnot : ¬(left (setInput f I') < (str.length : Int)) := by
      rw [left]
      show ¬((I'.length : Int) - (f.cur : Int) < (str.length : Int))
      have hx1 : (N : Int) ≤ (I'.length : Int) := by exact_mod_cast hN2
      have hx2 : ((f.cur + str.length : Nat) : Int) ≤ (N : Int) := by exact_mod_cast hb
      push_cast at hx2
      omega
    rw [if_neg hnot]
    show bytesMatch (I'.drop f.cur) str = true
    rw [bytesMatch_agree str f.input I' N f.cur hag hN hN2 hb]
    exact hc

theorem identRun_le (l : List Nat) : identRun l ≤ l.length := by
  induction l with
  | nil => simp [identRun]
  | cons c r ih =>
    simp only [identRun]
    split
    · simpa using Nat.succ_le_succ ih
    · exact Nat.zero_le _

theorem digitRun_le (l : List Nat) : digitRun l ≤ l.length := by
  induction l with
  | nil => simp [digitRun]
  | cons c r ih =>
    simp only [digitRun]
    split
    · simpa using Nat.succ_le_succ ih
    · exact Nat.zero_le _

theorem peeked_some_lt {f : Frozen} {c : Nat} (h : peeked f = some c) :
    (skip_whitespaces f).cur < f.input.length := by
  obtain ⟨hlt, -⟩ := List.get?_eq_some.mp h
  exact hlt

theorem test_and_skip_curBound {f m : Frozen} {e : Nat}
    (h : test_and_skip f e = .ok m) : m.cur ≤ f.input.length := by
  rw [test_and_skip] at h
  cases hc : (skip_whitespaces f).input.get? (skip_whitespaces f).cur with
  | none =>
    rw [hc] at h
    exact absurd h (fun hh => Except.noConfusion hh)
  | some ch =>
    rw [hc] at h
    have h2 : (if ch = e then
        Except.ok { skip_whitespaces f with cur := (skip_whitespaces f).cur + 1 }
      else (Except.error Jerr.invalid : Except Jerr Frozen)) = .ok m := h
    by_cases hche : ch = e
    · rw [if_pos hche] at h2
      have hmeq : { skip_whitespaces f with cur := (skip_whitespaces f).cur + 1 } = m := by
        injection h2
      have hmcur : m.cur = (skip_whitespaces f).cur + 1 := by
        rw [← hmeq]
      obtain ⟨hlt, -⟩ := List.get?_eq_some.mp hc
      have e3 : (skip_whitespaces f).input.length = f.input.length := rfl
      omega
    · rw [if_neg hche] at h2
      exact absurd h2 (fun hh => Except.noConfusion hh)

theorem parse_string_loop_curBound :
    ∀ (fuel : Nat) (m g : Frozen), parse_string_loop fuel m = some (.ok g) →
      g.cur ≤ m.input.length := by
  intro fuel
  induction fuel with
  | zero =>
    intro m g h
    exact absurd h (fun hh => Option.noConfusion hh)
  | succ n ih =>
    intro m g h
    rw [parse_string_loop] at h
    by_cases h1 : m.cur < m.input.length
    · rw [if_pos h1] at h
      by_cases h2 : 32 ≤ m.input.getD m.cur 0 ∧ m.input.getD m.cur 0 ≤ 127
      · rw [if_pos h2] at h
        by_cases h3 : m.input.getD m.cur 0 = 92
        · rw [if_pos h3] at h
          cases hesc : get_escape_len (m.input.drop (m.cur + 1)) (left m) with
          | error e =>
            rw [hesc] at h
            exact absurd h (fun hh => pres_err hh)
          | ok k =>
            rw [hesc] at h
            exact ih { m with cur := m.cur + k + 1 } g h
        · rw [if_neg h3] at h
          by_cases h4 : m.input.getD m.cur 0 = 34
          · rw [if_pos h4] at h
            have hgeq : { capture_len m ((m.num_tokens : Int) - 1) m.cur with
                cur := m.cur + 1 } = g := by
              have hx : Except.ok (ε := Jerr)
                  { capture_len m ((m.num_tokens : Int) - 1) m.cur with
                    cur := m.cur + 1 } = .ok g := by
                injection h
              injection hx
            have hc : g.cur = m.cur + 1 := by
              rw [← hgeq]
            omega
          · rw [if_neg h4] at h
            exact ih { m with cur := m.cur + 1 } g h
      · rw [if_neg h2] at h
        exact absurd h (fun hh => pres_err hh)
    · rw [if_neg h1] at h
      exact absurd h (fun hh => pres_err hh)

theorem parse_string_curBound {f g : Frozen} (h : parse_string f = .ok g) :
    g.cur ≤ f.input.length := by
  rw [parse_string] at h
  cases h1 : test_and_skip f 34 with
  | error e =>
    rw [h1] at h
    exact absurd h (fun hh => Except.noConfusion hh)
  | ok f1 =>
    rw [h1] at h
    have h2 : (match capture_ptr f1 f1.cur JType.STRING with
        | .error e => .error e
        | .ok g1 => (parse_string_loop (g1.input.length + 1) g1).getD (.error .incomplete)) =
        Except.ok (ε := Jerr) g := h
    cases hcp : capture_ptr f1 f1.cur JType.STRING with
    | error e =>
      rw [hcp] at h2
      exact absurd h2 (fun hh => Except.noConfusion hh)
    | ok g1 =>
      rw [hcp] at h2
      have h3 : (parse_string_loop (g1.input.length + 1) g1).getD (.error .incomplete) =
          Except.ok (ε := Jerr) g := h2
      cases hl : parse_string_loop (g1.input.length + 1) g1 with
      | none =>
        rw [hl] at h3
        exact absurd h3 (fun hh => Except.noConfusion hh)
      | some r =>
        rw [hl] at h3
        have hr : r = .ok g := h3
        subst hr
        have hb := parse_string_loop_curBound _ _ _ hl
        have e1 : g1.input = f1.input := (capture_ptr_extends _ _ hcp).1.1
        have e2 : f1.input = f.input := (test_and_skip_extends 34 h1).1.1
        rw [e1, e2] at hb
        exact hb

theorem identAfter_curBound {f g : Frozen} (h : identAfter f = .ok g)
    (hcur : f.cur ≤ f.input.length) : g.cur ≤ f.input.length := by
  rw [identAfter] at h
  cases hcp : capture_ptr f f.cur JType.STRING with
  | error e =>
    rw [hcp] at h
    exact absurd h (fun hh => Except.noConfusion hh)
  | ok g1 =>
    rw [hcp] at h
    have hgeq : capture_len { g1 with cur := g1.cur + identRun (g1.input.drop g1.cur) }
        ((g1.num_tokens : Int) - 1) (g1.cur + identRun (g1.input.drop g1.cur)) = g := by
      injection h
    have hc : g.cur = g1.cur + identRun (g1.input.drop g1.cur) := by
      rw [← hgeq, (capture_len_fields _ _ _).2.1]
    obtain ⟨e1, e2⟩ := capture_ptr_cur_input hcp
    have hrun := identRun_le (g1.input.drop g1.cur)
    rw [List.length_drop] at hrun
    rw [hc, e1, e2]
    rw [e1, e2] at hrun
    omega

theorem parse_identifier_curBound {f0 g : Frozen} (h : parse_identifier f0 = .ok g) :
    g.cur ≤ f0.input.length := by
  rw [parse_identifier] at h
  cases hp : peeked f0 with
  | none =>
    rw [hp] at h
    exact absurd h (fun hh => Except.noConfusion hh)
  | some c =>
    rw [hp] at h
    have h2 : identDispatch (skip_whitespaces f0) c = .ok g := h
    rw [identDispatch] at h2
    by_cases ha : is_alpha c = true
    · rw [if_pos ha] at h2
      have hlt := peeked_some_lt hp
      have hb := identAfter_curBound h2 (by
        show (skip_whitespaces f0).cur ≤ (skip_whitespaces f0).input.length
        have e3 : (skip_whitespaces f0).input.length = f0.input.length := rfl
        omega)
      exact hb
    · rw [if_neg ha] at h2
      exact absurd h2 (fun hh => Except.noConfusion hh)

theorem parse_number_curBound {f0 g : Frozen} (h : parse_number f0 = .ok g)
    (hcur : (skip_whitespaces f0).cur ≤ f0.input.length) : g.cur ≤ f0.input.length := by
  rw [parse_number] at h
  cases hcp : capture_ptr (skip_whitespaces f0) (skip_whitespaces f0).cur JType.NUMBER with
  | error e =>
    rw [hcp] at h
    exact absurd h (fun hh => Except.noConfusion hh)
  | ok g1 =>
    rw [hcp] at h
    obtain ⟨e1, e2⟩ := capture_ptr_cur_input hcp
    have h2 : (if peeked f0 = some 45 then
        Except.ok (ε := Jerr) (capture_len
          { g1 with cur := g1.cur + 1 + digitRun (g1.input.drop (g1.cur + 1)) }
          ((g1.num_tokens : Int) - 1)
          (g1.cur + 1 + digitRun (g1.input.drop (g1.cur + 1))))
      else .ok (capture_len
          { g1 with cur := g1.cur + digitRun (g1.input.drop g1.cur) }
          ((g1.num_tokens : Int) - 1)
          (g1.cur + digitRun (g1.input.drop g1.cur)))) = Except.ok g := h
    by_cases hm : peeked f0 = some 45
    · rw [if_pos hm] at h2
      have hgeq : capture_len
          { g1 with cur := g1.cur + 1 + digitRun (g1.input.drop (g1.cur + 1)) }
          ((g1.num_tokens : Int) - 1)
          (g1.cur + 1 + digitRun (g1.input.drop (g1.cur + 1))) = g := by
        injection h2
      have hc : g.cur = g1.cur + 1 + digitRun (g1.input.drop (g1.cur + 1)) := by
        rw [← hgeq, (capture_len_fields _ _ _).2.1]
      have hlt := peeked_some_lt hm
      have hrun := digitRun_le (g1.input.drop (g1.cur + 1))
      rw [List.length_drop] at hrun
      have e3 : (skip_whitespaces f0).input = f0.input := rfl
      rw [hc, e1, e2, e3]
      rw [e1, e2, e3] at hrun
      omega
    · rw [if_neg hm] at h2
      have hgeq : capture_len
          { g1 with cur := g1.cur + digitRun (g1.input.drop g1.cur) }
          ((g1.num_tokens : Int) - 1)
          (g1.cur + digitRun (g1.input.drop g1.cur)) = g := by
        injection h2
      have hc : g.cur = g1.cur + digitRun (g1.input.drop g1.cur) := by
        rw [← hgeq, (capture_len_fields _ _ _).2.1]
      have hrun := digitRun_le (g1.input.drop g1.cur)
      rw [List.length_drop] at hrun
      have e3 : (skip_whitespaces f0).input = f0.input := rfl
      rw [hc, e1, e2, e3]
      rw [e1, e2, e3] at hrun
      omega

theorem compareStr_true_le {f : Frozen} {str : List Nat}
    (h : compareStr f str = true) : f.cur + str.length ≤ f.input.length := by
  rw [compareStr] at h
  split at h
  · exact Bool.noConfusion h
  · rename_i hnot
    rw [left] at hnot
    omega

theorem capture_literal_curBound {f g : Frozen} {ty : JType} {n : Nat}
    (h : capture_literal f ty n = .ok g) (hle : f.cur + n ≤ f.input.length) :
    g.cur ≤ f.input.length := by
  rw [capture_literal] at h
  cases hcp : capture_ptr f f.cur ty with
  | error e =>
    rw [hcp] at h
    exact absurd h (fun hh => Except.noConfusion hh)
  | ok g1 =>
    rw [hcp] at h
    have hgeq : capture_len { g1 with cur := g1.cur + n }
        ((g1.num_tokens : Int) - 1) (g1.cur + n) = g := by
      injection h
    have hc : g.cur = g1.cur + n := by
      rw [← hgeq, (capture_len_fields _ _ _).2.1]
    obtain ⟨e1, e2⟩ := capture_ptr_cur_input hcp
    rw [hc, e1]
    exact hle

/-- Successful runs never move the cursor past the end of the input. -/
theorem parseRun_curBound :
    ∀ (fuel : Nat) (rule : Rule) (f g : Frozen),
      parseRun fuel rule f = some (.ok g) → g.cur ≤ f.input.length := by
  intro fuel
  induction fuel with
  | zero =>
    intro rule f g h
    exact absurd h (fun hh => Option.noConfusion hh)
  | succ n ih =>
    intro rule f g h
    cases rule with
    | value =>
      have h2 : onPeek f (valueDispatch (parseRun n) (skip_whitespaces f)) =
          some (.ok g) := h
      obtain ⟨c, hc, hvd⟩ := onPeek_ok_inv h2
      have hlt := peeked_some_lt hc
      rw [valueDispatch] at hvd
      by_cases h34 : (c == 34) = true
      · rw [if_pos h34] at hvd
        have h3 : parse_string (skip_whitespaces f) = .ok g := by
          injection hvd
        have hb := parse_string_curBound h3
        exact hb
      · rw [if_neg h34] at hvd
        by_cases h123 : (c == 123) = true
        · rw [if_pos h123] at hvd
          exact ih .object (skip_whitespaces f) g hvd
        · rw [if_neg h123] at hvd
          by_cases h91 : (c == 91) = true
          · rw [if_pos h91] at hvd
            exact ih .array (skip_whitespaces f) g hvd
          · rw [if_neg h91] at hvd
            by_cases hn : (c == 110 && compareStr (skip_whitespaces f) nullBytes) = true
            · rw [if_pos hn] at hvd
              have h3 : capture_literal (skip_whitespaces f) .NULL 4 = .ok g := by
                injection hvd
              have hcmp : compareStr (skip_whitespaces f) nullBytes = true := by
                simp only [Bool.and_eq_true] at hn
                exact hn.2
              have hb := capture_literal_curBound h3 (compareStr_true_le hcmp)
              exact hb
            · rw [if_neg hn] at hvd
              by_cases ht : (c == 116 && compareStr (skip_whitespaces f) trueBytes) = true
              · rw [if_pos ht] at hvd
                have h3 : capture_literal (skip_whitespaces f) .TRUE 4 = .ok g := by
                  injection hvd
                have hcmp : compareStr (skip_whitespaces f) trueBytes = true := by
                  simp only [Bool.and_eq_true] at ht
                  exact ht.2
                have hb := capture_literal_curBound h3 (compareStr_true_le hcmp)
                exact hb
              · rw [if_neg ht] at hvd
                by_cases hf : (c == 102 && compareStr (skip_whitespaces f) falseBytes) = true
                · rw [if_pos hf] at hvd
                  have h3 : capture_literal (skip_whitespaces f) .FALSE 5 = .ok g := by
                    injection hvd
                  have hcmp : compareStr (skip_whitespaces f) falseBytes = true := by
                    simp only [Bool.and_eq_true] at hf
                    exact hf.2
                  have hb := capture_literal_curBound h3 (compareStr_true_le hcmp)
                  exact hb
                · rw [if_neg hf] at hvd
                  by_cases hd : (is_digit c || (c == 45 &&
                      decide ((skip_whitespaces f).cur + 1 <
                        (skip_whitespaces f).input.length) &&
                      is_digit ((skip_whitespaces f).input.getD
                        ((skip_whitespaces f).cur + 1) 0))) = true
                  · rw [if_pos hd] at hvd
                    have h3 : parse_number (skip_whitespaces f) = .ok g := by
                      injection hvd
                    have hsk : (skip_whitespaces (skip_whitespaces f)).cur ≤
                        (skip_whitespaces f).input.length := by
                      rw [skip_idem]
                      show (skip_whitespaces f).cur ≤ f.input.length
                      omega
                    have hb := parse_number_curBound h3 hsk
                    exact hb
                  · rw [if_neg hd] at hvd
                    exact absurd hvd (fun hh => pres_err hh)
    | object =>
      have h2 : exOk (test_and_skip f 123) (fun f1 =>
          exOk (capture_ptr f1 (f1.cur - 1) .OBJECT) (fun g1 =>
            onOk (parseRun n .objLoop g1)
              (compositeClose 125 ((g1.num_tokens : Int) - 1)))) = some (.ok g) := h
      obtain ⟨m, h1, h3⟩ := exOk_ok_inv h2
      have h3b : exOk (capture_ptr m (m.cur - 1) .OBJECT) (fun g1 =>
          onOk (parseRun n .objLoop g1)
            (compositeClose 125 ((g1.num_tokens : Int) - 1))) = some (.ok g) := h3
      obtain ⟨g1, hcp, h4⟩ := exOk_ok_inv h3b
      have h4b : onOk (parseRun n .objLoop g1)
          (compositeClose 125 ((g1.num_tokens : Int) - 1)) = some (.ok g) := h4
      obtain ⟨mL, h5, h6⟩ := onOk_ok_inv h4b
      rw [compositeClose] at h6
      obtain ⟨h2x, hts, hk⟩ := exOk_ok_inv h6
      have hgeq : capture_len h2x ((g1.num_tokens : Int) - 1) h2x.cur = g := by
        have hx : Except.ok (ε := Jerr)
            (capture_len h2x ((g1.num_tokens : Int) - 1) h2x.cur) = .ok g := by
          injection hk
        injection hx
      have hc : g.cur = h2x.cur := by
        rw [← hgeq, (capture_len_fields _ _ _).2.1]
      have hb := test_and_skip_curBound hts
      have e1 : mL.input = f.input := by
        rw [(parseRun_extends n .objLoop _ _ h5).1.1,
          (capture_ptr_extends _ _ hcp).1.1, (test_and_skip_extends 123 h1).1.1]
      rw [hc]
      rw [e1] at hb
      exact hb
    | objLoop =>
      have h2 : (if peeked f = some 125 then some (.ok (skip_whitespaces f))
          else onOk (parseRun n .pair (skip_whitespaces f)) (parseRun n .objTail)) =
          some (.ok g) := h
      by_cases hp : peeked f = some 125
      · rw [if_pos hp] at h2
        have hgeq : skip_whitespaces f = g := by
          have hx : Except.ok (ε := Jerr) (skip_whitespaces f) = .ok g := by
            injection h2
          injection hx
        have hlt := peeked_some_lt hp
        rw [← hgeq]
        omega
      · rw [if_neg hp] at h2
        obtain ⟨mP, h4, h5⟩ := onOk_ok_inv h2
        have hb := ih .objTail mP g h5
        have e1 : mP.input = f.input := (parseRun_extends n .pair _ _ h4).1.1
        rw [e1] at hb
        exact hb
    | objTail =>
      have h2 : (if peeked f = some 44 then
          parseRun n .objLoop { skip_whitespaces f with cur := (skip_whitespaces f).cur + 1 }
          else parseRun n .objLoop (skip_whitespaces f)) = some (.ok g) := h
      by_cases hp : peeked f = some 44
      · rw [if_pos hp] at h2
        have hb := ih .objLoop _ g h2
        exact hb
      · rw [if_neg hp] at h2
        have hb := ih .objLoop _ g h2
        exact hb
    | pair =>
      have h2 : onOk (parseRun n .key f)
          (fun f1 => exOk (test_and_skip f1 58) (parseRun n .value)) = some (.ok g) := h
      obtain ⟨mK, h4, h5⟩ := onOk_ok_inv h2
      have h5b : exOk (test_and_skip mK 58) (parseRun n .value) = some (.ok g) := h5
      obtain ⟨mT, h6, h7⟩ := exOk_ok_inv h5b
      have hb := ih .value mT g h7
      have e1 : mT.input = f.input := by
        rw [(test_and_skip_extends 58 h6).1.1, (parseRun_extends n .key _ _ h4).1.1]
      rw [e1] at hb
      exact hb
    | key =>
      have h2 : onPeek f (keyDispatch (skip_whitespaces f)) = some (.ok g) := h
      obtain ⟨c, hc, hkd⟩ := onPeek_ok_inv h2
      rw [keyDispatch] at hkd
      by_cases ha : is_alpha c = true
      · rw [if_pos ha] at hkd
        have h3 : parse_identifier (skip_whitespaces f) = .ok g := by
          injection hkd
        have hb := parse_identifier_curBound h3
        exact hb
      · rw [if_neg ha] at hkd
        by_cases h34 : (c == 34) = true
        · rw [if_pos h34] at hkd
          have h3 : parse_string (skip_whitespaces f) = .ok g := by
            injection hkd
          have hb := parse_string_curBound h3
          exact hb
        · rw [if_neg h34] at hkd
          exact absurd hkd (fun hh => pres_err hh)
    | array =>
      have h2 : exOk (test_and_skip f 91) (fun f1 =>
          exOk (capture_ptr f1 (f1.cur - 1) .ARRAY) (fun g1 =>
            onOk (parseRun n .arrLoop g1)
              (compositeClose 93 ((g1.num_tokens : Int) - 1)))) = some (.ok g) := h
      obtain ⟨m, h1, h3⟩ := exOk_ok_inv h2
      have h3b : exOk (capture_ptr m (m.cur - 1) .ARRAY) (fun g1 =>
          onOk (parseRun n .arrLoop g1)
            (compositeClose 93 ((g1.num_tokens : Int) - 1))) = some (.ok g) := h3
      obtain ⟨g1, hcp, h4⟩ := exOk_ok_inv h3b
      have h4b : onOk (parseRun n .arrLoop g1)
          (compositeClose 93 ((g1.num_tokens : Int) - 1)) = some (.ok g) := h4
      obtain ⟨mL, h5, h6⟩ := onOk_ok_inv h4b
      rw [compositeClose] at h6
      obtain ⟨h2x, hts, hk⟩ := exOk_ok_inv h6
      have hgeq : capture_len h2x ((g1.num_tokens : Int) - 1) h2x.cur = g := by
        have hx : Except.ok (ε := Jerr)
            (capture_len h2x ((g1.num_tokens : Int) - 1) h2x.cur) = .ok g := by
          injection hk
        injection hx
      have hc : g.cur = h2x.cur := by
        rw [← hgeq, (capture_len_fields _ _ _).2.1]
      have hb := test_and_skip_curBound hts
      have e1 : mL.input = f.input := by
        rw [(parseRun_extends n .arrLoop _ _ h5).1.1,
          (capture_ptr_extends _ _ hcp).1.1, (test_and_skip_extends 91 h1).1.1]
      rw [hc]
      rw [e1] at hb
      exact hb
    | arrLoop =>
      have h2 : (if peeked f = some 93 then some (.ok (skip_whitespaces f))
          else onOk (parseRun n .value (skip_whitespaces f)) (parseRun n .arrTail)) =
          some (.ok g) := h
      by_cases hp : peeked f = some 93
      · rw [if_pos hp] at h2
        have hgeq : skip_whitespaces f = g := by
          have hx : Except.ok (ε := Jerr) (skip_whitespaces f) = .ok g := by
            injection h2
          injection hx
        have hlt := peeked_some_lt hp
        rw [← hgeq]
        omega
      · rw [if_neg hp] at h2
        obtain ⟨mP, h4, h5⟩ := onOk_ok_inv h2
        have hb := ih .arrTail mP g h5
        have e1 : mP.input = f.input := (parseRun_extends n .value _ _ h4).1.1
        rw [e1] at hb
        exact hb
    | arrTail =>
      have h2 : (if peeked f = some 44 then
          parseRun n .arrLoop { skip_whitespaces f with cur := (skip_whitespaces f).cur + 1 }
          else parseRun n .arrLoop (skip_whitespaces f)) = some (.ok g) := h
      by_cases hp : peeked f = some 44
      · rw [if_pos hp] at h2
        have hb := ih .arrLoop _ g h2
        exact hb
      · rw [if_neg hp] at h2
        have hb := ih .arrLoop _ g h2
        exact hb

theorem parse_string_loop_fuel :
    ∀ (fuel : Nat) (m g : Frozen), parse_string_loop fuel m = some (.ok g) →
      ∀ fuel2, g.cur ≤ m.cur + fuel2 → parse_string_loop fuel2 m = some (.ok g) := by
  intro fuel
  induction fuel with
  | zero =>
    intro m g h
    exact absurd h (fun hh => Option.noConfusion hh)
  | succ n ih =>
    intro m g h fuel2 hf
    rw [parse_string_loop] at h
    by_cases h1 : m.cur < m.input.length
    · rw [if_pos h1] at h
      by_cases h2 : 32 ≤ m.input.getD m.cur 0 ∧ m.input.getD m.cur 0 ≤ 127
      · rw [if_pos h2] at h
        by_cases h3 : m.input.getD m.cur 0 = 92
        · rw [if_pos h3] at h
          cases hesc : get_escape_len (m.input.drop (m.cur + 1)) (left m) with
          | error e =>
            rw [hesc] at h
            exact absurd h (fun hh => pres_err hh)
          | ok k =>
            rw [hesc] at h
            have hstrict := (parse_string_loop_extends n _ _ h).2.1
            have hcsub : ({ m with cur := m.cur + k + 1 } : Frozen).cur =
                m.cur + k + 1 := rfl
            rw [hcsub] at hstrict
            cases fuel2 with
            | zero => omega
            | succ n2 =>
              rw [parse_string_loop, if_pos h1, if_pos h2, if_pos h3, hesc]
              exact ih { m with cur := m.cur + k + 1 } g h n2 (by
                show g.cur ≤ m.cur + k + 1 + n2
                omega)
        · rw [if_neg h3] at h
          by_cases h4 : m.input.getD m.cur 0 = 34
          · rw [if_pos h4] at h
            have hgeq : { capture_len m ((m.num_tokens : Int) - 1) m.cur with
                cur := m.cur + 1 } = g := by
              have hx : Except.ok (ε := Jerr)
                  { capture_len m ((m.num_tokens : Int) - 1) m.cur with
                    cur := m.cur + 1 } = .ok g := by
                injection h
              injection hx
            have hcg : g.cur = m.cur + 1 := by
              rw [← hgeq]
            cases fuel2 with
            | zero => omega
            | succ n2 =>
              rw [parse_string_loop, if_pos h1, if_pos h2, if_neg h3, if_pos h4]
              rw [hgeq]
          · rw [if_neg h4] at h
            have hstrict := (parse_string_loop_extends n _ _ h).2.1
            have hcsub : ({ m with cur := m.cur + 1 } : Frozen).cur = m.cur + 1 := rfl
            rw [hcsub] at hstrict
            cases fuel2 with
            | zero => omega
            | succ n2 =>
              rw [parse_string_loop, if_pos h1, if_pos h2, if_neg h3, if_neg h4]
              exact ih { m with cur := m.cur + 1 } g h n2 (by
                show g.cur ≤ m.cur + 1 + n2
                omega)
      · rw [if_neg h2] at h
        exact absurd h (fun hh => pres_err hh)
    · rw [if_neg h1] at h
      exact absurd h (fun hh => pres_err hh)

theorem parseRun_mono :
    ∀ (fuel : Nat) (rule : Rule) (f : Frozen) (r : Except Jerr Frozen),
      parseRun fuel rule f = some r → parseRun (fuel + 1) rule f = some r := by
  intro fuel
  induction fuel with
  | zero =>
    intro rule f r h
    exact absurd h (fun hh => Option.noConfusion hh)
  | succ n ih =>
    intro rule f r h
    cases rule with
    | value =>
      have h2 : onPeek f (valueDispatch (parseRun n) (skip_whitespaces f)) = some r := h
      rw [parseRun_succ]
      show onPeek f (valueDispatch (parseRun (n + 1)) (skip_whitespaces f)) = some r
      rw [onPeek] at h2 ⊢
      cases hp : peeked f with
      | none =>
        rw [hp] at h2
        exact h2
      | some c =>
        rw [hp] at h2
        have h3 : valueDispatch (parseRun n) (skip_whitespaces f) c = some r := h2
        show valueDispatch (parseRun (n + 1)) (skip_whitespaces f) c = some r
        rw [valueDispatch] at h3 ⊢
        by_cases h34 : (c == 34) = true
        · rw [if_pos h34] at h3 ⊢
          exact h3
        · rw [if_neg h34] at h3 ⊢
          by_cases h123 : (c == 123) = true
          · rw [if_pos h123] at h3 ⊢
            exact ih .object (skip_whitespaces f) r h3
          · rw [if_neg h123] at h3 ⊢
            by_cases h91 : (c == 91) = true
            · rw [if_pos h91] at h3 ⊢
              exact ih .array (skip_whitespaces f) r h3
            · rw [if_neg h91] at h3 ⊢
              by_cases hn : (c == 110 && compareStr (skip_whitespaces f) nullBytes) = true
              · rw [if_pos hn] at h3 ⊢
                exact h3
              · rw [if_neg hn] at h3 ⊢
                by_cases ht : (c == 116 && compareStr (skip_whitespaces f) trueBytes) = true
                · rw [if_pos ht] at h3 ⊢
                  exact h3
                · rw [if_neg ht] at h3 ⊢
                  by_cases hf : (c == 102 && compareStr (skip_whitespaces f) falseBytes) = true
                  · rw [if_pos hf] at h3 ⊢
                    exact h3
                  · rw [if_neg hf] at h3 ⊢
                    by_cases hd : (is_digit c || (c == 45 &&
                        decide ((skip_whitespaces f).cur + 1 <
                          (skip_whitespaces f).input.length) &&
                        is_digit ((skip_whitespaces f).input.getD
                          ((skip_whitespaces f).cur + 1) 0))) = true
                    · rw [if_pos hd] at h3 ⊢
                      exact h3
                    · rw [if_neg hd] at h3 ⊢
                      exact h3
    | object =>
      have h2 : exOk (test_and_skip f 123) (fun f1 =>
          exOk (capture_ptr f1 (f1.cur - 1) .OBJECT) (fun g1 =>
            onOk (parseRun n .objLoop g1)
              (compositeClose 125 ((g1.num_tokens : Int) - 1)))) = some r := h
      rw [parseRun_succ]
      show exOk (test_and_skip f 123) (fun f1 =>
        exOk (capture_ptr f1 (f1.cur - 1) .OBJECT) (fun g1 =>
          onOk (parseRun (n + 1) .objLoop g1)
            (compositeClose 125 ((g1.num_tokens : Int) - 1)))) = some r
      cases hts : test_and_skip f 123 with
      | error e =>
        rw [hts] at h2
        exact h2
      | ok m =>
        rw [hts] at h2
        show exOk (capture_ptr m (m.cur - 1) .OBJECT) (fun g1 =>
          onOk (parseRun (n + 1) .objLoop g1)
            (compositeClose 125 ((g1.num_tokens : Int) - 1))) = some r
        have h3 : exOk (capture_ptr m (m.cur - 1) .OBJECT) (fun g1 =>
            onOk (parseRun n .objLoop g1)
              (compositeClose 125 ((g1.num_tokens : Int) - 1))) = some r := h2
        cases hcp : capture_ptr m (m.cur - 1) JType.OBJECT with
        | error e =>
          rw [hcp] at h3
          exact h3
        | ok g1 =>
          rw [hcp] at h3
          show onOk (parseRun (n + 1) .objLoop g1)
            (compositeClose 125 ((g1.num_tokens : Int) - 1)) = some r
          have h4 : onOk (parseRun n .objLoop g1)
              (compositeClose 125 ((g1.num_tokens : Int) - 1)) = some r := h3
          cases hsub : parseRun n .objLoop g1 with
          | none =>
            rw [hsub] at h4
            exact absurd h4 (fun hh => Option.noConfusion hh)
          | some x =>
            rw [hsub] at h4
            rw [ih .objLoop g1 x hsub]
            exact h4
    | objLoop =>
      have h2 : (if peeked f = some 125 then some (.ok (skip_whitespaces f))
          else onOk (parseRun n .pair (skip_whitespaces f)) (parseRun n .objTail)) =
          some r := h
      rw [parseRun_succ]
      show (if peeked f = some 125 then some (.ok (skip_whitespaces f))
        else onOk (parseRun (n + 1) .pair (skip_whitespaces f))
          (parseRun (n + 1) .objTail)) = some r
      by_cases hp : peeked f = some 125
      · rw [if_pos hp] at h2
        rw [if_pos hp]
        exact h2
      · rw [if_neg hp] at h2
        rw [if_neg hp]
        cases hsub : parseRun n .pair (skip_whitespaces f) with
        | none =>
          rw [hsub] at h2
          exact absurd h2 (fun hh => Option.noConfusion hh)
        | some x =>
          rw [hsub] at h2
          rw [ih .pair (skip_whitespaces f) x hsub]
          cases x with
          | error e => exact h2
          | ok m =>
            have h4 : parseRun n .objTail m = some r := h2
            show onOk (some (.ok m)) (parseRun (n + 1) .objTail) = some r
            exact ih .objTail m r h4
    | objTail =>
      have h2 : (if peeked f = some 44 then
          parseRun n .objLoop { skip_whitespaces f with cur := (skip_whitespaces f).cur + 1 }
          else parseRun n .objLoop (skip_whitespaces f)) = some r := h
      rw [parseRun_succ]
      show (if peeked f = some 44 then
        parseRun (n + 1) .objLoop { skip_whitespaces f with cur := (skip_whitespaces f).cur + 1 }
        else parseRun (n + 1) .objLoop (skip_whitespaces f)) = some r
      by_cases hp : peeked f = some 44
      · rw [if_pos hp] at h2
        rw [if_pos hp]
        exact ih .objLoop _ r h2
      · rw [if_neg hp] at h2
        rw [if_neg hp]
        exact ih .objLoop _ r h2
    | pair =>
      have h2 : onOk (parseRun n .key f)
          (fun f1 => exOk (test_and_skip f1 58) (parseRun n .value)) = some r := h
      rw [parseRun_succ]
      show onOk (parseRun (n + 1) .key f)
        (fun f1 => exOk (test_and_skip f1 58) (parseRun (n + 1) .value)) = some r
      cases hsub : parseRun n .key f with
      | none =>
        rw [hsub] at h2
        exact absurd h2 (fun hh => Option.noConfusion hh)
      | some x =>
        rw [hsub] at h2
        rw [ih .key f x hsub]
        cases x with
        | error e => exact h2
        | ok m =>
          have h4 : exOk (test_and_skip m 58) (parseRun n .value) = some r := h2
          show exOk (test_and_skip m 58) (parseRun (n + 1) .value) = some r
          cases hts : test_and_skip m 58 with
          | error e =>
            rw [hts] at h4
            exact h4
          | ok m2 =>
            rw [hts] at h4
            exact ih .value m2 r h4
    | key => exact h
    | array =>
      have h2 : exOk (test_and_skip f 91) (fun f1 =>
          exOk (capture_ptr f1 (f1.cur - 1) .ARRAY) (fun g1 =>
            onOk (parseRun n .arrLoop g1)
              (compositeClose 93 ((g1.num_tokens : Int) - 1)))) = some r := h
      rw [parseRun_succ]
      show exOk (test_and_skip f 91) (fun f1 =>
        exOk (capture_ptr f1 (f1.cur - 1) .ARRAY) (fun g1 =>
          onOk (parseRun (n + 1) .arrLoop g1)
            (compositeClose 93 ((g1.num_tokens : Int) - 1)))) = some r
      cases hts : test_and_skip f 91 with
      | error e =>
        rw [hts] at h2
        exact h2
      | ok m =>
        rw [hts] at h2
        show exOk (capture_ptr m (m.cur - 1) .ARRAY) (fun g1 =>
          onOk (parseRun (n + 1) .arrLoop g1)
            (compositeClose 93 ((g1.num_tokens : Int) - 1))) = some r
        have h3 : exOk (capture_ptr m (m.cur - 1) .ARRAY) (fun g1 =>
            onOk (parseRun n .arrLoop g1)
              (compositeClose 93 ((g1.num_tokens : Int) - 1))) = some r := h2
        cases hcp : capture_ptr m (m.cur - 1) JType.ARRAY with
        | error e =>
          rw [hcp] at h3
          exact h3
        | ok g1 =>
          rw [hcp] at h3
          show onOk (parseRun (n + 1) .arrLoop g1)
            (compositeClose 93 ((g1.num_tokens : Int) - 1)) = some r
          have h4 : onOk (parseRun n .arrLoop g1)
              (compositeClose 93 ((g1.num_tokens : Int) - 1)) = some r := h3
          cases hsub : parseRun n .arrLoop g1 with
          | none =>
            rw [hsub] at h4
            exact absurd h4 (fun hh => Option.noConfusion hh)
          | some x =>
            rw [hsub] at h4
            rw [ih .arrLoop g1 x hsub]
            exact h4
    | arrLoop =>
      have h2 : (if peeked f = some 93 then some (.ok (skip_whitespaces f))
          else onOk (parseRun n .value (skip_whitespaces f)) (parseRun n .arrTail)) =
          some r := h
      rw [parseRun_succ]
      show (if peeked f = some 93 then some (.ok (skip_whitespaces f))
        else onOk (parseRun (n + 1) .value (skip_whitespaces f))
          (parseRun (n + 1) .arrTail)) = some r
      by_cases hp : peeked f = some 93
      · rw [if_pos hp] at h2
        rw [if_pos hp]
        exact h2
      · rw [if_neg hp] at h2
        rw [if_neg hp]
        cases hsub : parseRun n .value (skip_whitespaces f) with
        | none =>
          rw [hsub] at h2
          exact absurd h2 (fun hh => Option.noConfusion hh)
        | some x =>
          rw [hsub] at h2
          rw [ih .value (skip_whitespaces f) x hsub]
          cases x with
          | error e => exact h2
          | ok m =>
            have h4 : parseRun n .arrTail m = some r := h2
            show onOk (some (.ok m)) (parseRun (n + 1) .arrTail) = some r
            exact ih .arrTail m r h4
    | arrTail =>
      have h2 : (if peeked f = some 44 then
          parseRun n .arrLoop { skip_whitespaces f with cur := (skip_whitespaces f).cur + 1 }
          else parseRun n .arrLoop (skip_whitespaces f)) = some r := h
      rw [parseRun_succ]
      show (if peeked f = some 44 then
        parseRun (n + 1) .arrLoop { skip_whitespaces f with cur := (skip_whitespaces f).cur + 1 }
        else parseRun (n + 1) .arrLoop (skip_whitespaces f)) = some r
      by_cases hp : peeked f = some 44
      · rw [if_pos hp] at h2
        rw [if_pos hp]
        exact ih .arrLoop _ r h2
      · rw [if_neg hp] at h2
        rw [if_neg hp]
        exact ih .arrLoop _ r h2

theorem parseRun_mono_le {fuel fuel2 : Nat} (hle : fuel ≤ fuel2) {rule : Rule}
    {f : Frozen} {r : Except Jerr Frozen} (h : parseRun fuel rule f = some r) :
    parseRun fuel2 rule f = some r := by
  induction hle with
  | refl => exact h
  | step _ ih => exact parseRun_mono _ _ _ _ ih

def ruleRank : Rule → Nat
  | .object => 0
  | .array => 0
  | .key => 0
  | .value => 1
  | .pair => 1
  | .objLoop => 2
  | .arrLoop => 2
  | .objTail => 3
  | .arrTail => 3

theorem compositeClose_ne_none (closer : Nat) (ind : Int) (h1 : Frozen) :
    compositeClose closer ind h1 ≠ none := by
  rw [compositeClose]
  cases hts : test_and_skip h1 closer with
  | error e => exact fun hh => Option.noConfusion hh
  | ok m => exact fun hh => Option.noConfusion hh

/-- Adequacy: the canonical fuel bound 4·(remaining bytes) + rank + 1 is
enough for any run to finish (no fuel exhaustion). -/
theorem parseRun_adequate :
    ∀ (fuel : Nat) (rule : Rule) (f : Frozen),
      4 * (f.input.length - f.cur) + ruleRank rule + 1 ≤ fuel →
      parseRun fuel rule f ≠ none := by
  intro fuel
  induction fuel with
  | zero =>
    intro rule f hfuel
    exact absurd hfuel (by omega)
  | succ n ih =>
    intro rule f hfuel
    intro hq
    rw [parseRun_succ] at hq
    cases rule with
    | value =>
      have hq2 : onPeek f (valueDispatch (parseRun n) (skip_whitespaces f)) = none := hq
      rw [onPeek] at hq2
      cases hp : peeked f with
      | none =>
        rw [hp] at hq2
        exact Option.noConfusion hq2
      | some c =>
        rw [hp] at hq2
        have hq3 : valueDispatch (parseRun n) (skip_whitespaces f) c = none := hq2
        rw [valueDispatch] at hq3
        have hsc : f.cur ≤ (skip_whitespaces f).cur := skip_cur_le f
        have hslen : (skip_whitespaces f).input.length = f.input.length := rfl
        have hrank : ruleRank .value = 1 := rfl
        rw [hrank] at hfuel
        split at hq3
        · exact Option.noConfusion hq3
        · split at hq3
          · refine ih .object (skip_whitespaces f) ?_ hq3
            show 4 * ((skip_whitespaces f).input.length - (skip_whitespaces f).cur) +
              ruleRank .object + 1 ≤ n
            rw [hslen]
            have : ruleRank Rule.object = 0 := rfl
            omega
          · split at hq3
            · refine ih .array (skip_whitespaces f) ?_ hq3
              show 4 * ((skip_whitespaces f).input.length - (skip_whitespaces f).cur) +
                ruleRank .array + 1 ≤ n
              rw [hslen]
              have : ruleRank Rule.array = 0 := rfl
              omega
            · split at hq3
              · exact Option.noConfusion hq3
              · split at hq3
                · exact Option.noConfusion hq3
                · split at hq3
                  · exact Option.noConfusion hq3
                  · split at hq3
                    · exact Option.noConfusion hq3
                    · exact Option.noConfusion hq3
    | object =>
      have hq2 : exOk (test_and_skip f 123) (fun f1 =>
          exOk (capture_ptr f1 (f1.cur - 1) .OBJECT) (fun g1 =>
            onOk (parseRun n .objLoop g1)
              (compositeClose 125 ((g1.num_tokens : Int) - 1)))) = none := hq
      cases hts : test_and_skip f 123 with
      | error e =>
        rw [hts] at hq2
        exact Option.noConfusion hq2
      | ok m =>
        rw [hts] at hq2
        have hq3 : exOk (capture_ptr m (m.cur - 1) .OBJECT) (fun g1 =>
            onOk (parseRun n .objLoop g1)
              (compositeClose 125 ((g1.num_tokens : Int) - 1))) = none := hq2
        cases hcp : capture_ptr m (m.cur - 1) JType.OBJECT with
        | error e =>
          rw [hcp] at hq3
          exact Option.noConfusion hq3
        | ok g1 =>
          rw [hcp] at hq3
          have hq4 : onOk (parseRun n .objLoop g1)
              (compositeClose 125 ((g1.num_tokens : Int) - 1)) = none := hq3
          cases hsub : parseRun n .objLoop g1 with
          | none =>
            refine ih .objLoop g1 ?_ hsub
            obtain ⟨e1, e2⟩ := capture_ptr_cur_input hcp
            have hmc := (test_and_skip_extends 123 hts).2.1
            have hmb := test_and_skip_curBound hts
            have e3 : m.input = f.input := (test_and_skip_extends 123 hts).1.1
            show 4 * (g1.input.length - g1.cur) + ruleRank .objLoop + 1 ≤ n
            rw [e1, e2, e3]
            have hr1 : ruleRank Rule.objLoop = 2 := rfl
            have hr2 : ruleRank Rule.object = 0 := rfl
            rw [hr2] at hfuel
            omega
          | some x =>
            rw [hsub] at hq4
            cases x with
            | error e => exact Option.noConfusion hq4
            | ok mL =>
              exact compositeClose_ne_none 125 ((g1.num_tokens : Int) - 1) mL hq4
    | objLoop =>
      have hq2 : (if peeked f = some 125 then some (.ok (skip_whitespaces f))
          else onOk (parseRun n .pair (skip_whitespaces f)) (parseRun n .objTail)) =
          none := hq
      by_cases hp : peeked f = some 125
      · rw [if_pos hp] at hq2
        exact Option.noConfusion hq2
      · rw [if_neg hp] at hq2
        have hsc : f.cur ≤ (skip_whitespaces f).cur := skip_cur_le f
        have hslen : (skip_whitespaces f).input.length = f.input.length := rfl
        have hr1 : ruleRank Rule.objLoop = 2 := rfl
        rw [hr1] at hfuel
        cases hsub : parseRun n .pair (skip_whitespaces f) with
        | none =>
          refine ih .pair (skip_whitespaces f) ?_ hsub
          show 4 * ((skip_whitespaces f).input.length - (skip_whitespaces f).cur) +
            ruleRank .pair + 1 ≤ n
          rw [hslen]
          have hr2 : ruleRank Rule.pair = 1 := rfl
          omega
        | some x =>
          rw [hsub] at hq2
          cases x with
          | error e => exact Option.noConfusion hq2
          | ok m =>
            have hq4 : parseRun n .objTail m = none := hq2
            refine ih .objTail m ?_ hq4
            have hstrict := (parseRun_extends n .pair _ _ hsub).2 rfl
            have hbound := parseRun_curBound n .pair _ _ hsub
            have e1 : m.input = f.input := (parseRun_extends n .pair _ _ hsub).1.1
            rw [hslen] at hbound
            show 4 * (m.input.length - m.cur) + ruleRank .objTail + 1 ≤ n
            rw [e1]
            have hr3 : ruleRank Rule.objTail = 3 := rfl
            omega
    | objTail =>
      have hq2 : (if peeked f = some 44 then
          parseRun n .objLoop { skip_whitespaces f with cur := (skip_whitespaces f).cur + 1 }
          else parseRun n .objLoop (skip_whitespaces f)) = none := hq
      have hsc : f.cur ≤ (skip_whitespaces f).cur := skip_cur_le f
      have hslen : (skip_whitespaces f).input.length = f.input.length := rfl
      have hr1 : ruleRank Rule.objTail = 3 := rfl
      rw [hr1] at hfuel
      have hr2 : ruleRank Rule.objLoop = 2 := rfl
      by_cases hp : peeked f = some 44
      · rw [if_pos hp] at hq2
        refine ih .objLoop _ ?_ hq2
        show 4 * ((skip_whitespaces f).input.length - ((skip_whitespaces f).cur + 1)) +
          ruleRank .objLoop + 1 ≤ n
        rw [hslen]
        omega
      · rw [if_neg hp] at hq2
        refine ih .objLoop _ ?_ hq2
        show 4 * ((skip_whitespaces f).input.length - (skip_whitespaces f).cur) +
          ruleRank .objLoop + 1 ≤ n
        rw [hslen]
        omega
    | pair =>
      have hq2 : onOk (parseRun n .key f)
          (fun f1 => exOk (test_and_skip f1 58) (parseRun n .value)) = none := hq
      have hr1 : ruleRank Rule.pair = 1 := rfl
      rw [hr1] at hfuel
      cases hsub : parseRun n .key f with
      | none =>
        refine ih .key f ?_ hsub
        show 4 * (f.input.length - f.cur) + ruleRank .key + 1 ≤ n
        have hr2 : ruleRank Rule.key = 0 := rfl
        omega
      | some x =>
        rw [hsub] at hq2
        cases x with
        | error e => exact Option.noConfusion hq2
        | ok m =>
          have hq3 : exOk (test_and_skip m 58) (parseRun n .value) = none := hq2
          cases hts : test_and_skip m 58 with
          | error e =>
            rw [hts] at hq3
            exact Option.noConfusion hq3
          | ok m2 =>
            rw [hts] at hq3
            refine ih .value m2 ?_ hq3
            have hstrict := (parseRun_extends n .key _ _ hsub).2 rfl
            have hbound := test_and_skip_curBound hts
            have hmc := (test_and_skip_extends 58 hts).2.1
            have e1 : m.input = f.input := (parseRun_extends n .key _ _ hsub).1.1
            have e2 : m2.input = m.input := (test_and_skip_extends 58 hts).1.1
            rw [e1] at hbound
            show 4 * (m2.input.length - m2.cur) + ruleRank .value + 1 ≤ n
            rw [e2, e1]
            have hr3 : ruleRank Rule.value = 1 := rfl
            omega
    | key =>
      have hq2 : onPeek f (keyDispatch (skip_whitespaces f)) = none := hq
      rw [onPeek] at hq2
      cases hp : peeked f with
      | none =>
        rw [hp] at hq2
        exact Option.noConfusion hq2
      | some c =>
        rw [hp] at hq2
        have hq3 : keyDispatch (skip_whitespaces f) c = none := hq2
        rw [keyDispatch] at hq3
        split at hq3
        · exact Option.noConfusion hq3
        · split at hq3
          · exact Option.noConfusion hq3
          · exact Option.noConfusion hq3
    | array =>
      have hq2 : exOk (test_and_skip f 91) (fun f1 =>
          exOk (capture_ptr f1 (f1.cur - 1) .ARRAY) (fun g1 =>
            onOk (parseRun n .arrLoop g1)
              (compositeClose 93 ((g1.num_tokens : Int) - 1)))) = none := hq
      cases hts : test_and_skip f 91 with
      | error e =>
        rw [hts] at hq2
        exact Option.noConfusion hq2
      | ok m =>
        rw [hts] at hq2
        have hq3 : exOk (capture_ptr m (m.cur - 1) .ARRAY) (fun g1 =>
            onOk (parseRun n .arrLoop g1)
              (compositeClose 93 ((g1.num_tokens : Int) - 1))) = none := hq2
        cases hcp : capture_ptr m (m.cur - 1) JType.ARRAY with
        | error e =>
          rw [hcp] at hq3
          exact Option.noConfusion hq3
        | ok g1 =>
          rw [hcp] at hq3
          have hq4 : onOk (parseRun n .arrLoop g1)
              (compositeClose 93 ((g1.num_tokens : Int) - 1)) = none := hq3
          cases hsub : parseRun n .arrLoop g1 with
          | none =>
            refine ih .arrLoop g1 ?_ hsub
            obtain ⟨e1, e2⟩ := capture_ptr_cur_input hcp
            have hmc := (test_and_skip_extends 91 hts).2.1
            have hmb := test_and_skip_curBound hts
            have e3 : m.input = f.input := (test_and_skip_extends 91 hts).1.1
            show 4 * (g1.input.length - g1.cur) + ruleRank .arrLoop + 1 ≤ n
            rw [e1, e2, e3]
            have hr1 : ruleRank Rule.arrLoop = 2 := rfl
            have hr2 : ruleRank Rule.array = 0 := rfl
            rw [hr2] at hfuel
            omega
          | some x =>
            rw [hsub] at hq4
            cases x with
            | error e => exact Option.noConfusion hq4
            | ok mL =>
              exact compositeClose_ne_none 93 ((g1.num_tokens : Int) - 1) mL hq4
    | arrLoop =>
      have hq2 : (if peeked f = some 93 then some (.ok (skip_whitespaces f))
          else onOk (parseRun n .value (skip_whitespaces f)) (parseRun n .arrTail)) =
          none := hq
      by_cases hp : peeked f = some 93
      · rw [if_pos hp] at hq2
        exact Option.noConfusion hq2
      · rw [if_neg hp] at hq2
        have hsc : f.cur ≤ (skip_whitespaces f).cur := skip_cur_le f
        have hslen : (skip_whitespaces f).input.length = f.input.length := rfl
        have hr1 : ruleRank Rule.arrLoop = 2 := rfl
        rw [hr1] at hfuel
        cases hsub : parseRun n .value (skip_whitespaces f) with
        | none =>
          refine ih .value (skip_whitespaces f) ?_ hsub
          show 4 * ((skip_whitespaces f).input.length - (skip_whitespaces f).cur) +
            ruleRank .value + 1 ≤ n
          rw [hslen]
          have hr2 : ruleRank Rule.value = 1 := rfl
          omega
        | some x =>
          rw [hsub] at hq2
          cases x with
          | error e => exact Option.noConfusion hq2
          | ok m =>
            have hq4 : parseRun n .arrTail m = none := hq2
            refine ih .arrTail m ?_ hq4
            have hstrict := (parseRun_extends n .value _ _ hsub).2 rfl
            have hbound := parseRun_curBound n .value _ _ hsub
            have e1 : m.input = f.input := (parseRun_extends n .value _ _ hsub).1.1
            rw [hslen] at hbound
            show 4 * (m.input.length - m.cur) + ruleRank .arrTail + 1 ≤ n
            rw [e1]
            have hr3 : ruleRank Rule.arrTail = 3 := rfl
            omega
    | arrTail =>
      have hq2 : (if peeked f = some 44 then
          parseRun n .arrLoop { skip_whitespaces f with cur := (skip_whitespaces f).cur + 1 }
          else parseRun n .arrLoop (skip_whitespaces f)) = none := hq
      have hsc : f.cur ≤ (skip_whitespaces f).cur := skip_cur_le f
      have hslen : (skip_whitespaces f).input.length = f.input.length := rfl
      have hr1 : ruleRank Rule.arrTail = 3 := rfl
      rw [hr1] at hfuel
      have hr2 : ruleRank Rule.arrLoop = 2 := rfl
      by_cases hp : peeked f = some 44
      · rw [if_pos hp] at hq2
        refine ih .arrLoop _ ?_ hq2
        show 4 * ((skip_whitespaces f).input.length - ((skip_whitespaces f).cur + 1)) +
          ruleRank .arrLoop + 1 ≤ n
        rw [hslen]
        omega
      · rw [if_neg hp] at hq2
        refine ih .arrLoop _ ?_ hq2
        show 4 * ((skip_whitespaces f).input.length - (skip_whitespaces f).cur) +
          ruleRank .arrLoop + 1 ≤ n
        rw [hslen]
        omega

theorem headD_drop (I : List Nat) (c : Nat) : (I.drop c).headD 0 = I.getD c 0 := by
  have h0 : (I.drop c).get? 0 = I.get? c := by
    rw [List.get?_drop]
    simp
  rw [List.getD_eq_getD_get?]
  cases hd : I.drop c with
  | nil =>
    rw [hd] at h0
    rw [← h0]
    rfl
  | cons a t =>
    rw [hd] at h0
    rw [← h0]
    rfl

theorem headD_getD_zero (s : List Nat) : s.getD 0 0 = s.headD 0 := by
  cases s <;> rfl

theorem get_escape_len_body (s : List Nat) (len : Int) : get_escape_len s len =
    (if s.headD 0 = 117 then
      if len < 4 then .error .incomplete
      else if is_hex_digit (s.getD 0 0) && is_hex_digit (s.getD 1 0) &&
          is_hex_digit (s.getD 2 0) && is_hex_digit (s.getD 3 0) then .ok 4
      else .error .invalid
    else if s.headD 0 = 34 ∨ s.headD 0 = 92 ∨ s.headD 0 = 47 ∨ s.headD 0 = 98 ∨
        s.headD 0 = 102 ∨ s.headD 0 = 110 ∨ s.headD 0 = 114 ∨ s.headD 0 = 116 then
      if len < 2 then .error .incomplete else .ok 1
    else .error .invalid) := rfl

theorem get_escape_len_prefix {s s2 : List Nat} {len len2 : Int} {k : Nat}
    (h : get_escape_len s len = .ok k) (hhead : s2.headD 0 = s.headD 0)
    (hlen2 : (k : Int) + 1 ≤ len2) :
    get_escape_len s2 len2 = .ok k := by
  rw [get_escape_len_body] at h
  rw [get_escape_len_body]
  by_cases h117 : s.headD 0 = 117
  · rw [if_pos h117] at h
    split at h
    · exact absurd h (fun hh => Except.noConfusion hh)
    · split at h
      · rename_i hhex
        have h1 : s.getD 0 0 = 117 := by
          rw [headD_getD_zero, h117]
        rw [h1] at hhex
        have h2 : is_hex_digit 117 = false := by decide
        rw [h2] at hhex
        simp at hhex
      · exact absurd h (fun hh => Except.noConfusion hh)
  · rw [if_neg h117] at h
    by_cases hmem : s.headD 0 = 34 ∨ s.headD 0 = 92 ∨ s.headD 0 = 47 ∨ s.headD 0 = 98 ∨
        s.headD 0 = 102 ∨ s.headD 0 = 110 ∨ s.headD 0 = 114 ∨ s.headD 0 = 116
    · rw [if_pos hmem] at h
      split at h
      · exact absurd h (fun hh => Except.noConfusion hh)
      · have hk : 1 = k := by
          injection h
        rw [hhead, if_neg h117, if_pos hmem, if_neg (show ¬(len2 < 2) by omega)]
        rw [hk]
    · rw [if_neg hmem] at h
      exact absurd h (fun hh => Except.noConfusion hh)

theorem parse_string_loop_prefix :
    ∀ (fuel : Nat) (m g : Frozen), parse_string_loop fuel m = some (.ok g) →
      ∀ (N : Nat) (I' : List Nat), g.cur ≤ N → N ≤ m.input.length → N ≤ I'.length →
        (∀ j, j < N → I'.get? j = m.input.get? j) →
        parse_string_loop fuel (setInput m I') = some (.ok (setInput g I')) := by
  intro fuel
  induction fuel with
  | zero =>
    intro m g h
    exact absurd h (fun hh => Option.noConfusion hh)
  | succ n ih =>
    intro m g h N I' hb hN hN2 hag
    have hstrict := (parse_string_loop_extends (n + 1) m g h).2.1
    rw [parse_string_loop] at h
    rw [parse_string_loop]
    by_cases h1 : m.cur < m.input.length
    · rw [if_pos h1] at h
      have h1I : (setInput m I').cur < (setInput m I').input.length := by
        show m.cur < I'.length
        omega
      rw [if_pos h1I]
      have hgd : (setInput m I').input.getD (setInput m I').cur 0 =
          m.input.getD m.cur 0 := by
        show I'.getD m.cur 0 = m.input.getD m.cur 0
        exact getD_prefix hag (by omega) 0
      rw [hgd]
      by_cases h2 : 32 ≤ m.input.getD m.cur 0 ∧ m.input.getD m.cur 0 ≤ 127
      · rw [if_pos h2] at h
        rw [if_pos h2]
        by_cases h3 : m.input.getD m.cur 0 = 92
        · rw [if_pos h3] at h
          rw [if_pos h3]
          cases hge : get_escape_len (m.input.drop (m.cur + 1)) (left m) with
          | error e =>
            rw [hge] at h
            exact absurd h (fun hh => pres_err hh)
          | ok k =>
            rw [hge] at h
            have hsub := (parse_string_loop_extends n _ _ h).2.1
            have hsubc : m.cur + k + 1 < g.cur := hsub
            have hhead : (I'.drop (m.cur + 1)).headD 0 =
                (m.input.drop (m.cur + 1)).headD 0 := by
              rw [headD_drop, headD_drop]
              exact getD_prefix hag (by omega) 0
            have hlen2 : (k : Int) + 1 ≤ left (setInput m I') := by
              rw [left]
              show (k : Int) + 1 ≤ (I'.length : Int) - (m.cur : Int)
              have c1 : m.cur + k + 1 < I'.length := by omega
              omega
            have hesc2 : get_escape_len (I'.drop (m.cur + 1)) (left (setInput m I')) =
                .ok k := get_escape_len_prefix hge hhead hlen2
            have hesc3 : get_escape_len
                ((setInput m I').input.drop ((setInput m I').cur + 1))
                (left (setInput m I')) = .ok k := hesc2
            rw [hesc3]
            exact ih { m with cur := m.cur + k + 1 } g h N I' hb hN hN2 hag
        · rw [if_neg h3] at h
          rw [if_neg h3]
          by_cases h4 : m.input.getD m.cur 0 = 34
          · rw [if_pos h4] at h
            rw [if_pos h4]
            have hgeq : { capture_len m ((m.num_tokens : Int) - 1) m.cur with
                cur := m.cur + 1 } = g := by
              have hx : Except.ok (ε := Jerr)
                  { capture_len m ((m.num_tokens : Int) - 1) m.cur with
                    cur := m.cur + 1 } = .ok g := by
                injection h
              injection hx
            refine congrArg some (congrArg Except.ok ?_)
            rw [← hgeq]
            show { capture_len (setInput m I') ((m.num_tokens : Int) - 1) m.cur with
                cur := m.cur + 1 } =
              setInput { capture_len m ((m.num_tokens : Int) - 1) m.cur with
                cur := m.cur + 1 } I'
            rw [capture_len_setInput]
            rfl
          · rw [if_neg h4] at h
            rw [if_neg h4]
            exact ih { m with cur := m.cur + 1 } g h N I' hb hN hN2 hag
      · rw [if_neg h2] at h
        exact absurd h (fun hh => pres_err hh)
    · rw [if_neg h1] at h
      exact absurd h (fun hh => pres_err hh)

theorem parse_string_prefix {f g : Frozen} (h : parse_string f = .ok g)
    {N : Nat} {I' : List Nat} (hb : g.cur ≤ N) (hN : N ≤ f.input.length)
    (hN2 : N ≤ I'.length) (hag : ∀ j, j < N → I'.get? j = f.input.get? j) :
    parse_string (setInput f I') = .ok (setInput g I') := by
  rw [parse_string] at h
  rw [parse_string]
  cases hts : test_and_skip f 34 with
  | error e =>
    rw [hts] at h
    exact absurd h (fun hh => Except.noConfusion hh)
  | ok f1 =>
    rw [hts] at h
    have h2 : (match capture_ptr f1 f1.cur JType.STRING with
        | .error e => .error e
        | .ok g1 => (parse_string_loop (g1.input.length + 1) g1).getD (.error .incomplete)) =
        Except.ok (ε := Jerr) g := h
    cases hcp : capture_ptr f1 f1.cur JType.STRING with
    | error e =>
      rw [hcp] at h2
      exact absurd h2 (fun hh => Except.noConfusion hh)
    | ok g1 =>
      rw [hcp] at h2
      have h3 : (parse_string_loop (g1.input.length + 1) g1).getD (.error .incomplete) =
          Except.ok (ε := Jerr) g := h2
      cases hl : parse_string_loop (g1.input.length + 1) g1 with
      | none =>
        rw [hl] at h3
        exact absurd h3 (fun hh => Except.noConfusion hh)
      | some r =>
        rw [hl] at h3
        have hr : r = .ok g := h3
        subst hr
        obtain ⟨ec, ei⟩ := capture_ptr_cur_input hcp
        have ei2 : f1.input = f.input := (test_and_skip_extends 34 hts).1.1
        have hstr := (parse_string_loop_extends _ _ _ hl).2.1
        have hf1b : f1.cur ≤ N := by omega
        have hts2 : test_and_skip (setInput f I') 34 = .ok (setInput f1 I') :=
          test_and_skip_prefix hts hag hN hN2 hf1b
        rw [hts2]
        show (match capture_ptr (setInput f1 I') (setInput f1 I').cur JType.STRING with
          | .error e => .error e
          | .ok g1 => (parse_string_loop (g1.input.length + 1) g1).getD
              (.error .incomplete)) = Except.ok (ε := Jerr) (setInput g I')
        rw [capture_ptr_setInput f1 I' (setInput f1 I').cur JType.STRING]
        have hcp2 : capture_ptr f1 (setInput f1 I').cur JType.STRING = .ok g1 := hcp
        rw [hcp2]
        show (parse_string_loop ((setInput g1 I').input.length + 1) (setInput g1 I')).getD
          (.error .incomplete) = Except.ok (ε := Jerr) (setInput g I')
        have hlenI : (setInput g1 I').input.length = I'.length := rfl
        have hlf : parse_string_loop (I'.length + 1) g1 = some (.ok g) := by
          refine parse_string_loop_fuel _ _ _ hl (I'.length + 1) ?_
          omega
        have hloop2 : parse_string_loop (I'.length + 1) (setInput g1 I') =
            some (.ok (setInput g I')) := by
          refine parse_string_loop_prefix (I'.length + 1) g1 g hlf N I' hb ?_ hN2 ?_
          · rw [ei, ei2]
            exact hN
          · intro j hj
            rw [ei, ei2]
            exact hag j hj
        rw [hlenI, hloop2]
        rfl

/-- capture_literal reads no input byte, so it commutes with any input
replacement whatsoever. -/
theorem capture_literal_setInput_any (f : Frozen) (I' : List Nat) (ty : JType) (n : Nat) :
    capture_literal (setInput f I') ty n =
      (capture_literal f ty n).map (fun x => setInput x I') := by
  rw [capture_literal, capture_literal]
  have e0 : capture_ptr (setInput f I') (setInput f I').cur ty =
      (capture_ptr f f.cur ty).map (fun x => setInput x I') :=
    capture_ptr_setInput f I' f.cur ty
  rw [e0]
  cases hcp : capture_ptr f f.cur ty with
  | error e => rfl
  | ok g =>
    show Except.ok (capture_len { setInput g I' with cur := g.cur + n }
        ((g.num_tokens : Int) - 1) (g.cur + n)) =
      Except.ok (setInput (capture_len { g with cur := g.cur + n }
        ((g.num_tokens : Int) - 1) (g.cur + n)) I')
    refine congrArg Except.ok ?_
    show capture_len (setInput { g with cur := g.cur + n } I')
        ((g.num_tokens : Int) - 1) (g.cur + n) = _
    exact capture_len_setInput _ I' _ _

theorem identAfter_prefix {f g : Frozen} (h : identAfter f = .ok g)
    {N : Nat} {I' : List Nat} (hb : g.cur < N) (hN : N ≤ f.input.length)
    (hN2 : N ≤ I'.length) (hag : ∀ j, j < N → I'.get? j = f.input.get? j) :
    identAfter (setInput f I') = .ok (setInput g I') := by
  rw [identAfter] at h
  rw [identAfter]
  cases hcp : capture_ptr f f.cur JType.STRING with
  | error e =>
    rw [hcp] at h
    exact absurd h (fun hh => Except.noConfusion hh)
  | ok g1 =>
    rw [hcp] at h
    obtain ⟨ec, ei⟩ := capture_ptr_cur_input hcp
    have hgeq : capture_len { g1 with cur := g1.cur + identRun (g1.input.drop g1.cur) }
        ((g1.num_tokens : Int) - 1) (g1.cur + identRun (g1.input.drop g1.cur)) = g := by
      injection h
    have hgc : g.cur = g1.cur + identRun (g1.input.drop g1.cur) := by
      rw [← hgeq, (capture_len_fields _ _ _).2.1]
    have hlt : g1.cur + identRun (f.input.drop g1.cur) < N := by
      rw [ei] at hgc
      omega
    have hrun : identRun (I'.drop g1.cur) = identRun (f.input.drop g1.cur) :=
      identRun_agree (identRun (f.input.drop g1.cur)) f.input I' N g1.cur hag hN hN2 rfl hlt
    have hcp2 : capture_ptr (setInput f I') (setInput f I').cur JType.STRING =
        .ok (setInput g1 I') := by
      have e0 : capture_ptr (setInput f I') (setInput f I').cur JType.STRING =
          (capture_ptr f f.cur JType.STRING).map (fun x => setInput x I') :=
        capture_ptr_setInput f I' f.cur JType.STRING
      rw [e0, hcp]
      rfl
    rw [hcp2]
    show Except.ok (capture_len { setInput g1 I' with cur := g1.cur + identRun (I'.drop g1.cur) }
        ((g1.num_tokens : Int) - 1) (g1.cur + identRun (I'.drop g1.cur))) =
      Except.ok (setInput g I')
    rw [hrun, ← ei]
    refine congrArg Except.ok ?_
    rw [← hgeq]
    show capture_len (setInput { g1 with cur := g1.cur + identRun (g1.input.drop g1.cur) } I')
        ((g1.num_tokens : Int) - 1) (g1.cur + identRun (g1.input.drop g1.cur)) =
      setInput (capture_len { g1 with cur := g1.cur + identRun (g1.input.drop g1.cur) }
        ((g1.num_tokens : Int) - 1) (g1.cur + identRun (g1.input.drop g1.cur))) I'
    exact capture_len_setInput _ I' _ _

theorem parse_identifier_prefix {f0 g : Frozen} (h : parse_identifier f0 = .ok g)
    {N : Nat} {I' : List Nat} (hb : g.cur < N) (hN : N ≤ f0.input.length)
    (hN2 : N ≤ I'.length) (hag : ∀ j, j < N → I'.get? j = f0.input.get? j) :
    parse_identifier (setInput f0 I') = .ok (setInput g I') := by
  rw [parse_identifier] at h
  cases hp : peeked f0 with
  | none =>
    rw [hp] at h
    exact absurd h (fun hh => Except.noConfusion hh)
  | some c =>
    rw [hp] at h
    have h2 : identDispatch (skip_whitespaces f0) c = .ok g := h
    rw [identDispatch] at h2
    by_cases ha : is_alpha c = true
    · rw [if_pos ha] at h2
      have hcb : (skip_whitespaces f0).input.get? (skip_whitespaces f0).cur = some c := hp
      have hskb : (skip_whitespaces f0).cur < N := by
        have hx := (identAfter_extends hcb ha h2).2.1
        omega
      have hpk2 : peeked (setInput f0 I') = peeked f0 := peeked_prefix hag hN hN2 hskb
      have hskip : skip_whitespaces (setInput f0 I') = setInput (skip_whitespaces f0) I' :=
        skip_prefix hag hN hN2 hskb
      rw [parse_identifier, hpk2, hp]
      show identDispatch (skip_whitespaces (setInput f0 I')) c = .ok (setInput g I')
      rw [identDispatch, if_pos ha, hskip]
      exact identAfter_prefix h2 hb hN hN2 hag
    · rw [if_neg ha] at h2
      exact absurd h2 (fun hh => Except.noConfusion hh)

theorem parse_number_prefix {f0 g : Frozen} (h : parse_number f0 = .ok g)
    {N : Nat} {I' : List Nat} (hb : g.cur < N) (hN : N ≤ f0.input.length)
    (hN2 : N ≤ I'.length) (hag : ∀ j, j < N → I'.get? j = f0.input.get? j) :
    parse_number (setInput f0 I') = .ok (setInput g I') := by
  rw [parse_number] at h
  rw [parse_number]
  cases hcp : capture_ptr (skip_whitespaces f0) (skip_whitespaces f0).cur JType.NUMBER with
  | error e =>
    rw [hcp] at h
    exact absurd h (fun hh => Except.noConfusion hh)
  | ok g1 =>
    rw [hcp] at h
    obtain ⟨ec, ei⟩ := capture_ptr_cur_input hcp
    have ei2 : g1.input = f0.input := ei
    have ec2 : g1.cur = (skip_whitespaces f0).cur := ec
    have hred : (if peeked f0 = some 45 then
        Except.ok (ε := Jerr) (capture_len
          { g1 with cur := g1.cur + 1 + digitRun (g1.input.drop (g1.cur + 1)) }
          ((g1.num_tokens : Int) - 1) (g1.cur + 1 + digitRun (g1.input.drop (g1.cur + 1))))
      else
        Except.ok (capture_len { g1 with cur := g1.cur + digitRun (g1.input.drop g1.cur) }
          ((g1.num_tokens : Int) - 1) (g1.cur + digitRun (g1.input.drop g1.cur)))) =
      Except.ok g := h
    by_cases hm : peeked f0 = some 45
    · rw [if_pos hm] at hred
      have hgeq : capture_len
          { g1 with cur := g1.cur + 1 + digitRun (g1.input.drop (g1.cur + 1)) }
          ((g1.num_tokens : Int) - 1) (g1.cur + 1 + digitRun (g1.input.drop (g1.cur + 1))) =
          g := by
        injection hred
      have hgc : g.cur = g1.cur + 1 + digitRun (g1.input.drop (g1.cur + 1)) := by
        rw [← hgeq, (capture_len_fields _ _ _).2.1]
      have hskb : (skip_whitespaces f0).cur < N := by omega
      have hskip : skip_whitespaces (setInput f0 I') = setInput (skip_whitespaces f0) I' :=
        skip_prefix hag hN hN2 hskb
      have hcp2 : capture_ptr (skip_whitespaces (setInput f0 I'))
          (skip_whitespaces (setInput f0 I')).cur JType.NUMBER = .ok (setInput g1 I') := by
        rw [hskip]
        have e0 : capture_ptr (setInput (skip_whitespaces f0) I')
            (setInput (skip_whitespaces f0) I').cur JType.NUMBER =
            (capture_ptr (skip_whitespaces f0) (skip_whitespaces f0).cur JType.NUMBER).map
              (fun x => setInput x I') :=
          capture_ptr_setInput (skip_whitespaces f0) I' (skip_whitespaces f0).cur JType.NUMBER
        rw [e0, hcp]
        rfl
      rw [hcp2]
      have hpk : peeked (setInput f0 I') = peeked f0 := peeked_prefix hag hN hN2 hskb
      show (if peeked (setInput f0 I') = some 45 then
          Except.ok (ε := Jerr) (capture_len
            { setInput g1 I' with cur := g1.cur + 1 + digitRun (I'.drop (g1.cur + 1)) }
            ((g1.num_tokens : Int) - 1) (g1.cur + 1 + digitRun (I'.drop (g1.cur + 1))))
        else
          Except.ok (capture_len
            { setInput g1 I' with cur := g1.cur + digitRun (I'.drop g1.cur) }
            ((g1.num_tokens : Int) - 1) (g1.cur + digitRun (I'.drop g1.cur)))) =
        .ok (setInput g I')
      rw [hpk, if_pos hm]
      have hlt : (g1.cur + 1) + digitRun (f0.input.drop (g1.cur + 1)) < N := by
        have hgc2 : g.cur = g1.cur + 1 + digitRun (f0.input.drop (g1.cur + 1)) := by
          rw [hgc, ei2]
        omega
      have hrun : digitRun (I'.drop (g1.cur + 1)) = digitRun (f0.input.drop (g1.cur + 1)) :=
        digitRun_agree (digitRun (f0.input.drop (g1.cur + 1))) f0.input I' N (g1.cur + 1)
          hag hN hN2 rfl hlt
      rw [hrun, ← ei2]
      refine congrArg Except.ok ?_
      rw [← hgeq]
      show capture_len
          (setInput { g1 with cur := g1.cur + 1 + digitRun (g1.input.drop (g1.cur + 1)) } I')
          ((g1.num_tokens : Int) - 1) (g1.cur + 1 + digitRun (g1.input.drop (g1.cur + 1))) =
        setInput (capture_len
          { g1 with cur := g1.cur + 1 + digitRun (g1.input.drop (g1.cur + 1)) }
          ((g1.num_tokens : Int) - 1) (g1.cur + 1 + digitRun (g1.input.drop (g1.cur + 1)))) I'
      exact capture_len_setInput _ I' _ _
    · rw [if_neg hm] at hred
      have hgeq : capture_len { g1 with cur := g1.cur + digitRun (g1.input.drop g1.cur) }
          ((g1.num_tokens : Int) - 1) (g1.cur + digitRun (g1.input.drop g1.cur)) = g := by
        injection hred
      have hgc : g.cur = g1.cur + digitRun (g1.input.drop g1.cur) := by
        rw [← hgeq, (capture_len_fields _ _ _).2.1]
      have hskb : (skip_whitespaces f0).cur < N := by omega
      have hskip : skip_whitespaces (setInput f0 I') = setInput (skip_whitespaces f0) I' :=
        skip_prefix hag hN hN2 hskb
      have hcp2 : capture_ptr (skip_whitespaces (setInput f0 I'))
          (skip_whitespaces (setInput f0 I')).cur JType.NUMBER = .ok (setInput g1 I') := by
        rw [hskip]
        have e0 : capture_ptr (setInput (skip_whitespaces f0) I')
            (setInput (skip_whitespaces f0) I').cur JType.NUMBER =
            (capture_ptr (skip_whitespaces f0) (skip_whitespaces f0).cur JType.NUMBER).map
              (fun x => setInput x I') :=
          capture_ptr_setInput (skip_whitespaces f0) I' (skip_whitespaces f0).cur JType.NUMBER
        rw [e0, hcp]
        rfl
      rw [hcp2]
      have hpk : peeked (setInput f0 I') = peeked f0 := peeked_prefix hag hN hN2 hskb
      show (if peeked (setInput f0 I') = some 45 then
          Except.ok (ε := Jerr) (capture_len
            { setInput g1 I' with cur := g1.cur + 1 + digitRun (I'.drop (g1.cur + 1)) }
            ((g1.num_tokens : Int) - 1) (g1.cur + 1 + digitRun (I'.drop (g1.cur + 1))))
        else
          Except.ok (capture_len
            { setInput g1 I' with cur := g1.cur + digitRun (I'.drop g1.cur) }
            ((g1.num_tokens : Int) - 1) (g1.cur + digitRun (I'.drop g1.cur)))) =
        .ok (setInput g I')
      rw [hpk, if_neg hm]
      have hlt : g1.cur + digitRun (f0.input.drop g1.cur) < N := by
        have hgc2 : g.cur = g1.cur + digitRun (f0.input.drop g1.cur) := by
          rw [hgc, ei2]
        omega
      have hrun : digitRun (I'.drop g1.cur) = digitRun (f0.input.drop g1.cur) :=
        digitRun_agree (digitRun (f0.input.drop g1.cur)) f0.input I' N g1.cur
          hag hN hN2 rfl hlt
      rw [hrun, ← ei2]
      refine congrArg Except.ok ?_
      rw [← hgeq]
      show capture_len
          (setInput { g1 with cur := g1.cur + digitRun (g1.input.drop g1.cur) } I')
          ((g1.num_tokens : Int) - 1) (g1.cur + digitRun (g1.input.drop g1.cur)) =
        setInput (capture_len { g1 with cur := g1.cur + digitRun (g1.input.drop g1.cur) }
          ((g1.num_tokens : Int) - 1) (g1.cur + digitRun (g1.input.drop g1.cur))) I'
      exact capture_len_setInput _ I' _ _

theorem compositeClose_prefix {closer : Nat} {ind : Int} {h1 g : Frozen}
    (h : compositeClose closer ind h1 = some (.ok g))
    {N : Nat} {I' : List Nat} (hb : g.cur ≤ N) (hN : N ≤ h1.input.length)
    (hN2 : N ≤ I'.length) (hag : ∀ j, j < N → I'.get? j = h1.input.get? j) :
    compositeClose closer ind (setInput h1 I') = some (.ok (setInput g I')) := by
  rw [compositeClose] at h
  obtain ⟨h2, hts, hk⟩ := exOk_ok_inv h
  have hgeq : capture_len h2 ind h2.cur = g := by
    have hx : Except.ok (ε := Jerr) (capture_len h2 ind h2.cur) = .ok g := by
      injection hk
    injection hx
  have hgc : g.cur = h2.cur := by
    rw [← hgeq, (capture_len_fields _ _ _).2.1]
  have hts2 : test_and_skip (setInput h1 I') closer = .ok (setInput h2 I') :=
    test_and_skip_prefix hts hag hN hN2 (by omega)
  rw [compositeClose, hts2]
  show some (Except.ok (capture_len (setInput h2 I') ind (setInput h2 I').cur)) =
    some (.ok (setInput g I'))
  refine congrArg some (congrArg Except.ok ?_)
  rw [← hgeq]
  show capture_len (setInput h2 I') ind h2.cur = setInput (capture_len h2 ind h2.cur) I'
  exact capture_len_setInput _ I' _ _

/-- A successful parse_pair run necessarily peeked a byte first (its key
does), so the enclosing loop condition byte exists. -/
theorem pair_ok_peeked {fuel : Nat} {f g : Frozen}
    (h : parseRun fuel .pair f = some (.ok g)) : ∃ c, peeked f = some c := by
  cases fuel with
  | zero => exact absurd h (fun hh => Option.noConfusion hh)
  | succ n =>
    have h2 : onOk (parseRun n .key f)
        (fun f1 => exOk (test_and_skip f1 58) (parseRun n .value)) = some (.ok g) := h
    obtain ⟨m, hkey, -⟩ := onOk_ok_inv h2
    cases n with
    | zero => exact absurd hkey (fun hh => Option.noConfusion hh)
    | succ n2 =>
      have h3 : onPeek f (keyDispatch (skip_whitespaces f)) = some (.ok m) := hkey
      obtain ⟨c, hp, -⟩ := onPeek_ok_inv h3
      exact ⟨c, hp⟩

/-- Same for parse_value. -/
theorem value_ok_peeked {fuel : Nat} {f g : Frozen}
    (h : parseRun fuel .value f = some (.ok g)) : ∃ c, peeked f = some c := by
  cases fuel with
  | zero => exact absurd h (fun hh => Option.noConfusion hh)
  | succ n =>
    have h2 : onPeek f (valueDispatch (parseRun n) (skip_whitespaces f)) = some (.ok g) := h
    obtain ⟨c, hp, -⟩ := onPeek_ok_inv h2
    exact ⟨c, hp⟩

/-- How far past the final cursor a rule may look: the composite rules end
by consuming their closing delimiter and read nothing at or beyond the
final cursor; every other rule reads (or peeks) the byte at the final
cursor last. -/
def ruleLook : Rule → Nat
  | .object => 0
  | .array => 0
  | _ => 1

theorem parse_number_minus_cur {f0 g : Frozen} (h : parse_number f0 = .ok g)
    (hm : peeked f0 = some 45) : (skip_whitespaces f0).cur + 1 ≤ g.cur := by
  rw [parse_number] at h
  cases hcp : capture_ptr (skip_whitespaces f0) (skip_whitespaces f0).cur JType.NUMBER with
  | error e =>
    rw [hcp] at h
    exact absurd h (fun hh => Except.noConfusion hh)
  | ok g1 =>
    rw [hcp] at h
    have hred : (if peeked f0 = some 45 then
        Except.ok (ε := Jerr) (capture_len
          { g1 with cur := g1.cur + 1 + digitRun (g1.input.drop (g1.cur + 1)) }
          ((g1.num_tokens : Int) - 1) (g1.cur + 1 + digitRun (g1.input.drop (g1.cur + 1))))
      else
        Except.ok (capture_len { g1 with cur := g1.cur + digitRun (g1.input.drop g1.cur) }
          ((g1.num_tokens : Int) - 1) (g1.cur + digitRun (g1.input.drop g1.cur)))) =
      Except.ok g := h
    rw [if_pos hm] at hred
    have hgeq : capture_len
        { g1 with cur := g1.cur + 1 + digitRun (g1.input.drop (g1.cur + 1)) }
        ((g1.num_tokens : Int) - 1) (g1.cur + 1 + digitRun (g1.input.drop (g1.cur + 1))) =
        g := by
      injection hred
    have hgc : g.cur = g1.cur + 1 + digitRun (g1.input.drop (g1.cur + 1)) := by
      rw [← hgeq, (capture_len_fields _ _ _).2.1]
    have ec : g1.cur = (skip_whitespaces f0).cur := (capture_ptr_cur_input hcp).1
    omega

theorem valueDispatch_prefix {n : Nat} {F g : Frozen} {c : Nat}
    (hvd : valueDispatch (parseRun n) F c = some (.ok g))
    {N : Nat} {I' : List Nat} (hpk : peeked F = some c) (hb : g.cur < N)
    (hN : N ≤ F.input.length) (hN2 : N ≤ I'.length)
    (hag : ∀ j, j < N → I'.get? j = F.input.get? j)
    (hihobj : parseRun n .object F = some (.ok g) →
      parseRun n .object (setInput F I') = some (.ok (setInput g I')))
    (hiharr : parseRun n .array F = some (.ok g) →
      parseRun n .array (setInput F I') = some (.ok (setInput g I'))) :
    valueDispatch (parseRun n) (setInput F I') c = some (.ok (setInput g I')) := by
  rw [valueDispatch] at hvd
  rw [valueDispatch]
  by_cases h34 : (c == 34) = true
  · rw [if_pos h34] at hvd
    rw [if_pos h34]
    have hps : parse_string F = .ok g := by injection hvd
    rw [ parse_string_prefix hps (le_of_lt hb) hN hN2 hag]
  · rw [if_neg h34] at hvd
    rw [if_neg h34]
    by_cases h123 : (c == 123) = true
    · rw [if_pos h123] at hvd
      rw [if_pos h123]
      exact hihobj hvd
    · rw [if_neg h123] at hvd
      rw [if_neg h123]
      by_cases h91 : (c == 91) = true
      · rw [if_pos h91] at hvd
        rw [if_pos h91]
        exact hiharr hvd
      · rw [if_neg h91] at hvd
        rw [if_neg h91]
        by_cases hgn : (c == 110 && compareStr F nullBytes) = true
        · rw [if_pos hgn] at hvd
          have hgn2 := hgn
          simp only [Bool.and_eq_true] at hgn2
          obtain ⟨h110, hcmp⟩ := hgn2
          have hlit : capture_literal F JType.NULL 4 = .ok g := by injection hvd
          have hgc : g.cur = F.cur + 4 := (capture_literal_extends hlit).2.1
          have hcmp2 : compareStr (setInput F I') nullBytes = true := by
            refine compareStr_true_prefix hcmp hag hN hN2 ?_
            show F.cur + nullBytes.length ≤ N
            have e4 : nullBytes.length = 4 := rfl
            omega
          rw [if_pos (show (c == 110 && compareStr (setInput F I') nullBytes) = true by
            rw [h110, hcmp2]
            rfl)]
          rw [capture_literal_setInput_any F I' JType.NULL 4, hlit]
          rfl
        · rw [if_neg hgn] at hvd
          by_cases h110 : (c == 110) = true
          · have hc110 : c = 110 := eq_of_beq h110
            subst hc110
            rw [show ((110 : Nat) == 116) = false by decide, Bool.false_and] at hvd
            rw [if_neg (show ¬(false = true) by decide)] at hvd
            rw [show ((110 : Nat) == 102) = false by decide, Bool.false_and] at hvd
            rw [if_neg (show ¬(false = true) by decide)] at hvd
            rw [show is_digit 110 = false by decide,
              show ((110 : Nat) == 45) = false by decide,
              Bool.false_and, Bool.false_and, Bool.false_or] at hvd
            rw [if_neg (show ¬(false = true) by decide)] at hvd
            exact absurd hvd (fun hh => pres_err hh)
          · rw [if_neg (show ¬((c == 110 && compareStr (setInput F I') nullBytes) = true) from
              fun hh => by
                simp only [Bool.and_eq_true] at hh
                exact h110 hh.1)]
            by_cases hgt : (c == 116 && compareStr F trueBytes) = true
            · rw [if_pos hgt] at hvd
              have hgt2 := hgt
              simp only [Bool.and_eq_true] at hgt2
              obtain ⟨h116, hcmp⟩ := hgt2
              have hlit : capture_literal F JType.TRUE 4 = .ok g := by injection hvd
              have hgc : g.cur = F.cur + 4 := (capture_literal_extends hlit).2.1
              have hcmp2 : compareStr (setInput F I') trueBytes = true := by
                refine compareStr_true_prefix hcmp hag hN hN2 ?_
                show F.cur + trueBytes.length ≤ N
                have e4 : trueBytes.length = 4 := rfl
                omega
              rw [if_pos (show (c == 116 && compareStr (setInput F I') trueBytes) = true by
                rw [h116, hcmp2]
                rfl)]
              rw [capture_literal_setInput_any F I' JType.TRUE 4, hlit]
              rfl
            · rw [if_neg hgt] at hvd
              by_cases h116 : (c == 116) = true
              · have hc116 : c = 116 := eq_of_beq h116
                subst hc116
                rw [show ((116 : Nat) == 102) = false by decide, Bool.false_and] at hvd
                rw [if_neg (show ¬(false = true) by decide)] at hvd
                rw [show is_digit 116 = false by decide,
                  show ((116 : Nat) == 45) = false by decide,
                  Bool.false_and, Bool.false_and, Bool.false_or] at hvd
                rw [if_neg (show ¬(false = true) by decide)] at hvd
                exact absurd hvd (fun hh => pres_err hh)
              · rw [if_neg (show ¬((c == 116 && compareStr (setInput F I') trueBytes) = true) from
                  fun hh => by
                    simp only [Bool.and_eq_true] at hh
                    exact h116 hh.1)]
                by_cases hgf : (c == 102 && compareStr F falseBytes) = true
                · rw [if_pos hgf] at hvd
                  have hgf2 := hgf
                  simp only [Bool.and_eq_true] at hgf2
                  obtain ⟨h102, hcmp⟩ := hgf2
                  have hlit : capture_literal F JType.FALSE 5 = .ok g := by injection hvd
                  have hgc : g.cur = F.cur + 5 := (capture_literal_extends hlit).2.1
                  have hcmp2 : compareStr (setInput F I') falseBytes = true := by
                    refine compareStr_true_prefix hcmp hag hN hN2 ?_
                    show F.cur + falseBytes.length ≤ N
                    have e5 : falseBytes.length = 5 := rfl
                    omega
                  rw [if_pos (show (c == 102 && compareStr (setInput F I') falseBytes) = true by
                    rw [h102, hcmp2]
                    rfl)]
                  rw [capture_literal_setInput_any F I' JType.FALSE 5, hlit]
                  rfl
                · rw [if_neg hgf] at hvd
                  by_cases h102 : (c == 102) = true
                  · have hc102 : c = 102 := eq_of_beq h102
                    subst hc102
                    rw [show is_digit 102 = false by decide,
                      show ((102 : Nat) == 45) = false by decide,
                      Bool.false_and, Bool.false_and, Bool.false_or] at hvd
                    rw [if_neg (show ¬(false = true) by decide)] at hvd
                    exact absurd hvd (fun hh => pres_err hh)
                  · rw [if_neg
                      (show ¬((c == 102 && compareStr (setInput F I') falseBytes) = true) from
                      fun hh => by
                        simp only [Bool.and_eq_true] at hh
                        exact h102 hh.1)]
                    by_cases hgnum : (is_digit c ||
                        (c == 45 && decide (F.cur + 1 < F.input.length) &&
                          is_digit (F.input.getD (F.cur + 1) 0))) = true
                    · rw [if_pos hgnum] at hvd
                      have hpn : parse_number F = .ok g := by injection hvd
                      have hgoal : parse_number (setInput F I') = .ok (setInput g I') :=
                        parse_number_prefix hpn hb hN hN2 hag
                      have hgnum2 : (is_digit c ||
                          (c == 45 && decide ((setInput F I').cur + 1 < (setInput F I').input.length) &&
                            is_digit ((setInput F I').input.getD ((setInput F I').cur + 1) 0))) =
                          true := by
                        show (is_digit c || (c == 45 && decide (F.cur + 1 < I'.length) &&
                          is_digit (I'.getD (F.cur + 1) 0))) = true
                        by_cases hd : is_digit c = true
                        · rw [hd, Bool.true_or]
                        · have hrest : (c == 45 && decide (F.cur + 1 < F.input.length) &&
                              is_digit (F.input.getD (F.cur + 1) 0)) = true := by
                            cases hor : is_digit c with
                            | true => exact absurd hor hd
                            | false =>
                              rw [hor, Bool.false_or] at hgnum
                              exact hgnum
                          have hrest2 := hrest
                          simp only [Bool.and_eq_true] at hrest2
                          obtain ⟨⟨h45, hdec⟩, hdig⟩ := hrest2
                          have hc45 : c = 45 := eq_of_beq h45
                          have hm45 : peeked F = some 45 := by
                            rw [← hc45]
                            exact hpk
                          have hsc := parse_number_minus_cur hpn hm45
                          have hFN : F.cur + 1 < N := by
                            have e : (skip_whitespaces F).cur =
                                F.cur + skipLen (F.input.drop F.cur) := rfl
                            omega
                          have hgd : I'.getD (F.cur + 1) 0 = F.input.getD (F.cur + 1) 0 :=
                            getD_prefix hag hFN 0
                          have hR : (c == 45 && decide (F.cur + 1 < I'.length) &&
                              is_digit (I'.getD (F.cur + 1) 0)) = true := by
                            rw [h45, decide_eq_true (show F.cur + 1 < I'.length by omega),
                              hgd, hdig]
                            rfl
                          rw [hR, Bool.or_true]
                      rw [if_pos hgnum2, hgoal]
                    · rw [if_neg hgnum] at hvd
                      exact absurd hvd (fun hh => pres_err hh)

/-- Prefix stability: a successful rule run only reads bytes strictly
before `g.cur + ruleLook rule`; replacing the input by any list that
agrees on the first `N ≥ g.cur + ruleLook rule` bytes (and is at least
that long) reproduces the run verbatim. -/
theorem parseRun_prefix :
    ∀ (fuel : Nat) (rule : Rule) (f g : Frozen),
      parseRun fuel rule f = some (.ok g) →
      ∀ (N : Nat) (I' : List Nat), g.cur + ruleLook rule ≤ N → N ≤ f.input.length →
        N ≤ I'.length → (∀ j, j < N → I'.get? j = f.input.get? j) →
        parseRun fuel rule (setInput f I') = some (.ok (setInput g I')) := by
  intro fuel
  induction fuel with
  | zero =>
    intro rule f g h
    exact absurd h (fun hh => Option.noConfusion hh)
  | succ n ih =>
    intro rule f0 g h N I' hb hN hN2 hag
    cases rule with
    | value =>
      have hb1 : g.cur + 1 ≤ N := hb
      have h2 : onPeek f0 (valueDispatch (parseRun n) (skip_whitespaces f0)) =
          some (.ok g) := h
      obtain ⟨c, hp, hvd⟩ := onPeek_ok_inv h2
      have hcb : (skip_whitespaces f0).input.get? (skip_whitespaces f0).cur = some c := hp
      have hnext : ∀ r f' g', parseRun n r f' = some (.ok g') →
          Extends f' g' ∧ (ruleStrict r = true → f'.cur < g'.cur) := fun r f' g' hr =>
        parseRun_extends n r f' g' hr
      have hskb : (skip_whitespaces f0).cur < N := by
        have hx := (valueDispatch_extends hnext hcb hvd).2
        omega
      have hpk2 : peeked (setInput f0 I') = peeked f0 := peeked_prefix hag hN hN2 hskb
      have hskip : skip_whitespaces (setInput f0 I') = setInput (skip_whitespaces f0) I' :=
        skip_prefix hag hN hN2 hskb
      show onPeek (setInput f0 I')
          (valueDispatch (parseRun n) (skip_whitespaces (setInput f0 I'))) =
        some (.ok (setInput g I'))
      rw [onPeek_some (hpk2.trans hp), hskip]
      refine valueDispatch_prefix hvd ((peeked_skip f0).trans hp) (by omega) hN hN2 hag ?_ ?_
      · intro hr
        have hx := ih .object (skip_whitespaces f0) g hr N I'
          (show g.cur + 0 ≤ N by omega) hN hN2 hag
        exact hx
      · intro hr
        have hx := ih .array (skip_whitespaces f0) g hr N I'
          (show g.cur + 0 ≤ N by omega) hN hN2 hag
        exact hx
    | object =>
      have hb0 : g.cur ≤ N := by
        have hb' : g.cur + 0 ≤ N := hb
        omega
      have h2 : exOk (test_and_skip f0 123) (fun f1 =>
          exOk (capture_ptr f1 (f1.cur - 1) JType.OBJECT) (fun g2 =>
            onOk (parseRun n .objLoop g2) (compositeClose 125 ((g2.num_tokens : Int) - 1)))) =
          some (.ok g) := h
      obtain ⟨m1, hts, h3⟩ := exOk_ok_inv h2
      obtain ⟨m2, hcp, h4⟩ := exOk_ok_inv h3
      obtain ⟨mL, hloop, hclose⟩ := onOk_ok_inv h4
      obtain ⟨e2c, e2i⟩ := capture_ptr_cur_input hcp
      have e1i : m1.input = f0.input := (test_and_skip_extends 123 hts).1.1
      have eLi : mL.input = m2.input := (parseRun_extends n .objLoop m2 mL hloop).1.1
      have eL : m2.cur ≤ mL.cur := (parseRun_extends n .objLoop m2 mL hloop).1.2.2.2.2.1
      have hcl2 := hclose
      rw [compositeClose] at hcl2
      obtain ⟨h5, hts5, hk5⟩ := exOk_ok_inv hcl2
      have hgeq5 : capture_len h5 ((m2.num_tokens : Int) - 1) h5.cur = g := by
        have hx : Except.ok (ε := Jerr)
            (capture_len h5 ((m2.num_tokens : Int) - 1) h5.cur) = .ok g := by
          injection hk5
        injection hx
      have hg5c : g.cur = h5.cur := by
        rw [← hgeq5, (capture_len_fields _ _ _).2.1]
      have hL5 : mL.cur < h5.cur := (test_and_skip_extends 125 hts5).2.1
      have hm1b : m1.cur ≤ N := by omega
      have hts2 : test_and_skip (setInput f0 I') 123 = .ok (setInput m1 I') :=
        test_and_skip_prefix hts hag hN hN2 hm1b
      have hcp2 : capture_ptr (setInput m1 I') ((setInput m1 I').cur - 1) JType.OBJECT =
          .ok (setInput m2 I') := by
        have e0 : capture_ptr (setInput m1 I') (m1.cur - 1) JType.OBJECT =
            (capture_ptr m1 (m1.cur - 1) JType.OBJECT).map (fun x => setInput x I') :=
          capture_ptr_setInput m1 I' (m1.cur - 1) JType.OBJECT
        show capture_ptr (setInput m1 I') (m1.cur - 1) JType.OBJECT = .ok (setInput m2 I')
        rw [e0, hcp]
        rfl
      have hagL : ∀ j, j < N → I'.get? j = m2.input.get? j := by
        intro j hj
        rw [e2i, e1i]
        exact hag j hj
      have hNL : N ≤ m2.input.length := by
        rw [e2i, e1i]
        exact hN
      have hloop2 : parseRun n .objLoop (setInput m2 I') = some (.ok (setInput mL I')) := by
        have hbL : mL.cur + ruleLook .objLoop ≤ N := by
          show mL.cur + 1 ≤ N
          omega
        exact ih .objLoop m2 mL hloop N I' hbL hNL hN2 hagL
      have hclose2 : compositeClose 125 ((m2.num_tokens : Int) - 1) (setInput mL I') =
          some (.ok (setInput g I')) := by
        refine compositeClose_prefix hclose hb0 ?_ hN2 ?_
        · rw [eLi]
          exact hNL
        · intro j hj
          rw [eLi]
          exact hagL j hj
      show exOk (test_and_skip (setInput f0 I') 123) (fun f1 =>
          exOk (capture_ptr f1 (f1.cur - 1) JType.OBJECT) (fun g2 =>
            onOk (parseRun n .objLoop g2) (compositeClose 125 ((g2.num_tokens : Int) - 1)))) =
        some (.ok (setInput g I'))
      rw [hts2]
      show exOk (capture_ptr (setInput m1 I') ((setInput m1 I').cur - 1) JType.OBJECT)
          (fun g2 => onOk (parseRun n .objLoop g2)
            (compositeClose 125 ((g2.num_tokens : Int) - 1))) = some (.ok (setInput g I'))
      rw [hcp2]
      show onOk (parseRun n .objLoop (setInput m2 I'))
          (compositeClose 125 (((setInput m2 I').num_tokens : Int) - 1)) =
        some (.ok (setInput g I'))
      rw [hloop2]
      show compositeClose 125 (((setInput m2 I').num_tokens : Int) - 1) (setInput mL I') =
        some (.ok (setInput g I'))
      exact hclose2
    | array =>
      have hb0 : g.cur ≤ N := by
        have hb' : g.cur + 0 ≤ N := hb
        omega
      have h2 : exOk (test_and_skip f0 91) (fun f1 =>
          exOk (capture_ptr f1 (f1.cur - 1) JType.ARRAY) (fun g2 =>
            onOk (parseRun n .arrLoop g2) (compositeClose 93 ((g2.num_tokens : Int) - 1)))) =
          some (.ok g) := h
      obtain ⟨m1, hts, h3⟩ := exOk_ok_inv h2
      obtain ⟨m2, hcp, h4⟩ := exOk_ok_inv h3
      obtain ⟨mL, hloop, hclose⟩ := onOk_ok_inv h4
      obtain ⟨e2c, e2i⟩ := capture_ptr_cur_input hcp
      have e1i : m1.input = f0.input := (test_and_skip_extends 91 hts).1.1
      have eLi : mL.input = m2.input := (parseRun_extends n .arrLoop m2 mL hloop).1.1
      have eL : m2.cur ≤ mL.cur := (parseRun_extends n .arrLoop m2 mL hloop).1.2.2.2.2.1
      have hcl2 := hclose
      rw [compositeClose] at hcl2
      obtain ⟨h5, hts5, hk5⟩ := exOk_ok_inv hcl2
      have hgeq5 : capture_len h5 ((m2.num_tokens : Int) - 1) h5.cur = g := by
        have hx : Except.ok (ε := Jerr)
            (capture_len h5 ((m2.num_tokens : Int) - 1) h5.cur) = .ok g := by
          injection hk5
        injection hx
      have hg5c : g.cur = h5.cur := by
        rw [← hgeq5, (capture_len_fields _ _ _).2.1]
      have hL5 : mL.cur < h5.cur := (test_and_skip_extends 93 hts5).2.1
      have hm1b : m1.cur ≤ N := by omega
      have hts2 : test_and_skip (setInput f0 I') 91 = .ok (setInput m1 I') :=
        test_and_skip_prefix hts hag hN hN2 hm1b
      have hcp2 : capture_ptr (setInput m1 I') ((setInput m1 I').cur - 1) JType.ARRAY =
          .ok (setInput m2 I') := by
        have e0 : capture_ptr (setInput m1 I') (m1.cur - 1) JType.ARRAY =
            (capture_ptr m1 (m1.cur - 1) JType.ARRAY).map (fun x => setInput x I') :=
          capture_ptr_setInput m1 I' (m1.cur - 1) JType.ARRAY
        show capture_ptr (setInput m1 I') (m1.cur - 1) JType.ARRAY = .ok (setInput m2 I')
        rw [e0, hcp]
        rfl
      have hagL : ∀ j, j < N → I'.get? j = m2.input.get? j := by
        intro j hj
        rw [e2i, e1i]
        exact hag j hj
      have hNL : N ≤ m2.input.length := by
        rw [e2i, e1i]
        exact hN
      have hloop2 : parseRun n .arrLoop (setInput m2 I') = some (.ok (setInput mL I')) := by
        have hbL : mL.cur + ruleLook .arrLoop ≤ N := by
          show mL.cur + 1 ≤ N
          omega
        exact ih .arrLoop m2 mL hloop N I' hbL hNL hN2 hagL
      have hclose2 : compositeClose 93 ((m2.num_tokens : Int) - 1) (setInput mL I') =
          some (.ok (setInput g I')) := by
        refine compositeClose_prefix hclose hb0 ?_ hN2 ?_
        · rw [eLi]
          exact hNL
        · intro j hj
          rw [eLi]
          exact hagL j hj
      show exOk (test_and_skip (setInput f0 I') 91) (fun f1 =>
          exOk (capture_ptr f1 (f1.cur - 1) JType.ARRAY) (fun g2 =>
            onOk (parseRun n .arrLoop g2) (compositeClose 93 ((g2.num_tokens : Int) - 1)))) =
        some (.ok (setInput g I'))
      rw [hts2]
      show exOk (capture_ptr (setInput m1 I') ((setInput m1 I').cur - 1) JType.ARRAY)
          (fun g2 => onOk (parseRun n .arrLoop g2)
            (compositeClose 93 ((g2.num_tokens : Int) - 1))) = some (.ok (setInput g I'))
      rw [hcp2]
      show onOk (parseRun n .arrLoop (setInput m2 I'))
          (compositeClose 93 (((setInput m2 I').num_tokens : Int) - 1)) =
        some (.ok (setInput g I'))
      rw [hloop2]
      show compositeClose 93 (((setInput m2 I').num_tokens : Int) - 1) (setInput mL I') =
        some (.ok (setInput g I'))
      exact hclose2
    | objLoop =>
      have hb1 : g.cur + 1 ≤ N := hb
      have h2 : (if peeked f0 = some 125 then some (Except.ok (skip_whitespaces f0))
          else onOk (parseRun n .pair (skip_whitespaces f0)) (parseRun n .objTail)) =
          some (.ok g) := h
      by_cases hp : peeked f0 = some 125
      · rw [if_pos hp] at h2
        have hgeq : skip_whitespaces f0 = g := by
          have hx : Except.ok (ε := Jerr) (skip_whitespaces f0) = .ok g := by
            injection h2
          injection hx
        have hskb : (skip_whitespaces f0).cur < N := by
          have e : (skip_whitespaces f0).cur = g.cur := by rw [hgeq]
          omega
        have hpk2 : peeked (setInput f0 I') = peeked f0 := peeked_prefix hag hN hN2 hskb
        have hskip : skip_whitespaces (setInput f0 I') = setInput (skip_whitespaces f0) I' :=
          skip_prefix hag hN hN2 hskb
        show (if peeked (setInput f0 I') = some 125 then
            some (Except.ok (skip_whitespaces (setInput f0 I')))
          else onOk (parseRun n .pair (skip_whitespaces (setInput f0 I')))
            (parseRun n .objTail)) = some (.ok (setInput g I'))
        rw [hpk2, if_pos hp, hskip, hgeq]
      · rw [if_neg hp] at h2
        obtain ⟨mP, hpair, htail⟩ := onOk_ok_inv h2
        have hPs : (skip_whitespaces f0).cur < mP.cur :=
          (parseRun_extends n .pair (skip_whitespaces f0) mP hpair).2 rfl
        have hTg : mP.cur ≤ g.cur := (parseRun_extends n .objTail mP g htail).1.2.2.2.2.1
        have hskb : (skip_whitespaces f0).cur < N := by omega
        have hpk2 : peeked (setInput f0 I') = peeked f0 := peeked_prefix hag hN hN2 hskb
        have hskip : skip_whitespaces (setInput f0 I') = setInput (skip_whitespaces f0) I' :=
          skip_prefix hag hN hN2 hskb
        have hPi : mP.input = f0.input :=
          (parseRun_extends n .pair (skip_whitespaces f0) mP hpair).1.1
        have hpair2 : parseRun n .pair (setInput (skip_whitespaces f0) I') =
            some (.ok (setInput mP I')) := by
          have hbP : mP.cur + ruleLook .pair ≤ N := by
            show mP.cur + 1 ≤ N
            omega
          exact ih .pair (skip_whitespaces f0) mP hpair N I' hbP hN hN2 hag
        have htail2 : parseRun n .objTail (setInput mP I') = some (.ok (setInput g I')) := by
          refine ih .objTail mP g htail N I' ?_ ?_ hN2 ?_
          · show g.cur + 1 ≤ N
            exact hb1
          · rw [hPi]
            exact hN
          · intro j hj
            rw [hPi]
            exact hag j hj
        show (if peeked (setInput f0 I') = some 125 then
            some (Except.ok (skip_whitespaces (setInput f0 I')))
          else onOk (parseRun n .pair (skip_whitespaces (setInput f0 I')))
            (parseRun n .objTail)) = some (.ok (setInput g I'))
        rw [hpk2, if_neg hp, hskip, hpair2]
        show parseRun n .objTail (setInput mP I') = some (.ok (setInput g I'))
        exact htail2
    | arrLoop =>
      have hb1 : g.cur + 1 ≤ N := hb
      have h2 : (if peeked f0 = some 93 then some (Except.ok (skip_whitespaces f0))
          else onOk (parseRun n .value (skip_whitespaces f0)) (parseRun n .arrTail)) =
          some (.ok g) := h
      by_cases hp : peeked f0 = some 93
      · rw [if_pos hp] at h2
        have hgeq : skip_whitespaces f0 = g := by
          have hx : Except.ok (ε := Jerr) (skip_whitespaces f0) = .ok g := by
            injection h2
          injection hx
        have hskb : (skip_whitespaces f0).cur < N := by
          have e : (skip_whitespaces f0).cur = g.cur := by rw [hgeq]
          omega
        have hpk2 : peeked (setInput f0 I') = peeked f0 := peeked_prefix hag hN hN2 hskb
        have hskip : skip_whitespaces (setInput f0 I') = setInput (skip_whitespaces f0) I' :=
          skip_prefix hag hN hN2 hskb
        show (if peeked (setInput f0 I') = some 93 then
            some (Except.ok (skip_whitespaces (setInput f0 I')))
          else onOk (parseRun n .value (skip_whitespaces (setInput f0 I')))
            (parseRun n .arrTail)) = some (.ok (setInput g I'))
        rw [hpk2, if_pos hp, hskip, hgeq]
      · rw [if_neg hp] at h2
        obtain ⟨mP, hval, htail⟩ := onOk_ok_inv h2
        have hPs : (skip_whitespaces f0).cur < mP.cur :=
          (parseRun_extends n .value (skip_whitespaces f0) mP hval).2 rfl
        have hTg : mP.cur ≤ g.cur := (parseRun_extends n .arrTail mP g htail).1.2.2.2.2.1
        have hskb : (skip_whitespaces f0).cur < N := by omega
        have hpk2 : peeked (setInput f0 I') = peeked f0 := peeked_prefix hag hN hN2 hskb
        have hskip : skip_whitespaces (setInput f0 I') = setInput (skip_whitespaces f0) I' :=
          skip_prefix hag hN hN2 hskb
        have hPi : mP.input = f0.input :=
          (parseRun_extends n .value (skip_whitespaces f0) mP hval).1.1
        have hval2 : parseRun n .value (setInput (skip_whitespaces f0) I') =
            some (.ok (setInput mP I')) := by
          have hbP : mP.cur + ruleLook .value ≤ N := by
            show mP.cur + 1 ≤ N
            omega
          exact ih .value (skip_whitespaces f0) mP hval N I' hbP hN hN2 hag
        have htail2 : parseRun n .arrTail (setInput mP I') = some (.ok (setInput g I')) := by
          refine ih .arrTail mP g htail N I' ?_ ?_ hN2 ?_
          · show g.cur + 1 ≤ N
            exact hb1
          · rw [hPi]
            exact hN
          · intro j hj
            rw [hPi]
            exact hag j hj
        show (if peeked (setInput f0 I') = some 93 then
            some (Except.ok (skip_whitespaces (setInput f0 I')))
          else onOk (parseRun n .value (skip_whitespaces (setInput f0 I')))
            (parseRun n .arrTail)) = some (.ok (setInput g I'))
        rw [hpk2, if_neg hp, hskip, hval2]
        show parseRun n .arrTail (setInput mP I') = some (.ok (setInput g I'))
        exact htail2
    | objTail =>
      have hb1 : g.cur + 1 ≤ N := hb
      have h2 : (if peeked f0 = some 44 then
          parseRun n .objLoop { skip_whitespaces f0 with cur := (skip_whitespaces f0).cur + 1 }
        else parseRun n .objLoop (skip_whitespaces f0)) = some (.ok g) := h
      by_cases hp : peeked f0 = some 44
      · rw [if_pos hp] at h2
        have hcur : (skip_whitespaces f0).cur + 1 ≤ g.cur :=
          (parseRun_extends n .objLoop _ g h2).1.2.2.2.2.1
        have hskb : (skip_whitespaces f0).cur < N := by omega
        have hpk2 : peeked (setInput f0 I') = peeked f0 := peeked_prefix hag hN hN2 hskb
        have hskip : skip_whitespaces (setInput f0 I') = setInput (skip_whitespaces f0) I' :=
          skip_prefix hag hN hN2 hskb
        have hii : parseRun n .objLoop (setInput { skip_whitespaces f0 with
            cur := (skip_whitespaces f0).cur + 1 } I') = some (.ok (setInput g I')) := by
          refine ih .objLoop _ g h2 N I' ?_ hN hN2 hag
          show g.cur + 1 ≤ N
          exact hb1
        show (if peeked (setInput f0 I') = some 44 then
            parseRun n .objLoop { skip_whitespaces (setInput f0 I') with
              cur := (skip_whitespaces (setInput f0 I')).cur + 1 }
          else parseRun n .objLoop (skip_whitespaces (setInput f0 I'))) =
          some (.ok (setInput g I'))
        rw [hpk2, if_pos hp, hskip]
        show parseRun n .objLoop { setInput (skip_whitespaces f0) I' with
            cur := (setInput (skip_whitespaces f0) I').cur + 1 } = some (.ok (setInput g I'))
        exact hii
      · rw [if_neg hp] at h2
        have hcur : (skip_whitespaces f0).cur ≤ g.cur :=
          (parseRun_extends n .objLoop _ g h2).1.2.2.2.2.1
        have hskb : (skip_whitespaces f0).cur < N := by omega
        have hpk2 : peeked (setInput f0 I') = peeked f0 := peeked_prefix hag hN hN2 hskb
        have hskip : skip_whitespaces (setInput f0 I') = setInput (skip_whitespaces f0) I' :=
          skip_prefix hag hN hN2 hskb
        have hii : parseRun n .objLoop (setInput (skip_whitespaces f0) I') =
            some (.ok (setInput g I')) := by
          refine ih .objLoop _ g h2 N I' ?_ hN hN2 hag
          show g.cur + 1 ≤ N
          exact hb1
        show (if peeked (setInput f0 I') = some 44 then
            parseRun n .objLoop { skip_whitespaces (setInput f0 I') with
              cur := (skip_whitespaces (setInput f0 I')).cur + 1 }
          else parseRun n .objLoop (skip_whitespaces (setInput f0 I'))) =
          some (.ok (setInput g I'))
        rw [hpk2, if_neg hp, hskip]
        exact hii
    | arrTail =>
      have hb1 : g.cur + 1 ≤ N := hb
      have h2 : (if peeked f0 = some 44 then
          parseRun n .arrLoop { skip_whitespaces f0 with cur := (skip_whitespaces f0).cur + 1 }
        else parseRun n .arrLoop (skip_whitespaces f0)) = some (.ok g) := h
      by_cases hp : peeked f0 = some 44
      · rw [if_pos hp] at h2
        have hcur : (skip_whitespaces f0).cur + 1 ≤ g.cur :=
          (parseRun_extends n .arrLoop _ g h2).1.2.2.2.2.1
        have hskb : (skip_whitespaces f0).cur < N := by omega
        have hpk2 : peeked (setInput f0 I') = peeked f0 := peeked_prefix hag hN hN2 hskb
        have hskip : skip_whitespaces (setInput f0 I') = setInput (skip_whitespaces f0) I' :=
          skip_prefix hag hN hN2 hskb
        have hii : parseRun n .arrLoop (setInput { skip_whitespaces f0 with
            cur := (skip_whitespaces f0).cur + 1 } I') = some (.ok (setInput g I')) := by
          refine ih .arrLoop _ g h2 N I' ?_ hN hN2 hag
          show g.cur + 1 ≤ N
          exact hb1
        show (if peeked (setInput f0 I') = some 44 then
            parseRun n .arrLoop { skip_whitespaces (setInput f0 I') with
              cur := (skip_whitespaces (setInput f0 I')).cur + 1 }
          else parseRun n .arrLoop (skip_whitespaces (setInput f0 I'))) =
          some (.ok (setInput g I'))
        rw [hpk2, if_pos hp, hskip]
        show parseRun n .arrLoop { setInput (skip_whitespaces f0) I' with
            cur := (setInput (skip_whitespaces f0) I').cur + 1 } = some (.ok (setInput g I'))
        exact hii
      · rw [if_neg hp] at h2
        have hcur : (skip_whitespaces f0).cur ≤ g.cur :=
          (parseRun_extends n .arrLoop _ g h2).1.2.2.2.2.1
        have hskb : (skip_whitespaces f0).cur < N := by omega
        have hpk2 : peeked (setInput f0 I') = peeked f0 := peeked_prefix hag hN hN2 hskb
        have hskip : skip_whitespaces (setInput f0 I') = setInput (skip_whitespaces f0) I' :=
          skip_prefix hag hN hN2 hskb
        have hii : parseRun n .arrLoop (setInput (skip_whitespaces f0) I') =
            some (.ok (setInput g I')) := by
          refine ih .arrLoop _ g h2 N I' ?_ hN hN2 hag
          show g.cur + 1 ≤ N
          exact hb1
        show (if peeked (setInput f0 I') = some 44 then
            parseRun n .arrLoop { skip_whitespaces (setInput f0 I') with
              cur := (skip_whitespaces (setInput f0 I')).cur + 1 }
          else parseRun n .arrLoop (skip_whitespaces (setInput f0 I'))) =
          some (.ok (setInput g I'))
        rw [hpk2, if_neg hp, hskip]
        exact hii
    | pair =>
      have hb1 : g.cur + 1 ≤ N := hb
      have h2 : onOk (parseRun n .key f0)
          (fun f1 => exOk (test_and_skip f1 58) (parseRun n .value)) = some (.ok g) := h
      obtain ⟨mK, hkey, h3⟩ := onOk_ok_inv h2
      obtain ⟨mC, hts, hval⟩ := exOk_ok_inv h3
      have hKC : mK.cur < mC.cur := (test_and_skip_extends 58 hts).2.1
      have hCg : mC.cur ≤ g.cur := (parseRun_extends n .value mC g hval).1.2.2.2.2.1
      have hKi : mK.input = f0.input := (parseRun_extends n .key f0 mK hkey).1.1
      have hCi : mC.input = mK.input := (test_and_skip_extends 58 hts).1.1
      have hkey2 : parseRun n .key (setInput f0 I') = some (.ok (setInput mK I')) := by
        refine ih .key f0 mK hkey N I' ?_ hN hN2 hag
        show mK.cur + 1 ≤ N
        omega
      have hts2 : test_and_skip (setInput mK I') 58 = .ok (setInput mC I') := by
        refine test_and_skip_prefix hts ?_ ?_ hN2 (by omega)
        · intro j hj
          rw [hKi]
          exact hag j hj
        · rw [hKi]
          exact hN
      have hval2 : parseRun n .value (setInput mC I') = some (.ok (setInput g I')) := by
        refine ih .value mC g hval N I' ?_ ?_ hN2 ?_
        · show g.cur + 1 ≤ N
          exact hb1
        · rw [hCi, hKi]
          exact hN
        · intro j hj
          rw [hCi, hKi]
          exact hag j hj
      show onOk (parseRun n .key (setInput f0 I'))
          (fun f1 => exOk (test_and_skip f1 58) (parseRun n .value)) =
        some (.ok (setInput g I'))
      rw [hkey2]
      show exOk (test_and_skip (setInput mK I') 58) (parseRun n .value) =
        some (.ok (setInput g I'))
      rw [hts2]
      show parseRun n .value (setInput mC I') = some (.ok (setInput g I'))
      exact hval2
    | key =>
      have hb1 : g.cur + 1 ≤ N := hb
      have h2 : onPeek f0 (keyDispatch (skip_whitespaces f0)) = some (.ok g) := h
      obtain ⟨c, hp, hkd⟩ := onPeek_ok_inv h2
      have hskb : (skip_whitespaces f0).cur < N := by
        have hx := (keyDispatch_extends hkd).2
        omega
      have hpk2 : peeked (setInput f0 I') = peeked f0 := peeked_prefix hag hN hN2 hskb
      have hskip : skip_whitespaces (setInput f0 I') = setInput (skip_whitespaces f0) I' :=
        skip_prefix hag hN hN2 hskb
      show onPeek (setInput f0 I') (keyDispatch (skip_whitespaces (setInput f0 I'))) =
        some (.ok (setInput g I'))
      rw [onPeek_some (hpk2.trans hp), hskip]
      rw [keyDispatch] at hkd
      rw [keyDispatch]
      by_cases ha : is_alpha c = true
      · rw [if_pos ha] at hkd
        rw [if_pos ha]
        have hpi : parse_identifier (skip_whitespaces f0) = .ok g := by injection hkd
        rw [ parse_identifier_prefix hpi (by omega) hN hN2 hag]
      · rw [if_neg ha] at hkd
        rw [if_neg ha]
        by_cases h34 : (c == 34) = true
        · rw [if_pos h34] at hkd
          rw [if_pos h34]
          have hps : parse_string (skip_whitespaces f0) = .ok g := by injection hkd
          rw [ parse_string_prefix hps (by omega) hN hN2 hag]
        · rw [if_neg h34] at hkd
          exact absurd hkd (fun hh => pres_err hh)

theorem eofCapture_cur {m g : Frozen} (h : eofCapture m = some (.ok g)) :
    g.cur = m.cur ∧ g.input = m.input := by
  rw [eofCapture] at h
  obtain ⟨h1, hcp, hk⟩ := exOk_ok_inv h
  have hgeq : capture_len h1 (h1.num_tokens : Int) h1.cur = g := by
    have hx : Except.ok (ε := Jerr) (capture_len h1 (h1.num_tokens : Int) h1.cur) = .ok g := by
      injection hk
    injection hx
  obtain ⟨e2, e3⟩ := capture_ptr_cur_input hcp
  constructor
  · rw [← hgeq, (capture_len_fields _ _ _).2.1, e2]
  · rw [← hgeq, (capture_len_fields _ _ _).1, e3]

theorem eofCapture_setInput {g h : Frozen} (I' : List Nat)
    (hh : eofCapture g = some (.ok h)) :
    eofCapture (setInput g I') = some (.ok (setInput h I')) := by
  rw [eofCapture] at hh
  obtain ⟨h1, hcp, hk⟩ := exOk_ok_inv hh
  have hgeq : capture_len h1 (h1.num_tokens : Int) h1.cur = h := by
    have hx : Except.ok (ε := Jerr) (capture_len h1 (h1.num_tokens : Int) h1.cur) = .ok h := by
      injection hk
    injection hx
  have hcp2 : capture_ptr (setInput g I') (setInput g I').cur JType.EOF =
      .ok (setInput h1 I') := by
    have e0 : capture_ptr (setInput g I') g.cur JType.EOF =
        (capture_ptr g g.cur JType.EOF).map (fun x => setInput x I') :=
      capture_ptr_setInput g I' g.cur JType.EOF
    show capture_ptr (setInput g I') g.cur JType.EOF = .ok (setInput h1 I')
    rw [e0, hcp]
    rfl
  rw [eofCapture, hcp2]
  show some (Except.ok (capture_len (setInput h1 I') ((setInput h1 I').num_tokens : Int)
    (setInput h1 I').cur)) = some (.ok (setInput h I'))
  refine congrArg some (congrArg Except.ok ?_)
  rw [← hgeq]
  show capture_len (setInput h1 I') (h1.num_tokens : Int) h1.cur =
    setInput (capture_len h1 (h1.num_tokens : Int) h1.cur) I'
  exact capture_len_setInput _ I' _ _

theorem parse_bytes_nil (cap : Nat) :
    parse_bytes ([] : List Nat) cap = some (.error .incomplete) := by
  rw [parse_bytes, parse_json, parse_jsonF]
  rw [if_neg (by simp), if_pos (by simp)]

/-- C9: a successful parse is insensitive to arbitrary bytes appended
after what it consumed: the result on the extended input is the very same
state (cursor = bytes consumed just past the root object, token array
including the END_OF_INPUT marker position, token count), only carrying
the longer input; in particular the trailing bytes are neither consumed
(the cursor stays ≤ the original length) nor validated (J is arbitrary). -/
theorem c9_trailing_bytes_ignored :
    ∀ (I J : List Nat) (cap : Nat) (g : Frozen),
      parse_bytes I cap = some (.ok g) →
      g.cur ≤ I.length ∧
      parse_bytes (I ++ J) cap = some (.ok (setInput g (I ++ J))) := by
  intro I J cap g hI
  have hne : I ≠ [] := by
    intro hI0
    subst hI0
    rw [parse_bytes_nil] at hI
    exact absurd hI (fun hh => pres_err hh)
  have hne2 : I ++ J ≠ [] := by
    intro hI0
    rcases List.append_eq_nil.mp hI0 with ⟨h1, -⟩
    exact hne h1
  rw [parse_bytes, parse_json_some I hne] at hI
  obtain ⟨m, hrun, heof⟩ := onOk_ok_inv hI
  obtain ⟨hgm, hgi⟩ := eofCapture_cur heof
  have hcurB : m.cur ≤ I.length :=
    parseRun_curBound (FUEL I) .object (initFrozen I false cap) m hrun
  have hrun2 : parseRun (FUEL I) .object (setInput (initFrozen I false cap) (I ++ J)) =
      some (.ok (setInput m (I ++ J))) := by
    refine parseRun_prefix (FUEL I) .object (initFrozen I false cap) m hrun m.cur (I ++ J)
      ?_ hcurB ?_ ?_
    · show m.cur + 0 ≤ m.cur
      omega
    · rw [List.length_append]
      omega
    · intro j hj
      show (I ++ J).get? j = I.get? j
      exact List.get?_append (by omega)
  have hrun3 : parseRun (FUEL (I ++ J)) .object (initFrozen (I ++ J) false cap) =
      some (.ok (setInput m (I ++ J))) := by
    have hle : FUEL I ≤ FUEL (I ++ J) := by
      rw [FUEL, FUEL, List.length_append]
      omega
    have hx := parseRun_mono_le hle hrun2
    exact hx
  have heof2 : eofCapture (setInput m (I ++ J)) = some (.ok (setInput g (I ++ J))) :=
    eofCapture_setInput (I ++ J) heof
  refine ⟨by omega, ?_⟩
  rw [parse_bytes, parse_json_some (I ++ J) hne2, hrun3]
  show eofCapture (setInput m (I ++ J)) = some (.ok (setInput g (I ++ J)))
  exact heof2

/-- The state a successful parse of `{}` with a 3-slot buffer produces
(computed from the model; note the EOF token's len/num_children are never
written, and the buggy trailing capture_len writes slot 2). -/
def c9State : Frozen :=
  ⟨[123, 125], 2, false,
    [⟨some 0, some JType.OBJECT, some 2, some 0⟩,
     ⟨some 2, some JType.EOF, none, none⟩,
     ⟨none, none, none, some (-1)⟩], 3, 2⟩

/-- Witness for C9: `{}` parsed with capacity 3, then a junk byte `x`
appended. -/
theorem c9_trailing_bytes_ignored_witness :
    c9State.cur ≤ ([123, 125] : List Nat).length ∧
      parse_bytes ([123, 125] ++ [120]) 3 =
        some (.ok (setInput c9State ([123, 125] ++ [120]))) :=
  c9_trailing_bytes_ignored [123, 125] [120] 3 c9State (by decide)

/-- C8: re-parsing exactly the consumed byte range `[0, bytes_consumed)`
of a successful parse reproduces the parse verbatim: it succeeds, consumes
the whole truncated input, and produces the very same state (cursor,
token array with all types/offsets/lengths/subtree sizes, token count),
only carrying the truncated input. -/
theorem c8_reparse_consumed_range :
    ∀ (I : List Nat) (cap : Nat) (g : Frozen),
      parse_bytes I cap = some (.ok g) →
      g.cur ≤ I.length ∧
      parse_bytes (I.take g.cur) cap = some (.ok (setInput g (I.take g.cur))) := by
  intro I cap g hI
  have hne : I ≠ [] := by
    intro hI0
    subst hI0
    rw [parse_bytes_nil] at hI
    exact absurd hI (fun hh => pres_err hh)
  rw [parse_bytes, parse_json_some I hne] at hI
  obtain ⟨m, hrun, heof⟩ := onOk_ok_inv hI
  obtain ⟨hgm, hgi⟩ := eofCapture_cur heof
  have hcurB : m.cur ≤ I.length :=
    parseRun_curBound (FUEL I) .object (initFrozen I false cap) m hrun
  have hpos : 0 < m.cur :=
    (parseRun_extends (FUEL I) .object (initFrozen I false cap) m hrun).2 rfl
  have hlenI2 : (I.take m.cur).length = m.cur := by
    rw [List.length_take]
    exact Nat.min_eq_left hcurB
  have hne2 : I.take m.cur ≠ [] := by
    intro h0
    have h1 : (I.take m.cur).length = ([] : List Nat).length := congrArg List.length h0
    rw [hlenI2] at h1
    simp at h1
    omega
  have hrun2 : parseRun (FUEL I) .object (setInput (initFrozen I false cap) (I.take m.cur)) =
      some (.ok (setInput m (I.take m.cur))) := by
    refine parseRun_prefix (FUEL I) .object (initFrozen I false cap) m hrun m.cur (I.take m.cur)
      ?_ hcurB ?_ ?_
    · show m.cur + 0 ≤ m.cur
      omega
    · rw [hlenI2]
    · intro j hj
      show (I.take m.cur).get? j = I.get? j
      exact List.get?_take hj
  have hFle : FUEL (I.take m.cur) ≤ FUEL I := by
    rw [FUEL, FUEL]
    have hx : (I.take m.cur).length ≤ I.length := by
      rw [hlenI2]
      exact hcurB
    omega
  have hbound : 4 * ((setInput (initFrozen I false cap) (I.take m.cur)).input.length -
      (setInput (initFrozen I false cap) (I.take m.cur)).cur) + ruleRank .object + 1 ≤
      FUEL (I.take m.cur) := by
    show 4 * ((I.take m.cur).length - 0) + 0 + 1 ≤ 4 * (I.take m.cur).length + 16
    omega
  cases hr : parseRun (FUEL (I.take m.cur)) .object
      (setInput (initFrozen I false cap) (I.take m.cur)) with
  | none => exact absurd hr (parseRun_adequate _ _ _ hbound)
  | some r =>
    have hup : parseRun (FUEL I) .object (setInput (initFrozen I false cap) (I.take m.cur)) =
        some r := parseRun_mono_le hFle hr
    have hreq : r = .ok (setInput m (I.take m.cur)) := by
      have hx := hup.symm.trans hrun2
      injection hx
    subst hreq
    have heof2 : eofCapture (setInput m (I.take m.cur)) =
        some (.ok (setInput g (I.take m.cur))) :=
      eofCapture_setInput (I.take m.cur) heof
    refine ⟨by omega, ?_⟩
    rw [hgm]
    rw [parse_bytes, parse_json_some (I.take m.cur) hne2]
    rw [show initFrozen (I.take m.cur) false cap =
      setInput (initFrozen I false cap) (I.take m.cur) from rfl, hr]
    show eofCapture (setInput m (I.take m.cur)) = some (.ok (setInput g (I.take m.cur)))
    exact heof2

/-- The state a successful parse of `{}x` with a 3-slot buffer produces:
two consumed bytes, the trailing junk untouched. -/
def c8State : Frozen :=
  ⟨[123, 125, 120], 2, false,
    [⟨some 0, some JType.OBJECT, some 2, some 0⟩,
     ⟨some 2, some JType.EOF, none, none⟩,
     ⟨none, none, none, some (-1)⟩], 3, 2⟩

/-- Witness for C8: `{}x` consumed 2 bytes; re-parsing `{}` reproduces the
same state on the truncated input. -/
theorem c8_reparse_consumed_range_witness :
    c8State.cur ≤ ([123, 125, 120] : List Nat).length ∧
      parse_bytes (([123, 125, 120] : List Nat).take c8State.cur) 3 =
        some (.ok (setInput c8State (([123, 125, 120] : List Nat).take c8State.cur))) :=
  c8_reparse_consumed_range [123, 125, 120] 3 c8State (by decide)

/-! ### C7: the subtree/forest structure of the recorded tokens -/

theorem listModify_get_ne :
    ∀ (l : List JsonToken) (i j : Nat) (fn : JsonToken → JsonToken), j ≠ i →
      (listModify l i fn).get? j = l.get? j := by
  intro l
  induction l with
  | nil =>
    intro i j fn hj
    rfl
  | cons t r ih =>
    intro i j fn hj
    cases i with
    | zero =>
      cases j with
      | zero => exact absurd rfl hj
      | succ j2 => rfl
    | succ i2 =>
      cases j with
      | zero => rfl
      | succ j2 =>
        show (listModify r i2 fn).get? j2 = r.get? j2
        exact ih i2 j2 fn (fun he => hj (by rw [he]))

theorem listModify_get_eq :
    ∀ (l : List JsonToken) (i : Nat) (fn : JsonToken → JsonToken), i < l.length →
      (listModify l i fn).get? i = (l.get? i).map fn := by
  intro l
  induction l with
  | nil =>
    intro i fn hi
    simp at hi
  | cons t r ih =>
    intro i fn hi
    cases i with
    | zero => rfl
    | succ i2 =>
      show (listModify r i2 fn).get? i2 = (r.get? i2).map fn
      refine ih i2 fn ?_
      simp at hi
      omega

/-- The recorded tokens of a region `[lo, hi)` form a preorder forest:
each root carries `num_children = `(its total descendant count), its
descendants occupy the indices right after it, and leaf-typed tokens have
no descendants. This is the well-formedness C7 asserts. -/
inductive Forest (tok : List JsonToken) : Nat → Nat → Prop where
  | nil (lo : Nat) : Forest tok lo lo
  | cons (lo mid hi : Nat) (t : JsonToken)
      (hget : tok.get? lo = some t)
      (hnc : t.num_children = some ((mid - lo - 1 : Nat) : Int))
      (hlo : lo < mid) (hmid : mid ≤ hi)
      (hleaf : (t.type = some JType.STRING ∨ t.type = some JType.NUMBER ∨
        t.type = some JType.TRUE ∨ t.type = some JType.FALSE ∨
        t.type = some JType.NULL) → mid = lo + 1)
      (hsub : Forest tok (lo + 1) mid)
      (hrest : Forest tok mid hi) : Forest tok lo hi

theorem forest_le {tok : List JsonToken} {lo hi : Nat} (h : Forest tok lo hi) : lo ≤ hi := by
  induction h with
  | nil lo => exact Nat.le_refl lo
  | cons lo mid hi t hget hnc hlo hmid hleaf hsub hrest ih1 ih2 => omega

theorem forest_congr {tok tok2 : List JsonToken} :
    ∀ {lo hi : Nat}, Forest tok lo hi →
      (∀ j, lo ≤ j → j < hi → tok2.get? j = tok.get? j) → Forest tok2 lo hi := by
  intro lo hi h
  induction h with
  | nil lo =>
    intro hag
    exact Forest.nil lo
  | cons lo mid hi t hget hnc hlo hmid hleaf hsub hrest ih1 ih2 =>
    intro hag
    refine Forest.cons lo mid hi t ?_ hnc hlo hmid hleaf ?_ ?_
    · rw [hag lo (Nat.le_refl lo) (by omega)]
      exact hget
    · exact ih1 (fun j h1 h2 => hag j (by omega) (by omega))
    · exact ih2 (fun j h1 h2 => hag j (by omega) (by omega))

theorem forest_append {tok : List JsonToken} {a b c : Nat} (h1 : Forest tok a b) :
    Forest tok b c → Forest tok a c := by
  induction h1 with
  | nil lo =>
    intro h2
    exact h2
  | cons lo mid hi t hget hnc hlo hmid hleaf hsub hrest ih1 ih2 =>
    intro h2
    have hc := forest_le h2
    exact Forest.cons lo mid c t hget hnc hlo (by omega) hleaf hsub (ih2 h2)

theorem forest_seq {t1 t2 : List JsonToken} {a b c : Nat}
    (h1 : Forest t1 a b) (h2 : Forest t2 b c)
    (hag : ∀ j, j < b → t2.get? j = t1.get? j) : Forest t2 a c :=
  forest_append (forest_congr h1 (fun j _ hj2 => hag j hj2)) h2

theorem capture_ptr_on {f g : Frozen} {p : Nat} {ty : JType}
    (h : capture_ptr f p ty = .ok g) (hoff : captureOff f = false)
    (hlen : f.max_tokens ≤ f.tokens.length) :
    g.num_tokens = f.num_tokens + 1 ∧ f.num_tokens < f.max_tokens ∧
    (∃ t0, f.tokens.get? f.num_tokens = some t0 ∧
      g.tokens.get? f.num_tokens = some (openTok p ty t0)) ∧
    (∀ j, j ≠ f.num_tokens → g.tokens.get? j = f.tokens.get? j) ∧
    g.max_tokens = f.max_tokens ∧ g.tokens.length = f.tokens.length ∧
    captureOff g = captureOff f := by
  rw [capture_ptr] at h
  rw [if_neg (show ¬(captureOff f = true) from fun hh => by
    rw [hoff] at hh
    exact Bool.noConfusion hh)] at h
  by_cases hfull : f.max_tokens ≤ f.num_tokens
  · rw [if_pos hfull] at h
    exact absurd h (fun hh => Except.noConfusion hh)
  · rw [if_neg hfull] at h
    have hgeq : { f with
        tokens := listModify f.tokens f.num_tokens (openTok p ty),
        num_tokens := f.num_tokens + 1 } = g := by
      injection h
    have hnum : f.num_tokens < f.max_tokens := by omega
    have hlt : f.num_tokens < f.tokens.length := by omega
    have ht0 : f.tokens.get? f.num_tokens = some (f.tokens.get ⟨f.num_tokens, hlt⟩) :=
      List.get?_eq_get hlt
    refine ⟨by rw [← hgeq], hnum, ⟨f.tokens.get ⟨f.num_tokens, hlt⟩, ht0, ?_⟩, ?_, ?_, ?_, ?_⟩
    · rw [← hgeq]
      show (listModify f.tokens f.num_tokens (openTok p ty)).get? f.num_tokens = _
      rw [listModify_get_eq _ _ _ hlt, ht0]
      rfl
    · intro j hj
      rw [← hgeq]
      show (listModify f.tokens f.num_tokens (openTok p ty)).get? j = _
      exact listModify_get_ne _ _ _ _ hj
    · rw [← hgeq]
    · rw [← hgeq]
      show (listModify f.tokens f.num_tokens (openTok p ty)).length = _
      exact listModify_length _ _ _
    · rw [← hgeq]
      rfl

theorem capture_len_on {f : Frozen} {ind : Int} {p : Nat}
    (hoff : captureOff f = false) (hind0 : 0 ≤ ind)
    (hindm : ind < (f.max_tokens : Int)) (hlen : f.max_tokens ≤ f.tokens.length) :
    (capture_len f ind p).tokens.get? ind.toNat =
      (f.tokens.get? ind.toNat).map (closeTok f.num_tokens ind p) ∧
    (∀ j, j ≠ ind.toNat → (capture_len f ind p).tokens.get? j = f.tokens.get? j) := by
  rw [capture_len]
  rw [if_neg (show ¬(captureOff f = true) from fun hh => by
    rw [hoff] at hh
    exact Bool.noConfusion hh)]
  rw [if_pos ⟨hind0, hindm⟩]
  constructor
  · show (listModify f.tokens ind.toNat (closeTok f.num_tokens ind p)).get? ind.toNat = _
    refine listModify_get_eq _ _ _ ?_
    have h1 : ind.toNat < f.max_tokens := by omega
    omega
  · intro j hj
    exact listModify_get_ne _ _ _ _ hj

theorem capture_len_cur (m : Frozen) (c : Nat) (ind : Int) (p : Nat) :
    (capture_len { m with cur := c } ind p).tokens = (capture_len m ind p).tokens ∧
    (capture_len { m with cur := c } ind p).num_tokens = m.num_tokens := by
  rw [capture_len, capture_len]
  by_cases hcase : captureOff m = true
  · rw [if_pos (show captureOff { m with cur := c } = true from hcase), if_pos hcase]
    exact ⟨rfl, rfl⟩
  · rw [if_neg (show ¬(captureOff { m with cur := c } = true) from hcase), if_neg hcase]
    by_cases h2 : 0 ≤ ind ∧ ind < (m.max_tokens : Int)
    · rw [if_pos (show 0 ≤ ind ∧ ind < (({ m with cur := c } : Frozen).max_tokens : Int) from h2),
        if_pos h2]
      exact ⟨rfl, rfl⟩
    · rw [if_neg (show ¬(0 ≤ ind ∧ ind < (({ m with cur := c } : Frozen).max_tokens : Int)) from h2),
        if_neg h2]
      exact ⟨rfl, rfl⟩

/-- The shared capture_ptr/capture_len(num_tokens-1) pattern of the leaf
parsers: when captures are off both are no-ops, otherwise exactly one new
token of the given type is recorded, closed with subtree size 0. -/
theorem open_close_state {f g1 : Frozen} {p : Nat} {ty : JType}
    (hcp : capture_ptr f p ty = .ok g1)
    (hlen : f.max_tokens ≤ f.tokens.length) (q : Nat) :
    (captureOff f = true → capture_len g1 ((g1.num_tokens : Int) - 1) q = g1 ∧ g1 = f) ∧
    (captureOff f = false →
      g1.num_tokens = f.num_tokens + 1 ∧
      (capture_len g1 ((g1.num_tokens : Int) - 1) q).num_tokens = f.num_tokens + 1 ∧
      (∃ t, (capture_len g1 ((g1.num_tokens : Int) - 1) q).tokens.get? f.num_tokens = some t ∧
        t.type = some ty ∧ t.num_children = some 0) ∧
      (∀ j, j ≠ f.num_tokens →
        (capture_len g1 ((g1.num_tokens : Int) - 1) q).tokens.get? j = f.tokens.get? j)) := by
  constructor
  · intro hoff
    have hg1 : f = g1 := by
      rw [capture_ptr, if_pos hoff] at hcp
      injection hcp
    subst hg1
    refine ⟨?_, rfl⟩
    rw [capture_len, if_pos hoff]
  · intro hoff
    obtain ⟨hnum, hnlt, ⟨t0, ht0, hopen⟩, hframe, hmax, htlen, hoffg⟩ :=
      capture_ptr_on hcp hoff hlen
    have hoffg1 : captureOff g1 = false := by rw [hoffg, hoff]
    have hind0 : (0 : Int) ≤ (g1.num_tokens : Int) - 1 := by omega
    have hindm : (g1.num_tokens : Int) - 1 < (g1.max_tokens : Int) := by
      rw [hmax]
      omega
    have hlen1 : g1.max_tokens ≤ g1.tokens.length := by
      rw [hmax, htlen]
      exact hlen
    obtain ⟨hat, hat2⟩ := capture_len_on hoffg1 hind0 hindm hlen1
    have htn : ((g1.num_tokens : Int) - 1).toNat = f.num_tokens := by
      rw [hnum]
      omega
    refine ⟨hnum, ?_, ?_, ?_⟩
    · rw [(capture_len_fields _ _ _).2.2.2.2.1, hnum]
    · rw [htn] at hat
      rw [hat, hopen]
      refine ⟨closeTok g1.num_tokens ((g1.num_tokens : Int) - 1) q (openTok p ty t0), rfl, rfl, ?_⟩
      show some ((g1.num_tokens : Int) - 1 - ((g1.num_tokens : Int) - 1)) = some 0
      refine congrArg some ?_
      omega
    · intro j hj
      rw [htn] at hat2
      rw [hat2 j hj]
      exact hframe j hj

theorem parse_string_loop_tokens :
    ∀ (fuel : Nat) (m g : Frozen), parse_string_loop fuel m = some (.ok g) →
      ∃ p, g.tokens = (capture_len m ((m.num_tokens : Int) - 1) p).tokens ∧
        g.num_tokens = m.num_tokens := by
  intro fuel
  induction fuel with
  | zero =>
    intro m g h
    exact absurd h (fun hh => Option.noConfusion hh)
  | succ n ih =>
    intro m g h
    rw [parse_string_loop] at h
    by_cases h1 : m.cur < m.input.length
    · rw [if_pos h1] at h
      by_cases h2 : 32 ≤ m.input.getD m.cur 0 ∧ m.input.getD m.cur 0 ≤ 127
      · rw [if_pos h2] at h
        by_cases h3 : m.input.getD m.cur 0 = 92
        · rw [if_pos h3] at h
          cases hge : get_escape_len (m.input.drop (m.cur + 1)) (left m) with
          | error e =>
            rw [hge] at h
            exact absurd h (fun hh => pres_err hh)
          | ok k =>
            rw [hge] at h
            obtain ⟨p, hp1, hp2⟩ := ih _ _ h
            refine ⟨p, ?_, hp2⟩
            have hp1b : g.tokens =
                (capture_len { m with cur := m.cur + k + 1 } ((m.num_tokens : Int) - 1) p).tokens :=
              hp1
            rw [hp1b, (capture_len_cur m (m.cur + k + 1) ((m.num_tokens : Int) - 1) p).1]
        · rw [if_neg h3] at h
          by_cases h4 : m.input.getD m.cur 0 = 34
          · rw [if_pos h4] at h
            have hgeq : { capture_len m ((m.num_tokens : Int) - 1) m.cur with
                cur := m.cur + 1 } = g := by
              have hx : Except.ok (ε := Jerr) { capture_len m ((m.num_tokens : Int) - 1) m.cur with
                  cur := m.cur + 1 } = .ok g := by
                injection h
              injection hx
            refine ⟨m.cur, ?_, ?_⟩
            · rw [← hgeq]
            · rw [← hgeq]
              show (capture_len m ((m.num_tokens : Int) - 1) m.cur).num_tokens = m.num_tokens
              exact (capture_len_fields _ _ _).2.2.2.2.1
          · rw [if_neg h4] at h
            obtain ⟨p, hp1, hp2⟩ := ih _ _ h
            refine ⟨p, ?_, hp2⟩
            have hp1b : g.tokens =
                (capture_len { m with cur := m.cur + 1 } ((m.num_tokens : Int) - 1) p).tokens :=
              hp1
            rw [hp1b, (capture_len_cur m (m.cur + 1) ((m.num_tokens : Int) - 1) p).1]
      · rw [if_neg h2] at h
        exact absurd h (fun hh => pres_err hh)
    · rw [if_neg h1] at h
      exact absurd h (fun hh => pres_err hh)

/-- What a leaf parser does to the token state: nothing when captures are
off; otherwise it appends exactly one closed token of its type with
subtree size 0, touching no other slot. -/
def LeafOut (f g : Frozen) (ty : JType) : Prop :=
  (captureOff f = true → g.num_tokens = f.num_tokens ∧ g.tokens = f.tokens) ∧
  (captureOff f = false → g.num_tokens = f.num_tokens + 1 ∧
    (∃ t, g.tokens.get? f.num_tokens = some t ∧ t.type = some ty ∧
      t.num_children = some 0) ∧
    (∀ j, j ≠ f.num_tokens → g.tokens.get? j = f.tokens.get? j))

theorem leafOut_of_state {f g1 gf : Frozen} {p : Nat} {ty : JType} {q : Nat}
    (hcp : capture_ptr f p ty = .ok g1) (hlen : f.max_tokens ≤ f.tokens.length)
    (hpt : gf.tokens = (capture_len g1 ((g1.num_tokens : Int) - 1) q).tokens)
    (hpn : gf.num_tokens = g1.num_tokens) :
    LeafOut f gf ty := by
  obtain ⟨hoffT, hoffF⟩ := open_close_state hcp hlen q
  constructor
  · intro hoff
    obtain ⟨hcl, hg1⟩ := hoffT hoff
    subst hg1
    exact ⟨hpn, by rw [hpt, hcl]⟩
  · intro hoff
    obtain ⟨hg1n, hcln, ⟨t, ht, hty, hnc⟩, hframe⟩ := hoffF hoff
    refine ⟨by rw [hpn, hg1n], ⟨t, ?_, hty, hnc⟩, ?_⟩
    · rw [hpt]
      exact ht
    · intro j hj
      rw [hpt]
      exact hframe j hj

theorem leafOut_mono {f0 f1 g : Frozen} {ty : JType}
    (h : LeafOut f1 g ty)
    (hnum : f1.num_tokens = f0.num_tokens) (htok : f1.tokens = f0.tokens)
    (hoff : captureOff f1 = captureOff f0) :
    LeafOut f0 g ty := by
  obtain ⟨hT, hF⟩ := h
  constructor
  · intro h0
    have hx := hT (by rw [hoff]; exact h0)
    rw [hnum, htok] at hx
    exact hx
  · intro h0
    have hx := hF (by rw [hoff]; exact h0)
    rw [hnum, htok] at hx
    exact hx

theorem parse_string_leafOut {f0 g : Frozen} (h : parse_string f0 = .ok g)
    (hlen : f0.max_tokens ≤ f0.tokens.length) : LeafOut f0 g JType.STRING := by
  rw [parse_string] at h
  cases hts : test_and_skip f0 34 with
  | error e =>
    rw [hts] at h
    exact absurd h (fun hh => Except.noConfusion hh)
  | ok f1 =>
    rw [hts] at h
    have h2 : (match capture_ptr f1 f1.cur JType.STRING with
        | .error e => .error e
        | .ok g1 => (parse_string_loop (g1.input.length + 1) g1).getD (.error .incomplete)) =
        Except.ok (ε := Jerr) g := h
    cases hcp : capture_ptr f1 f1.cur JType.STRING with
    | error e =>
      rw [hcp] at h2
      exact absurd h2 (fun hh => Except.noConfusion hh)
    | ok g1 =>
      rw [hcp] at h2
      have h3 : (parse_string_loop (g1.input.length + 1) g1).getD (.error .incomplete) =
          Except.ok (ε := Jerr) g := h2
      cases hl : parse_string_loop (g1.input.length + 1) g1 with
      | none =>
        rw [hl] at h3
        exact absurd h3 (fun hh => Except.noConfusion hh)
      | some r =>
        rw [hl] at h3
        have hr : r = .ok g := h3
        subst hr
        obtain ⟨p, hpt, hpn⟩ := parse_string_loop_tokens _ _ _ hl
        have hx := test_and_skip_extends 34 hts
        have hlen1 : f1.max_tokens ≤ f1.tokens.length := by
          rw [hx.1.2.2.1, hx.2.2.2]
          exact hlen
        have hres : LeafOut f1 g JType.STRING := leafOut_of_state hcp hlen1 hpt hpn
        exact leafOut_mono hres hx.2.2.1 hx.2.2.2 (captureOff_extends_eq hx.1)

theorem identAfter_leafOut {f g : Frozen} (h : identAfter f = .ok g)
    (hlen : f.max_tokens ≤ f.tokens.length) : LeafOut f g JType.STRING := by
  rw [identAfter] at h
  cases hcp : capture_ptr f f.cur JType.STRING with
  | error e =>
    rw [hcp] at h
    exact absurd h (fun hh => Except.noConfusion hh)
  | ok g1 =>
    rw [hcp] at h
    have hgeq : capture_len { g1 with cur := g1.cur + identRun (g1.input.drop g1.cur) }
        ((g1.num_tokens : Int) - 1) (g1.cur + identRun (g1.input.drop g1.cur)) = g := by
      injection h
    refine leafOut_of_state hcp hlen (q := g1.cur + identRun (g1.input.drop g1.cur)) ?_ ?_
    · rw [← hgeq]
      exact (capture_len_cur g1 _ _ _).1
    · rw [← hgeq]
      exact ((capture_len_cur g1 _ ((g1.num_tokens : Int) - 1)
        (g1.cur + identRun (g1.input.drop g1.cur))).2)

theorem parse_identifier_leafOut {f0 g : Frozen} (h : parse_identifier f0 = .ok g)
    (hlen : f0.max_tokens ≤ f0.tokens.length) : LeafOut f0 g JType.STRING := by
  rw [parse_identifier] at h
  cases hp : peeked f0 with
  | none =>
    rw [hp] at h
    exact absurd h (fun hh => Except.noConfusion hh)
  | some c =>
    rw [hp] at h
    have h2 : identDispatch (skip_whitespaces f0) c = .ok g := h
    rw [identDispatch] at h2
    by_cases ha : is_alpha c = true
    · rw [if_pos ha] at h2
      have hres : LeafOut (skip_whitespaces f0) g JType.STRING := identAfter_leafOut h2 hlen
      exact hres
    · rw [if_neg ha] at h2
      exact absurd h2 (fun hh => Except.noConfusion hh)

theorem parse_number_leafOut {f0 g : Frozen} (h : parse_number f0 = .ok g)
    (hlen : f0.max_tokens ≤ f0.tokens.length) : LeafOut f0 g JType.NUMBER := by
  rw [parse_number] at h
  cases hcp : capture_ptr (skip_whitespaces f0) (skip_whitespaces f0).cur JType.NUMBER with
  | error e =>
    rw [hcp] at h
    exact absurd h (fun hh => Except.noConfusion hh)
  | ok g1 =>
    rw [hcp] at h
    have hred : (if peeked f0 = some 45 then
        Except.ok (ε := Jerr) (capture_len
          { g1 with cur := g1.cur + 1 + digitRun (g1.input.drop (g1.cur + 1)) }
          ((g1.num_tokens : Int) - 1) (g1.cur + 1 + digitRun (g1.input.drop (g1.cur + 1))))
      else
        Except.ok (capture_len { g1 with cur := g1.cur + digitRun (g1.input.drop g1.cur) }
          ((g1.num_tokens : Int) - 1) (g1.cur + digitRun (g1.input.drop g1.cur)))) =
      Except.ok g := h
    by_cases hm : peeked f0 = some 45
    · rw [if_pos hm] at hred
      have hgeq : capture_len
          { g1 with cur := g1.cur + 1 + digitRun (g1.input.drop (g1.cur + 1)) }
          ((g1.num_tokens : Int) - 1) (g1.cur + 1 + digitRun (g1.input.drop (g1.cur + 1))) =
          g := by
        injection hred
      have hres : LeafOut (skip_whitespaces f0) g JType.NUMBER := by
        refine leafOut_of_state hcp hlen
          (q := g1.cur + 1 + digitRun (g1.input.drop (g1.cur + 1))) ?_ ?_
        · rw [← hgeq]
          exact (capture_len_cur g1 _ _ _).1
        · rw [← hgeq]
          exact ((capture_len_cur g1 _ ((g1.num_tokens : Int) - 1)
            (g1.cur + 1 + digitRun (g1.input.drop (g1.cur + 1)))).2)
      exact hres
    · rw [if_neg hm] at hred
      have hgeq : capture_len { g1 with cur := g1.cur + digitRun (g1.input.drop g1.cur) }
          ((g1.num_tokens : Int) - 1) (g1.cur + digitRun (g1.input.drop g1.cur)) = g := by
        injection hred
      have hres : LeafOut (skip_whitespaces f0) g JType.NUMBER := by
        refine leafOut_of_state hcp hlen
          (q := g1.cur + digitRun (g1.input.drop g1.cur)) ?_ ?_
        · rw [← hgeq]
          exact (capture_len_cur g1 _ _ _).1
        · rw [← hgeq]
          exact ((capture_len_cur g1 _ ((g1.num_tokens : Int) - 1)
            (g1.cur + digitRun (g1.input.drop g1.cur))).2)
      exact hres

theorem capture_literal_leafOut {f0 g : Frozen} {ty : JType} {n : Nat}
    (h : capture_literal f0 ty n = .ok g)
    (hlen : f0.max_tokens ≤ f0.tokens.length) : LeafOut f0 g ty := by
  rw [capture_literal] at h
  cases hcp : capture_ptr f0 f0.cur ty with
  | error e =>
    rw [hcp] at h
    exact absurd h (fun hh => Except.noConfusion hh)
  | ok g1 =>
    rw [hcp] at h
    have hgeq : capture_len { g1 with cur := g1.cur + n }
        ((g1.num_tokens : Int) - 1) (g1.cur + n) = g := by
      injection h
    refine leafOut_of_state hcp hlen (q := g1.cur + n) ?_ ?_
    · rw [← hgeq]
      exact (capture_len_cur g1 _ _ _).1
    · rw [← hgeq]
      exact ((capture_len_cur g1 _ ((g1.num_tokens : Int) - 1) (g1.cur + n)).2)

theorem forestStep_of_leafOut {f g : Frozen} {ty : JType} (h : LeafOut f g ty) :
    (captureOff f = true → g.num_tokens = f.num_tokens ∧ g.tokens = f.tokens) ∧
    Forest g.tokens f.num_tokens g.num_tokens ∧
    (∀ j, j < f.num_tokens → g.tokens.get? j = f.tokens.get? j) := by
  obtain ⟨hT, hF⟩ := h
  refine ⟨hT, ?_, ?_⟩
  · by_cases hoff : captureOff f = true
    · rw [(hT hoff).1]
      exact Forest.nil _
    · have hoff2 : captureOff f = false := by
        cases hc2 : captureOff f
        · rfl
        · exact absurd hc2 hoff
      obtain ⟨hnum, ⟨t, hget, hty2, hnc⟩, hframe⟩ := hF hoff2
      rw [hnum]
      refine Forest.cons f.num_tokens (f.num_tokens + 1) (f.num_tokens + 1) t hget ?_
        (by omega) (by omega) (fun _ => rfl) (Forest.nil _) (Forest.nil _)
      rw [hnc]
      refine congrArg some ?_
      have e : f.num_tokens + 1 - f.num_tokens - 1 = 0 := by omega
      rw [e]
      rfl
  · intro j hj
    by_cases hoff : captureOff f = true
    · rw [(hT hoff).2]
    · have hoff2 : captureOff f = false := by
        cases hc2 : captureOff f
        · rfl
        · exact absurd hc2 hoff
      exact (hF hoff2).2.2 j (by omega)

/-- The shared object/array body: consume the opener, record the composite
token, run the loop rule, consume the closer and backfill the composite's
length and subtree size. Parameterised over the loop-rule hypothesis so
both parse_object and parse_array instantiate it. -/
theorem composite_forest (n : Nat)
    (ih : ∀ (rule : Rule) (f g : Frozen), parseRun n rule f = some (.ok g) →
      f.max_tokens ≤ f.tokens.length →
      (captureOff f = true → g.num_tokens = f.num_tokens ∧ g.tokens = f.tokens) ∧
      Forest g.tokens f.num_tokens g.num_tokens ∧
      (∀ j, j < f.num_tokens → g.tokens.get? j = f.tokens.get? j))
    (opener closer : Nat) (ty : JType) (loopRule : Rule) (f0 g : Frozen)
    (h : exOk (test_and_skip f0 opener) (fun f1 =>
      exOk (capture_ptr f1 (f1.cur - 1) ty) (fun g2 =>
        onOk (parseRun n loopRule g2) (compositeClose closer ((g2.num_tokens : Int) - 1)))) =
      some (.ok g))
    (hlen : f0.max_tokens ≤ f0.tokens.length)
    (hty : ty = JType.OBJECT ∨ ty = JType.ARRAY) :
    (captureOff f0 = true → g.num_tokens = f0.num_tokens ∧ g.tokens = f0.tokens) ∧
    Forest g.tokens f0.num_tokens g.num_tokens ∧
    (∀ j, j < f0.num_tokens → g.tokens.get? j = f0.tokens.get? j) := by
  obtain ⟨m1, hts, h3⟩ := exOk_ok_inv h
  obtain ⟨m2, hcp, h4⟩ := exOk_ok_inv h3
  obtain ⟨mL, hloop, hclose⟩ := onOk_ok_inv h4
  have htsx := test_and_skip_extends opener hts
  rw [compositeClose] at hclose
  obtain ⟨h5, hts5, hk5⟩ := exOk_ok_inv hclose
  have hgeq5 : capture_len h5 ((m2.num_tokens : Int) - 1) h5.cur = g := by
    have hx : Except.ok (ε := Jerr)
        (capture_len h5 ((m2.num_tokens : Int) - 1) h5.cur) = .ok g := by
      injection hk5
    injection hx
  have hts5x := test_and_skip_extends closer hts5
  have hxL := (parseRun_extends n loopRule m2 mL hloop).1
  have e1n : m1.num_tokens = f0.num_tokens := htsx.2.2.1
  have e1t : m1.tokens = f0.tokens := htsx.2.2.2
  have e5n : h5.num_tokens = mL.num_tokens := hts5x.2.2.1
  have e5t : h5.tokens = mL.tokens := hts5x.2.2.2
  have hgn : g.num_tokens = mL.num_tokens := by
    rw [← hgeq5, (capture_len_fields _ _ _).2.2.2.2.1, e5n]
  by_cases hoff : captureOff f0 = true
  · have hoffm1 : captureOff m1 = true := by
      rw [captureOff_extends_eq htsx.1]
      exact hoff
    have hm12 : m1 = m2 := by
      rw [capture_ptr, if_pos hoffm1] at hcp
      injection hcp
    have hoffm2 : captureOff m2 = true := by
      rw [← hm12]
      exact hoffm1
    have hL := ih loopRule m2 mL hloop (by rw [← hm12, htsx.1.2.2.1, e1t]; exact hlen)
    obtain ⟨eLn, eLt⟩ := hL.1 hoffm2
    have hoffh5 : captureOff h5 = true := by
      rw [captureOff_extends_eq hts5x.1, captureOff_extends_eq hxL]
      exact hoffm2
    have hg5 : capture_len h5 ((m2.num_tokens : Int) - 1) h5.cur = h5 := by
      rw [capture_len, if_pos hoffh5]
    have hgeq : h5 = g := by
      rw [← hgeq5, hg5]
    refine ⟨fun _ => ⟨?_, ?_⟩, ?_, ?_⟩
    · rw [hgn, eLn, ← hm12, e1n]
    · rw [← hgeq, e5t, eLt, ← hm12, e1t]
    · rw [hgn, eLn, ← hm12, e1n]
      exact Forest.nil _
    · intro j hj
      rw [← hgeq, e5t, eLt, ← hm12, e1t]
  · have hoff2 : captureOff f0 = false := by
      cases hc2 : captureOff f0
      · rfl
      · exact absurd hc2 hoff
    have hoffm1 : captureOff m1 = false := by
      rw [captureOff_extends_eq htsx.1]
      exact hoff2
    have hlen1 : m1.max_tokens ≤ m1.tokens.length := by
      rw [htsx.1.2.2.1, e1t]
      exact hlen
    obtain ⟨hnum2, hnlt, ⟨t0, ht0, hopen⟩, hframe2, hmax2, htlen2, hoffe2⟩ :=
      capture_ptr_on hcp hoffm1 hlen1
    have hoffm2 : captureOff m2 = false := by
      rw [hoffe2]
      exact hoffm1
    have hlen2 : m2.max_tokens ≤ m2.tokens.length := by
      rw [hmax2, htlen2]
      exact hlen1
    have hL := ih loopRule m2 mL hloop hlen2
    have hnL : m2.num_tokens ≤ mL.num_tokens := hxL.2.2.2.2.2
    have hoffh5 : captureOff h5 = false := by
      rw [captureOff_extends_eq hts5x.1, captureOff_extends_eq hxL]
      exact hoffm2
    have hind0 : (0 : Int) ≤ (m2.num_tokens : Int) - 1 := by omega
    have hmax5 : h5.max_tokens = m1.max_tokens := by
      rw [hts5x.1.2.2.1, hxL.2.2.1, hmax2]
    have hindm : (m2.num_tokens : Int) - 1 < (h5.max_tokens : Int) := by
      rw [hmax5]
      omega
    have hlen5 : h5.max_tokens ≤ h5.tokens.length := by
      rw [hmax5, e5t, hxL.2.2.2.1, htlen2]
      exact hlen1
    obtain ⟨hat, hatne⟩ := capture_len_on hoffh5 hind0 hindm hlen5
    have htn : ((m2.num_tokens : Int) - 1).toNat = m1.num_tokens := by omega
    have hgat : g.tokens.get? m1.num_tokens =
        some (closeTok h5.num_tokens ((m2.num_tokens : Int) - 1) h5.cur
          (openTok (m1.cur - 1) ty t0)) := by
      rw [htn] at hat
      rw [← hgeq5, hat, e5t]
      have hfr : mL.tokens.get? m1.num_tokens = m2.tokens.get? m1.num_tokens :=
        hL.2.2 m1.num_tokens (by omega)
      rw [hfr, hopen]
      rfl
    have hgne : ∀ j, j ≠ m1.num_tokens → g.tokens.get? j = mL.tokens.get? j := by
      intro j hj
      have hx := hatne j (by rw [htn]; exact hj)
      rw [← hgeq5, hx, e5t]
    refine ⟨?_, ?_, ?_⟩
    · intro hcon
      rw [hoff2] at hcon
      exact Bool.noConfusion hcon
    · rw [hgn]
      have hlo : f0.num_tokens < mL.num_tokens := by omega
      refine Forest.cons f0.num_tokens mL.num_tokens mL.num_tokens
        (closeTok h5.num_tokens ((m2.num_tokens : Int) - 1) h5.cur
          (openTok (m1.cur - 1) ty t0)) ?_ ?_ hlo
        (Nat.le_refl _) ?_ ?_ (Forest.nil _)
      · rw [← e1n]
        exact hgat
      · show some ((h5.num_tokens : Int) - 1 - ((m2.num_tokens : Int) - 1)) =
          some ((mL.num_tokens - f0.num_tokens - 1 : Nat) : Int)
        refine congrArg some ?_
        rw [e5n]
        omega
      · intro hcon
        have hty2 : (closeTok h5.num_tokens ((m2.num_tokens : Int) - 1) h5.cur
            (openTok (m1.cur - 1) ty t0)).type = some ty := rfl
        rcases hty with hh | hh <;> subst hh <;>
          rcases hcon with hc | hc | hc | hc | hc <;> rw [hty2] at hc <;>
            exact absurd hc (by decide)
      · have hsub1 : Forest g.tokens m2.num_tokens mL.num_tokens := by
          refine forest_congr hL.2.1 ?_
          intro j hj1 hj2
          refine hgne j ?_
          omega
        have e : m2.num_tokens = f0.num_tokens + 1 := by
          rw [hnum2, e1n]
        rw [← e]
        exact hsub1
    · intro j hj
      have hj1 : j ≠ m1.num_tokens := by omega
      rw [hgne j hj1]
      have hj2 : j < m2.num_tokens := by omega
      rw [hL.2.2 j hj2, hframe2 j hj1, e1t]

theorem parseRun_forest :
    ∀ (fuel : Nat) (rule : Rule) (f g : Frozen),
      parseRun fuel rule f = some (.ok g) →
      f.max_tokens ≤ f.tokens.length →
      (captureOff f = true → g.num_tokens = f.num_tokens ∧ g.tokens = f.tokens) ∧
      Forest g.tokens f.num_tokens g.num_tokens ∧
      (∀ j, j < f.num_tokens → g.tokens.get? j = f.tokens.get? j) := by
  intro fuel
  induction fuel with
  | zero =>
    intro rule f g h
    exact absurd h (fun hh => Option.noConfusion hh)
  | succ n ih =>
    intro rule f0 g h hlen
    cases rule with
    | value =>
      have h2 : onPeek f0 (valueDispatch (parseRun n) (skip_whitespaces f0)) =
          some (.ok g) := h
      obtain ⟨c, hp, hvd⟩ := onPeek_ok_inv h2
      rw [valueDispatch] at hvd
      by_cases h34 : (c == 34) = true
      · rw [if_pos h34] at hvd
        have hps : parse_string (skip_whitespaces f0) = .ok g := by injection hvd
        have hres := forestStep_of_leafOut (parse_string_leafOut hps hlen)
        exact hres
      · rw [if_neg h34] at hvd
        by_cases h123 : (c == 123) = true
        · rw [if_pos h123] at hvd
          have hres := ih .object (skip_whitespaces f0) g hvd hlen
          exact hres
        · rw [if_neg h123] at hvd
          by_cases h91 : (c == 91) = true
          · rw [if_pos h91] at hvd
            have hres := ih .array (skip_whitespaces f0) g hvd hlen
            exact hres
          · rw [if_neg h91] at hvd
            by_cases hgn : (c == 110 && compareStr (skip_whitespaces f0) nullBytes) = true
            · rw [if_pos hgn] at hvd
              have hlit : capture_literal (skip_whitespaces f0) JType.NULL 4 = .ok g := by
                injection hvd
              have hres := forestStep_of_leafOut (capture_literal_leafOut hlit hlen)
              exact hres
            · rw [if_neg hgn] at hvd
              by_cases hgt : (c == 116 && compareStr (skip_whitespaces f0) trueBytes) = true
              · rw [if_pos hgt] at hvd
                have hlit : capture_literal (skip_whitespaces f0) JType.TRUE 4 = .ok g := by
                  injection hvd
                have hres := forestStep_of_leafOut (capture_literal_leafOut hlit hlen)
                exact hres
              · rw [if_neg hgt] at hvd
                by_cases hgf : (c == 102 && compareStr (skip_whitespaces f0) falseBytes) = true
                · rw [if_pos hgf] at hvd
                  have hlit : capture_literal (skip_whitespaces f0) JType.FALSE 5 = .ok g := by
                    injection hvd
                  have hres := forestStep_of_leafOut (capture_literal_leafOut hlit hlen)
                  exact hres
                · rw [if_neg hgf] at hvd
                  by_cases hnum : (is_digit c ||
                      (c == 45 && decide ((skip_whitespaces f0).cur + 1 <
                        (skip_whitespaces f0).input.length) &&
                        is_digit ((skip_whitespaces f0).input.getD
                          ((skip_whitespaces f0).cur + 1) 0))) = true
                  · rw [if_pos hnum] at hvd
                    have hpn : parse_number (skip_whitespaces f0) = .ok g := by
                      injection hvd
                    have hres := forestStep_of_leafOut (parse_number_leafOut hpn hlen)
                    exact hres
                  · rw [if_neg hnum] at hvd
                    exact absurd hvd (fun hh => pres_err hh)
    | key =>
      have h2 : onPeek f0 (keyDispatch (skip_whitespaces f0)) = some (.ok g) := h
      obtain ⟨c, hp, hkd⟩ := onPeek_ok_inv h2
      rw [keyDispatch] at hkd
      by_cases ha : is_alpha c = true
      · rw [if_pos ha] at hkd
        have hpi : parse_identifier (skip_whitespaces f0) = .ok g := by injection hkd
        have hres := forestStep_of_leafOut (parse_identifier_leafOut hpi hlen)
        exact hres
      · rw [if_neg ha] at hkd
        by_cases h34 : (c == 34) = true
        · rw [if_pos h34] at hkd
          have hps : parse_string (skip_whitespaces f0) = .ok g := by injection hkd
          have hres := forestStep_of_leafOut (parse_string_leafOut hps hlen)
          exact hres
        · rw [if_neg h34] at hkd
          exact absurd hkd (fun hh => pres_err hh)
    | pair =>
      have h2 : onOk (parseRun n .key f0)
          (fun f1 => exOk (test_and_skip f1 58) (parseRun n .value)) = some (.ok g) := h
      obtain ⟨mK, hkey, h3⟩ := onOk_ok_inv h2
      obtain ⟨mC, hts, hval⟩ := exOk_ok_inv h3
      have hxK := (parseRun_extends n .key f0 mK hkey).1
      have hxC := test_and_skip_extends 58 hts
      have hK := ih .key f0 mK hkey hlen
      have hlenC : mC.max_tokens ≤ mC.tokens.length := by
        rw [hxC.1.2.2.1, hxK.2.2.1, hxC.2.2.2, hxK.2.2.2.1]
        exact hlen
      have hV := ih .value mC g hval hlenC
      have hnK : f0.num_tokens ≤ mK.num_tokens := hxK.2.2.2.2.2
      refine ⟨?_, ?_, ?_⟩
      · intro hoff
        have e1 := hK.1 hoff
        have hoffK : captureOff mK = true := by
          rw [captureOff_extends_eq hxK]
          exact hoff
        have hoffC : captureOff mC = true := by
          rw [captureOff_extends_eq hxC.1]
          exact hoffK
        have e2 := hV.1 hoffC
        refine ⟨?_, ?_⟩
        · rw [e2.1, hxC.2.2.1, e1.1]
        · rw [e2.2, hxC.2.2.2, e1.2]
      · have h1 : Forest mK.tokens f0.num_tokens mK.num_tokens := hK.2.1
        have h2f : Forest g.tokens mK.num_tokens g.num_tokens := by
          have hx := hV.2.1
          rw [hxC.2.2.1] at hx
          exact hx
        refine forest_seq h1 h2f ?_
        intro j hj
        have hx := hV.2.2 j (by rw [hxC.2.2.1]; exact hj)
        rw [hx, hxC.2.2.2]
      · intro j hj
        have hx := hV.2.2 j (by rw [hxC.2.2.1]; omega)
        rw [hx, hxC.2.2.2, hK.2.2 j hj]
    | objLoop =>
      have h2 : (if peeked f0 = some 125 then some (Except.ok (skip_whitespaces f0))
          else onOk (parseRun n .pair (skip_whitespaces f0)) (parseRun n .objTail)) =
          some (.ok g) := h
      by_cases hpk : peeked f0 = some 125
      · rw [if_pos hpk] at h2
        have hgeq : skip_whitespaces f0 = g := by
          have hx : Except.ok (ε := Jerr) (skip_whitespaces f0) = .ok g := by injection h2
          injection hx
        rw [← hgeq]
        exact ⟨fun _ => ⟨rfl, rfl⟩, Forest.nil f0.num_tokens, fun j hj => rfl⟩
      · rw [if_neg hpk] at h2
        obtain ⟨mP, hpair, htail⟩ := onOk_ok_inv h2
        have hxP := (parseRun_extends n .pair (skip_whitespaces f0) mP hpair).1
        have hP := ih .pair (skip_whitespaces f0) mP hpair hlen
        have hlenP : mP.max_tokens ≤ mP.tokens.length := by
          rw [hxP.2.2.1, hxP.2.2.2.1]
          exact hlen
        have hT := ih .objTail mP g htail hlenP
        have hnP : f0.num_tokens ≤ mP.num_tokens := hxP.2.2.2.2.2
        refine ⟨?_, ?_, ?_⟩
        · intro hoff
          have e1 := hP.1 hoff
          have hoffP : captureOff mP = true := by
            rw [captureOff_extends_eq hxP]
            exact hoff
          have e2 := hT.1 hoffP
          constructor
          · rw [e2.1, e1.1]
            rfl
          · rw [e2.2, e1.2]
            rfl
        · exact forest_seq hP.2.1 hT.2.1 (fun j hj => hT.2.2 j hj)
        · intro j hj
          rw [hT.2.2 j (by omega), hP.2.2 j hj]
          rfl
    | arrLoop =>
      have h2 : (if peeked f0 = some 93 then some (Except.ok (skip_whitespaces f0))
          else onOk (parseRun n .value (skip_whitespaces f0)) (parseRun n .arrTail)) =
          some (.ok g) := h
      by_cases hpk : peeked f0 = some 93
      · rw [if_pos hpk] at h2
        have hgeq : skip_whitespaces f0 = g := by
          have hx : Except.ok (ε := Jerr) (skip_whitespaces f0) = .ok g := by injection h2
          injection hx
        rw [← hgeq]
        exact ⟨fun _ => ⟨rfl, rfl⟩, Forest.nil f0.num_tokens, fun j hj => rfl⟩
      · rw [if_neg hpk] at h2
        obtain ⟨mP, hval, htail⟩ := onOk_ok_inv h2
        have hxP := (parseRun_extends n .value (skip_whitespaces f0) mP hval).1
        have hP := ih .value (skip_whitespaces f0) mP hval hlen
        have hlenP : mP.max_tokens ≤ mP.tokens.length := by
          rw [hxP.2.2.1, hxP.2.2.2.1]
          exact hlen
        have hT := ih .arrTail mP g htail hlenP
        have hnP : f0.num_tokens ≤ mP.num_tokens := hxP.2.2.2.2.2
        refine ⟨?_, ?_, ?_⟩
        · intro hoff
          have e1 := hP.1 hoff
          have hoffP : captureOff mP = true := by
            rw [captureOff_extends_eq hxP]
            exact hoff
          have e2 := hT.1 hoffP
          constructor
          · rw [e2.1, e1.1]
            rfl
          · rw [e2.2, e1.2]
            rfl
        · exact forest_seq hP.2.1 hT.2.1 (fun j hj => hT.2.2 j hj)
        · intro j hj
          rw [hT.2.2 j (by omega), hP.2.2 j hj]
          rfl
    | objTail =>
      have h2 : (if peeked f0 = some 44 then
          parseRun n .objLoop { skip_whitespaces f0 with cur := (skip_whitespaces f0).cur + 1 }
        else parseRun n .objLoop (skip_whitespaces f0)) = some (.ok g) := h
      by_cases hpk : peeked f0 = some 44
      · rw [if_pos hpk] at h2
        have hres := ih .objLoop _ g h2 hlen
        exact hres
      · rw [if_neg hpk] at h2
        have hres := ih .objLoop _ g h2 hlen
        exact hres
    | arrTail =>
      have h2 : (if peeked f0 = some 44 then
          parseRun n .arrLoop { skip_whitespaces f0 with cur := (skip_whitespaces f0).cur + 1 }
        else parseRun n .arrLoop (skip_whitespaces f0)) = some (.ok g) := h
      by_cases hpk : peeked f0 = some 44
      · rw [if_pos hpk] at h2
        have hres := ih .arrLoop _ g h2 hlen
        exact hres
      · rw [if_neg hpk] at h2
        have hres := ih .arrLoop _ g h2 hlen
        exact hres
    | object =>
      exact composite_forest n ih 123 125 JType.OBJECT Rule.objLoop f0 g h hlen (Or.inl rfl)
    | array =>
      exact composite_forest n ih 91 93 JType.ARRAY Rule.arrLoop f0 g h hlen (Or.inr rfl)

theorem forest_mem {tok : List JsonToken} :
    ∀ {lo hi : Nat}, Forest tok lo hi → ∀ k, lo ≤ k → k < hi →
      ∃ t s, tok.get? k = some t ∧ t.num_children = some ((s : Nat) : Int) ∧
        k + 1 + s ≤ hi ∧ Forest tok (k + 1) (k + 1 + s) ∧
        ((t.type = some JType.STRING ∨ t.type = some JType.NUMBER ∨
          t.type = some JType.TRUE ∨ t.type = some JType.FALSE ∨
          t.type = some JType.NULL) → s = 0) := by
  intro lo hi h
  induction h with
  | nil lo =>
    intro k hk1 hk2
    omega
  | cons lo mid hi t hget hnc hlo hmid hleaf hsub hrest ih1 ih2 =>
    intro k hk1 hk2
    by_cases hklo : k = lo
    · subst hklo
      refine ⟨t, mid - k - 1, hget, hnc, by omega, ?_, ?_⟩
      · have e : k + 1 + (mid - k - 1) = mid := by omega
        rw [e]
        exact hsub
      · intro hl
        have := hleaf hl
        omega
    · by_cases hkmid : k < mid
      · obtain ⟨t2, s2, h1, h2, h3, h4, h5⟩ := ih1 k (by omega) hkmid
        exact ⟨t2, s2, h1, h2, by omega, h4, h5⟩
      · exact ih2 k (by omega) hk2

/-- num_children of the token at index k, read as the C caller would
(0 when the slot or the field was never written — only used at indices
where the forest structure guarantees it was). -/
def tokNC (tok : List JsonToken) (k : Nat) : Int :=
  ((tok.get? k).bind (fun t => t.num_children)).getD 0

/-- Index of the next token at the same or a shallower nesting level than
token k: one past k itself plus k's subtree size. -/
def tokEnd (tok : List JsonToken) (k : Nat) : Int := (k : Int) + 1 + tokNC tok k

/-- Nesting depth of token j: the number of earlier tokens whose subtree
is still open at j. -/
def tokDepth (tok : List JsonToken) (j : Nat) : Nat :=
  ((Finset.range j).filter (fun k => (j : Int) < tokEnd tok k)).card

/-- Number of leading elements of the list that are strictly greater than
`di`; i.e. how many tokens pass before the next one at depth ≤ di. -/
def firstLE (di : Nat) : List Nat → Nat
  | [] => 0
  | d :: r => if d ≤ di then 0 else firstLE di r + 1

def depthsList (tok : List JsonToken) (n : Nat) : List Nat :=
  (List.range n).map (tokDepth tok)

theorem tokEnd_eq {tok : List JsonToken} {k s : Nat} {t : JsonToken}
    (hget : tok.get? k = some t) (hnc : t.num_children = some ((s : Nat) : Int)) :
    tokEnd tok k = ((k + 1 + s : Nat) : Int) := by
  rw [tokEnd, tokNC, hget]
  show (k : Int) + 1 + (t.num_children.getD 0) = _
  rw [hnc, Option.getD_some]
  push_cast
  ring

theorem forest_nested {tok : List JsonToken} {N : Nat} (hf : Forest tok 0 N)
    {k j : Nat} (hkj : k < j) (hjN : j < N) (hin : (j : Int) < tokEnd tok k) :
    tokEnd tok j ≤ tokEnd tok k := by
  obtain ⟨t, s, hget, hnc, hbound, hsub, -⟩ := forest_mem hf k (Nat.zero_le k) (by omega)
  have he := tokEnd_eq hget hnc
  have hjn : j < k + 1 + s := by
    rw [he] at hin
    exact_mod_cast hin
  obtain ⟨t2, s2, hget2, hnc2, hbound2, -, -⟩ := forest_mem hsub j (by omega) hjn
  have he2 := tokEnd_eq hget2 hnc2
  rw [he, he2]
  have hx : j + 1 + s2 ≤ k + 1 + s := hbound2
  exact_mod_cast hx

theorem depth_strict {tok : List JsonToken} {N : Nat} (hf : Forest tok 0 N)
    {i j : Nat} (hij : i < j) (hjN : j < N) (hjin : (j : Int) < tokEnd tok i) :
    tokDepth tok i < tokDepth tok j := by
  rw [tokDepth, tokDepth]
  have hsub : insert i ((Finset.range i).filter (fun k => (i : Int) < tokEnd tok k)) ⊆
      (Finset.range j).filter (fun k => (j : Int) < tokEnd tok k) := by
    intro k hk
    rcases Finset.mem_insert.mp hk with hk1 | hk2
    · subst hk1
      exact Finset.mem_filter.mpr ⟨Finset.mem_range.mpr hij, hjin⟩
    · obtain ⟨hkr, hkin⟩ := Finset.mem_filter.mp hk2
      have hki : k < i := Finset.mem_range.mp hkr
      have hnest : tokEnd tok i ≤ tokEnd tok k := forest_nested hf hki (by omega) hkin
      refine Finset.mem_filter.mpr ⟨Finset.mem_range.mpr (by omega), by omega⟩
  have hcard := Finset.card_le_card hsub
  have hnotmem : i ∉ (Finset.range i).filter (fun k => (i : Int) < tokEnd tok k) := by
    intro hmem
    have := Finset.mem_range.mp (Finset.mem_filter.mp hmem).1
    omega
  rw [Finset.card_insert_of_not_mem hnotmem] at hcard
  omega

theorem depth_back {tok : List JsonToken} {N : Nat} (hf : Forest tok 0 N)
    {i e : Nat} (hi : i < e) (heN : e < N) (hie : tokEnd tok i = (e : Int)) :
    tokDepth tok e ≤ tokDepth tok i := by
  rw [tokDepth, tokDepth]
  refine Finset.card_le_card ?_
  intro k hk
  obtain ⟨hkr, hkin⟩ := Finset.mem_filter.mp hk
  have hke : k < e := Finset.mem_range.mp hkr
  have hki : k < i := by
    by_cases hki2 : k < i
    · exact hki2
    · exfalso
      by_cases hkeq : k = i
      · subst hkeq
        rw [hie] at hkin
        omega
      · have hik : i < k := by omega
        have hnest : tokEnd tok k ≤ tokEnd tok i := by
          refine forest_nested hf hik (by omega) ?_
          rw [hie]
          exact_mod_cast hke
        rw [hie] at hnest
        omega
  refine Finset.mem_filter.mpr ⟨Finset.mem_range.mpr hki, ?_⟩
  have hx : (i : Int) < (e : Int) := by exact_mod_cast hi
  omega

theorem firstLE_spec (di : Nat) :
    ∀ (m : Nat) (ds : List Nat),
      (∀ k, k < m → ∃ d, ds.get? k = some d ∧ di < d) →
      (m = ds.length ∨ ∃ d, ds.get? m = some d ∧ d ≤ di) →
      firstLE di ds = m := by
  intro m
  induction m with
  | zero =>
    intro ds hlt hstop
    rcases hstop with h0 | hd
    · have he : ds = [] := by
        cases ds with
        | nil => rfl
        | cons a r => simp at h0
      subst he
      rfl
    · obtain ⟨d, hd2, hdle⟩ := hd
      cases ds with
      | nil => exact absurd hd2 (fun hh => Option.noConfusion hh)
      | cons d0 r =>
        have hd0 : d0 = d := by
          have hx : some d0 = some d := hd2
          injection hx
        rw [firstLE, if_pos (by rw [hd0]; exact hdle)]
  | succ m2 ih =>
    intro ds hlt hstop
    obtain ⟨d0, hd0, hgt⟩ := hlt 0 (by omega)
    cases ds with
    | nil => exact absurd hd0 (fun hh => Option.noConfusion hh)
    | cons dh r =>
      have he : dh = d0 := by
        have hx : some dh = some d0 := hd0
        injection hx
      rw [firstLE, if_neg (by rw [he]; omega)]
      have hr : firstLE di r = m2 := by
        refine ih r ?_ ?_
        · intro k hk
          obtain ⟨d, hd, hlt2⟩ := hlt (k + 1) (by omega)
          exact ⟨d, hd, hlt2⟩
        · rcases hstop with h0 | hd
          · left
            simp at h0
            omega
          · right
            exact hd
      rw [hr]

theorem depthsList_get {tok : List JsonToken} {n j : Nat} (h : j < n) :
    (depthsList tok n).get? j = some (tokDepth tok j) := by
  rw [depthsList, List.get?_map, List.get?_range h]
  rfl

theorem depthsList_len (tok : List JsonToken) (n : Nat) :
    (depthsList tok n).length = n := by
  rw [depthsList, List.length_map, List.length_range]

theorem forest_firstLE {tok : List JsonToken} {N : Nat} (hf : Forest tok 0 N)
    {i : Nat} (hi : i < N) :
    ∃ t s, tok.get? i = some t ∧ t.num_children = some ((s : Nat) : Int) ∧
      ((t.type = some JType.STRING ∨ t.type = some JType.NUMBER ∨
        t.type = some JType.TRUE ∨ t.type = some JType.FALSE ∨
        t.type = some JType.NULL) → s = 0) ∧
      s = firstLE (tokDepth tok i) ((depthsList tok N).drop (i + 1)) := by
  obtain ⟨t, s, hget, hnc, hbound, hsub, hleaf⟩ := forest_mem hf i (Nat.zero_le i) hi
  refine ⟨t, s, hget, hnc, hleaf, ?_⟩
  have hie := tokEnd_eq hget hnc
  symm
  refine firstLE_spec (tokDepth tok i) s ((depthsList tok N).drop (i + 1)) ?_ ?_
  · intro k hk
    have hjN : i + 1 + k < N := by omega
    have hgetd : ((depthsList tok N).drop (i + 1)).get? k =
        some (tokDepth tok (i + 1 + k)) := by
      rw [List.get?_drop, depthsList_get hjN]
    refine ⟨tokDepth tok (i + 1 + k), hgetd, ?_⟩
    refine depth_strict hf (by omega) hjN ?_
    rw [hie]
    have hx : i + 1 + k < i + 1 + s := by omega
    exact_mod_cast hx
  · by_cases hend : i + 1 + s = N
    · left
      rw [List.length_drop, depthsList_len]
      omega
    · right
      have heN : i + 1 + s < N := by omega
      have hgetd : ((depthsList tok N).drop (i + 1)).get? s =
          some (tokDepth tok (i + 1 + s)) := by
        rw [List.get?_drop, depthsList_get heN]
      refine ⟨tokDepth tok (i + 1 + s), hgetd, ?_⟩
      exact depth_back hf (by omega) heN hie

theorem capture_len_get_ne2 {f : Frozen} {ind : Int} {p : Nat} {j : Nat}
    (hj : j ≠ ind.toNat) : (capture_len f ind p).tokens.get? j = f.tokens.get? j := by
  rw [capture_len]
  split
  · rfl
  · split
    · show (listModify f.tokens ind.toNat _).get? j = _
      exact listModify_get_ne _ _ _ _ hj
    · rfl

/-- C7: in every successful parse, every recorded token other than the
final END_OF_INPUT marker carries `num_children = ` the number of tokens
recorded strictly after it and before the next token at its own nesting
level or shallower (its total descendant count at all depths, measured
here by the nesting-depth function `tokDepth` derived from the recorded
subtree sizes themselves); leaf-typed tokens carry zero. -/
theorem c7_subtree_size_descendant_count :
    ∀ (I : List Nat) (cap : Nat) (g : Frozen), parse_bytes I cap = some (.ok g) →
      ∀ i, i + 1 < g.num_tokens →
        ∃ t s, g.tokens.get? i = some t ∧ t.num_children = some ((s : Nat) : Int) ∧
          ((t.type = some JType.STRING ∨ t.type = some JType.NUMBER ∨
            t.type = some JType.TRUE ∨ t.type = some JType.FALSE ∨
            t.type = some JType.NULL) → s = 0) ∧
          s = firstLE (tokDepth g.tokens i)
            ((depthsList g.tokens (g.num_tokens - 1)).drop (i + 1)) := by
  intro I cap g hI i hilt
  have hne : I ≠ [] := by
    intro hI0
    subst hI0
    rw [parse_bytes_nil] at hI
    exact absurd hI (fun hh => pres_err hh)
  rw [parse_bytes, parse_json_some I hne] at hI
  obtain ⟨m, hrun, heof⟩ := onOk_ok_inv hI
  have hlen0 : (initFrozen I false cap).max_tokens ≤ (initFrozen I false cap).tokens.length := by
    show cap ≤ (List.replicate cap uninitTok).length
    rw [List.length_replicate]
  have hF := parseRun_forest (FUEL I) .object (initFrozen I false cap) m hrun hlen0
  have hFm : Forest m.tokens 0 m.num_tokens := hF.2.1
  have hxR := (parseRun_extends (FUEL I) .object (initFrozen I false cap) m hrun).1
  have hlenm : m.max_tokens ≤ m.tokens.length := by
    rw [hxR.2.2.1, hxR.2.2.2.1]
    exact hlen0
  rw [eofCapture] at heof
  obtain ⟨h1, hcp, hk⟩ := exOk_ok_inv heof
  have hgeq : capture_len h1 (h1.num_tokens : Int) h1.cur = g := by
    have hx : Except.ok (ε := Jerr) (capture_len h1 (h1.num_tokens : Int) h1.cur) = .ok g := by
      injection hk
    injection hx
  by_cases hoffm : captureOff m = true
  · have hoff0 : captureOff (initFrozen I false cap) = true := by
      rw [← captureOff_extends_eq hxR]
      exact hoffm
    have hm0 : m.num_tokens = 0 := (hF.1 hoff0).1
    have hh1 : h1 = m := by
      rw [capture_ptr, if_pos hoffm] at hcp
      have hx : m = h1 := by injection hcp
      exact hx.symm
    have hoffh1 : captureOff h1 = true := by
      rw [hh1]
      exact hoffm
    have hgm : g = m := by
      rw [← hgeq, capture_len, if_pos hoffh1, hh1]
    rw [hgm, hm0] at hilt
    omega
  · have hoffm2 : captureOff m = false := by
      cases hc2 : captureOff m
      · rfl
      · exact absurd hc2 hoffm
    obtain ⟨hnum1, hnlt1, ⟨t0, ht0, hopen⟩, hframe1, hmax1, htlen1, hoffe1⟩ :=
      capture_ptr_on hcp hoffm2 hlenm
    have hgn : g.num_tokens = m.num_tokens + 1 := by
      rw [← hgeq, (capture_len_fields _ _ _).2.2.2.2.1, hnum1]
    have hgag : ∀ j, j < m.num_tokens → g.tokens.get? j = m.tokens.get? j := by
      intro j hj
      rw [← hgeq]
      have hj1 : j ≠ ((h1.num_tokens : Int)).toNat := by
        have e : ((h1.num_tokens : Int)).toNat = h1.num_tokens := by omega
        rw [e, hnum1]
        omega
      rw [capture_len_get_ne2 hj1]
      exact hframe1 j (by omega)
    have hFg : Forest g.tokens 0 m.num_tokens :=
      forest_congr hFm (fun j _ hj2 => hgag j hj2)
    have hN1 : g.num_tokens - 1 = m.num_tokens := by omega
    have hi2 : i < m.num_tokens := by omega
    obtain ⟨t, s, hget, hnc, hleaf, hfl⟩ := forest_firstLE hFg hi2
    refine ⟨t, s, hget, hnc, hleaf, ?_⟩
    rw [hN1]
    exact hfl

/-- The state a successful parse of `{"a":[1,2]}` with a 7-slot buffer
produces (computed from the model). -/
def c7State : Frozen :=
  ⟨[123, 34, 97, 34, 58, 91, 49, 44, 50, 93, 125], 11, false,
    [⟨some 0, some JType.OBJECT, some 11, some 4⟩,
     ⟨some 2, some JType.STRING, some 1, some 0⟩,
     ⟨some 5, some JType.ARRAY, some 5, some 2⟩,
     ⟨some 6, some JType.NUMBER, some 1, some 0⟩,
     ⟨some 8, some JType.NUMBER, some 1, some 0⟩,
     ⟨some 11, some JType.EOF, none, none⟩,
     ⟨none, none, none, some (-1)⟩], 7, 6⟩

/-- Witness for C7 at the ARRAY token (index 2) of `{"a":[1,2]}`: its
subtree size is the number of tokens up to the next same-or-shallower
token. -/
theorem c7_subtree_size_descendant_count_witness :
    ∃ t s, c7State.tokens.get? 2 = some t ∧ t.num_children = some ((s : Nat) : Int) ∧
      ((t.type = some JType.STRING ∨ t.type = some JType.NUMBER ∨
        t.type = some JType.TRUE ∨ t.type = some JType.FALSE ∨
        t.type = some JType.NULL) → s = 0) ∧
      s = firstLE (tokDepth c7State.tokens 2)
        ((depthsList c7State.tokens (c7State.num_tokens - 1)).drop (2 + 1)) :=
  c7_subtree_size_descendant_count [123, 34, 97, 34, 58, 91, 49, 44, 50, 93, 125] 7 c7State
    (by decide) 2 (by decide)
